import Mathlib

/-!
# Network connection state tracker (`pkg/network/state.go`)

A shallow embedding of the per-client network state of the agent: the
registry `networkState`, its clients, and the operations `GetDelta`,
`StoreClosedConnections`, `RemoveConnections`, `RemoveClient` and
`RemoveExpiredClients`, followed by theorems about them.

Conventions of the embedding:

* Go maps are association lists (`GoMap`); `find?` is the map read, `insert`
  the map write, `erase` is `delete`, and the length of the list is `len`.
* `uint64` / `uint32` counters are natural numbers; subtraction and addition
  wrap explicitly (`wsub`, `wadd`).
* Pointers into the `active` slice are indices into a list that is threaded
  through the loops that write through them.
* Go run-time panics (write to a nil map, index out of range) are `none`.
-/

set_option linter.unusedSectionVars false

namespace Network

/-! ## Machine arithmetic -/

/-- Addition of two unsigned `w`-bit integers, as Go computes it. -/
def wadd (w a b : Nat) : Nat := (a + b) % 2 ^ w

/-- Subtraction of two unsigned `w`-bit integers, as Go computes it (wraps around below zero). -/
def wsub (w a b : Nat) : Nat := (a + (2 ^ w - b % 2 ^ w)) % 2 ^ w

/-! ## Go maps -/

/-- Go map as an association list; a well-formed map has pairwise distinct keys. -/
abbrev GoMap (κ ν : Type) := List (κ × ν)

namespace GoMap

variable {κ ν : Type} [DecidableEq κ]

/-- Map read `v, ok := m[k]`. -/
def find? : GoMap κ ν → κ → Option ν
  | [], _ => none
  | (k', v) :: t, k => if k' = k then some v else find? t k

/-- Map write `m[k] = v`. -/
def insert : GoMap κ ν → κ → ν → GoMap κ ν
  | [], k, v => [(k, v)]
  | (k', v') :: t, k, v => if k' = k then (k, v) :: t else (k', v') :: insert t k v

/-- Go builtin `delete(m, k)`. -/
def erase (m : GoMap κ ν) (k : κ) : GoMap κ ν := m.filter (fun p => decide (p.1 ≠ k))

/-- The keys of the map. -/
def keys (m : GoMap κ ν) : List κ := m.map Prod.fst

end GoMap

/-! ## Connection records -/

/-- Address of an endpoint (`util.Address`); only equality and `IsLoopback` are used. -/
structure Address where
  ip : String
deriving DecidableEq, Repr

/-- Transport protocol of a connection. -/
inductive ConnectionType where
  | TCP
  | UDP
deriving DecidableEq, Repr

/-- Direction of a connection. -/
inductive ConnectionDirection where
  | UNKNOWN
  | INCOMING
  | OUTGOING
deriving DecidableEq, Repr

/-- NAT mapping attached to a connection. -/
structure IPTranslation where
  ReplSrcIP : Address
  ReplSrcPort : Nat
deriving DecidableEq, Repr

/-- One record per observed flow. The byte and packet counters are `uint64`, the
retransmit and TCP state counters `uint32` (the widths of the `stats` fields they
are assigned to and subtracted from). -/
structure ConnectionStats where
  Source : Address
  SPort : Nat
  Dest : Address
  DPort : Nat
  ConnType : ConnectionType
  Direction : ConnectionDirection
  IPTranslation : Option IPTranslation
  MonotonicSentBytes : Nat
  MonotonicRecvBytes : Nat
  MonotonicSentPackets : Nat
  MonotonicRecvPackets : Nat
  MonotonicRetransmits : Nat
  MonotonicTCPEstablished : Nat
  MonotonicTCPClosed : Nat
  LastSentBytes : Nat
  LastRecvBytes : Nat
  LastSentPackets : Nat
  LastRecvPackets : Nat
  LastRetransmits : Nat
  LastTCPEstablished : Nat
  LastTCPClosed : Nat
  LastUpdateEpoch : Nat
  IntraHost : Bool
deriving DecidableEq, Repr

/-- The identity of a flow: the fields the byte key is computed from. -/
structure ConnIdentity where
  Source : Address
  SPort : Nat
  Dest : Address
  DPort : Nat
  ConnType : ConnectionType
  Direction : ConnectionDirection
deriving DecidableEq, Repr

/-- Identity fields of a connection record. -/
def ConnectionStats.identity (c : ConnectionStats) : ConnIdentity :=
  { Source := c.Source, SPort := c.SPort, Dest := c.Dest, DPort := c.DPort,
    ConnType := c.ConnType, Direction := c.Direction }

/-- Per-flow HTTP statistics (`http.RequestStats`); the zero value is the empty record. -/
structure RequestStats where
  data : List Nat
deriving DecidableEq, Repr

/-- Modelled from the spec: what the state tracker uses from code that is not
among the sources, taken as parameters. `ConnectionStats.ByteKey` is a
deterministic encoding of the addresses, ports, type and direction of a
connection that can fail (`encodeKey`, whose layout is left abstract);
`IsLoopback` is `util.Address.IsLoopback` and `CombineWith` is
`http.RequestStats.CombineWith`. From the Go runtime: `rangeOrder` is the order
in which a `range` loop visits the entries of the key-to-connection map, which Go
leaves unspecified (any permutation), and `growslice` is the capacity `append`
gives a full slice. -/
structure Env where
  encodeKey : ConnIdentity → Option String
  IsLoopback : Address → Bool
  CombineWith : RequestStats → RequestStats → RequestStats
  growslice : Nat → Nat
  rangeOrder : GoMap String Nat → GoMap String Nat
  rangeOrder_perm : ∀ m, (rangeOrder m).Perm m

/-- Byte key of a connection, `c.ByteKey(buf)` followed by `string(key)`; `none` is the error. -/
def ByteKey (E : Env) (c : ConnectionStats) : Option String := E.encodeKey c.identity

/-! ## Registry state -/

/-- Telemetry counters of the registry. They are `int64` in the source and only
ever incremented by one per event or reset to zero; they are kept as integers. -/
structure telemetry where
  closedConnDropped : Int
  connDropped : Int
  statsResets : Int
  timeSyncCollisions : Int
  dnsStatsDropped : Int
  httpStatsDropped : Int
  dnsPidCollisions : Int
deriving DecidableEq, Repr

/-- Cumulative counters already accounted for a flow key on behalf of a client. -/
structure stats where
  totalSent : Nat
  totalRecv : Nat
  totalSentPackets : Nat
  totalRecvPackets : Nat
  totalRetransmits : Nat
  totalTCPEstablished : Nat
  totalTCPClosed : Nat
deriving DecidableEq, Repr

/-- Capacity below which the closed-connection slice is never shrunk. -/
def minClosedCapacity : Nat := 1024

/-- DNS statistics of one (key, domain, query type) leaf (`dns.Stats`). -/
structure DNSStats where
  Timeouts : Nat
  SuccessLatencySum : Nat
  FailureLatencySum : Nat
  CountByRcode : GoMap Nat Nat
deriving DecidableEq, Repr

/-- Three-level DNS map: key, then domain, then query type (`dns.StatsByKeyByNameByType`). -/
abbrev StatsByKeyByNameByType := GoMap String (GoMap String (GoMap Nat DNSStats))

/-- Per-client state. `closedConnectionsKeys` is `none` while the Go map is nil;
`closedCap` is `cap(closedConnections)`. -/
structure client where
  lastFetch : Int
  closedConnectionsKeys : Option (GoMap String Nat)
  closedConnections : List ConnectionStats
  closedCap : Nat
  stats : GoMap String Network.stats
  dnsStats : StatsByKeyByNameByType
  httpStatsDelta : GoMap String RequestStats
deriving DecidableEq, Repr

/-- The registry. Times and durations are integers (nanoseconds); the shared
scratch buffer `buf` only carries the byte key and is not represented. -/
structure networkState where
  clients : GoMap String client
  telemetry : Network.telemetry
  latestTimeEpoch : Nat
  clientExpiry : Int
  maxClosedConns : Int
  maxClientStats : Int
  maxDNSStats : Int
  maxHTTPStats : Int
deriving DecidableEq, Repr

/-- What `GetDelta` returns. -/
structure Delta where
  Conns : List ConnectionStats
  HTTP : GoMap String RequestStats
  DNSStats : StatsByKeyByNameByType
deriving DecidableEq, Repr

/-- The zero value `telemetry{}`. -/
def telemetry.zero : Network.telemetry :=
  { closedConnDropped := 0, connDropped := 0, statsResets := 0, timeSyncCollisions := 0,
    dnsStatsDropped := 0, httpStatsDropped := 0, dnsPidCollisions := 0 }

/-- The zero value `stats{}`. -/
def stats.zero : Network.stats :=
  { totalSent := 0, totalRecv := 0, totalSentPackets := 0, totalRecvPackets := 0,
    totalRetransmits := 0, totalTCPEstablished := 0, totalTCPClosed := 0 }

/-- NewState creates a new network state. -/
def NewState (clientExpiry maxClosedConns maxClientStats maxDNSStats maxHTTPStats : Int) :
    networkState :=
  { clients := [], telemetry := telemetry.zero, latestTimeEpoch := 0,
    clientExpiry := clientExpiry, maxClosedConns := maxClosedConns,
    maxClientStats := maxClientStats, maxDNSStats := maxDNSStats,
    maxHTTPStats := maxHTTPStats }

/-! ## Delta accounting -/

/-- Sums the byte, retransmit and TCP state counters of `b` into `a`, keeps the
larger epoch and inherits the translation if `a` has none; returns the new `a`.
The source assigns the fields one after the other; no assignment reads a field
that an earlier one wrote. -/
def addConnections (a b : ConnectionStats) : ConnectionStats :=
  { a with
    MonotonicSentBytes := wadd 64 a.MonotonicSentBytes b.MonotonicSentBytes
    MonotonicRecvBytes := wadd 64 a.MonotonicRecvBytes b.MonotonicRecvBytes
    MonotonicRetransmits := wadd 32 a.MonotonicRetransmits b.MonotonicRetransmits
    MonotonicTCPEstablished := wadd 32 a.MonotonicTCPEstablished b.MonotonicTCPEstablished
    MonotonicTCPClosed := wadd 32 a.MonotonicTCPClosed b.MonotonicTCPClosed
    LastUpdateEpoch :=
      if b.LastUpdateEpoch > a.LastUpdateEpoch then b.LastUpdateEpoch else a.LastUpdateEpoch
    IPTranslation := if a.IPTranslation = none then b.IPTranslation else a.IPTranslation }

/-- Checks whether computing the last stats is going to underflow and resets the
stored totals if so; returns the telemetry and the stored totals afterwards. -/
def handleStatsUnderflow (tel : telemetry) (st : stats) (c : ConnectionStats) :
    telemetry × stats :=
  if c.MonotonicSentBytes < st.totalSent ∨ c.MonotonicRecvBytes < st.totalRecv ∨
      c.MonotonicRetransmits < st.totalRetransmits then
    ({ tel with statsResets := tel.statsResets + 1 },
     { st with totalSent := 0, totalRecv := 0, totalRetransmits := 0 })
  else (tel, st)

/-- Computes the last-interval counters of `c` against the totals stored under
`key` and stores the monotonic counters of `c` as the new totals. -/
def updateConnWithStats (tel : telemetry) (cl : client) (key : String) (c : ConnectionStats) :
    telemetry × client × ConnectionStats :=
  match cl.stats.find? key with
  | some st0 =>
    let (tel, st) := handleStatsUnderflow tel st0 c
    let c := { c with
      LastSentBytes := wsub 64 c.MonotonicSentBytes st.totalSent
      LastRecvBytes := wsub 64 c.MonotonicRecvBytes st.totalRecv
      LastSentPackets := wsub 64 c.MonotonicSentPackets st.totalSentPackets
      LastRecvPackets := wsub 64 c.MonotonicRecvPackets st.totalRecvPackets
      LastRetransmits := wsub 32 c.MonotonicRetransmits st.totalRetransmits
      LastTCPEstablished := wsub 32 c.MonotonicTCPEstablished st.totalTCPEstablished
      LastTCPClosed := wsub 32 c.MonotonicTCPClosed st.totalTCPClosed }
    let st := { st with
      totalSent := c.MonotonicSentBytes
      totalRecv := c.MonotonicRecvBytes
      totalSentPackets := c.MonotonicSentPackets
      totalRecvPackets := c.MonotonicRecvPackets
      totalRetransmits := c.MonotonicRetransmits
      totalTCPEstablished := c.MonotonicTCPEstablished
      totalTCPClosed := c.MonotonicTCPClosed }
    (tel, { cl with stats := cl.stats.insert key st }, c)
  | none =>
    (tel, cl, { c with
      LastSentBytes := c.MonotonicSentBytes
      LastRecvBytes := c.MonotonicRecvBytes
      LastRecvPackets := c.MonotonicRecvPackets
      LastSentPackets := c.MonotonicSentPackets
      LastRetransmits := c.MonotonicRetransmits
      LastTCPEstablished := c.MonotonicTCPEstablished
      LastTCPClosed := c.MonotonicTCPClosed })

/-- Updates the stats when a closed connection became active again: the last
counters of `closed` are computed against the stored totals, and the totals are
then taken from `active`. -/
def updateConnWithStatWithActiveConn (tel : telemetry) (cl : client) (key : String)
    (active closed : ConnectionStats) : telemetry × client × ConnectionStats :=
  match cl.stats.find? key with
  | some st0 =>
    let (tel, st) := handleStatsUnderflow tel st0 closed
    let closed := { closed with
      LastSentBytes := wsub 64 closed.MonotonicSentBytes st.totalSent
      LastRecvBytes := wsub 64 closed.MonotonicRecvBytes st.totalRecv
      LastSentPackets := wsub 64 closed.MonotonicSentPackets st.totalSentPackets
      LastRecvPackets := wsub 64 closed.MonotonicRecvPackets st.totalRecvPackets
      LastRetransmits := wsub 32 closed.MonotonicRetransmits st.totalRetransmits
      LastTCPEstablished := wsub 32 closed.LastTCPEstablished st.totalTCPEstablished
      LastTCPClosed := wsub 32 closed.LastTCPClosed st.totalTCPClosed }
    let st := { st with
      totalSent := active.MonotonicSentBytes
      totalRecv := active.MonotonicRecvBytes
      totalRecvPackets := active.MonotonicRecvPackets
      totalSentPackets := active.MonotonicSentBytes
      totalRetransmits := active.MonotonicRetransmits
      totalTCPEstablished := active.MonotonicTCPEstablished
      totalTCPClosed := active.MonotonicTCPClosed }
    (tel, { cl with stats := cl.stats.insert key st }, closed)
  | none =>
    (tel, cl, { closed with
      LastSentBytes := closed.MonotonicSentBytes
      LastRecvBytes := closed.MonotonicRecvBytes
      LastRecvPackets := closed.MonotonicRecvPackets
      LastSentPackets := closed.MonotonicSentPackets
      LastRetransmits := closed.MonotonicRetransmits
      LastTCPEstablished := closed.MonotonicTCPEstablished
      LastTCPClosed := closed.MonotonicTCPClosed })

/-- Creates a new stats object for a key if it does not already exist and the
client's stats map is below `maxClientStats`. -/
def createStatsForKey (maxClientStats : Int) (tel : telemetry) (cl : client) (key : String) :
    telemetry × client :=
  match cl.stats.find? key with
  | some _ => (tel, cl)
  | none =>
    if (cl.stats.length : Int) ≥ maxClientStats then
      ({ tel with connDropped := tel.connDropped + 1 }, cl)
    else (tel, { cl with stats := cl.stats.insert key stats.zero })

/-- Loop of `getConnsByKey` from position `i` on: maps the byte key of each
encodable record to its position in the slice; a later record with the same key
replaces an earlier one. -/
def getConnsByKeyFrom (E : Env) : List ConnectionStats → Nat → GoMap String Nat → GoMap String Nat
  | [], _, m => m
  | c :: cs, i, m =>
    match ByteKey E c with
    | none => getConnsByKeyFrom E cs (i + 1) m
    | some key => getConnsByKeyFrom E cs (i + 1) (m.insert key i)

/-- Mapping of byte key to connection (a pointer into `conns`, here its index). -/
def getConnsByKey (E : Env) (conns : List ConnectionStats) : GoMap String Nat :=
  getConnsByKeyFrom E conns 0 []

/-- Reset after a delta: empties the closed connections (halving the capacity of
the slice when the guard holds), re-creates the key index and the DNS and HTTP
maps, and keeps only the stats whose key is in `active`. -/
def client.Reset (c : client) (active : GoMap String Nat) : client :=
  let half := c.closedCap / 2
  let closedLen := c.closedConnections.length
  let newCap := if closedLen > minClosedCapacity ∧ closedLen < half then half else c.closedCap
  { c with
    closedConnections := []
    closedCap := newCap
    closedConnectionsKeys := some []
    dnsStats := []
    httpStatsDelta := []
    stats := c.stats.filter (fun p => (active.find? p.1).isSome) }

/-- Looks the client up, registering a fresh one (whose key index is still nil)
when it is unknown; the flag tells whether the client existed. -/
def getClient (ns : networkState) (now : Int) (clientID : String) :
    networkState × client × Bool :=
  match ns.clients.find? clientID with
  | some c => (ns, c, true)
  | none =>
    let c : client :=
      { lastFetch := now, stats := [], closedConnections := [], closedCap := minClosedCapacity,
        closedConnectionsKeys := none, dnsStats := [], httpStatsDelta := [] }
    ({ ns with clients := ns.clients.insert clientID c }, c, false)

/-- The active connection a key points to: `active[key]` dereferenced. The
indices kept by `getConnsByKey` are always in range. -/
def activeConnFor (active : List ConnectionStats) (connsByKey : GoMap String Nat)
    (key : String) : Option ConnectionStats :=
  match connsByKey.find? key with
  | some i => active[i]?
  | none => none

/-- Body of the loop of `mergeConnections` over the closed connections: updates
one closed connection in place against the client's stats. -/
def mergeClosedConn (E : Env) (maxClientStats : Int) (active : List ConnectionStats)
    (connsByKey : GoMap String Nat) (tel : telemetry) (cl : client)
    (closedConn : ConnectionStats) : telemetry × client × ConnectionStats :=
  match ByteKey E closedConn with
  | none => (tel, cl, closedConn)
  | some key =>
    match activeConnFor active connsByKey key with
    | some activeConn =>
      if closedConn.LastUpdateEpoch > activeConn.LastUpdateEpoch then
        updateConnWithStats tel cl key closedConn
      else if closedConn.LastUpdateEpoch < activeConn.LastUpdateEpoch then
        let closedConn := addConnections closedConn activeConn
        let r1 := createStatsForKey maxClientStats tel cl key
        let r2 := updateConnWithStatWithActiveConn r1.1 r1.2 key activeConn closedConn
        let cl := r2.2.1
        let cl := match cl.stats.find? key with
          | some st =>
            { cl with stats := cl.stats.insert key { st with
                totalRetransmits := activeConn.MonotonicRetransmits
                totalSent := activeConn.MonotonicSentBytes
                totalRecv := activeConn.MonotonicRecvBytes } }
          | none => cl
        (r2.1, cl, r2.2.2)
      else
        updateConnWithStats { tel with timeSyncCollisions := tel.timeSyncCollisions + 1 }
          cl key closedConn
    | none => updateConnWithStats tel cl key closedConn

/-- The loop of `mergeConnections` over the closed connections; returns the
telemetry, the client and the closed connections as updated in place. -/
def mergeClosedConns (E : Env) (maxClientStats : Int) (active : List ConnectionStats)
    (connsByKey : GoMap String Nat) :
    telemetry → client → List ConnectionStats → telemetry × client × List ConnectionStats
  | tel, cl, [] => (tel, cl, [])
  | tel, cl, closedConn :: rest =>
    let r := mergeClosedConn E maxClientStats active connsByKey tel cl closedConn
    let rs := mergeClosedConns E maxClientStats active connsByKey r.1 r.2.1 rest
    (rs.1, rs.2.1, r.2.2 :: rs.2.2)

/-- Body of the loop of `mergeConnections` over the active connections. The
state is the telemetry, the client, the `active` slice and the output buffer. -/
def mergeActiveConn (maxClientStats : Int)
    (s : telemetry × client × List ConnectionStats × List ConnectionStats)
    (e : String × Nat) : telemetry × client × List ConnectionStats × List ConnectionStats :=
  match (s.2.1.closedConnectionsKeys.getD []).find? e.1 with
  | some _ => s
  | none =>
    match s.2.2.1[e.2]? with
    | none => s
    | some c =>
      let r1 := createStatsForKey maxClientStats s.1 s.2.1 e.1
      let r2 := updateConnWithStats r1.1 r1.2 e.1 c
      (r2.1, r2.2.1, s.2.2.1.set e.2 r2.2.2, s.2.2.2 ++ [r2.2.2])

/-- Takes care of updating the last stat counters of the closed and the active
connections of an existing client and fills the output buffer. The client is
`ns.clients[id]`, the one `getClient` returned. Returns the telemetry, the
client, the `active` slice and the buffer. -/
def mergeConnections (E : Env) (maxClientStats : Int) (now : Int) (tel : telemetry)
    (cl : client) (connsByKey : GoMap String Nat) (active buffer : List ConnectionStats) :
    telemetry × client × List ConnectionStats × List ConnectionStats :=
  let cl := { cl with lastFetch := now }
  let r := mergeClosedConns E maxClientStats active connsByKey tel cl cl.closedConnections
  let cl := { r.2.1 with closedConnections := r.2.2 }
  (E.rangeOrder connsByKey).foldl (mergeActiveConn maxClientStats)
    (r.1, cl, active, buffer ++ r.2.2)

/-- Body of the loop of `GetDelta` for a client that was just created. The state
is the telemetry, the client and the `active` slice. -/
def firstDeltaConn (maxClientStats : Int) (s : telemetry × client × List ConnectionStats)
    (e : String × Nat) : telemetry × client × List ConnectionStats :=
  match s.2.2[e.2]? with
  | none => s
  | some c =>
    let r1 := createStatsForKey maxClientStats s.1 s.2.1 e.1
    let r2 := updateConnWithStats r1.1 r1.2 e.1 c
    let c := { r2.2.2 with
      LastSentBytes := 0
      LastRecvBytes := 0
      LastRetransmits := 0
      LastTCPEstablished := 0
      LastTCPClosed := 0 }
    (r2.1, r2.2.1, s.2.2.set e.2 c)

/-! ## Intra-host classification -/

/-- Lookup key of the intra-host classifier. -/
structure connKey where
  Address : Network.Address
  Port : Nat
  ConnType : ConnectionType
deriving DecidableEq, Repr

/-- Key of a connection: its source, or (with `useRAddrAsKey`) its destination,
replaced by the translated reply source when there is a translation. -/
def newConnKey (connStat : ConnectionStats) (useRAddrAsKey : Bool) : connKey :=
  if useRAddrAsKey then
    match connStat.IPTranslation with
    | none => { ConnType := connStat.ConnType, Address := connStat.Dest, Port := connStat.DPort }
    | some t => { ConnType := connStat.ConnType, Address := t.ReplSrcIP, Port := t.ReplSrcPort }
  else { ConnType := connStat.ConnType, Address := connStat.Source, Port := connStat.SPort }

/-- The test `conn.IPTranslation != nil && conn.IPTranslation.ReplSrcIP.IsLoopback()`. -/
def replSrcIsLoopback (E : Env) (conn : ConnectionStats) : Bool :=
  match conn.IPTranslation with
  | some t => E.IsLoopback t.ReplSrcIP
  | none => false

/-- Body of the second loop of `determineConnectionIntraHost`. -/
def classifyIntraHost (E : Env) (lAddrs : List connKey) (conn : ConnectionStats) :
    ConnectionStats :=
  let conn :=
    if conn.Source = conn.Dest ∨
        (E.IsLoopback conn.Source = true ∧ E.IsLoopback conn.Dest = true) ∨
        replSrcIsLoopback E conn = true then
      { conn with IntraHost := true }
    else { conn with IntraHost := decide (newConnKey conn true ∈ lAddrs) }
  if conn.IntraHost = true ∧ conn.Direction = ConnectionDirection.INCOMING then
    { conn with IPTranslation := none }
  else conn

/-- Labels each connection of the buffer as local or remote. -/
def determineConnectionIntraHost (E : Env) (connections : List ConnectionStats) :
    List ConnectionStats :=
  let lAddrs := connections.map (fun conn => newConnKey conn false)
  connections.map (classifyIntraHost E lAddrs)

/-! ## Ingestion fan-in -/

/-- Stores one closed connection for one client: coalesces it into the pending
record with the same key, or drops it at the cap, or appends and indexes it.
`none` is a run-time panic (index out of range, write to a nil map). -/
def storeClosedConnection (E : Env) (maxClosedConns : Int) (tel : telemetry) (cl : client)
    (c : ConnectionStats) : Option (telemetry × client) :=
  match ByteKey E c with
  | none => some (tel, cl)
  | some key =>
    match (cl.closedConnectionsKeys.getD []).find? key with
    | some i =>
      match cl.closedConnections[i]? with
      | none => none
      | some a =>
        some (tel, { cl with closedConnections := cl.closedConnections.set i (addConnections a c) })
    | none =>
      if (cl.closedConnections.length : Int) ≥ maxClosedConns then
        some ({ tel with closedConnDropped := tel.closedConnDropped + 1 }, cl)
      else
        match cl.closedConnectionsKeys with
        | none => none
        | some keys =>
          some (tel, { cl with
            closedConnections := cl.closedConnections ++ [c]
            closedCap :=
              if cl.closedConnections.length < cl.closedCap then cl.closedCap
              else E.growslice cl.closedCap
            closedConnectionsKeys := some (keys.insert key cl.closedConnections.length) })

/-- Inner loop of `storeClosedConnections`: the batch, for one client. -/
def storeClosedConnsClient (E : Env) (maxClosedConns : Int) :
    telemetry → client → List ConnectionStats → Option (telemetry × client)
  | tel, cl, [] => some (tel, cl)
  | tel, cl, c :: cs =>
    match storeClosedConnection E maxClosedConns tel cl c with
    | none => none
    | some r => storeClosedConnsClient E maxClosedConns r.1 r.2 cs

/-- Outer loop of `storeClosedConnections`: every registered client. -/
def storeClosedConnsClients (E : Env) (maxClosedConns : Int) (conns : List ConnectionStats) :
    telemetry → GoMap String client → Option (telemetry × GoMap String client)
  | tel, [] => some (tel, [])
  | tel, (id, cl) :: rest =>
    match storeClosedConnsClient E maxClosedConns tel cl conns with
    | none => none
    | some r =>
      match storeClosedConnsClients E maxClosedConns conns r.1 rest with
      | none => none
      | some rs => some (rs.1, (id, r.2) :: rs.2)

/-- Stores the given connections for every client. -/
def storeClosedConnections (E : Env) (ns : networkState) (conns : List ConnectionStats) :
    Option networkState :=
  match storeClosedConnsClients E ns.maxClosedConns conns ns.telemetry ns.clients with
  | none => none
  | some r => some { ns with telemetry := r.1, clients := r.2 }

/-- StoreClosedConnections stores a batch of closed connections. -/
def StoreClosedConnections (E : Env) (ns : networkState) (closed : List ConnectionStats) :
    Option networkState :=
  storeClosedConnections E ns closed

/-- Number of leaves of a three-level DNS map. -/
def getDeepDNSStatsCount (stats : StatsByKeyByNameByType) : Nat :=
  stats.foldl (fun count bykey =>
    bykey.2.foldl (fun count bydomain => count + bydomain.2.length) count) 0

/-- Adds the per-rcode counts of an incoming leaf to the stored ones (`uint32`). -/
def addCountByRcode (prev incoming : GoMap Nat Nat) : GoMap Nat Nat :=
  incoming.foldl (fun m rc => m.insert rc.1 (wadd 32 ((m.find? rc.1).getD 0) rc.2)) prev

/-- Body of the innermost loop of `storeDNSStats`, for one client: merges one
leaf into the client's DNS map. The state is the telemetry, the client's DNS map
and `dnsStatsThisClient`. The three cap checks of the source see the same count,
so a leaf under a new key or a new domain is either dropped at the first check
or inserted. Maps are values here. In the source a leaf is stored by struct
copy, so its `CountByRcode` map is shared with the input and with every other
client that stored the same leaf: a later merge adds the counts of the input to
the shared map once for each holder, and a merge into a stored leaf whose rcode
map is nil panics. Neither is represented. The model is exact for the leaves
held, their number, the telemetry and the three sums of a leaf, and for the
rcode counts of a leaf that has one holder. -/
def storeDNSLeaf (maxDNSStats : Int) (s : telemetry × StatsByKeyByNameByType × Nat)
    (key domain : String) (qtype : Nat) (dnsStats : DNSStats) :
    telemetry × StatsByKeyByNameByType × Nat :=
  let dropped : telemetry × StatsByKeyByNameByType × Nat :=
    ({ s.1 with dnsStatsDropped := s.1.dnsStatsDropped + 1 }, s.2.1, s.2.2)
  let full : Bool := decide ((s.2.2 : Int) ≥ maxDNSStats)
  match s.2.1.find? key with
  | none =>
    if full then dropped
    else (s.1, s.2.1.insert key [(domain, [(qtype, dnsStats)])], s.2.2 + 1)
  | some byDomain =>
    match byDomain.find? domain with
    | none =>
      if full then dropped
      else (s.1, s.2.1.insert key (byDomain.insert domain [(qtype, dnsStats)]), s.2.2 + 1)
    | some byQtype =>
      match byQtype.find? qtype with
      | some prev =>
        let prev : DNSStats :=
          { Timeouts := wadd 32 prev.Timeouts dnsStats.Timeouts
            SuccessLatencySum := wadd 64 prev.SuccessLatencySum dnsStats.SuccessLatencySum
            FailureLatencySum := wadd 64 prev.FailureLatencySum dnsStats.FailureLatencySum
            CountByRcode := addCountByRcode prev.CountByRcode dnsStats.CountByRcode }
        (s.1, s.2.1.insert key (byDomain.insert domain (byQtype.insert qtype prev)), s.2.2)
      | none =>
        if full then dropped
        else
          (s.1, s.2.1.insert key (byDomain.insert domain (byQtype.insert qtype dnsStats)),
            s.2.2 + 1)

/-- The three nested loops of `storeDNSStats` over the input, for one client. -/
def storeDNSStatsClient (maxDNSStats : Int) (stats : StatsByKeyByNameByType)
    (tel : telemetry) (dns : StatsByKeyByNameByType) : telemetry × StatsByKeyByNameByType :=
  let r := stats.foldl (fun s byKey =>
    byKey.2.foldl (fun s byDomain =>
      byDomain.2.foldl (fun s leaf => storeDNSLeaf maxDNSStats s byKey.1 byDomain.1 leaf.1 leaf.2)
        s) s) (tel, dns, getDeepDNSStatsCount dns)
  (r.1, r.2.1)

/-- The loop of `storeDNSStats` over the clients. -/
def storeDNSStatsClients (maxDNSStats : Int) (stats : StatsByKeyByNameByType) :
    telemetry → GoMap String client → telemetry × GoMap String client
  | tel, [] => (tel, [])
  | tel, (id, cl) :: rest =>
    let r := storeDNSStatsClient maxDNSStats stats tel cl.dnsStats
    let rs := storeDNSStatsClients maxDNSStats stats r.1 rest
    (rs.1, (id, { cl with dnsStats := r.2 }) :: rs.2)

/-- Stores the latest DNS stats for all clients. With exactly one client
registered the input is adopted if the client's map is empty, and ignored
otherwise. -/
def storeDNSStats (ns : networkState) (stats : StatsByKeyByNameByType) : networkState :=
  match ns.clients with
  | [(id, c)] =>
    if c.dnsStats.length = 0 then { ns with clients := [(id, { c with dnsStats := stats })] }
    else ns
  | clients =>
    let r := storeDNSStatsClients ns.maxDNSStats stats ns.telemetry clients
    { ns with telemetry := r.1, clients := r.2 }

/-- The zero value of `http.RequestStats`. -/
def RequestStats.zero : RequestStats := { data := [] }

/-- Inner loop of `storeHTTPStats`: one input entry, for every client. -/
def storeHTTPStatsEntry (E : Env) (maxHTTPStats : Int) (key : String) (stats : RequestStats) :
    telemetry → GoMap String client → telemetry × GoMap String client
  | tel, [] => (tel, [])
  | tel, (id, cl) :: rest =>
    let r : telemetry × client :=
      match cl.httpStatsDelta.find? key with
      | none =>
        if (cl.httpStatsDelta.length : Int) ≥ maxHTTPStats then
          ({ tel with httpStatsDropped := tel.httpStatsDropped + 1 }, cl)
        else
          (tel, { cl with
            httpStatsDelta := cl.httpStatsDelta.insert key (E.CombineWith RequestStats.zero stats) })
      | some prevStats =>
        (tel, { cl with httpStatsDelta := cl.httpStatsDelta.insert key (E.CombineWith prevStats stats) })
    let rs := storeHTTPStatsEntry E maxHTTPStats key stats r.1 rest
    (rs.1, (id, r.2) :: rs.2)

/-- Stores the latest HTTP stats for all clients. -/
def storeHTTPStats (E : Env) (ns : networkState) (allStats : GoMap String RequestStats) :
    networkState :=
  let r := allStats.foldl (fun s e => storeHTTPStatsEntry E ns.maxHTTPStats e.1 e.2 s.1 s.2)
    (ns.telemetry, ns.clients)
  { ns with telemetry := r.1, clients := r.2 }

/-! ## Public operations -/

/-- Modelled from the spec: the client buffer pool (`clientPool`, `clientBuffer`)
is not among the sources. `clientPool.Get(id)` returns the client's reusable
slab with no slot filled. The slab is a list: `Append` and `Next` add at its
end, and `Connections()` is the filled prefix, here the whole list. -/
def clientPoolGet (_id : String) : List ConnectionStats := []

/-- Connection accounting of `GetDelta`: the first-delta loop for a client that
was just created (followed by `clientBuffer.Append(active)`), `mergeConnections`
otherwise. Returns the telemetry, the client, the `active` slice and the output
buffer. -/
def deltaConns (E : Env) (maxClientStats : Int) (now : Int) (tel : telemetry) (cl : client)
    (ok : Bool) (connsByKey : GoMap String Nat) (active clientBuffer : List ConnectionStats) :
    telemetry × client × List ConnectionStats × List ConnectionStats :=
  if ok = false then
    let r := (E.rangeOrder connsByKey).foldl (firstDeltaConn maxClientStats) (tel, cl, active)
    (r.1, r.2.1, r.2.2, clientBuffer ++ r.2.2)
  else mergeConnections E maxClientStats now tel cl connsByKey active clientBuffer

/-- GetDelta returns the connections for the given client. If the client is not
registered yet it is registered and the active connections are returned;
otherwise the closed connections and the active ones with their last stats.
`now` is the reading of the wall clock. The deferred `client.Reset` runs after
the returned `Delta` has been built. -/
def GetDelta (E : Env) (ns : networkState) (now : Int) (id : String) (latestTime : Nat)
    (active : List ConnectionStats) (dnsStats : StatsByKeyByNameByType)
    (httpStats : GoMap String RequestStats) : networkState × Delta :=
  let ns := { ns with latestTimeEpoch := latestTime }
  let connsByKey := getConnsByKey E active
  let clientBuffer := clientPoolGet id
  let g := getClient ns now id
  let ns := g.1
  let r := deltaConns E ns.maxClientStats now ns.telemetry g.2.1 g.2.2 connsByKey active
    clientBuffer
  let ns := { ns with telemetry := r.1, clients := ns.clients.insert id r.2.1 }
  let conns := determineConnectionIntraHost E r.2.2.2
  let ns := if dnsStats.length > 0 then storeDNSStats ns dnsStats else ns
  let ns := if httpStats.length > 0 then storeHTTPStats E ns httpStats else ns
  match ns.clients.find? id with
  | some client =>
    ({ ns with clients := ns.clients.insert id (client.Reset connsByKey) },
      { Conns := conns, HTTP := client.httpStatsDelta, DNSStats := client.dnsStats })
  | none => (ns, { Conns := conns, HTTP := [], DNSStats := [] })

/-- RemoveClient stops tracking stateful data for a given client. -/
def RemoveClient (ns : networkState) (clientID : String) : networkState :=
  { ns with clients := ns.clients.erase clientID }

/-- RemoveExpiredClients removes the clients whose last fetch plus the expiry is
before `now`. -/
def RemoveExpiredClients (ns : networkState) (now : Int) : networkState :=
  { ns with clients :=
      ns.clients.filter (fun p => ¬ decide (p.2.lastFetch + ns.clientExpiry < now)) }

/-- RemoveConnections removes the given keys from the stats of every client and
zeroes the telemetry. -/
def RemoveConnections (ns : networkState) (keys : List String) : networkState :=
  { ns with
    clients := ns.clients.map (fun p =>
      (p.1, { p.2 with stats := keys.foldl (fun m key => GoMap.erase m key) p.2.stats }))
    telemetry := telemetry.zero }

/-- A call of one of the public operations that change the registry. -/
inductive Op where
  | callGetDelta (now : Int) (id : String) (latestTime : Nat) (active : List ConnectionStats)
      (dnsStats : StatsByKeyByNameByType) (httpStats : GoMap String RequestStats)
  | callStoreClosedConnections (closed : List ConnectionStats)
  | callRemoveConnections (keys : List String)
  | callRemoveClient (clientID : String)
  | callRemoveExpiredClients (now : Int)

/-- The registry after a call; `none` when the call panics. -/
def Op.run (E : Env) (ns : networkState) : Op → Option networkState
  | .callGetDelta now id latestTime active dnsStats httpStats =>
    some (GetDelta E ns now id latestTime active dnsStats httpStats).1
  | .callStoreClosedConnections closed => StoreClosedConnections E ns closed
  | .callRemoveConnections keys => some (RemoveConnections ns keys)
  | .callRemoveClient clientID => some (RemoveClient ns clientID)
  | .callRemoveExpiredClients now => some (RemoveExpiredClients ns now)

/-- The registry after a sequence of calls, starting from `ns`. -/
def runOps (E : Env) : networkState → List Op → Option networkState
  | ns, [] => some ns
  | ns, op :: ops =>
    match op.run E ns with
    | none => none
    | some ns' => runOps E ns' ops

/-! ## Predicates, decompositions and sample data used by the theorems -/

/-- Two clients that differ at most in their pending DNS and HTTP stats. -/
def client.sameConns (a b : client) : Prop :=
  a.lastFetch = b.lastFetch ∧ a.closedConnectionsKeys = b.closedConnectionsKeys ∧
    a.closedConnections = b.closedConnections ∧ a.closedCap = b.closedCap ∧ a.stats = b.stats

/-- Two client tables with the same ids in the same order whose clients differ at
most in their pending DNS and HTTP stats. -/
def sameClients (m m' : GoMap String client) : Prop :=
  List.Forall₂ (fun p q => p.1 = q.1 ∧ client.sameConns p.2 q.2) m m'

/-- The fixed configuration of a registry: expiry and the four caps. -/
def networkState.config (ns : networkState) : Int × Int × Int × Int × Int :=
  (ns.clientExpiry, ns.maxClosedConns, ns.maxClientStats, ns.maxDNSStats, ns.maxHTTPStats)

/-- The connection accounting `GetDelta` performs, on the client `getClient` returns. -/
def deltaAccounting (E : Env) (ns : networkState) (now : Int) (id : String)
    (active : List ConnectionStats) :
    telemetry × client × List ConnectionStats × List ConnectionStats :=
  deltaConns E ns.maxClientStats now ns.telemetry (getClient ns now id).2.1
    (getClient ns now id).2.2 (getConnsByKey E active) active (clientPoolGet id)

/-- The registry inside `GetDelta` once the connections are accounted. -/
def deltaRegistry (E : Env) (ns : networkState) (now : Int) (id : String) (lt : Nat)
    (active : List ConnectionStats) : networkState :=
  { (getClient { ns with latestTimeEpoch := lt } now id).1 with
    telemetry := (deltaAccounting E ns now id active).1
    clients := (getClient { ns with latestTimeEpoch := lt } now id).1.clients.insert id
      (deltaAccounting E ns now id active).2.1 }

/-- The DNS and HTTP fan-in of `GetDelta`. -/
def deltaFanIn (E : Env) (ns : networkState) (dns : StatsByKeyByNameByType)
    (http : GoMap String RequestStats) : networkState :=
  if http.length > 0 then storeHTTPStats E (if dns.length > 0 then storeDNSStats ns dns else ns) http
  else (if dns.length > 0 then storeDNSStats ns dns else ns)

/-- The end of `GetDelta`: the returned delta and the deferred reset. -/
def deltaFinish (ns : networkState) (id : String) (connsByKey : GoMap String Nat)
    (conns : List ConnectionStats) : networkState × Delta :=
  match ns.clients.find? id with
  | some client =>
    ({ ns with clients := ns.clients.insert id (client.Reset connsByKey) },
      { Conns := conns, HTTP := client.httpStatsDelta, DNSStats := client.dnsStats })
  | none => (ns, { Conns := conns, HTTP := [], DNSStats := [] })

/-- Index consistency of a client: the key index is initialised, every entry
points at a pending closed record with that byte key, and every pending record
is indexed under its byte key. -/
def client.indexed (E : Env) (cl : client) : Prop :=
  ∃ keys, cl.closedConnectionsKeys = some keys ∧
    (∀ k i, keys.find? k = some i →
      ∃ a, cl.closedConnections[i]? = some a ∧ ByteKey E a = some k) ∧
    (∀ j a, cl.closedConnections[j]? = some a →
      ∃ k, ByteKey E a = some k ∧ keys.find? k = some j)

/-- What storing a batch of closed connections does to one table entry: the id
stays, the client stays indexed and below the cap, and only its pending closed
connections change. -/
def closedStored (E : Env) (maxClosedConns : Int) (p q : String × client) : Prop :=
  p.1 = q.1 ∧ q.2.indexed E ∧
    ((p.2.closedConnections.length : Int) ≤ maxClosedConns →
      (q.2.closedConnections.length : Int) ≤ maxClosedConns) ∧
    q.2.lastFetch = p.2.lastFetch ∧ q.2.stats = p.2.stats ∧ q.2.dnsStats = p.2.dnsStats ∧
    q.2.httpStatsDelta = p.2.httpStatsDelta

/-- Well-formed registry: the client ids are pairwise distinct, every client is
indexed, and (for a non-negative cap) no client holds more pending closed
connections than `maxClosedConns`. -/
def networkState.wellFormed (E : Env) (ns : networkState) : Prop :=
  ns.clients.keys.Nodup ∧ (∀ e ∈ ns.clients, e.2.indexed E) ∧
    (0 ≤ ns.maxClosedConns →
      ∀ e ∈ ns.clients, (e.2.closedConnections.length : Int) ≤ ns.maxClosedConns)

/-- The stored totals agree with the monotonic counters of a connection. -/
def totalsMatch (t : stats) (c : ConnectionStats) : Prop :=
  t.totalSent = c.MonotonicSentBytes ∧ t.totalRecv = c.MonotonicRecvBytes ∧
    t.totalSentPackets = c.MonotonicSentPackets ∧ t.totalRecvPackets = c.MonotonicRecvPackets ∧
    t.totalRetransmits = c.MonotonicRetransmits ∧
    t.totalTCPEstablished = c.MonotonicTCPEstablished ∧ t.totalTCPClosed = c.MonotonicTCPClosed

/-- Two records of the same flow with the same monotonic counters and epoch. -/
def sameMonotonic (a b : ConnectionStats) : Prop :=
  a.identity = b.identity ∧ a.LastUpdateEpoch = b.LastUpdateEpoch ∧
    a.MonotonicSentBytes = b.MonotonicSentBytes ∧ a.MonotonicRecvBytes = b.MonotonicRecvBytes ∧
    a.MonotonicSentPackets = b.MonotonicSentPackets ∧
    a.MonotonicRecvPackets = b.MonotonicRecvPackets ∧
    a.MonotonicRetransmits = b.MonotonicRetransmits ∧
    a.MonotonicTCPEstablished = b.MonotonicTCPEstablished ∧
    a.MonotonicTCPClosed = b.MonotonicTCPClosed

/-- The fields of a client the connection accounting never touches. -/
def client.sameClosed (a b : client) : Prop :=
  a.lastFetch = b.lastFetch ∧ a.closedConnectionsKeys = b.closedConnectionsKeys ∧
    a.closedConnections = b.closedConnections ∧ a.closedCap = b.closedCap ∧
    a.dnsStats = b.dnsStats ∧ a.httpStatsDelta = b.httpStatsDelta

/-- Every entry of a key-to-connection map points at a record of the slice with
that byte key. -/
def validEntries (E : Env) (active : List ConnectionStats) (m : GoMap String Nat) : Prop :=
  ∀ e ∈ m, ∃ c, active[e.2]? = some c ∧ ByteKey E c = some e.1

/-- A sample byte-key encoder: type, direction and the two endpoints; a record
with an empty source address is not encodable. -/
def sampleKey (i : ConnIdentity) : Option String :=
  if i.Source.ip = "" then none
  else
    some ((match i.ConnType with
        | ConnectionType.TCP => "tcp "
        | ConnectionType.UDP => "udp ") ++
      (match i.Direction with
        | ConnectionDirection.UNKNOWN => "unknown "
        | ConnectionDirection.INCOMING => "in "
        | ConnectionDirection.OUTGOING => "out ") ++
      i.Source.ip ++ ":" ++ Nat.repr i.SPort ++ ">" ++ i.Dest.ip ++ ":" ++ Nat.repr i.DPort)

/-- A sample environment: `range` visits the entries in insertion order. -/
def sampleEnv : Env :=
  { encodeKey := sampleKey
    IsLoopback := fun a => decide (a.ip = "127.0.0.1")
    CombineWith := fun a b => { data := a.data ++ b.data }
    growslice := fun c => 2 * c + 1
    rangeOrder := fun m => m
    rangeOrder_perm := fun _ => List.Perm.refl _ }

/-- The outgoing flow `1.1.1.1:10 -> 2.2.2.2:20` over TCP with the given sent bytes,
received bytes, sent packets and epoch, and every other counter zero. -/
def sampleConn (sent recv sentPackets epoch : Nat) : ConnectionStats :=
  { Source := { ip := "1.1.1.1" }, SPort := 10, Dest := { ip := "2.2.2.2" }, DPort := 20,
    ConnType := ConnectionType.TCP, Direction := ConnectionDirection.OUTGOING,
    IPTranslation := none,
    MonotonicSentBytes := sent, MonotonicRecvBytes := recv, MonotonicSentPackets := sentPackets,
    MonotonicRecvPackets := 0, MonotonicRetransmits := 0, MonotonicTCPEstablished := 0,
    MonotonicTCPClosed := 0, LastSentBytes := 0, LastRecvBytes := 0, LastSentPackets := 0,
    LastRecvPackets := 0, LastRetransmits := 0, LastTCPEstablished := 0, LastTCPClosed := 0,
    LastUpdateEpoch := epoch, IntraHost := false }

/-- The byte key of `sampleConn`. -/
def sampleConnKey : String := "tcp out 1.1.1.1:10>2.2.2.2:20"

/-- A client holding the given totals (sent, received, sent packets) for the
sample flow and nothing else. -/
def sampleClient (sent recv sentPackets : Nat) : client :=
  { lastFetch := 0, closedConnectionsKeys := some [], closedConnections := [],
    closedCap := 1024,
    stats := [(sampleConnKey,
      { totalSent := sent, totalRecv := recv, totalSentPackets := sentPackets,
        totalRecvPackets := 0, totalRetransmits := 0, totalTCPEstablished := 0,
        totalTCPClosed := 0 })],
    dnsStats := [], httpStatsDelta := [] }

/-- A registry with caps 2 (closed), 10 (stats), 10 (DNS), 10 (HTTP) whose only
client `"A"` is `sampleClient`. -/
def sampleState (sent recv sentPackets : Nat) : networkState :=
  { NewState 1000 2 10 10 10 with clients := [("A", sampleClient sent recv sentPackets)] }

/-- The seven last-interval counters of a record: sent bytes, received bytes,
sent packets, received packets, retransmits, TCP established, TCP closed. -/
def ConnectionStats.lastCounters (c : ConnectionStats) : List Nat :=
  [c.LastSentBytes, c.LastRecvBytes, c.LastSentPackets, c.LastRecvPackets,
    c.LastRetransmits, c.LastTCPEstablished, c.LastTCPClosed]

/-- Three closed flows with pairwise distinct byte keys (destination ports 21,
22 and 23), 10 sent bytes each. -/
def sampleClosed : List ConnectionStats :=
  [{ sampleConn 10 0 1 5 with DPort := 21 }, { sampleConn 10 0 1 5 with DPort := 22 },
    { sampleConn 10 0 1 5 with DPort := 23 }]

/-- A sample run: client `"A"` polls once, then three closed flows are stored. -/
def sampleOps : List Op :=
  [Op.callGetDelta 0 "A" 100 [sampleConn 500 700 5 1] [] [],
    Op.callStoreClosedConnections sampleClosed]

/-- The client `"A"` after `sampleOps`: two of the three closed flows are pending. -/
def samplePending : client :=
  { sampleClient 500 700 5 with
    closedConnections := sampleClosed.take 2
    closedConnectionsKeys := some [("tcp out 1.1.1.1:10>2.2.2.2:21", 0), ("tcp out 1.1.1.1:10>2.2.2.2:22", 1)] }

/-- The registry after `sampleOps`. -/
def sampleReached : networkState :=
  { NewState 1000 2 10 10 10 with
    clients := [("A", samplePending)]
    latestTimeEpoch := 100
    telemetry := { telemetry.zero with closedConnDropped := 1 } }

/-- The sample registry after client `"A"` polled the sample flow (500 sent
bytes) and the same flow was then stored as closed with 800 sent bytes at
epoch 9. -/
def sampleClosedNewer : Option networkState :=
  runOps sampleEnv (NewState 1000 2 10 10 10)
    [Op.callGetDelta 0 "A" 100 [sampleConn 500 700 5 1] [] [],
      Op.callStoreClosedConnections [sampleConn 800 900 9 9]]

/-- A run after which client `"A"` holds totals of 50 sent bytes for the sample
flow and a pending closed record of that flow with 100 sent bytes at epoch 5. -/
def sampleReopenOps : List Op :=
  [Op.callGetDelta 0 "A" 100 [sampleConn 50 0 0 1] [] [],
    Op.callStoreClosedConnections [sampleConn 100 0 1 5]]

/-- The client `"A"` after `sampleReopenOps`. -/
def sampleReopenClient : client :=
  { sampleClient 50 0 0 with
    closedConnections := [sampleConn 100 0 1 5]
    closedConnectionsKeys := some [(sampleConnKey, 0)] }

/-- The registry after `sampleReopenOps`. -/
def sampleReopenState : networkState :=
  { NewState 1000 2 10 10 10 with
    clients := [("A", sampleReopenClient)]
    latestTimeEpoch := 100 }

/-- The sample registry after client `"A"` polled the sample flow with 900 sent
and 1100 received bytes and the flow was then stored as closed with 100 sent and
600 received bytes at epoch 5. -/
def sampleReopenAbove : Option networkState :=
  runOps sampleEnv (NewState 1000 2 10 10 10)
    [Op.callGetDelta 0 "A" 100 [sampleConn 900 1100 7 1] [] [],
      Op.callStoreClosedConnections [sampleConn 100 600 1 5]]

/-- The endpoint a connection is looked up by, in the words of the
specification: `(Dest, DPort, Type)`, replaced by `(ReplSrcIP, ReplSrcPort, Type)`
when the connection has an `IPTranslation`. -/
def lookupKeyReference (c : ConnectionStats) : Address × Nat × ConnectionType :=
  match c.IPTranslation with
  | none => (c.Dest, c.DPort, c.ConnType)
  | some t => (t.ReplSrcIP, t.ReplSrcPort, c.ConnType)

/-- Intra-host in the words of the specification, for a connection `c` of a
buffer: source equals destination, or both are loopback, or `c` has an
`IPTranslation` whose `ReplSrcIP` is loopback, or the lookup key of `c` is
`(Source, SPort, Type)` of some connection of the buffer. -/
def intraHostReference (E : Env) (buffer : List ConnectionStats) (c : ConnectionStats) : Bool :=
  decide (c.Source = c.Dest) || (E.IsLoopback c.Source && E.IsLoopback c.Dest) ||
    (match c.IPTranslation with
      | some t => E.IsLoopback t.ReplSrcIP
      | none => false) ||
    buffer.any (fun d => decide (lookupKeyReference c = (d.Source, d.SPort, d.ConnType)))

/-- The outgoing TCP flow `10.0.0.1:5000 -> 10.0.0.2:80`, without translation. -/
def sampleMirrorOut : ConnectionStats :=
  { sampleConn 0 0 0 1 with
    Source := { ip := "10.0.0.1" }, SPort := 5000, Dest := { ip := "10.0.0.2" }, DPort := 80 }

/-- The incoming TCP flow `10.0.0.2:80 -> 10.0.0.1:5000`, the mirror image of
`sampleMirrorOut`, carrying a translation with the given reply source. -/
def sampleMirrorIn (replSrcIP : String) (replSrcPort : Nat) : ConnectionStats :=
  { sampleConn 0 0 0 1 with
    Source := { ip := "10.0.0.2" }, SPort := 80, Dest := { ip := "10.0.0.1" }, DPort := 5000,
    Direction := ConnectionDirection.INCOMING,
    IPTranslation := some { ReplSrcIP := { ip := replSrcIP }, ReplSrcPort := replSrcPort } }

/-- The registry of the expiry scenario: expiry 1000, clients `"A"` and `"B"`
registered by a first `GetDelta` each, at time 0. -/
def sampleTwoClients : networkState :=
  (GetDelta sampleEnv
    (GetDelta sampleEnv (NewState 1000 2 10 10 10) 0 "A" 100 [sampleConn 500 700 5 1] [] []).1
    0 "B" 100 [sampleConn 500 700 5 1] [] []).1

/-- Number of leaves under one key of a DNS map: the lengths of the maps by query
type, summed over the domains. -/
def dnsLeaves (byDomain : GoMap String (GoMap Nat DNSStats)) : Nat :=
  (byDomain.map (fun e => e.2.length)).sum

/-- A DNS input with two leaves: key `"k"`, domain `"example.com"`, query types
1 and 28. -/
def sampleDNS : StatsByKeyByNameByType :=
  [("k", [("example.com",
    [(1, { Timeouts := 0, SuccessLatencySum := 5, FailureLatencySum := 0, CountByRcode := [(0, 1)] }),
      (28, { Timeouts := 1, SuccessLatencySum := 0, FailureLatencySum := 0, CountByRcode := [] })])])]

/-- A run with two clients: `"A"` and `"B"` register, then `"B"` polls with two
DNS leaves and two HTTP entries, which are fanned in to `"A"` as well. -/
def sampleFanInOps : List Op :=
  [Op.callGetDelta 0 "A" 100 [] [] [], Op.callGetDelta 0 "B" 100 [] [] [],
    Op.callGetDelta 1 "B" 200 [] sampleDNS [("h1", { data := [1] }), ("h2", { data := [2] })]]

/-- A run in which client `"A"` registers with three active flows of pairwise
distinct byte keys. -/
def sampleStatsOps : List Op :=
  [Op.callGetDelta 0 "A" 100 sampleClosed [] []]

/-- The sample flow with the given sent bytes, sent packets, established count
and epoch. -/
def sampleTCP (sent sentPackets established epoch : Nat) : ConnectionStats :=
  { sampleConn sent 0 sentPackets epoch with MonotonicTCPEstablished := established }

/-- The registry after client `"A"` polled the sample flow (50 sent bytes, 1
packet, 1 established) and the flow was then stored as closed (100 sent bytes, 2
packets, 1 established, epoch 5). -/
def sampleReopenTCP : Option networkState :=
  runOps sampleEnv (NewState 1000 2 10 10 10)
    [Op.callGetDelta 0 "A" 100 [sampleTCP 50 1 1 1] [] [],
      Op.callStoreClosedConnections [sampleTCP 100 2 1 5]]

/-- What a record says about its flow: the identity, the epoch and the seven
monotonic counters. Two records are `sameMonotonic` exactly when they agree on
it. -/
def ConnectionStats.monotonicView (c : ConnectionStats) : ConnIdentity × Nat × List Nat :=
  (c.identity, c.LastUpdateEpoch,
    [c.MonotonicSentBytes, c.MonotonicRecvBytes, c.MonotonicSentPackets, c.MonotonicRecvPackets,
      c.MonotonicRetransmits, c.MonotonicTCPEstablished, c.MonotonicTCPClosed])

/-- The test of `handleStatsUnderflow`: one of the sent bytes, received bytes and
retransmits of the record is below its stored total. -/
def underflows (st : stats) (c : ConnectionStats) : Bool :=
  decide (c.MonotonicSentBytes < st.totalSent ∨ c.MonotonicRecvBytes < st.totalRecv ∨
    c.MonotonicRetransmits < st.totalRetransmits)

/-- Two telemetry records with the same counters of the connection accounting:
all but `dnsStatsDropped` and `httpStatsDropped`. -/
def telemetry.sameConnCounters (a b : telemetry) : Prop :=
  a.closedConnDropped = b.closedConnDropped ∧ a.connDropped = b.connDropped ∧
    a.statsResets = b.statsResets ∧ a.timeSyncCollisions = b.timeSyncCollisions ∧
    a.dnsPidCollisions = b.dnsPidCollisions

/-- A pending closed record collides with the active set: it is encodable, its
key is in the key-to-connection map of `active`, and the active record the key
points at has the same `LastUpdateEpoch`. -/
def timeSyncCollides (E : Env) (active : List ConnectionStats) (x : ConnectionStats) : Bool :=
  match ByteKey E x with
  | some key =>
    match activeConnFor active (getConnsByKey E active) key with
    | some a => decide (x.LastUpdateEpoch = a.LastUpdateEpoch)
    | none => false
  | none => false

/-- A pending closed record for which the closed loop calls `createStatsForKey`
on a key without stats entry: the record is encodable, its key is active with a
newer epoch, and the key is not among the given keys of the stats map. -/
def statsDropsClosed (E : Env) (statsKeys : List String) (active : List ConnectionStats)
    (x : ConnectionStats) : Bool :=
  match ByteKey E x with
  | some key =>
    (match activeConnFor active (getConnsByKey E active) key with
      | some a => decide (x.LastUpdateEpoch < a.LastUpdateEpoch)
      | none => false) && decide (key ∉ statsKeys)
  | none => false

/-- Number of calls of `createStatsForKey` on a key without stats entry in a
delta of an existing client: the reopened pending closed records and the entries
of the key-to-connection map without pending closed record whose key the client
holds no stats for. -/
def connDroppedAtCap (E : Env) (cl : client) (active : List ConnectionStats) : Nat :=
  (cl.closedConnections.filter (statsDropsClosed E cl.stats.keys active)).length +
    ((getConnsByKey E active).filter (fun e =>
      decide ((cl.closedConnectionsKeys.getD []).find? e.1 = none) &&
        decide (e.1 ∉ cl.stats.keys))).length

/-- The registry with `maxClientStats = 1` after client `"A"` polled the sample
flow: its stats map holds one entry and is full. -/
def sampleFullState : networkState :=
  { NewState 1000 2 1 10 10 with
    clients := [("A", sampleClient 500 700 5)]
    latestTimeEpoch := 100 }

/-- An entry of the key-to-connection map whose processing by the active loop
resets the stored totals: the key has no pending closed record, the client holds
totals for it, and the record the entry points at underflows them. -/
def resetsActive (cl : client) (active : List ConnectionStats) (e : String × Nat) : Bool :=
  decide ((cl.closedConnectionsKeys.getD []).find? e.1 = none) &&
    (match cl.stats.find? e.1, active[e.2]? with
      | some t, some c => underflows t c
      | _, _ => false)

/-- The call is a `GetDelta` of the given client. -/
def Op.isPollOf (id : String) : Op → Bool
  | .callGetDelta _ id' _ _ _ _ => decide (id' = id)
  | _ => false
/-- The values of `statsResets` in two runs in which client `"A"` passes the
sample flow as active with non-decreasing counters while a closed record of the
flow is pending. First run: totals 500, a pending closed record with 100 sent
bytes at epoch 9, then a poll with 600 sent bytes; the value before and after
that poll. Second run: after `sampleClosedNewer` (totals 500, pending closed
record with 800 sent bytes) two polls with 600 sent bytes; the value before the
first, after the first and after the second. -/
def sampleMonotoneResets : Option ((Int × Int) × (Int × Int × Int)) :=
  (runOps sampleEnv (NewState 1000 2 10 10 10)
    [Op.callGetDelta 0 "A" 100 [sampleConn 500 700 5 1] [] [],
      Op.callStoreClosedConnections [sampleConn 100 100 1 9]]).bind (fun ns =>
    sampleClosedNewer.map (fun ms =>
      ((ns.telemetry.statsResets,
          (GetDelta sampleEnv ns 1 "A" 200 [sampleConn 600 700 5 7] [] []).1.telemetry.statsResets),
        (ms.telemetry.statsResets,
          (GetDelta sampleEnv ms 1 "A" 200 [sampleConn 600 700 5 7] [] []).1.telemetry.statsResets,
          (GetDelta sampleEnv
            (GetDelta sampleEnv ms 1 "A" 200 [sampleConn 600 700 5 7] [] []).1 2 "A" 300
            [sampleConn 600 700 5 7] [] []).1.telemetry.statsResets))))

/-- The HTTP stats a call passes to the registry: the `httpStats` argument of a
`GetDelta`, nothing for the other operations. -/
def Op.httpInput : Op → GoMap String RequestStats
  | .callGetDelta _ _ _ _ _ http => http
  | _ => []

/-- The HTTP entries a sequence of calls passes, in the order in which they are
passed. -/
def httpPassed : List Op → List (String × RequestStats)
  | [] => []
  | op :: ops => op.httpInput ++ httpPassed ops

/-- Reference for storing one HTTP entry under the cap, in the words of the
specification: an entry whose key is held is combined into the held value; an
entry whose key is not held is dropped if the map already holds `maxHTTPStats`
keys, and is stored combined into the zero value otherwise. -/
def httpStoreReference (E : Env) (maxHTTPStats : Int) (m : GoMap String RequestStats)
    (e : String × RequestStats) : GoMap String RequestStats :=
  match m.find? e.1 with
  | some prev => m.insert e.1 (E.CombineWith prev e.2)
  | none =>
    if (m.length : Int) ≥ maxHTTPStats then m
    else m.insert e.1 (E.CombineWith RequestStats.zero e.2)

/-- Reference for the HTTP map a client is owed: the entries passed since its
previous poll, stored one after the other into an empty map under the cap. -/
def httpAccumulateReference (E : Env) (maxHTTPStats : Int)
    (passed : List (String × RequestStats)) : GoMap String RequestStats :=
  passed.foldl (httpStoreReference E maxHTTPStats) []

/-- Reference for the `CombineWith` accumulation of the stats passed for one
key: each is combined into what is held, starting from the zero value; nothing
is held if nothing was passed. -/
def httpCombineReference (E : Env) (held : Option RequestStats) (l : List RequestStats) :
    Option RequestStats :=
  l.foldl (fun acc s => some (E.CombineWith (acc.getD RequestStats.zero) s)) held

/-- A run in which the HTTP cap is 2: client `"A"` polls, client `"B"` polls
twice passing HTTP stats for the keys `"x"`, then `"y"` and `"x"`, and a closed
connection is stored. -/
def sampleHTTPOps : List Op :=
  [Op.callGetDelta 1 "B" 110 [] [] [("x", { data := [1] })],
    Op.callStoreClosedConnections [sampleConn 10 0 1 5],
    Op.callGetDelta 2 "B" 120 [] [] [("y", { data := [2] }), ("x", { data := [3] })]]

/-- The registry with HTTP cap 2 after client `"A"` polled and `sampleHTTPOps`
ran. -/
def sampleHTTPState : networkState :=
  (runOps sampleEnv
    (GetDelta sampleEnv (NewState 1000 2 10 10 2) 0 "A" 100 [] [] [("w", { data := [0] })]).1
    sampleHTTPOps).getD (NewState 1000 2 10 10 2)

/-- The sum of `LastSentBytes` over a list of records. -/
def sentLast (l : List ConnectionStats) : Nat := (l.map (fun c => c.LastSentBytes)).sum

/-- The sum of `MonotonicSentBytes` over a list of records. -/
def sentMonotonic (l : List ConnectionStats) : Nat :=
  (l.map (fun c => c.MonotonicSentBytes)).sum

/-- The monotonic sent bytes of the record at a position of `active`; zero when
the position is out of range. -/
def activeSent (active : List ConnectionStats) (i : Nat) : Nat :=
  ((active[i]?).map (fun c => c.MonotonicSentBytes)).getD 0

/-- The monotonic sent bytes of the active record a pending closed record is
aggregated with in `mergeConnections`, if its key is active; zero otherwise. -/
def reopenedSent (E : Env) (active : List ConnectionStats) (connsByKey : GoMap String Nat)
    (x : ConnectionStats) : Nat :=
  (((ByteKey E x).bind (activeConnFor active connsByKey)).map
    (fun c => c.MonotonicSentBytes)).getD 0

/-- The records of `active` the key-to-connection map does not point at: those
without byte key and those whose byte key recurs later in `active`. The first
delta of a client returns them as they were passed. -/
def unkeyed (E : Env) (active : List ConnectionStats) : List ConnectionStats :=
  (List.range active.length).filterMap (fun i =>
    if i ∈ (getConnsByKey E active).map Prod.snd then none else active[i]?)

/-- The connections a call returns to the client `id`. -/
def Op.deliveredTo (E : Env) (id : String) (ns : networkState) : Op → List ConnectionStats
  | .callGetDelta now id' lt active dns http =>
    if id' = id then (GetDelta E ns now id' lt active dns http).2.Conns else []
  | _ => []

/-- The connection records a call gives the registry for the client `id`: the
active records of a `GetDelta` of the client, and the closed records of a
`StoreClosedConnections` while the client is registered. -/
def Op.givenFor (id : String) (ns : networkState) : Op → List ConnectionStats
  | .callGetDelta _ id' _ active _ _ => if id' = id then active else []
  | .callStoreClosedConnections closed => if (ns.clients.find? id).isSome then closed else []
  | _ => []

/-- The records a `GetDelta` that creates the client `id` returns as they were
passed. -/
def Op.unkeyedFor (E : Env) (id : String) (ns : networkState) : Op → List ConnectionStats
  | .callGetDelta _ id' _ active _ _ =>
    if id' = id ∧ ns.clients.find? id = none then unkeyed E active else []
  | _ => []

/-- The records `f` picks at each call of a run, in the order of the calls. -/
def traceConns (E : Env) (f : networkState → Op → List ConnectionStats) :
    networkState → List Op → List ConnectionStats
  | _, [] => []
  | ns, op :: ops =>
    f ns op ++
      (match op.run E ns with
        | some ns' => traceConns E f ns' ops
        | none => [])

/-- The monotonic sent bytes of the closed records pending for the client `id`;
zero when the client is not registered. -/
def pendingSent (ns : networkState) (id : String) : Nat :=
  match ns.clients.find? id with
  | some cl => sentMonotonic cl.closedConnections
  | none => 0

/-- A run in which client `"A"` polls the sample flow three times, a closed
record of the flow is stored before the second poll, and another client polls. -/
def sampleSentOps : List Op :=
  [Op.callGetDelta 0 "A" 100 [sampleConn 500 700 5 1] [] [],
    Op.callStoreClosedConnections [sampleConn 100 0 1 5],
    Op.callGetDelta 1 "B" 150 [sampleConn 40 0 1 6] [] [],
    Op.callGetDelta 2 "A" 200 [sampleConn 650 700 5 7] [] [],
    Op.callGetDelta 3 "A" 300 [sampleConn 900 700 5 8] [] []]

/-- A client whose closed-connection slice is empty with capacity 4096. -/
def sampleBurstClient : client :=
  { lastFetch := 0, closedConnectionsKeys := some [], closedConnections := [],
    closedCap := 4096, stats := [], dnsStats := [], httpStatsDelta := [] }

/-- The sample registry after `"A"` and `"B"` registered, `"B"` polled with the
two DNS leaves of `sampleDNS`, which were merged into the DNS map of `"A"` as
well, and `"B"` was removed: `"A"` is the only client and holds two DNS leaves. -/
def sampleSingleDNS : Option networkState :=
  runOps sampleEnv (NewState 1000 2 10 10 10)
    [Op.callGetDelta 0 "A" 100 [] [] [], Op.callGetDelta 0 "B" 100 [] sampleDNS [],
      Op.callRemoveClient "B"]

/-- A DNS input with two leaves: key `"k"`, domain `"example.com"`, query type
1, which `sampleDNS` holds, and key `"k2"`, domain `"other.org"`, query type 1,
which it does not. -/
def sampleDNSUpdate : StatsByKeyByNameByType :=
  [("k", [("example.com",
      [(1, { Timeouts := 2, SuccessLatencySum := 7, FailureLatencySum := 3, CountByRcode := [(0, 4)] })])]),
    ("k2", [("other.org",
      [(1, { Timeouts := 0, SuccessLatencySum := 9, FailureLatencySum := 0, CountByRcode := [] })])])]

/-- What the poll of `"A"` with `sampleDNSUpdate` after `sampleSingleDNS` finds
and returns: the DNS maps of the registered clients before the poll, the DNS
stats the poll returns, and `dnsStatsDropped` after it. -/
def sampleSingleDNSPoll :
    Option (List (String × StatsByKeyByNameByType) × StatsByKeyByNameByType × Int) :=
  sampleSingleDNS.map (fun ns =>
    (ns.clients.map (fun e => (e.1, e.2.dnsStats)),
      (GetDelta sampleEnv ns 2 "A" 300 [] sampleDNSUpdate []).2.DNSStats,
      (GetDelta sampleEnv ns 2 "A" 300 [] sampleDNSUpdate []).1.telemetry.dnsStatsDropped))

/-- The walk of `storeDNSStats` with the input `sampleDNSUpdate`, for a client
that holds `sampleDNS`, under the cap 10. -/
def sampleDNSWalk : StatsByKeyByNameByType :=
  (storeDNSStatsClient 10 sampleDNSUpdate telemetry.zero sampleDNS).2

/-! ## Real-time container check (`pkg/process/checks/container_rt.go`) -/

/-- Modelled from the spec: `containers.Container` is not among the sources. A
container is its ID and the metrics read from it, kept as one value. -/
structure Container where
  ID : String
  metrics : List Int
deriving DecidableEq, Repr

/-- Modelled from the spec: `util.ContainerRateMetrics`, the metrics of a
container kept from the previous run, is not among the sources. -/
structure ContainerRateMetrics where
  metrics : List Int
deriving DecidableEq, Repr

/-- Modelled from the spec: `model.ContainerStat` is not among the sources. A
stat is the `Id` and the other fields `fmtContainerStats` fills, kept as one
value. -/
structure ContainerStat where
  Id : String
  fields : List Int
deriving DecidableEq, Repr

/-- Modelled from the spec: what the check uses from code that is not among the
sources, taken as parameters. `fillNilContainer` and `fillNilRates` replace nil
references by defaults and leave the ID of the container alone;
`NullContainerRates` is `util.NullContainerRates`; `statFields` is everything
`fmtContainerStats` computes for a stat from the filled container, the filled
previous rates and `lastRun` (`calculateCtrPct`, `calculateRate`,
`SumInterfaces`, `system.HostCPUCount`); `HostCPUCount` is
`system.HostCPUCount()`; `ExtractContainerRateMetric` is
`util.ExtractContainerRateMetric`. -/
structure CheckEnv where
  fillNilContainer : Container → Container
  fillNilContainer_ID : ∀ c, (fillNilContainer c).ID = c.ID
  fillNilRates : ContainerRateMetrics → ContainerRateMetrics
  NullContainerRates : ContainerRateMetrics
  statFields : Container → ContainerRateMetrics → Int → List Int
  HostCPUCount : Int
  ExtractContainerRateMetric : List Container → GoMap String ContainerRateMetrics

/-- The stat `fmtContainerStats` appends for one container: the body of its loop
up to the `append`. -/
def fmtContainerStat (S : CheckEnv) (lastRates : GoMap String ContainerRateMetrics)
    (lastRun : Int) (ctr : Container) : ContainerStat :=
  let lastCtr :=
    match lastRates.find? ctr.ID with
    | some r => r
    | none => S.NullContainerRates
  let ctr := S.fillNilContainer ctr
  let lastCtr := S.fillNilRates lastCtr
  { Id := ctr.ID, fields := S.statFields ctr lastCtr lastRun }

/-- The loop of `fmtContainerStats`. The state is `chunked`, the current `chunk`
and the chunk index `i`; `none` is the run-time panic of the write `chunked[i]`
with `i` out of range. -/
def fmtContainerStatsLoop (S : CheckEnv) (lastRates : GoMap String ContainerRateMetrics)
    (lastRun : Int) (perChunk : Nat) :
    List Container → List (List ContainerStat) × List ContainerStat × Nat →
      Option (List (List ContainerStat) × List ContainerStat × Nat)
  | [], s => some s
  | ctr :: rest, s =>
    let chunk := s.2.1 ++ [fmtContainerStat S lastRates lastRun ctr]
    if chunk.length = perChunk then
      if s.2.2 < s.1.length then
        fmtContainerStatsLoop S lastRates lastRun perChunk rest
          (s.1.set s.2.2 chunk, [], s.2.2 + 1)
      else none
    else fmtContainerStatsLoop S lastRates lastRun perChunk rest (s.1, chunk, s.2.2)

/-- Formats and chunks the container list into a slice of `chunks` chunks. `none`
is a run-time panic: the division by `chunks = 0`, `make` with a negative
length, or a write past the end of `chunked`. -/
def fmtContainerStats (S : CheckEnv) (ctrList : List Container)
    (lastRates : GoMap String ContainerRateMetrics) (lastRun : Int) (chunks : Int) :
    Option (List (List ContainerStat)) :=
  if chunks ≤ 0 then none
  else
    let perChunk := ((Int.tdiv (ctrList.length : Int) chunks) + 1).toNat
    let chunked : List (List ContainerStat) := List.replicate chunks.toNat []
    match fmtContainerStatsLoop S lastRates lastRun perChunk ctrList (chunked, [], 0) with
    | none => none
    | some s =>
      if s.2.1.length > 0 then
        if s.2.2 < s.1.length then some (s.1.set s.2.2 s.2.1) else none
      else some s.1

/-- The fields of `config.AgentConfig` the check reads. -/
structure AgentConfig where
  HostName : String
  MaxPerMessage : Int
  ContainerHostType : Int
deriving DecidableEq, Repr

/-- The field of `model.SystemInfo` the check reads. -/
structure SystemInfo where
  TotalMemory : Int
deriving DecidableEq, Repr

/-- The real-time container check; `sysInfo` and `lastRates` are `none` while
they are nil. -/
structure RTContainerCheck where
  sysInfo : Option SystemInfo
  lastRates : Option (GoMap String ContainerRateMetrics)
  lastRun : Int
deriving DecidableEq, Repr

/-- The message `Run` emits (`model.CollectorContainerRealTime`). -/
structure CollectorContainerRealTime where
  HostName : String
  Stats : List ContainerStat
  NumCpus : Int
  TotalMemory : Int
  GroupId : Int
  GroupSize : Int
  ContainerHostType : Int
deriving DecidableEq, Repr

/-- The error `util.GetContainers` returns. -/
inductive CollectorError where
  | ErrPermaFail
  | ErrNothingYet
  | other (msg : String)
deriving DecidableEq, Repr

/-- The conversion `int32(x)` of a Go `int`. -/
def toInt32 (x : Int) : Int := (x + 2 ^ 31) % 2 ^ 32 - 2 ^ 31

/-- The loop of `Run` over the chunks, from index `i` on, with the number of
iterations that remain: one message per chunk. `none` is a run-time panic: the
read `chunked[i]` out of range or the nil dereference `r.sysInfo.TotalMemory`. -/
def runMessages (S : CheckEnv) (r : RTContainerCheck) (cfg : AgentConfig) (groupID : Int)
    (groupSize : Int) (chunked : List (List ContainerStat)) :
    Nat → Nat → Option (List CollectorContainerRealTime)
  | _, 0 => some []
  | i, remaining + 1 =>
    match chunked[i]?, r.sysInfo with
    | some stats, some sysInfo =>
      match runMessages S r cfg groupID groupSize chunked (i + 1) remaining with
      | none => none
      | some rest =>
        some ({ HostName := cfg.HostName, Stats := stats, NumCpus := toInt32 S.HostCPUCount,
                TotalMemory := sysInfo.TotalMemory, GroupId := groupID,
                GroupSize := toInt32 groupSize,
                ContainerHostType := cfg.ContainerHostType } :: rest)
    | _, _ => none

/-- Runs the real-time container check on what `util.GetContainers()` returned
(`got`, the list and the error) at wall-clock time `now`. Returns the check, the
messages (`[]` is nil) and the error; `none` is a run-time panic. -/
def RTContainerCheck.Run (S : CheckEnv) (r : RTContainerCheck) (cfg : AgentConfig)
    (groupID : Int) (got : List Container × Option CollectorError) (now : Int) :
    Option (RTContainerCheck × List CollectorContainerRealTime × Option CollectorError) :=
  let ctrList := got.1
  match got.2 with
  | some CollectorError.ErrPermaFail => some (r, [], none)
  | some CollectorError.ErrNothingYet => some (r, [], none)
  | some err => some (r, [], some err)
  | none =>
    if ctrList.length = 0 then some (r, [], none)
    else
      match r.lastRates with
      | none =>
        some ({ r with lastRates := some (S.ExtractContainerRateMetric ctrList), lastRun := now },
          [], none)
      | some lastRates =>
        if cfg.MaxPerMessage = 0 then none
        else
          let groupSize := Int.tdiv (ctrList.length : Int) cfg.MaxPerMessage
          let groupSize :=
            if Int.tmod (ctrList.length : Int) cfg.MaxPerMessage ≠ 0 then groupSize + 1
            else groupSize
          match fmtContainerStats S ctrList lastRates r.lastRun groupSize with
          | none => none
          | some chunked =>
            match runMessages S r cfg groupID groupSize chunked 0 groupSize.toNat with
            | none => none
            | some messages =>
              some ({ r with lastRates := some (S.ExtractContainerRateMetric ctrList),
                             lastRun := now },
                messages, none)

/-- A sample environment of the check: nothing is nil, a stat carries the
metrics of its container. -/
def sampleCheckEnv : CheckEnv :=
  { fillNilContainer := fun c => c
    fillNilContainer_ID := fun _ => rfl
    fillNilRates := fun r => r
    NullContainerRates := { metrics := [] }
    statFields := fun c _ _ => c.metrics
    HostCPUCount := 4
    ExtractContainerRateMetric := fun l => l.map (fun c => (c.ID, { metrics := c.metrics })) }

/-- The containers `"c0"`, ..., `"c(n-1)"`. -/
def sampleContainers (n : Nat) : List Container :=
  (List.range n).map (fun i => { ID := "c" ++ Nat.repr i, metrics := [i] })

/-- A check that has run before, with system information. -/
def sampleCheck : RTContainerCheck :=
  { sysInfo := some { TotalMemory := 1024 }, lastRates := some [], lastRun := 0 }

/-- The sample configuration with the given `MaxPerMessage`. -/
def sampleConfig (maxPerMessage : Int) : AgentConfig :=
  { HostName := "host", MaxPerMessage := maxPerMessage, ContainerHostType := 0 }

/-- The number of stats in each message of a run; `none` when the run panics. -/
def statsPerMessage
    (r : Option (RTContainerCheck × List CollectorContainerRealTime × Option CollectorError)) :
    Option (List Nat) :=
  r.map (fun x => x.2.1.map (fun msg => msg.Stats.length))

/-! ## Device metadata payloads (`pkg/collector/corechecks/snmp/report/report_device_metadata.go`) -/

/-- Modelled from the spec: `metadata.DeviceMetadata` is not among the sources;
a device is kept as its ID. -/
structure DeviceMetadata where
  ID : String
deriving DecidableEq, Repr

/-- The interface metadata `buildNetworkInterfacesMetadata` fills (the ID tags
are left out). -/
structure InterfaceMetadata where
  DeviceID : String
  Index : Int
  Name : String
  Alias : String
  Description : String
  MacAddress : String
  AdminStatus : Int
  OperStatus : Int
deriving DecidableEq, Repr

/-- The payload `batchPayloads` fills (`metadata.NetworkDevicesMetadata`); a nil
slice is `[]`. -/
structure NetworkDevicesMetadata where
  Subnet : String
  Namespace : String
  Devices : List DeviceMetadata
  Interfaces : List InterfaceMetadata
  CollectTimestamp : Int
deriving DecidableEq, Repr

/-- Body of the loop of `batchPayloads`. The state is `payloads`, the current
`payload` and `resourceCount`. -/
def batchPayloadsStep (nspace subnet : String) (collectTime : Int) (batchSize : Int)
    (s : List NetworkDevicesMetadata × NetworkDevicesMetadata × Int)
    (interfaceMetadata : InterfaceMetadata) :
    List NetworkDevicesMetadata × NetworkDevicesMetadata × Int :=
  let s : List NetworkDevicesMetadata × NetworkDevicesMetadata × Int :=
    if s.2.2 = batchSize then
      (s.1 ++ [s.2.1],
        { Subnet := subnet, Namespace := nspace, Devices := [], Interfaces := [],
          CollectTimestamp := collectTime },
        0)
    else s
  (s.1, { s.2.1 with Interfaces := s.2.1.Interfaces ++ [interfaceMetadata] }, s.2.2 + 1)

/-- Splits the device and its interfaces into payloads of `batchSize` resources.
`nspace` is the parameter `namespace`; `collectTime` is `collectTime.Unix()`. -/
def batchPayloads (nspace subnet : String) (collectTime : Int) (batchSize : Int)
    (device : DeviceMetadata) (interfaces : List InterfaceMetadata) :
    List NetworkDevicesMetadata :=
  let payload : NetworkDevicesMetadata :=
    { Subnet := subnet, Namespace := nspace, Devices := [device], Interfaces := [],
      CollectTimestamp := collectTime }
  let s := interfaces.foldl (batchPayloadsStep nspace subnet collectTime batchSize)
    ([], payload, 1)
  s.1 ++ [s.2.1]

/-- The number of resources of a payload: devices plus interfaces. -/
def NetworkDevicesMetadata.resources (p : NetworkDevicesMetadata) : Nat :=
  p.Devices.length + p.Interfaces.length

/-- The interface with the given index of the sample device. -/
def sampleInterface (i : Nat) : InterfaceMetadata :=
  { DeviceID := "dev", Index := i, Name := "eth", Alias := "", Description := "",
    MacAddress := "", AdminStatus := 1, OperStatus := 1 }

/-- A run in which client `"A"` registers and the sample flow is then stored as
closed twice: first with 10 sent bytes, 20 received bytes, 5 sent packets and 7
received packets, then with 1, 2, 3 and 4. -/
def sampleCoalesceOps : List Op :=
  [Op.callGetDelta 0 "A" 100 [] [] [],
    Op.callStoreClosedConnections [{ sampleConn 10 20 5 1 with MonotonicRecvPackets := 7 }],
    Op.callStoreClosedConnections [{ sampleConn 1 2 3 2 with MonotonicRecvPackets := 4 }]]

/-- The monotonic sent bytes, received bytes, sent packets and received packets
of a list of records. -/
def bytesAndPackets (l : List ConnectionStats) : List (Nat × Nat × Nat × Nat) :=
  l.map (fun c =>
    (c.MonotonicSentBytes, c.MonotonicRecvBytes, c.MonotonicSentPackets, c.MonotonicRecvPackets))

/-- What `sampleCoalesceOps` leaves pending for each client, and what the next
`GetDelta` of `"A"` returns: the byte and packet counters of the records. -/
def sampleCoalesced :
    Option (List (String × List (Nat × Nat × Nat × Nat)) × List (Nat × Nat × Nat × Nat)) :=
  (runOps sampleEnv (NewState 1000 2 10 10 10) sampleCoalesceOps).map (fun ns =>
    (ns.clients.map (fun e => (e.1, bytesAndPackets e.2.closedConnections)),
      bytesAndPackets (GetDelta sampleEnv ns 1 "A" 200 [] [] []).2.Conns))

/-- A run that creates client `"A"` with one active record that has no byte key
(its source address is empty), passed with 5 last sent bytes and 1 monotonic
sent byte. -/
def sampleUnkeyedOps : List Op :=
  [Op.callGetDelta 0 "A" 100
    [{ sampleConn 1 0 0 1 with Source := { ip := "" }, LastSentBytes := 5 }] [] []]

/-! ## Lemmas about Go maps -/

namespace GoMap

variable {κ ν : Type} [DecidableEq κ]

theorem find?_insert_self (m : GoMap κ ν) (k : κ) (v : ν) : (m.insert k v).find? k = some v := by
  induction m with
  | nil => simp [insert, find?]
  | cons e t ih =>
    obtain ⟨k', v'⟩ := e
    by_cases h : k' = k
    · simp [insert, find?, h]
    · simp [insert, find?, h, ih]

theorem find?_insert_ne (m : GoMap κ ν) {k k' : κ} (h : k ≠ k') (v : ν) :
    (m.insert k v).find? k' = m.find? k' := by
  induction m with
  | nil => simp [insert, find?, h]
  | cons e t ih =>
    obtain ⟨k₀, v₀⟩ := e
    by_cases h₀ : k₀ = k
    · subst h₀
      simp [insert, find?, h]
    · by_cases h₁ : k₀ = k'
      · subst h₁
        simp [insert, find?, h₀]
      · simp [insert, find?, h₀, h₁, ih]

theorem find?_eq_none_iff (m : GoMap κ ν) (k : κ) : m.find? k = none ↔ k ∉ m.keys := by
  induction m with
  | nil => simp [find?, keys]
  | cons e t ih =>
    obtain ⟨k₀, v₀⟩ := e
    by_cases h₀ : k₀ = k
    · simp [find?, keys, h₀]
    · have : ¬ k = k₀ := fun h => h₀ h.symm
      simpa [find?, keys, h₀, this] using ih

theorem mem_of_find? {m : GoMap κ ν} {k : κ} {v : ν} (h : m.find? k = some v) : (k, v) ∈ m := by
  induction m with
  | nil => simp [find?] at h
  | cons e t ih =>
    obtain ⟨k₀, v₀⟩ := e
    by_cases h₀ : k₀ = k
    · simp [find?, h₀] at h
      simp [h₀, h]
    · simp [find?, h₀] at h
      exact List.mem_cons_of_mem _ (ih h)

theorem mem_keys_of_mem {m : GoMap κ ν} {k : κ} {v : ν} (h : (k, v) ∈ m) : k ∈ m.keys :=
  List.mem_map.2 ⟨(k, v), h, rfl⟩

theorem find?_of_mem_nodup {m : GoMap κ ν} {k : κ} {v : ν} (hn : m.keys.Nodup)
    (h : (k, v) ∈ m) : m.find? k = some v := by
  induction m with
  | nil => simp at h
  | cons e t ih =>
    obtain ⟨k₀, v₀⟩ := e
    simp only [keys, List.map_cons, List.nodup_cons] at hn
    rcases List.mem_cons.1 h with h | h
    · cases h
      simp [find?]
    · have hk : k ∈ keys t := mem_keys_of_mem h
      have h₀ : k₀ ≠ k := fun e => hn.1 (e ▸ hk)
      simp [find?, h₀, ih hn.2 h]

theorem insert_of_find?_none {m : GoMap κ ν} {k : κ} (v : ν) (h : m.find? k = none) :
    m.insert k v = m ++ [(k, v)] := by
  induction m with
  | nil => simp [insert]
  | cons e t ih =>
    obtain ⟨k₀, v₀⟩ := e
    by_cases h₀ : k₀ = k
    · simp [find?, h₀] at h
    · simp [find?, h₀] at h
      simp [insert, h₀, ih h]

theorem keys_insert_of_find?_some {m : GoMap κ ν} {k : κ} {v₀ : ν} (v : ν)
    (h : m.find? k = some v₀) : (m.insert k v).keys = m.keys := by
  induction m with
  | nil => simp [find?] at h
  | cons e t ih =>
    obtain ⟨k₁, v₁⟩ := e
    by_cases h₁ : k₁ = k
    · simp [insert, keys, h₁]
    · simp [find?, h₁] at h
      have := ih h
      simp only [keys] at this
      simp [insert, keys, h₁, this]

theorem length_insert_of_find?_some {m : GoMap κ ν} {k : κ} {v₀ : ν} (v : ν)
    (h : m.find? k = some v₀) : (m.insert k v).length = m.length := by
  have := congrArg List.length (keys_insert_of_find?_some v h)
  simpa [keys] using this

theorem keys_insert_of_find?_none {m : GoMap κ ν} {k : κ} (v : ν) (h : m.find? k = none) :
    (m.insert k v).keys = m.keys ++ [k] := by
  simp [insert_of_find?_none v h, keys]

theorem nodup_keys_insert {m : GoMap κ ν} (k : κ) (v : ν) (hn : m.keys.Nodup) :
    (m.insert k v).keys.Nodup := by
  cases h : m.find? k with
  | some v₀ => rw [keys_insert_of_find?_some v h]; exact hn
  | none =>
    rw [keys_insert_of_find?_none v h]
    have hk := (find?_eq_none_iff m k).1 h
    exact List.Nodup.append hn (List.nodup_singleton k) (by simpa using hk)

theorem mem_keys_insert {m : GoMap κ ν} {k k' : κ} (v : ν) :
    k' ∈ (m.insert k v).keys ↔ k' = k ∨ k' ∈ m.keys := by
  cases h : m.find? k with
  | some v₀ =>
    rw [keys_insert_of_find?_some v h]
    constructor
    · exact Or.inr
    · rintro (rfl | h')
      · exact mem_keys_of_mem (mem_of_find? h)
      · exact h'
  | none =>
    rw [keys_insert_of_find?_none v h]
    simp [or_comm]

theorem find?_filter_key (m : GoMap κ ν) (p : κ → Bool) (k : κ) :
    GoMap.find? (m.filter (fun e => p e.1)) k = if p k = true then m.find? k else none := by
  induction m with
  | nil => simp [find?]
  | cons e t ih =>
    obtain ⟨k₀, v₀⟩ := e
    by_cases hp : p k₀ = true
    · by_cases h₀ : k₀ = k
      · subst h₀
        simp [List.filter, hp, find?]
      · simp [List.filter, hp, find?, h₀, ih]
    · by_cases h₀ : k₀ = k
      · subst h₀
        simp [List.filter, hp, find?, ih]
      · simp [List.filter, hp, find?, h₀, ih]

theorem find?_perm {m m' : GoMap κ ν} (hn : m.keys.Nodup) (hp : m'.Perm m) (k : κ) :
    m'.find? k = m.find? k := by
  have hn' : m'.keys.Nodup := (List.Perm.nodup_iff (List.Perm.map Prod.fst hp)).2 hn
  cases h : m.find? k with
  | some v => exact find?_of_mem_nodup hn' (hp.mem_iff.2 (mem_of_find? h))
  | none =>
    rw [find?_eq_none_iff] at h ⊢
    intro hk
    exact h ((List.Perm.mem_iff (List.Perm.map Prod.fst hp)).1 hk)

end GoMap

/-! ## Frame of the DNS and HTTP fan-in -/

theorem client.sameConns_refl (a : client) : client.sameConns a a :=
  ⟨rfl, rfl, rfl, rfl, rfl⟩

theorem client.sameConns_trans {a b c : client} (h₁ : client.sameConns a b)
    (h₂ : client.sameConns b c) : client.sameConns a c :=
  ⟨h₁.1.trans h₂.1, h₁.2.1.trans h₂.2.1, h₁.2.2.1.trans h₂.2.2.1,
    h₁.2.2.2.1.trans h₂.2.2.2.1, h₁.2.2.2.2.trans h₂.2.2.2.2⟩

theorem sameClients_refl (m : GoMap String client) : sameClients m m := by
  induction m with
  | nil => exact List.Forall₂.nil
  | cons e t ih => exact List.Forall₂.cons ⟨rfl, client.sameConns_refl _⟩ ih

theorem sameClients_trans {a b c : GoMap String client} (h₁ : sameClients a b)
    (h₂ : sameClients b c) : sameClients a c := by
  induction h₁ generalizing c with
  | nil => cases h₂; exact List.Forall₂.nil
  | cons hab _ ih =>
    cases h₂ with
    | cons hbc t₂ =>
      exact List.Forall₂.cons ⟨hab.1.trans hbc.1, client.sameConns_trans hab.2 hbc.2⟩ (ih t₂)

theorem sameClients_find? {m m' : GoMap String client} (h : sameClients m m') (id : String) :
    (m.find? id = none ∧ m'.find? id = none) ∨
      ∃ c c', m.find? id = some c ∧ m'.find? id = some c' ∧ client.sameConns c c' := by
  induction h with
  | nil => exact Or.inl ⟨rfl, rfl⟩
  | @cons p q t t' hpq _ ih =>
    obtain ⟨k, v⟩ := p
    obtain ⟨k', v'⟩ := q
    have hk : k = k' := hpq.1
    subst hk
    by_cases h₀ : k = id
    · exact Or.inr ⟨v, v', by simp [GoMap.find?, h₀], by simp [GoMap.find?, h₀], hpq.2⟩
    · simpa [GoMap.find?, h₀] using ih

theorem sameClients_mem {m m' : GoMap String client} (h : sameClients m m') {id : String}
    {c' : client} (hc : (id, c') ∈ m') : ∃ c, (id, c) ∈ m ∧ client.sameConns c c' := by
  induction h with
  | nil => simp at hc
  | @cons p q t t' hpq _ ih =>
    rcases List.mem_cons.1 hc with e | hc'
    · subst e
      obtain ⟨k, v⟩ := p
      have hk : k = id := hpq.1
      subst hk
      exact ⟨v, List.mem_cons_self _ _, hpq.2⟩
    · obtain ⟨c, hm, hs⟩ := ih hc'
      exact ⟨c, List.mem_cons_of_mem _ hm, hs⟩

theorem sameClients_length {m m' : GoMap String client} (h : sameClients m m') :
    m'.length = m.length := (List.Forall₂.length_eq h).symm

theorem storeDNSStatsClients_same (maxDNSStats : Int) (stats : StatsByKeyByNameByType)
    (tel : telemetry) (m : GoMap String client) :
    sameClients m (storeDNSStatsClients maxDNSStats stats tel m).2 := by
  induction m generalizing tel with
  | nil => exact List.Forall₂.nil
  | cons e t ih =>
    obtain ⟨id, cl⟩ := e
    exact List.Forall₂.cons ⟨rfl, rfl, rfl, rfl, rfl, rfl⟩ (ih _)

theorem storeDNSStats_same (ns : networkState) (stats : StatsByKeyByNameByType) :
    sameClients ns.clients (storeDNSStats ns stats).clients := by
  unfold storeDNSStats
  split
  · rename_i id c heq
    rw [heq]
    split
    · exact List.Forall₂.cons ⟨rfl, rfl, rfl, rfl, rfl, rfl⟩ List.Forall₂.nil
    · rw [heq]; exact sameClients_refl _
  · exact storeDNSStatsClients_same _ _ _ _

theorem storeHTTPStatsEntry_same (E : Env) (maxHTTPStats : Int) (key : String)
    (stats : RequestStats) (tel : telemetry) (m : GoMap String client) :
    sameClients m (storeHTTPStatsEntry E maxHTTPStats key stats tel m).2 := by
  induction m generalizing tel with
  | nil => exact List.Forall₂.nil
  | cons e t ih =>
    obtain ⟨id, cl⟩ := e
    refine List.Forall₂.cons ⟨rfl, ?_⟩ (ih _)
    dsimp only
    split
    · split
      · exact client.sameConns_refl _
      · exact ⟨rfl, rfl, rfl, rfl, rfl⟩
    · exact ⟨rfl, rfl, rfl, rfl, rfl⟩

theorem storeHTTPStats_same (E : Env) (ns : networkState) (allStats : GoMap String RequestStats) :
    sameClients ns.clients (storeHTTPStats E ns allStats).clients := by
  unfold storeHTTPStats
  dsimp only
  generalize ns.telemetry = tel
  generalize ns.clients = m
  induction allStats generalizing tel m with
  | nil => exact sameClients_refl _
  | cons e t ih =>
    simp only [List.foldl_cons]
    exact sameClients_trans (storeHTTPStatsEntry_same E _ e.1 e.2 tel m) (ih _ _)

theorem GoMap.mem_insert {κ ν : Type} [DecidableEq κ] {m : GoMap κ ν} {k : κ} {v : ν}
    {e : κ × ν} (h : e ∈ m.insert k v) : e = (k, v) ∨ e ∈ m := by
  induction m with
  | nil => simpa [GoMap.insert] using h
  | cons e₀ t ih =>
    obtain ⟨k₀, v₀⟩ := e₀
    by_cases h₀ : k₀ = k
    · simp only [GoMap.insert, h₀, if_true, List.mem_cons] at h
      rcases h with h | h
      · exact Or.inl h
      · exact Or.inr (List.mem_cons_of_mem _ h)
    · simp only [GoMap.insert, h₀, if_false, List.mem_cons] at h
      rcases h with h | h
      · exact Or.inr (h ▸ List.mem_cons_self _ _)
      · rcases ih h with h | h
        · exact Or.inl h
        · exact Or.inr (List.mem_cons_of_mem _ h)

/-! ## Structure of `GetDelta` -/

theorem storeDNSStats_config (ns : networkState) (stats : StatsByKeyByNameByType) :
    (storeDNSStats ns stats).config = ns.config := by
  unfold storeDNSStats
  split
  · split <;> rfl
  · rfl

theorem storeHTTPStats_config (E : Env) (ns : networkState) (allStats : GoMap String RequestStats) :
    (storeHTTPStats E ns allStats).config = ns.config := rfl

theorem getClient_snd (ns : networkState) (now : Int) (id : String) (lt : Nat) :
    (getClient { ns with latestTimeEpoch := lt } now id).2 = (getClient ns now id).2 := by
  unfold getClient
  dsimp only
  split <;> rfl

theorem getClient_config (ns : networkState) (now : Int) (id : String) :
    (getClient ns now id).1.config = ns.config ∧
      (getClient ns now id).1.telemetry = ns.telemetry := by
  unfold getClient
  split <;> exact ⟨rfl, rfl⟩

theorem getClient_mem (ns : networkState) (now : Int) (id : String) {e : String × client}
    (h : e ∈ ((getClient ns now id).1.clients.insert id (getClient ns now id).2.1 : GoMap _ _)) :
    e.1 = id ∨ e ∈ ns.clients := by
  rcases GoMap.mem_insert h with h | h
  · exact Or.inl (by rw [h])
  · unfold getClient at h
    split at h
    · exact Or.inr h
    · rcases GoMap.mem_insert h with h | h
      · exact Or.inl (by rw [h])
      · exact Or.inr h

theorem deltaAccounting_eq (E : Env) (ns : networkState) (now : Int) (id : String) (lt : Nat)
    (active : List ConnectionStats) :
    deltaConns E (getClient { ns with latestTimeEpoch := lt } now id).1.maxClientStats now
      (getClient { ns with latestTimeEpoch := lt } now id).1.telemetry
      (getClient { ns with latestTimeEpoch := lt } now id).2.1
      (getClient { ns with latestTimeEpoch := lt } now id).2.2 (getConnsByKey E active) active
      (clientPoolGet id) =
    deltaAccounting E ns now id active := by
  unfold deltaAccounting
  have hcfg := getClient_config { ns with latestTimeEpoch := lt } now id
  have hmc : (getClient { ns with latestTimeEpoch := lt } now id).1.maxClientStats =
      ns.maxClientStats := by
    have := congrArg (fun c => c.2.2.1) hcfg.1
    simpa [networkState.config] using this
  rw [hmc, hcfg.2, getClient_snd]

theorem GetDelta_eq (E : Env) (ns : networkState) (now : Int) (id : String) (lt : Nat)
    (active : List ConnectionStats) (dns : StatsByKeyByNameByType)
    (http : GoMap String RequestStats) :
    GetDelta E ns now id lt active dns http =
      deltaFinish (deltaFanIn E (deltaRegistry E ns now id lt active) dns http) id
        (getConnsByKey E active)
        (determineConnectionIntraHost E (deltaAccounting E ns now id active).2.2.2) := by
  unfold deltaRegistry
  rw [← deltaAccounting_eq E ns now id lt active]
  rfl

theorem deltaFanIn_same (E : Env) (ns : networkState) (dns : StatsByKeyByNameByType)
    (http : GoMap String RequestStats) :
    sameClients ns.clients (deltaFanIn E ns dns http).clients ∧
      (deltaFanIn E ns dns http).config = ns.config := by
  have h12 : sameClients ns.clients (if dns.length > 0 then storeDNSStats ns dns else ns).clients ∧
      (if dns.length > 0 then storeDNSStats ns dns else ns).config = ns.config := by
    split
    · exact ⟨storeDNSStats_same _ _, storeDNSStats_config _ _⟩
    · exact ⟨sameClients_refl _, rfl⟩
  unfold deltaFanIn
  split
  · exact ⟨sameClients_trans h12.1 (storeHTTPStats_same _ _ _),
      (storeHTTPStats_config _ _ _).trans h12.2⟩
  · exact h12

theorem deltaRegistry_config (E : Env) (ns : networkState) (now : Int) (id : String) (lt : Nat)
    (active : List ConnectionStats) : (deltaRegistry E ns now id lt active).config = ns.config :=
  (getClient_config { ns with latestTimeEpoch := lt } now id).1

theorem deltaRegistry_mem (E : Env) (ns : networkState) (now : Int) (id : String) (lt : Nat)
    (active : List ConnectionStats) {e : String × client}
    (h : e ∈ (deltaRegistry E ns now id lt active).clients) :
    e = (id, (deltaAccounting E ns now id active).2.1) ∨ (e.1 = id ∧ e.2 = (getClient ns now id).2.1 ∧ (getClient ns now id).2.2 = false) ∨ e ∈ ns.clients := by
  unfold deltaRegistry at h
  rcases GoMap.mem_insert h with h | h
  · exact Or.inl h
  · unfold getClient at h ⊢
    dsimp only at h ⊢
    split at h
    · exact Or.inr (Or.inr h)
    · rcases GoMap.mem_insert h with h | h
      · subst h
        exact Or.inr (Or.inl ⟨rfl, rfl, rfl⟩)
      · exact Or.inr (Or.inr h)

/-- After `GetDelta` the calling client is the accounted client, up to its DNS and
HTTP stats, reset against the active keys; the returned connections are the
classified output buffer; the configuration is unchanged. -/
theorem GetDelta_structure (E : Env) (ns : networkState) (now : Int) (id : String) (lt : Nat)
    (active : List ConnectionStats) (dns : StatsByKeyByNameByType)
    (http : GoMap String RequestStats) :
    (∃ c₂, client.sameConns (deltaAccounting E ns now id active).2.1 c₂ ∧
      (GetDelta E ns now id lt active dns http).1.clients.find? id =
        some (c₂.Reset (getConnsByKey E active))) ∧
    (GetDelta E ns now id lt active dns http).2.Conns =
      determineConnectionIntraHost E (deltaAccounting E ns now id active).2.2.2 ∧
    (GetDelta E ns now id lt active dns http).1.config = ns.config := by
  rw [GetDelta_eq]
  have hsame := deltaFanIn_same E (deltaRegistry E ns now id lt active) dns http
  have hf1 : (deltaRegistry E ns now id lt active).clients.find? id =
      some (deltaAccounting E ns now id active).2.1 := GoMap.find?_insert_self _ _ _
  rcases sameClients_find? hsame.1 id with ⟨h, _⟩ | ⟨c, c₂, hc, hc₂, hs⟩
  · rw [hf1] at h; cases h
  · rw [hf1] at hc
    cases hc
    unfold deltaFinish
    rw [hc₂]
    exact ⟨⟨c₂, hs, GoMap.find?_insert_self _ _ _⟩, rfl,
      hsame.2.trans (deltaRegistry_config E ns now id lt active)⟩

/-! ## The index of the pending closed connections -/

theorem addConnections_identity (a b : ConnectionStats) :
    (addConnections a b).identity = a.identity := rfl

theorem ByteKey_addConnections (E : Env) (a b : ConnectionStats) :
    ByteKey E (addConnections a b) = ByteKey E a := by
  unfold ByteKey
  rw [addConnections_identity]

/-- In an indexed client the pending closed records have pairwise distinct,
encodable byte keys. -/
theorem client.indexed_nodup {E : Env} {cl : client} (h : cl.indexed E) :
    (cl.closedConnections.map (ByteKey E)).Nodup ∧
      ∀ a ∈ cl.closedConnections, ∃ k, ByteKey E a = some k := by
  obtain ⟨keys, _, _, h₂⟩ := h
  constructor
  · rw [List.nodup_iff_getElem?_ne_getElem?]
    intro i j hij hj
    rw [List.length_map] at hj
    have hi : i < cl.closedConnections.length := lt_trans hij hj
    obtain ⟨ki, hki, hfi⟩ := h₂ i _ (List.getElem?_eq_getElem hi)
    obtain ⟨kj, hkj, hfj⟩ := h₂ j _ (List.getElem?_eq_getElem hj)
    rw [List.getElem?_map, List.getElem?_map, List.getElem?_eq_getElem hi,
      List.getElem?_eq_getElem hj]
    simp only [Option.map_some']
    rw [hki, hkj]
    intro e
    have e' : ki = kj := by simpa using e
    subst e'
    rw [hfi] at hfj
    have : i = j := by simpa using hfj
    omega
  · intro a ha
    obtain ⟨j, hj, hja⟩ := List.getElem_of_mem ha
    obtain ⟨k, hk, _⟩ := h₂ j a (by rw [List.getElem?_eq_getElem hj, hja])
    exact ⟨k, hk⟩

/-- Storing one closed connection in an indexed client does not panic, keeps the
client indexed and below the cap, and touches nothing but the pending closed
connections, their index and capacity. -/
theorem storeClosedConnection_indexed (E : Env) (maxClosedConns : Int) (tel : telemetry)
    (cl : client) (c : ConnectionStats) (h : cl.indexed E) :
    ∃ r, storeClosedConnection E maxClosedConns tel cl c = some r ∧ r.2.indexed E ∧
      ((cl.closedConnections.length : Int) ≤ maxClosedConns →
        (r.2.closedConnections.length : Int) ≤ maxClosedConns) ∧
      r.2.lastFetch = cl.lastFetch ∧ r.2.stats = cl.stats ∧ r.2.dnsStats = cl.dnsStats ∧
      r.2.httpStatsDelta = cl.httpStatsDelta := by
  obtain ⟨keys, hkeys, h₁, h₂⟩ := h
  unfold storeClosedConnection
  cases hkey : ByteKey E c with
  | none => exact ⟨_, rfl, ⟨keys, hkeys, h₁, h₂⟩, id, rfl, rfl, rfl, rfl⟩
  | some key =>
    simp only [hkeys, Option.getD_some]
    cases hf : keys.find? key with
    | some i =>
      obtain ⟨a, ha, hak⟩ := h₁ key i hf
      have hi : i < cl.closedConnections.length := by
        rcases List.getElem?_eq_some_iff.1 ha with ⟨hi, _⟩
        exact hi
      simp only [ha]
      refine ⟨_, rfl, ⟨keys, rfl, ?_, ?_⟩, ?_, rfl, rfl, rfl, rfl⟩
      · intro k i' hk
        obtain ⟨a', ha', hak'⟩ := h₁ k i' hk
        by_cases hii : i = i'
        · subst hii
          rw [ha] at ha'
          cases ha'
          refine ⟨addConnections a c, ?_, ?_⟩
          · simp [List.getElem?_set_self hi]
          · rw [ByteKey_addConnections]; exact hak'
        · refine ⟨a', ?_, hak'⟩
          simp [List.getElem?_set_ne hii, ha']
      · intro j b hb
        by_cases hij : i = j
        · subst hij
          simp only [List.getElem?_set_self hi] at hb
          cases hb
          exact ⟨key, by rw [ByteKey_addConnections]; exact hak, hf⟩
        · simp only [List.getElem?_set_ne hij] at hb
          exact h₂ j b hb
      · intro hle
        simpa using hle
    | none =>
      dsimp only
      by_cases hfull : (cl.closedConnections.length : Int) ≥ maxClosedConns
      · rw [if_pos hfull]
        exact ⟨_, rfl, ⟨keys, hkeys, h₁, h₂⟩, id, rfl, rfl, rfl, rfl⟩
      · rw [if_neg hfull]
        refine ⟨_, rfl, ⟨_, rfl, ?_, ?_⟩, ?_, rfl, rfl, rfl, rfl⟩
        · intro k i' hk
          by_cases hkk : key = k
          · subst hkk
            rw [GoMap.find?_insert_self] at hk
            cases hk
            exact ⟨c, List.getElem?_concat_length _ _, hkey⟩
          · rw [GoMap.find?_insert_ne _ hkk] at hk
            obtain ⟨a', ha', hak'⟩ := h₁ k i' hk
            have hi' : i' < cl.closedConnections.length := by
              rcases List.getElem?_eq_some_iff.1 ha' with ⟨hi, _⟩
              exact hi
            exact ⟨a', by simpa [List.getElem?_append_left hi'] using ha', hak'⟩
        · intro j b hb
          by_cases hj : j < cl.closedConnections.length
          · simp only [List.getElem?_append_left hj] at hb
            obtain ⟨k, hk, hfk⟩ := h₂ j b hb
            have hkk : key ≠ k := by
              intro e
              subst e
              rw [hf] at hfk
              cases hfk
            exact ⟨k, hk, by rw [GoMap.find?_insert_ne _ hkk]; exact hfk⟩
          · have hj' : j = cl.closedConnections.length := by
              have hlt : j < (cl.closedConnections ++ [c]).length := by
                rcases List.getElem?_eq_some_iff.1 hb with ⟨hlt, _⟩
                exact hlt
              simp at hlt
              omega
            subst hj'
            rw [List.getElem?_concat_length] at hb
            cases hb
            exact ⟨key, hkey, GoMap.find?_insert_self _ _ _⟩
        · intro _
          simp only [List.length_append, List.length_singleton]
          push_cast
          omega

theorem storeClosedConnsClient_indexed (E : Env) (maxClosedConns : Int)
    (conns : List ConnectionStats) (tel : telemetry) (cl : client) (h : cl.indexed E) :
    ∃ r, storeClosedConnsClient E maxClosedConns tel cl conns = some r ∧ r.2.indexed E ∧
      ((cl.closedConnections.length : Int) ≤ maxClosedConns →
        (r.2.closedConnections.length : Int) ≤ maxClosedConns) ∧
      r.2.lastFetch = cl.lastFetch ∧ r.2.stats = cl.stats ∧ r.2.dnsStats = cl.dnsStats ∧
      r.2.httpStatsDelta = cl.httpStatsDelta := by
  induction conns generalizing tel cl with
  | nil => exact ⟨_, rfl, h, id, rfl, rfl, rfl, rfl⟩
  | cons c cs ih =>
    obtain ⟨r, hr, hri, hrb, hf₁, hf₂, hf₃, hf₄⟩ :=
      storeClosedConnection_indexed E maxClosedConns tel cl c h
    obtain ⟨r', hr', hri', hrb', hg₁, hg₂, hg₃, hg₄⟩ := ih r.1 r.2 hri
    refine ⟨r', ?_, hri', fun hb => hrb' (hrb hb), hg₁.trans hf₁, hg₂.trans hf₂,
      hg₃.trans hf₃, hg₄.trans hf₄⟩
    simp only [storeClosedConnsClient, hr]
    exact hr'

theorem storeClosedConnsClients_indexed (E : Env) (maxClosedConns : Int)
    (conns : List ConnectionStats) (tel : telemetry) (m : GoMap String client)
    (h : ∀ e ∈ m, e.2.indexed E) :
    ∃ r, storeClosedConnsClients E maxClosedConns conns tel m = some r ∧
      List.Forall₂ (closedStored E maxClosedConns) m r.2 := by
  induction m generalizing tel with
  | nil => exact ⟨_, rfl, List.Forall₂.nil⟩
  | cons e t ih =>
    obtain ⟨id, cl⟩ := e
    obtain ⟨r, hr, hri, hrb, hf⟩ :=
      storeClosedConnsClient_indexed E maxClosedConns conns tel cl
        (h (id, cl) (List.mem_cons_self _ _))
    obtain ⟨rs, hrs, hall⟩ := ih r.1 (fun e he => h e (List.mem_cons_of_mem _ he))
    refine ⟨(rs.1, (id, r.2) :: rs.2), ?_, List.Forall₂.cons ⟨rfl, hri, hrb, hf⟩ hall⟩
    simp only [storeClosedConnsClients, hr, hrs]

theorem closedStored_keys {E : Env} {maxClosedConns : Int} {m m' : GoMap String client}
    (h : List.Forall₂ (closedStored E maxClosedConns) m m') : m'.keys = m.keys := by
  induction h with
  | nil => rfl
  | cons hpq _ ih =>
    simp only [GoMap.keys, List.map_cons] at ih ⊢
    rw [ih, hpq.1]

theorem closedStored_mem {E : Env} {maxClosedConns : Int} {m m' : GoMap String client}
    (h : List.Forall₂ (closedStored E maxClosedConns) m m') {q : String × client}
    (hq : q ∈ m') : ∃ p ∈ m, closedStored E maxClosedConns p q := by
  induction h with
  | nil => simp at hq
  | @cons p₀ q₀ t t' hpq _ ih =>
    rcases List.mem_cons.1 hq with e | hq'
    · subst e
      exact ⟨p₀, List.mem_cons_self _ _, hpq⟩
    · obtain ⟨p, hp, hs⟩ := ih hq'
      exact ⟨p, List.mem_cons_of_mem _ hp, hs⟩

theorem sameClients_keys {m m' : GoMap String client} (h : sameClients m m') :
    m'.keys = m.keys := by
  induction h with
  | nil => rfl
  | cons hpq _ ih =>
    simp only [GoMap.keys, List.map_cons] at ih ⊢
    rw [ih, hpq.1]

theorem GoMap.mem_insert_nodup {κ ν : Type} [DecidableEq κ] {m : GoMap κ ν} {k : κ} {v : ν}
    {e : κ × ν} (hn : m.keys.Nodup) (h : e ∈ m.insert k v) :
    e = (k, v) ∨ (e ∈ m ∧ e.1 ≠ k) := by
  induction m with
  | nil => left; simpa [GoMap.insert] using h
  | cons e₀ t ih =>
    obtain ⟨k₀, v₀⟩ := e₀
    simp only [GoMap.keys, List.map_cons, List.nodup_cons] at hn
    by_cases h₀ : k₀ = k
    · subst h₀
      simp only [GoMap.insert, if_true, List.mem_cons] at h
      rcases h with h | h
      · exact Or.inl h
      · right
        refine ⟨List.mem_cons_of_mem _ h, ?_⟩
        intro e'
        exact hn.1 (e' ▸ GoMap.mem_keys_of_mem (show (e.1, e.2) ∈ t from h))
    · simp only [GoMap.insert, h₀, if_false, List.mem_cons] at h
      rcases h with h | h
      · right
        subst h
        exact ⟨List.mem_cons_self _ _, h₀⟩
      · rcases ih hn.2 h with h | h
        · exact Or.inl h
        · exact Or.inr ⟨List.mem_cons_of_mem _ h.1, h.2⟩

theorem GoMap.nodup_keys_filter {κ ν : Type} {m : GoMap κ ν} (p : κ × ν → Bool)
    (hn : m.keys.Nodup) : GoMap.keys (m.filter p) |>.Nodup :=
  List.Nodup.sublist ((List.filter_sublist m).map Prod.fst) hn

/-- The client table after `GetDelta`: its ids stay pairwise distinct, the entry
of the calling client is the accounted client reset against the active keys, and
every other entry is an entry of the old table up to its DNS and HTTP stats. -/
theorem GetDelta_clients (E : Env) (ns : networkState) (now : Int) (id : String) (lt : Nat)
    (active : List ConnectionStats) (dns : StatsByKeyByNameByType)
    (http : GoMap String RequestStats) (hn : ns.clients.keys.Nodup) :
    (GetDelta E ns now id lt active dns http).1.clients.keys.Nodup ∧
    ∀ e ∈ (GetDelta E ns now id lt active dns http).1.clients,
      (e.1 = id ∧ ∃ c₂, client.sameConns (deltaAccounting E ns now id active).2.1 c₂ ∧
          e.2 = c₂.Reset (getConnsByKey E active)) ∨
        (e.1 ≠ id ∧ ∃ c₀, (e.1, c₀) ∈ ns.clients ∧ client.sameConns c₀ e.2) := by
  rw [GetDelta_eq]
  have hsame := deltaFanIn_same E (deltaRegistry E ns now id lt active) dns http
  have hf1 : (deltaRegistry E ns now id lt active).clients.find? id =
      some (deltaAccounting E ns now id active).2.1 := GoMap.find?_insert_self _ _ _
  have hn₁ : (deltaRegistry E ns now id lt active).clients.keys.Nodup := by
    unfold deltaRegistry
    apply GoMap.nodup_keys_insert
    unfold getClient
    dsimp only
    split
    · exact hn
    · exact GoMap.nodup_keys_insert _ _ hn
  have hn₃ : (deltaFanIn E (deltaRegistry E ns now id lt active) dns http).clients.keys.Nodup := by
    rw [sameClients_keys hsame.1]; exact hn₁
  rcases sameClients_find? hsame.1 id with ⟨h, _⟩ | ⟨c, c₂, hc, hc₂, hs⟩
  · rw [hf1] at h; cases h
  · rw [hf1] at hc
    cases hc
    unfold deltaFinish
    rw [hc₂]
    refine ⟨GoMap.nodup_keys_insert _ _ hn₃, ?_⟩
    intro e he
    rcases GoMap.mem_insert_nodup hn₃ he with he | ⟨he, hne⟩
    · left
      subst he
      exact ⟨rfl, c₂, hs, rfl⟩
    · right
      refine ⟨hne, ?_⟩
      obtain ⟨c₀, hm, hs₀⟩ := sameClients_mem hsame.1 (show (e.1, e.2) ∈ _ from he)
      rcases deltaRegistry_mem E ns now id lt active hm with h | h | h
      · exact absurd (congrArg Prod.fst h) hne
      · exact absurd h.1 hne
      · exact ⟨c₀, h, hs₀⟩

/-! ## Well-formed registries -/

theorem client.indexed_of_sameConns {E : Env} {a b : client} (h : client.sameConns a b)
    (ha : a.indexed E) : b.indexed E := by
  obtain ⟨keys, hk, h₁, h₂⟩ := ha
  refine ⟨keys, h.2.1 ▸ hk, ?_, ?_⟩
  · rw [← h.2.2.1]; exact h₁
  · rw [← h.2.2.1]; exact h₂

theorem client.indexed_Reset (E : Env) (c : client) (active : GoMap String Nat) :
    (c.Reset active).indexed E := by
  refine ⟨[], rfl, ?_, ?_⟩
  · intro k i h
    simp [GoMap.find?] at h
  · intro j a h
    simp [client.Reset] at h

theorem config_maxClosedConns {a b : networkState} (h : a.config = b.config) :
    a.maxClosedConns = b.maxClosedConns := by
  have := congrArg (fun c => c.2.1) h
  simpa [networkState.config] using this

theorem NewState_wellFormed (E : Env) (clientExpiry maxClosedConns maxClientStats maxDNSStats
    maxHTTPStats : Int) :
    (NewState clientExpiry maxClosedConns maxClientStats maxDNSStats maxHTTPStats).wellFormed E := by
  refine ⟨?_, ?_, ?_⟩
  · simp [NewState, GoMap.keys]
  · intro e he; simp [NewState] at he
  · intro _ e he; simp [NewState] at he

theorem GetDelta_wellFormed (E : Env) (ns : networkState) (now : Int) (id : String) (lt : Nat)
    (active : List ConnectionStats) (dns : StatsByKeyByNameByType)
    (http : GoMap String RequestStats) (h : ns.wellFormed E) :
    (GetDelta E ns now id lt active dns http).1.wellFormed E := by
  obtain ⟨hn, hi, hb⟩ := h
  obtain ⟨hn', hmem⟩ := GetDelta_clients E ns now id lt active dns http hn
  have hcfg := (GetDelta_structure E ns now id lt active dns http).2.2
  refine ⟨hn', ?_, ?_⟩
  · intro e he
    rcases hmem e he with ⟨_, c₂, _, hc⟩ | ⟨_, c₀, hc₀, hs⟩
    · rw [hc]; exact client.indexed_Reset E _ _
    · exact client.indexed_of_sameConns hs (hi _ hc₀)
  · intro h0 e he
    rw [config_maxClosedConns hcfg] at h0 ⊢
    rcases hmem e he with ⟨_, c₂, _, hc⟩ | ⟨_, c₀, hc₀, hs⟩
    · rw [hc]; simpa [client.Reset] using h0
    · rw [← hs.2.2.1]; exact hb h0 _ hc₀

theorem StoreClosedConnections_wellFormed (E : Env) (ns : networkState)
    (closed : List ConnectionStats) (h : ns.wellFormed E) :
    ∃ ns', StoreClosedConnections E ns closed = some ns' ∧ ns'.wellFormed E ∧
      ns'.config = ns.config := by
  obtain ⟨hn, hi, hb⟩ := h
  obtain ⟨r, hr, hall⟩ :=
    storeClosedConnsClients_indexed E ns.maxClosedConns closed ns.telemetry ns.clients hi
  refine ⟨{ ns with telemetry := r.1, clients := r.2 }, ?_, ⟨?_, ?_, ?_⟩, rfl⟩
  · simp only [StoreClosedConnections, storeClosedConnections, hr]
  · show GoMap.keys r.2 |>.Nodup
    rw [closedStored_keys hall]; exact hn
  · intro e he
    obtain ⟨p, _, hs⟩ := closedStored_mem hall he
    exact hs.2.1
  · intro h0 e he
    obtain ⟨p, hp, hs⟩ := closedStored_mem hall he
    exact hs.2.2.1 (hb h0 p hp)

theorem RemoveConnections_wellFormed (E : Env) (ns : networkState) (keys : List String)
    (h : ns.wellFormed E) : (RemoveConnections ns keys).wellFormed E := by
  obtain ⟨hn, hi, hb⟩ := h
  refine ⟨?_, ?_, ?_⟩
  · simpa [RemoveConnections, GoMap.keys, Function.comp_def] using hn
  · intro e he
    simp only [RemoveConnections, List.mem_map] at he
    obtain ⟨p, hp, rfl⟩ := he
    exact hi p hp
  · intro h0 e he
    simp only [RemoveConnections, List.mem_map] at he
    obtain ⟨p, hp, rfl⟩ := he
    exact hb h0 p hp

theorem filter_wellFormed (E : Env) (ns : networkState) (p : String × client → Bool)
    (h : ns.wellFormed E) : networkState.wellFormed E { ns with clients := ns.clients.filter p } := by
  obtain ⟨hn, hi, hb⟩ := h
  exact ⟨GoMap.nodup_keys_filter p hn, fun e he => hi e (List.mem_of_mem_filter he),
    fun h0 e he => hb h0 e (List.mem_of_mem_filter he)⟩

/-- Every public operation runs without a panic on a well-formed registry and
leaves it well-formed, with the same configuration. -/
theorem Op.run_wellFormed (E : Env) (ns : networkState) (op : Op) (h : ns.wellFormed E) :
    ∃ ns', op.run E ns = some ns' ∧ ns'.wellFormed E ∧ ns'.config = ns.config := by
  cases op with
  | callGetDelta now id lt active dns http =>
    exact ⟨_, rfl, GetDelta_wellFormed E ns now id lt active dns http h,
      (GetDelta_structure E ns now id lt active dns http).2.2⟩
  | callStoreClosedConnections closed => exact StoreClosedConnections_wellFormed E ns closed h
  | callRemoveConnections keys => exact ⟨_, rfl, RemoveConnections_wellFormed E ns keys h, rfl⟩
  | callRemoveClient clientID => exact ⟨_, rfl, filter_wellFormed E ns _ h, rfl⟩
  | callRemoveExpiredClients now => exact ⟨_, rfl, filter_wellFormed E ns _ h, rfl⟩

/-- Every sequence of public operations runs without a panic from a well-formed
registry and ends in a well-formed registry with the same configuration. -/
theorem runOps_wellFormed (E : Env) (ops : List Op) (ns : networkState) (h : ns.wellFormed E) :
    ∃ ns', runOps E ns ops = some ns' ∧ ns'.wellFormed E ∧ ns'.config = ns.config := by
  induction ops generalizing ns with
  | nil => exact ⟨ns, rfl, h, rfl⟩
  | cons op ops ih =>
    obtain ⟨ns₁, h₁, hw₁, hc₁⟩ := Op.run_wellFormed E ns op h
    obtain ⟨ns₂, h₂, hw₂, hc₂⟩ := ih ns₁ hw₁
    exact ⟨ns₂, by simp only [runOps, h₁, h₂], hw₂, hc₂.trans hc₁⟩

/-! ## Accounting of one connection -/

theorem wsub_zero {w a : Nat} (h : a < 2 ^ w) : wsub w a 0 = a := by
  unfold wsub
  have hp : 0 < 2 ^ w := Nat.pos_of_ne_zero (by positivity)
  rw [Nat.zero_mod, Nat.sub_zero, Nat.add_mod_right, Nat.mod_eq_of_lt h]

theorem wsub_of_le {w a b : Nat} (hb : b ≤ a) (h : a < 2 ^ w) : wsub w a b = a - b := by
  unfold wsub
  have hb' : b < 2 ^ w := lt_of_le_of_lt hb h
  rw [Nat.mod_eq_of_lt hb']
  have : a + (2 ^ w - b) = (a - b) + 2 ^ w := by omega
  rw [this, Nat.add_mod_right, Nat.mod_eq_of_lt (by omega)]

theorem wsub_self (w a : Nat) : wsub w a a = 0 := by
  unfold wsub
  have hp : 0 < 2 ^ w := Nat.pos_of_ne_zero (by positivity)
  have hlt : a % 2 ^ w < 2 ^ w := Nat.mod_lt _ hp
  have h : a + (2 ^ w - a % 2 ^ w) = 2 ^ w * (a / 2 ^ w + 1) := by
    have := Nat.div_add_mod a (2 ^ w)
    rw [Nat.mul_add, Nat.mul_one]
    omega
  rw [h, Nat.mul_mod_right]

theorem wsub_lt (w a b : Nat) : wsub w a b < 2 ^ w :=
  Nat.mod_lt _ (Nat.pos_of_ne_zero (by positivity))

theorem createStatsForKey_sameClosed (maxClientStats : Int) (tel : telemetry) (cl : client)
    (key : String) : client.sameClosed (createStatsForKey maxClientStats tel cl key).2 cl := by
  unfold createStatsForKey
  split
  · exact ⟨rfl, rfl, rfl, rfl, rfl, rfl⟩
  · split <;> exact ⟨rfl, rfl, rfl, rfl, rfl, rfl⟩

theorem createStatsForKey_find?_ne (maxClientStats : Int) (tel : telemetry) (cl : client)
    {key k : String} (h : key ≠ k) :
    (createStatsForKey maxClientStats tel cl key).2.stats.find? k = cl.stats.find? k := by
  unfold createStatsForKey
  split
  · rfl
  · split
    · rfl
    · exact GoMap.find?_insert_ne _ h _

theorem createStatsForKey_find?_some (maxClientStats : Int) (tel : telemetry) (cl : client)
    {key : String} {t : stats} (h : cl.stats.find? key = some t) :
    createStatsForKey maxClientStats tel cl key = (tel, cl) := by
  unfold createStatsForKey
  rw [h]

theorem createStatsForKey_find?_self (maxClientStats : Int) (tel : telemetry) (cl : client)
    (key : String) :
    (createStatsForKey maxClientStats tel cl key).2.stats.find? key = cl.stats.find? key ∨
      (cl.stats.find? key = none ∧
        (createStatsForKey maxClientStats tel cl key).2.stats.find? key = some stats.zero) := by
  unfold createStatsForKey
  split
  · exact Or.inl rfl
  · rename_i hnone
    split
    · exact Or.inl rfl
    · exact Or.inr ⟨hnone, GoMap.find?_insert_self _ _ _⟩

theorem updateConnWithStats_sameClosed (tel : telemetry) (cl : client) (key : String)
    (c : ConnectionStats) : client.sameClosed (updateConnWithStats tel cl key c).2.1 cl := by
  unfold updateConnWithStats
  split <;> exact ⟨rfl, rfl, rfl, rfl, rfl, rfl⟩

theorem updateConnWithStats_find?_ne (tel : telemetry) (cl : client) {key k : String}
    (c : ConnectionStats) (h : key ≠ k) :
    (updateConnWithStats tel cl key c).2.1.stats.find? k = cl.stats.find? k := by
  unfold updateConnWithStats
  split
  · exact GoMap.find?_insert_ne _ h _
  · rfl

theorem updateConnWithStats_sameMonotonic (tel : telemetry) (cl : client) (key : String)
    (c : ConnectionStats) : sameMonotonic (updateConnWithStats tel cl key c).2.2 c := by
  unfold updateConnWithStats
  split <;> exact ⟨rfl, rfl, rfl, rfl, rfl, rfl, rfl, rfl, rfl⟩

/-- After `updateConnWithStats` the totals stored under the key, if any, are the
monotonic counters of the connection. -/
theorem updateConnWithStats_totals (tel : telemetry) (cl : client) (key : String)
    (c : ConnectionStats) :
    (cl.stats.find? key = none ∧ (updateConnWithStats tel cl key c).2.1.stats.find? key = none) ∨
      ∃ t, (updateConnWithStats tel cl key c).2.1.stats.find? key = some t ∧ totalsMatch t c := by
  unfold updateConnWithStats
  split
  · right
    exact ⟨_, GoMap.find?_insert_self _ _ _, rfl, rfl, rfl, rfl, rfl, rfl, rfl⟩
  · rename_i h
    exact Or.inl ⟨h, h⟩

/-- The connection and the totals `updateConnWithStats` produces depend on the
client only through the totals stored under the key. -/
theorem updateConnWithStats_congr (tel tel' : telemetry) (cl cl' : client) (key : String)
    (c : ConnectionStats) (h : cl.stats.find? key = cl'.stats.find? key) :
    (updateConnWithStats tel cl key c).2.2 = (updateConnWithStats tel' cl' key c).2.2 ∧
      (updateConnWithStats tel cl key c).2.1.stats.find? key =
        (updateConnWithStats tel' cl' key c).2.1.stats.find? key := by
  unfold updateConnWithStats
  rw [h]
  cases cl'.stats.find? key with
  | none => exact ⟨rfl, h⟩
  | some t =>
    dsimp only
    refine ⟨?_, ?_⟩
    · unfold handleStatsUnderflow
      split <;> rfl
    · rw [GoMap.find?_insert_self, GoMap.find?_insert_self]

/-! ## The key-to-connection map -/

theorem getConnsByKeyFrom_spec (E : Env) (l pre : List ConnectionStats) (m : GoMap String Nat)
    (hn : m.keys.Nodup)
    (hv : ∀ k i, m.find? k = some i → ∃ c, (pre ++ l)[i]? = some c ∧ ByteKey E c = some k) :
    (getConnsByKeyFrom E l pre.length m).keys.Nodup ∧
      ∀ k i, (getConnsByKeyFrom E l pre.length m).find? k = some i →
        ∃ c, (pre ++ l)[i]? = some c ∧ ByteKey E c = some k := by
  induction l generalizing pre m with
  | nil => exact ⟨hn, hv⟩
  | cons c cs ih =>
    have hlen : (pre ++ [c]).length = pre.length + 1 := by simp
    have happ : (pre ++ [c]) ++ cs = pre ++ c :: cs := by simp
    unfold getConnsByKeyFrom
    cases hk : ByteKey E c with
    | none =>
      dsimp only
      rw [← hlen, ← happ]
      exact ih (pre ++ [c]) m hn (by rw [happ]; exact hv)
    | some key =>
      dsimp only
      rw [← hlen, ← happ]
      refine ih (pre ++ [c]) (m.insert key pre.length) (GoMap.nodup_keys_insert _ _ hn) ?_
      intro k i hf
      rw [happ]
      by_cases hkk : key = k
      · subst hkk
        rw [GoMap.find?_insert_self] at hf
        cases hf
        refine ⟨c, ?_, hk⟩
        rw [List.getElem?_append_right (le_refl _)]
        simp
      · rw [GoMap.find?_insert_ne _ hkk] at hf
        exact hv k i hf

/-- The keys of `getConnsByKey` are pairwise distinct and every entry points at a
record of the slice whose byte key is the entry's key. -/
theorem getConnsByKey_spec (E : Env) (active : List ConnectionStats) :
    (getConnsByKey E active).keys.Nodup ∧
      ∀ k i, (getConnsByKey E active).find? k = some i →
        ∃ c, active[i]? = some c ∧ ByteKey E c = some k := by
  have := getConnsByKeyFrom_spec E active [] [] (by simp [GoMap.keys])
    (by intro k i h; simp [GoMap.find?] at h)
  simpa [getConnsByKey] using this

theorem getConnsByKeyFrom_last (E : Env) (l pre : List ConnectionStats) (m : GoMap String Nat)
    (hv : ∀ k i, m.find? k = some i →
      ∀ j c', i < j → j < pre.length → (pre ++ l)[j]? = some c' → ByteKey E c' ≠ some k) :
    ∀ k i, (getConnsByKeyFrom E l pre.length m).find? k = some i →
      ∀ j c', i < j → (pre ++ l)[j]? = some c' → ByteKey E c' ≠ some k := by
  induction l generalizing pre m with
  | nil =>
    intro k i hf j c' hij hc'
    have hj : j < (pre ++ []).length := (List.getElem?_eq_some_iff.1 hc').1
    exact hv k i hf j c' hij (by simpa using hj) hc'
  | cons c cs ih =>
    have hlen : (pre ++ [c]).length = pre.length + 1 := by simp
    have happ : (pre ++ [c]) ++ cs = pre ++ c :: cs := by simp
    have hcat : (pre ++ c :: cs)[pre.length]? = some c := by
      rw [List.getElem?_append_right (le_refl _)]
      simp
    unfold getConnsByKeyFrom
    cases hk : ByteKey E c with
    | none =>
      dsimp only
      rw [← hlen, ← happ]
      apply ih (pre ++ [c]) m
      intro k i hf j c' hij hj hc'
      rw [happ] at hc'
      rw [hlen] at hj
      by_cases hjn : j = pre.length
      · subst hjn
        rw [hcat] at hc'
        cases hc'
        rw [hk]
        exact fun h => by cases h
      · exact hv k i hf j c' hij (by omega) hc'
    | some key =>
      dsimp only
      rw [← hlen, ← happ]
      apply ih (pre ++ [c]) (m.insert key pre.length)
      intro k i hf j c' hij hj hc'
      rw [happ] at hc'
      rw [hlen] at hj
      by_cases hkk : key = k
      · subst hkk
        rw [GoMap.find?_insert_self] at hf
        cases hf
        omega
      · rw [GoMap.find?_insert_ne _ hkk] at hf
        by_cases hjn : j = pre.length
        · subst hjn
          rw [hcat] at hc'
          cases hc'
          rw [hk]
          exact fun h => hkk (Option.some.inj h)
        · exact hv k i hf j c' hij (by omega) hc'

/-- The record `getConnsByKey` holds for a key is the last record of the slice
with that byte key. -/
theorem getConnsByKey_last (E : Env) (active : List ConnectionStats) (k : String) (i : Nat)
    (hf : (getConnsByKey E active).find? k = some i) :
    ∀ j c', i < j → active[j]? = some c' → ByteKey E c' ≠ some k := by
  have := getConnsByKeyFrom_last E active [] []
    (by intro k i h; simp [GoMap.find?] at h) k i (by simpa [getConnsByKey] using hf)
  simpa using this

theorem getConnsByKeyFrom_find?_of_no_key (E : Env) (l : List ConnectionStats) (n : Nat)
    (m : GoMap String Nat) (k : String) (h : ∀ c' ∈ l, ByteKey E c' ≠ some k) :
    (getConnsByKeyFrom E l n m).find? k = m.find? k := by
  induction l generalizing n m with
  | nil => rfl
  | cons c cs ih =>
    unfold getConnsByKeyFrom
    cases hk : ByteKey E c with
    | none => exact ih _ _ (fun c' hc' => h c' (List.mem_cons_of_mem _ hc'))
    | some key =>
      dsimp only
      rw [ih _ _ (fun c' hc' => h c' (List.mem_cons_of_mem _ hc'))]
      apply GoMap.find?_insert_ne
      intro e
      exact h c (List.mem_cons_self _ _) (by rw [hk, e])

theorem getConnsByKeyFrom_of_last (E : Env) (l pre : List ConnectionStats) (m : GoMap String Nat)
    (k : String) (i : Nat) (c : ConnectionStats) (hi : pre.length ≤ i)
    (hc : (pre ++ l)[i]? = some c) (hk : ByteKey E c = some k)
    (hlast : ∀ (j : Nat) (c' : ConnectionStats), i < j → (pre ++ l)[j]? = some c' →
      ByteKey E c' ≠ some k) :
    (getConnsByKeyFrom E l pre.length m).find? k = some i := by
  induction l generalizing pre m with
  | nil =>
    have : i < (pre ++ []).length := (List.getElem?_eq_some_iff.1 hc).1
    simp at this
    omega
  | cons x xs ih =>
    have hlen : (pre ++ [x]).length = pre.length + 1 := by simp
    have happ : (pre ++ [x]) ++ xs = pre ++ x :: xs := by simp
    have hcat : (pre ++ x :: xs)[pre.length]? = some x := by
      rw [List.getElem?_append_right (le_refl _)]
      simp
    by_cases hip : i = pre.length
    · subst hip
      rw [hcat] at hc
      cases hc
      simp only [getConnsByKeyFrom, hk]
      rw [getConnsByKeyFrom_find?_of_no_key, GoMap.find?_insert_self]
      intro c' hc'
      obtain ⟨j, hj, hjc⟩ := List.getElem_of_mem hc'
      apply hlast (pre.length + 1 + j) c' (by omega)
      rw [List.getElem?_append_right (by omega)]
      have : pre.length + 1 + j - pre.length = j + 1 := by omega
      rw [this, List.getElem?_cons_succ, List.getElem?_eq_getElem hj, hjc]
    · unfold getConnsByKeyFrom
      cases hkx : ByteKey E x with
      | none =>
        dsimp only
        rw [← hlen]
        exact ih (pre ++ [x]) m (by rw [hlen]; omega) (by rw [happ]; exact hc)
          (by rw [happ]; exact hlast)
      | some key =>
        dsimp only
        rw [← hlen]
        exact ih (pre ++ [x]) _ (by rw [hlen]; omega) (by rw [happ]; exact hc)
          (by rw [happ]; exact hlast)

/-- The last record of the slice with a given byte key is the one `getConnsByKey`
holds for that key. -/
theorem getConnsByKey_of_last (E : Env) (active : List ConnectionStats) (k : String) (i : Nat)
    (c : ConnectionStats) (hc : active[i]? = some c) (hk : ByteKey E c = some k)
    (hlast : ∀ (j : Nat) (c' : ConnectionStats), i < j → active[j]? = some c' →
      ByteKey E c' ≠ some k) :
    (getConnsByKey E active).find? k = some i := by
  have := getConnsByKeyFrom_of_last E active [] [] k i c (by simp) (by simpa using hc) hk
    (by simpa using hlast)
  simpa [getConnsByKey] using this

/-- The entries a `range` loop over `getConnsByKey` visits: pairwise distinct,
valid, exactly the entries of the map, and no two of them share an index. -/
theorem rangeOrder_spec (E : Env) (active : List ConnectionStats) :
    (E.rangeOrder (getConnsByKey E active)).Nodup ∧
      validEntries E active (E.rangeOrder (getConnsByKey E active)) ∧
      (∀ k i, (k, i) ∈ E.rangeOrder (getConnsByKey E active) ↔
        (getConnsByKey E active).find? k = some i) ∧
      ∀ e ∈ E.rangeOrder (getConnsByKey E active),
        ∀ e' ∈ E.rangeOrder (getConnsByKey E active), (e.1 = e'.1 ∨ e.2 = e'.2) → e = e' := by
  obtain ⟨hn, hv⟩ := getConnsByKey_spec E active
  have hp := E.rangeOrder_perm (getConnsByKey E active)
  have hmem : ∀ k i, (k, i) ∈ E.rangeOrder (getConnsByKey E active) ↔
      (getConnsByKey E active).find? k = some i := by
    intro k i
    rw [hp.mem_iff]
    exact ⟨GoMap.find?_of_mem_nodup hn, GoMap.mem_of_find?⟩
  have hval : validEntries E active (E.rangeOrder (getConnsByKey E active)) := by
    intro e he
    exact hv e.1 e.2 ((hmem e.1 e.2).1 he)
  refine ⟨?_, hval, hmem, ?_⟩
  · have : (E.rangeOrder (getConnsByKey E active)).keys.Nodup :=
      (List.Perm.nodup_iff (List.Perm.map Prod.fst hp)).2 hn
    exact List.Nodup.of_map _ this
  · intro e he e' he' h
    have h₁ := (hmem e.1 e.2).1 he
    have h₂ := (hmem e'.1 e'.2).1 he'
    have hkey : e.1 = e'.1 := by
      rcases h with h | h
      · exact h
      · obtain ⟨c, hc, hk⟩ := hval e he
        obtain ⟨c', hc', hk'⟩ := hval e' he'
        rw [h, hc'] at hc
        cases hc
        rw [hk'] at hk
        exact (Option.some.inj hk).symm
    rw [hkey, h₂] at h₁
    exact Prod.ext hkey (Option.some.inj h₁).symm

/-! ## Loops that reach one entry -/

theorem foldl_preserve {σ ε : Type} (step : σ → ε → σ) (Q : σ → Prop) (L : List ε)
    (h : ∀ s e, e ∈ L → Q s → Q (step s e)) (s : σ) (hs : Q s) : Q (L.foldl step s) := by
  induction L generalizing s with
  | nil => exact hs
  | cons e t ih =>
    exact ih (fun s e' he' => h s e' (List.mem_cons_of_mem _ he')) _
      (h s e (List.mem_cons_self _ _) hs)

/-- A loop over pairwise distinct entries: if `P` holds until the entry `e₀` is
visited, visiting `e₀` under `P` establishes `Q`, and `Q` survives the visits of
the other entries, then `Q` holds at the end. -/
theorem foldl_hit {σ ε : Type} (step : σ → ε → σ) (P Q : σ → Prop) (e₀ : ε) (L : List ε)
    (hn : L.Nodup) (hmem : e₀ ∈ L)
    (hP : ∀ s e, e ∈ L → e ≠ e₀ → P s → P (step s e))
    (hQ : ∀ s e, e ∈ L → e ≠ e₀ → Q s → Q (step s e))
    (hit : ∀ s, P s → Q (step s e₀)) (s : σ) (hs : P s) : Q (L.foldl step s) := by
  induction L generalizing s with
  | nil => simp at hmem
  | cons e t ih =>
    rw [List.nodup_cons] at hn
    by_cases he : e = e₀
    · subst he
      refine foldl_preserve step Q t ?_ _ (hit s hs)
      intro s' e' he' hq
      exact hQ s' e' (List.mem_cons_of_mem _ he') (fun h => hn.1 (h ▸ he')) hq
    · have hmem' : e₀ ∈ t := by
        rcases List.mem_cons.1 hmem with h | h
        · exact absurd h.symm he
        · exact h
      exact ih hn.2 hmem' (fun s e' he' => hP s e' (List.mem_cons_of_mem _ he'))
        (fun s e' he' => hQ s e' (List.mem_cons_of_mem _ he')) _
        (hP s e (List.mem_cons_self _ _) he hs)

/-! ## Frame of the merge loops -/

theorem client.sameClosed_trans {a b c : client} (h₁ : client.sameClosed a b)
    (h₂ : client.sameClosed b c) : client.sameClosed a c :=
  ⟨h₁.1.trans h₂.1, h₁.2.1.trans h₂.2.1, h₁.2.2.1.trans h₂.2.2.1, h₁.2.2.2.1.trans h₂.2.2.2.1,
    h₁.2.2.2.2.1.trans h₂.2.2.2.2.1, h₁.2.2.2.2.2.trans h₂.2.2.2.2.2⟩

theorem updateConnWithStatWithActiveConn_sameClosed (tel : telemetry) (cl : client)
    (key : String) (active closed : ConnectionStats) :
    client.sameClosed (updateConnWithStatWithActiveConn tel cl key active closed).2.1 cl := by
  unfold updateConnWithStatWithActiveConn
  split <;> exact ⟨rfl, rfl, rfl, rfl, rfl, rfl⟩

theorem updateConnWithStatWithActiveConn_find?_ne (tel : telemetry) (cl : client)
    {key k : String} (active closed : ConnectionStats) (h : key ≠ k) :
    (updateConnWithStatWithActiveConn tel cl key active closed).2.1.stats.find? k =
      cl.stats.find? k := by
  unfold updateConnWithStatWithActiveConn
  split
  · exact GoMap.find?_insert_ne _ h _
  · rfl

theorem updateConnWithStatWithActiveConn_sameMonotonic (tel : telemetry) (cl : client)
    (key : String) (active closed : ConnectionStats) :
    sameMonotonic (updateConnWithStatWithActiveConn tel cl key active closed).2.2 closed := by
  unfold updateConnWithStatWithActiveConn
  split <;> exact ⟨rfl, rfl, rfl, rfl, rfl, rfl, rfl, rfl, rfl⟩

theorem ByteKey_of_sameMonotonic (E : Env) {a b : ConnectionStats} (h : sameMonotonic a b) :
    ByteKey E a = ByteKey E b := by
  unfold ByteKey
  rw [h.1]

/-- One step of the closed loop leaves the closed-connection fields of the
client alone, keeps the identity of the record, and changes no totals other
than those stored under the byte key of the record. -/
theorem mergeClosedConn_frame (E : Env) (maxClientStats : Int) (active : List ConnectionStats)
    (connsByKey : GoMap String Nat) (tel : telemetry) (cl : client) (x : ConnectionStats) :
    client.sameClosed (mergeClosedConn E maxClientStats active connsByKey tel cl x).2.1 cl ∧
      (mergeClosedConn E maxClientStats active connsByKey tel cl x).2.2.identity = x.identity ∧
      ∀ k, ByteKey E x ≠ some k →
        (mergeClosedConn E maxClientStats active connsByKey tel cl x).2.1.stats.find? k =
          cl.stats.find? k := by
  unfold mergeClosedConn
  cases hkey : ByteKey E x with
  | none => exact ⟨⟨rfl, rfl, rfl, rfl, rfl, rfl⟩, rfl, fun _ _ => rfl⟩
  | some key =>
    dsimp only
    have hne : ∀ k, some key ≠ some k → key ≠ k := fun k h e => h (congrArg some e)
    cases activeConnFor active connsByKey key with
    | none =>
      exact ⟨updateConnWithStats_sameClosed _ _ _ _, (updateConnWithStats_sameMonotonic _ _ _ _).1,
        fun k h => updateConnWithStats_find?_ne _ _ _ (hne k h)⟩
    | some activeConn =>
      dsimp only
      split
      · exact ⟨updateConnWithStats_sameClosed _ _ _ _,
          (updateConnWithStats_sameMonotonic _ _ _ _).1,
          fun k h => updateConnWithStats_find?_ne _ _ _ (hne k h)⟩
      · split
        · have hsc := client.sameClosed_trans
            (updateConnWithStatWithActiveConn_sameClosed
              (createStatsForKey maxClientStats tel cl key).1
              (createStatsForKey maxClientStats tel cl key).2 key activeConn
              (addConnections x activeConn))
            (createStatsForKey_sameClosed maxClientStats tel cl key)
          have hid := (updateConnWithStatWithActiveConn_sameMonotonic
              (createStatsForKey maxClientStats tel cl key).1
              (createStatsForKey maxClientStats tel cl key).2 key activeConn
              (addConnections x activeConn)).1
          rw [addConnections_identity] at hid
          have hfind : ∀ k, key ≠ k →
              (updateConnWithStatWithActiveConn (createStatsForKey maxClientStats tel cl key).1
                (createStatsForKey maxClientStats tel cl key).2 key activeConn
                (addConnections x activeConn)).2.1.stats.find? k = cl.stats.find? k := by
            intro k h
            rw [updateConnWithStatWithActiveConn_find?_ne _ _ _ _ h,
              createStatsForKey_find?_ne _ _ _ h]
          refine ⟨?_, hid, ?_⟩
          · split
            · exact ⟨hsc.1, hsc.2.1, hsc.2.2.1, hsc.2.2.2.1, hsc.2.2.2.2.1, hsc.2.2.2.2.2⟩
            · exact hsc
          · intro k h
            split
            · dsimp only
              rw [GoMap.find?_insert_ne _ (hne k h)]
              exact hfind k (hne k h)
            · exact hfind k (hne k h)
        · exact ⟨updateConnWithStats_sameClosed _ _ _ _,
            (updateConnWithStats_sameMonotonic _ _ _ _).1,
            fun k h => updateConnWithStats_find?_ne _ _ _ (hne k h)⟩

/-- The closed loop leaves the closed-connection fields of the client alone,
keeps the number and the identities of the records, and changes no totals
stored under a key that is not the byte key of one of the records. -/
theorem mergeClosedConns_frame (E : Env) (maxClientStats : Int) (active : List ConnectionStats)
    (connsByKey : GoMap String Nat) (tel : telemetry) (cl : client)
    (closed : List ConnectionStats) :
    client.sameClosed (mergeClosedConns E maxClientStats active connsByKey tel cl closed).2.1 cl ∧
      (mergeClosedConns E maxClientStats active connsByKey tel cl closed).2.2.map
        ConnectionStats.identity = closed.map ConnectionStats.identity ∧
      ∀ k, (∀ x ∈ closed, ByteKey E x ≠ some k) →
        (mergeClosedConns E maxClientStats active connsByKey tel cl closed).2.1.stats.find? k =
          cl.stats.find? k := by
  induction closed generalizing tel cl with
  | nil => exact ⟨⟨rfl, rfl, rfl, rfl, rfl, rfl⟩, rfl, fun _ _ => rfl⟩
  | cons x rest ih =>
    obtain ⟨h₁, h₂, h₃⟩ := mergeClosedConn_frame E maxClientStats active connsByKey tel cl x
    obtain ⟨g₁, g₂, g₃⟩ := ih (mergeClosedConn E maxClientStats active connsByKey tel cl x).1
      (mergeClosedConn E maxClientStats active connsByKey tel cl x).2.1
    refine ⟨client.sameClosed_trans g₁ h₁, ?_, ?_⟩
    · simp only [mergeClosedConns, List.map_cons, h₂, g₂]
    · intro k hk
      simp only [mergeClosedConns]
      rw [g₃ k (fun y hy => hk y (List.mem_cons_of_mem _ hy)),
        h₃ k (hk x (List.mem_cons_self _ _))]

theorem mergeActiveConn_other (maxClientStats : Int)
    (s : telemetry × client × List ConnectionStats × List ConnectionStats) (e : String × Nat)
    {k : String} {i : Nat} (hk : e.1 ≠ k) (hi : e.2 ≠ i) :
    (mergeActiveConn maxClientStats s e).2.1.stats.find? k = s.2.1.stats.find? k ∧
      client.sameClosed (mergeActiveConn maxClientStats s e).2.1 s.2.1 ∧
      (mergeActiveConn maxClientStats s e).2.2.1[i]? = s.2.2.1[i]? ∧
      ∀ r ∈ s.2.2.2, r ∈ (mergeActiveConn maxClientStats s e).2.2.2 := by
  unfold mergeActiveConn
  split
  · exact ⟨rfl, ⟨rfl, rfl, rfl, rfl, rfl, rfl⟩, rfl, fun _ h => h⟩
  · split
    · exact ⟨rfl, ⟨rfl, rfl, rfl, rfl, rfl, rfl⟩, rfl, fun _ h => h⟩
    · dsimp only
      refine ⟨?_, ?_, List.getElem?_set_ne hi, fun r hr => List.mem_append_left _ hr⟩
      · rw [updateConnWithStats_find?_ne _ _ _ hk, createStatsForKey_find?_ne _ _ _ hk]
      · exact client.sameClosed_trans (updateConnWithStats_sameClosed _ _ _ _)
          (createStatsForKey_sameClosed _ _ _ _)

/-- The active loop of `mergeConnections`, seen from one key `k` of the map that
has no pending closed record: the record `c` the key points at goes through
`updateConnWithStats` on a client whose totals for `k` are those held before the
loop (or fresh zero totals if none were held), the result is appended to the
buffer, and the totals it leaves under `k` are those after the loop. -/
theorem mergeActiveLoop_reach (E : Env) (maxClientStats : Int) (active : List ConnectionStats)
    (k : String) (i : Nat) (c : ConnectionStats)
    (hf : (getConnsByKey E active).find? k = some i)
    (s : telemetry × client × List ConnectionStats × List ConnectionStats)
    (hc : s.2.2.1[i]? = some c)
    (hclosed : (s.2.1.closedConnectionsKeys.getD []).find? k = none) :
    ∃ tel' cl', (cl'.stats.find? k = s.2.1.stats.find? k ∨
        (s.2.1.stats.find? k = none ∧ cl'.stats.find? k = some stats.zero)) ∧
      (updateConnWithStats tel' cl' k c).2.2 ∈
        ((E.rangeOrder (getConnsByKey E active)).foldl (mergeActiveConn maxClientStats)
          s).2.2.2 ∧
      ((E.rangeOrder (getConnsByKey E active)).foldl (mergeActiveConn maxClientStats)
          s).2.1.stats.find? k = (updateConnWithStats tel' cl' k c).2.1.stats.find? k := by
  obtain ⟨hn, _, hmem, hinj⟩ := rangeOrder_spec E active
  have hne : ∀ e ∈ E.rangeOrder (getConnsByKey E active), e ≠ (k, i) → e.1 ≠ k ∧ e.2 ≠ i := by
    intro e he hne
    constructor
    · intro h
      exact hne (hinj e he (k, i) ((hmem k i).2 hf) (Or.inl h))
    · intro h
      exact hne (hinj e he (k, i) ((hmem k i).2 hf) (Or.inr h))
  refine foldl_hit (mergeActiveConn maxClientStats)
    (fun s' => s'.2.1.stats.find? k = s.2.1.stats.find? k ∧ s'.2.2.1[i]? = some c ∧
      (s'.2.1.closedConnectionsKeys.getD []).find? k = none)
    (fun s' => ∃ tel' cl', (cl'.stats.find? k = s.2.1.stats.find? k ∨
        (s.2.1.stats.find? k = none ∧ cl'.stats.find? k = some stats.zero)) ∧
      (updateConnWithStats tel' cl' k c).2.2 ∈ s'.2.2.2 ∧
      s'.2.1.stats.find? k = (updateConnWithStats tel' cl' k c).2.1.stats.find? k)
    (k, i) _ hn ((hmem k i).2 hf) ?_ ?_ ?_ s ⟨rfl, hc, hclosed⟩
  · intro s' e he hne' hP
    obtain ⟨h₁, h₂, h₃, _⟩ := mergeActiveConn_other maxClientStats s' e (hne e he hne').1
      (hne e he hne').2
    exact ⟨h₁.trans hP.1, h₃.trans hP.2.1, by rw [h₂.2.1]; exact hP.2.2⟩
  · intro s' e he hne' hQ
    obtain ⟨tel', cl', hq₁, hq₂, hq₃⟩ := hQ
    obtain ⟨h₁, _, _, h₄⟩ := mergeActiveConn_other maxClientStats s' e (hne e he hne').1
      (hne e he hne').2
    exact ⟨tel', cl', hq₁, h₄ _ hq₂, h₁.trans hq₃⟩
  · intro s' hP
    obtain ⟨hP₁, hP₂, hP₃⟩ := hP
    refine ⟨(createStatsForKey maxClientStats s'.1 s'.2.1 k).1,
      (createStatsForKey maxClientStats s'.1 s'.2.1 k).2, ?_, ?_, ?_⟩
    · rcases createStatsForKey_find?_self maxClientStats s'.1 s'.2.1 k with h | h
      · exact Or.inl (h.trans hP₁)
      · exact Or.inr ⟨hP₁ ▸ h.1, h.2⟩
    · simp only [mergeActiveConn, hP₃, hP₂]
      exact List.mem_append_right _ (List.mem_singleton_self _)
    · simp only [mergeActiveConn, hP₃, hP₂]

theorem firstDeltaConn_other (maxClientStats : Int)
    (s : telemetry × client × List ConnectionStats) (e : String × Nat)
    {k : String} {i : Nat} (hk : e.1 ≠ k) (hi : e.2 ≠ i) :
    (firstDeltaConn maxClientStats s e).2.1.stats.find? k = s.2.1.stats.find? k ∧
      client.sameClosed (firstDeltaConn maxClientStats s e).2.1 s.2.1 ∧
      (firstDeltaConn maxClientStats s e).2.2[i]? = s.2.2[i]? := by
  unfold firstDeltaConn
  split
  · exact ⟨rfl, ⟨rfl, rfl, rfl, rfl, rfl, rfl⟩, rfl⟩
  · dsimp only
    refine ⟨?_, ?_, List.getElem?_set_ne hi⟩
    · rw [updateConnWithStats_find?_ne _ _ _ hk, createStatsForKey_find?_ne _ _ _ hk]
    · exact client.sameClosed_trans (updateConnWithStats_sameClosed _ _ _ _)
        (createStatsForKey_sameClosed _ _ _ _)

/-- The loop of `GetDelta` for a new client, seen from one key `k` of the map:
the record `c` the key points at goes through `updateConnWithStats` on a client
whose totals for `k` are those held before the loop (or fresh zero totals), five
of its last counters are then zeroed in place, and the totals left under `k` are
those after the loop. -/
theorem firstDeltaLoop_reach (E : Env) (maxClientStats : Int) (active : List ConnectionStats)
    (k : String) (i : Nat) (c : ConnectionStats)
    (hf : (getConnsByKey E active).find? k = some i)
    (s : telemetry × client × List ConnectionStats) (hc : s.2.2[i]? = some c) :
    ∃ tel' cl', (cl'.stats.find? k = s.2.1.stats.find? k ∨
        (s.2.1.stats.find? k = none ∧ cl'.stats.find? k = some stats.zero)) ∧
      ((E.rangeOrder (getConnsByKey E active)).foldl (firstDeltaConn maxClientStats)
          s).2.2[i]? =
        some { (updateConnWithStats tel' cl' k c).2.2 with
          LastSentBytes := 0
          LastRecvBytes := 0
          LastRetransmits := 0
          LastTCPEstablished := 0
          LastTCPClosed := 0 } ∧
      ((E.rangeOrder (getConnsByKey E active)).foldl (firstDeltaConn maxClientStats)
          s).2.1.stats.find? k = (updateConnWithStats tel' cl' k c).2.1.stats.find? k := by
  obtain ⟨hn, _, hmem, hinj⟩ := rangeOrder_spec E active
  have hne : ∀ e ∈ E.rangeOrder (getConnsByKey E active), e ≠ (k, i) → e.1 ≠ k ∧ e.2 ≠ i := by
    intro e he hne
    constructor
    · intro h
      exact hne (hinj e he (k, i) ((hmem k i).2 hf) (Or.inl h))
    · intro h
      exact hne (hinj e he (k, i) ((hmem k i).2 hf) (Or.inr h))
  have hi : i < s.2.2.length := by
    rcases List.getElem?_eq_some_iff.1 hc with ⟨hi, _⟩
    exact hi
  refine foldl_hit (firstDeltaConn maxClientStats)
    (fun s' => s'.2.1.stats.find? k = s.2.1.stats.find? k ∧ s'.2.2[i]? = some c)
    (fun s' => ∃ tel' cl', (cl'.stats.find? k = s.2.1.stats.find? k ∨
        (s.2.1.stats.find? k = none ∧ cl'.stats.find? k = some stats.zero)) ∧
      s'.2.2[i]? = some { (updateConnWithStats tel' cl' k c).2.2 with
          LastSentBytes := 0
          LastRecvBytes := 0
          LastRetransmits := 0
          LastTCPEstablished := 0
          LastTCPClosed := 0 } ∧
      s'.2.1.stats.find? k = (updateConnWithStats tel' cl' k c).2.1.stats.find? k)
    (k, i) _ hn ((hmem k i).2 hf) ?_ ?_ ?_ s ⟨rfl, hc⟩
  · intro s' e he hne' hP
    obtain ⟨h₁, _, h₃⟩ := firstDeltaConn_other maxClientStats s' e (hne e he hne').1
      (hne e he hne').2
    exact ⟨h₁.trans hP.1, h₃.trans hP.2⟩
  · intro s' e he hne' hQ
    obtain ⟨tel', cl', hq₁, hq₂, hq₃⟩ := hQ
    obtain ⟨h₁, _, h₃⟩ := firstDeltaConn_other maxClientStats s' e (hne e he hne').1
      (hne e he hne').2
    exact ⟨tel', cl', hq₁, h₃.trans hq₂, h₁.trans hq₃⟩
  · intro s' hP
    obtain ⟨hP₁, hP₂⟩ := hP
    have hi' : i < s'.2.2.length := by
      rcases List.getElem?_eq_some_iff.1 hP₂ with ⟨hi, _⟩
      exact hi
    refine ⟨(createStatsForKey maxClientStats s'.1 s'.2.1 k).1,
      (createStatsForKey maxClientStats s'.1 s'.2.1 k).2, ?_, ?_, ?_⟩
    · rcases createStatsForKey_find?_self maxClientStats s'.1 s'.2.1 k with h | h
      · exact Or.inl (h.trans hP₁)
      · exact Or.inr ⟨hP₁ ▸ h.1, h.2⟩
    · simp only [firstDeltaConn, hP₂]
      exact List.getElem?_set_self hi'
    · simp only [firstDeltaConn, hP₂]

/-! ## `GetDelta`, one active key at a time -/

theorem getClient_of_find? {ns : networkState} {now : Int} {id : String} {cl : client}
    (h : ns.clients.find? id = some cl) : getClient ns now id = (ns, cl, true) := by
  unfold getClient
  rw [h]

theorem getClient_of_find?_none {ns : networkState} {now : Int} {id : String}
    (h : ns.clients.find? id = none) :
    (getClient ns now id).2 =
      ({ lastFetch := now, stats := [], closedConnections := [], closedCap := minClosedCapacity,
         closedConnectionsKeys := none, dnsStats := [], httpStatsDelta := [] }, false) := by
  unfold getClient
  rw [h]

/-- The client of the caller after `GetDelta`: its pending closed connections
and their index are empty, and it holds exactly the accounted totals of the keys
of the key-to-connection map. -/
theorem GetDelta_final_client (E : Env) (ns : networkState) (now : Int) (id : String) (lt : Nat)
    (active : List ConnectionStats) (dns : StatsByKeyByNameByType)
    (http : GoMap String RequestStats) :
    ∃ cl', (GetDelta E ns now id lt active dns http).1.clients.find? id = some cl' ∧
      cl'.closedConnections = [] ∧ cl'.closedConnectionsKeys = some [] ∧
      ∀ k, cl'.stats.find? k =
        if ((getConnsByKey E active).find? k).isSome = true then
          (deltaAccounting E ns now id active).2.1.stats.find? k
        else none := by
  obtain ⟨⟨c₂, hs, hfind⟩, _, _⟩ := GetDelta_structure E ns now id lt active dns http
  refine ⟨_, hfind, rfl, rfl, ?_⟩
  intro k
  rw [hs.2.2.2.2]
  exact GoMap.find?_filter_key c₂.stats (fun key => ((getConnsByKey E active).find? key).isSome) k

/-- An active key without a pending closed record, in a `GetDelta` of a client
that exists: the record `c` the key points at is accounted by
`updateConnWithStats` against the totals the client held for the key (or fresh
zero totals if it held none and one could be created), the result is returned
after intra-host classification, and the totals it leaves are the client's
totals for the key after the call. -/
theorem GetDelta_existing_active (E : Env) (ns : networkState) (now : Int) (id : String)
    (lt : Nat) (active : List ConnectionStats) (dns : StatsByKeyByNameByType)
    (http : GoMap String RequestStats) (cl : client) (k : String) (i : Nat)
    (c : ConnectionStats) (hcl : ns.clients.find? id = some cl)
    (hf : (getConnsByKey E active).find? k = some i) (hc : active[i]? = some c)
    (hk : (cl.closedConnectionsKeys.getD []).find? k = none)
    (hx : ∀ x ∈ cl.closedConnections, ByteKey E x ≠ some k) :
    ∃ tel' cl₀ cl', (cl₀.stats.find? k = cl.stats.find? k ∨
        (cl.stats.find? k = none ∧ cl₀.stats.find? k = some stats.zero)) ∧
      (∃ lAddrs, classifyIntraHost E lAddrs (updateConnWithStats tel' cl₀ k c).2.2 ∈
        (GetDelta E ns now id lt active dns http).2.Conns) ∧
      (GetDelta E ns now id lt active dns http).1.clients.find? id = some cl' ∧
      cl'.stats.find? k = (updateConnWithStats tel' cl₀ k c).2.1.stats.find? k := by
  obtain ⟨cl', hfind, _, _, hstats⟩ := GetDelta_final_client E ns now id lt active dns http
  have hconns := (GetDelta_structure E ns now id lt active dns http).2.1
  have hacc : deltaAccounting E ns now id active =
      mergeConnections E ns.maxClientStats now ns.telemetry cl (getConnsByKey E active)
        active [] := by
    unfold deltaAccounting
    rw [getClient_of_find? hcl]
    rfl
  obtain ⟨g₁, _, g₃⟩ := mergeClosedConns_frame E ns.maxClientStats active (getConnsByKey E active)
    ns.telemetry { cl with lastFetch := now } cl.closedConnections
  obtain ⟨tel', cl₀, h₁, h₂, h₃⟩ := mergeActiveLoop_reach E ns.maxClientStats active k i c hf
    ((mergeClosedConns E ns.maxClientStats active (getConnsByKey E active) ns.telemetry
        { cl with lastFetch := now } cl.closedConnections).1,
      { (mergeClosedConns E ns.maxClientStats active (getConnsByKey E active) ns.telemetry
          { cl with lastFetch := now } cl.closedConnections).2.1 with
        closedConnections :=
          (mergeClosedConns E ns.maxClientStats active (getConnsByKey E active) ns.telemetry
            { cl with lastFetch := now } cl.closedConnections).2.2 },
      active,
      [] ++ (mergeClosedConns E ns.maxClientStats active (getConnsByKey E active) ns.telemetry
          { cl with lastFetch := now } cl.closedConnections).2.2)
    hc (by dsimp only; rw [g₁.2.1]; exact hk)
  have hst : ({ (mergeClosedConns E ns.maxClientStats active (getConnsByKey E active) ns.telemetry
          { cl with lastFetch := now } cl.closedConnections).2.1 with
        closedConnections :=
          (mergeClosedConns E ns.maxClientStats active (getConnsByKey E active) ns.telemetry
            { cl with lastFetch := now } cl.closedConnections).2.2 } : client).stats.find? k =
      cl.stats.find? k := g₃ k hx
  dsimp only at h₁
  rw [hst] at h₁
  refine ⟨tel', cl₀, cl', h₁, ?_, hfind, ?_⟩
  · refine ⟨(deltaAccounting E ns now id active).2.2.2.map (fun conn => newConnKey conn false), ?_⟩
    rw [hconns]
    unfold determineConnectionIntraHost
    apply List.mem_map_of_mem
    rw [hacc]
    exact h₂
  · rw [hstats k, hf, hacc]
    exact h₃

/-! ## Claims about the delta accounting -/

theorem classifyIntraHost_counters (E : Env) (lAddrs : List connKey) (x : ConnectionStats) :
    sameMonotonic (classifyIntraHost E lAddrs x) x ∧
      (classifyIntraHost E lAddrs x).lastCounters = x.lastCounters := by
  unfold classifyIntraHost
  dsimp only
  split <;> split <;> exact ⟨⟨rfl, rfl, rfl, rfl, rfl, rfl, rfl, rfl, rfl⟩, rfl⟩

theorem sameMonotonic_trans {a b c : ConnectionStats} (h₁ : sameMonotonic a b)
    (h₂ : sameMonotonic b c) : sameMonotonic a c :=
  ⟨h₁.1.trans h₂.1, h₁.2.1.trans h₂.2.1, h₁.2.2.1.trans h₂.2.2.1,
    h₁.2.2.2.1.trans h₂.2.2.2.1, h₁.2.2.2.2.1.trans h₂.2.2.2.2.1,
    h₁.2.2.2.2.2.1.trans h₂.2.2.2.2.2.1, h₁.2.2.2.2.2.2.1.trans h₂.2.2.2.2.2.2.1,
    h₁.2.2.2.2.2.2.2.1.trans h₂.2.2.2.2.2.2.2.1, h₁.2.2.2.2.2.2.2.2.trans h₂.2.2.2.2.2.2.2.2⟩

/-- With totals stored under the key and none of the three guarded counters
below its total, `updateConnWithStats` subtracts the totals and stores the
monotonic counters. -/
theorem updateConnWithStats_stored (tel : telemetry) (cl : client) (k : String)
    (c : ConnectionStats) (t : stats) (ht : cl.stats.find? k = some t)
    (hs : t.totalSent ≤ c.MonotonicSentBytes) (hr : t.totalRecv ≤ c.MonotonicRecvBytes)
    (hrt : t.totalRetransmits ≤ c.MonotonicRetransmits) :
    (updateConnWithStats tel cl k c).1 = tel ∧
    (updateConnWithStats tel cl k c).2.2.lastCounters =
      [wsub 64 c.MonotonicSentBytes t.totalSent, wsub 64 c.MonotonicRecvBytes t.totalRecv,
        wsub 64 c.MonotonicSentPackets t.totalSentPackets,
        wsub 64 c.MonotonicRecvPackets t.totalRecvPackets,
        wsub 32 c.MonotonicRetransmits t.totalRetransmits,
        wsub 32 c.MonotonicTCPEstablished t.totalTCPEstablished,
        wsub 32 c.MonotonicTCPClosed t.totalTCPClosed] := by
  have hno : ¬ (c.MonotonicSentBytes < t.totalSent ∨ c.MonotonicRecvBytes < t.totalRecv ∨
      c.MonotonicRetransmits < t.totalRetransmits) := by omega
  simp only [updateConnWithStats, ht, handleStatsUnderflow, if_neg hno]
  exact ⟨trivial, rfl⟩

/-- With totals stored under the key and one of the three guarded counters below
its total, `updateConnWithStats` counts a reset and subtracts totals whose sent,
received and retransmit parts were zeroed. -/
theorem updateConnWithStats_reset (tel : telemetry) (cl : client) (k : String)
    (c : ConnectionStats) (t : stats) (ht : cl.stats.find? k = some t)
    (h : c.MonotonicSentBytes < t.totalSent ∨ c.MonotonicRecvBytes < t.totalRecv ∨
      c.MonotonicRetransmits < t.totalRetransmits) :
    (updateConnWithStats tel cl k c).1.statsResets = tel.statsResets + 1 ∧
    (updateConnWithStats tel cl k c).2.2.lastCounters =
      [wsub 64 c.MonotonicSentBytes 0, wsub 64 c.MonotonicRecvBytes 0,
        wsub 64 c.MonotonicSentPackets t.totalSentPackets,
        wsub 64 c.MonotonicRecvPackets t.totalRecvPackets,
        wsub 32 c.MonotonicRetransmits 0,
        wsub 32 c.MonotonicTCPEstablished t.totalTCPEstablished,
        wsub 32 c.MonotonicTCPClosed t.totalTCPClosed] := by
  simp only [updateConnWithStats, ht, handleStatsUnderflow, if_pos h]
  exact ⟨trivial, rfl⟩

/-- C1. In a `GetDelta` of a client that has polled before, an active connection
`c` with byte key `k` (the last record of `active` with that key, keys being
unique in what the producer passes) whose key has stored totals `t`, has no
pending closed record, and whose sent bytes, received bytes and retransmits are
not below the stored totals, is returned with each of
its seven last counters equal to its monotonic counter minus the stored total:
the exact difference for the three guarded counters, Go's unsigned subtraction
for the other four. Afterwards the seven totals stored for `k` are the monotonic
counters of `c`. -/
theorem GetDelta_active_last_counters (E : Env) (ns : networkState) (now : Int) (id : String)
    (lt : Nat) (active : List ConnectionStats) (dns : StatsByKeyByNameByType)
    (http : GoMap String RequestStats) (cl : client) (k : String) (i : Nat)
    (c : ConnectionStats) (t : stats)
    (hcl : ns.clients.find? id = some cl)
    (hc : active[i]? = some c) (hkey : ByteKey E c = some k)
    (hlast : ∀ (j : Nat) (c' : ConnectionStats), i < j → active[j]? = some c' →
      ByteKey E c' ≠ some k)
    (ht : cl.stats.find? k = some t)
    (hk : (cl.closedConnectionsKeys.getD []).find? k = none)
    (hx : ∀ x ∈ cl.closedConnections, ByteKey E x ≠ some k)
    (hs : t.totalSent ≤ c.MonotonicSentBytes) (hr : t.totalRecv ≤ c.MonotonicRecvBytes)
    (hrt : t.totalRetransmits ≤ c.MonotonicRetransmits)
    (hrange : c.MonotonicSentBytes < 2 ^ 64 ∧ c.MonotonicRecvBytes < 2 ^ 64 ∧
      c.MonotonicRetransmits < 2 ^ 32) :
    (∃ r ∈ (GetDelta E ns now id lt active dns http).2.Conns, sameMonotonic r c ∧
      r.lastCounters =
        [c.MonotonicSentBytes - t.totalSent, c.MonotonicRecvBytes - t.totalRecv,
          wsub 64 c.MonotonicSentPackets t.totalSentPackets,
          wsub 64 c.MonotonicRecvPackets t.totalRecvPackets,
          c.MonotonicRetransmits - t.totalRetransmits,
          wsub 32 c.MonotonicTCPEstablished t.totalTCPEstablished,
          wsub 32 c.MonotonicTCPClosed t.totalTCPClosed]) ∧
    ∃ cl' t', (GetDelta E ns now id lt active dns http).1.clients.find? id = some cl' ∧
      cl'.stats.find? k = some t' ∧ totalsMatch t' c := by
  have hf := getConnsByKey_of_last E active k i c hc hkey hlast
  obtain ⟨tel', cl₀, cl', h₀, ⟨lAddrs, hmem⟩, hfind, hstats⟩ :=
    GetDelta_existing_active E ns now id lt active dns http cl k i c hcl hf hc hk hx
  have ht₀ : cl₀.stats.find? k = some t := by
    rcases h₀ with h | h
    · rw [h, ht]
    · rw [ht] at h; cases h.1
  refine ⟨⟨_, hmem, ?_, ?_⟩, cl', ?_⟩
  · exact sameMonotonic_trans (classifyIntraHost_counters E lAddrs _).1
      (updateConnWithStats_sameMonotonic _ _ _ _)
  · rw [(classifyIntraHost_counters E lAddrs _).2,
      (updateConnWithStats_stored tel' cl₀ k c t ht₀ hs hr hrt).2,
      wsub_of_le hs hrange.1, wsub_of_le hr hrange.2.1, wsub_of_le hrt hrange.2.2]
  · rcases updateConnWithStats_totals tel' cl₀ k c with h | ⟨t', ht', hm⟩
    · rw [ht₀] at h; cases h.1
    · exact ⟨t', hfind, hstats.trans ht', hm⟩

theorem GetDelta_active_last_counters_witness :
    (∃ r ∈ (GetDelta sampleEnv (sampleState 500 700 5) 1 "A" 200 [sampleConn 900 1100 7 2] []
        []).2.Conns, sameMonotonic r (sampleConn 900 1100 7 2) ∧
      r.lastCounters = [900 - 500, 1100 - 700, wsub 64 7 5, wsub 64 0 0, 0 - 0, wsub 32 0 0,
        wsub 32 0 0]) ∧
    ∃ cl' t', (GetDelta sampleEnv (sampleState 500 700 5) 1 "A" 200 [sampleConn 900 1100 7 2] []
        []).1.clients.find? "A" = some cl' ∧
      cl'.stats.find? sampleConnKey = some t' ∧ totalsMatch t' (sampleConn 900 1100 7 2) :=
  GetDelta_active_last_counters sampleEnv (sampleState 500 700 5) 1 "A" 200
    [sampleConn 900 1100 7 2] [] [] (sampleClient 500 700 5) sampleConnKey 0
    (sampleConn 900 1100 7 2)
    { totalSent := 500, totalRecv := 700, totalSentPackets := 5, totalRecvPackets := 0,
      totalRetransmits := 0, totalTCPEstablished := 0, totalTCPClosed := 0 }
    (by decide) (by decide) (by decide)
    (by
      intro j c' hj h
      cases j with
      | zero => omega
      | succ n => simp at h)
    (by decide) (by decide) (by simp [sampleClient])
    (by decide) (by decide) (by decide) (by decide)

/-- C2 (the code at the failing input). The first delta of a new client returns
the sample flow, polled with 5 sent packets, with `LastSentPackets = 5`: the loop
for a new client zeroes the last sent bytes, received bytes, retransmits, TCP
established and TCP closed, but not the two packet counters. -/
theorem GetDelta_first_delta_keeps_last_packets :
    (GetDelta sampleEnv (NewState 1000 2 10 10 10) 0 "A" 100 [sampleConn 500 700 5 1] []
      []).2.Conns.map ConnectionStats.lastCounters = [[0, 0, 5, 0, 0, 0, 0]] := by
  decide

/-- C3 (the code at the failing input). Two polls of a fresh registry by the same
client with the same flow, the second with fewer sent packets (3 after 5) and
larger byte counters: the stored `totalSentPackets` (5) is above the monotonic
counter (3) when `LastSentPackets` is computed, and the unsigned subtraction
wraps around to `2^64 - 2`. -/
theorem GetDelta_last_packets_underflow :
    ((GetDelta sampleEnv (NewState 1000 2 10 10 10) 0 "A" 100 [sampleConn 500 700 5 1] []
        []).1.clients.find? "A").map (fun cl => cl.stats.map (fun e => e.2.totalSentPackets)) =
      some [5] ∧
    (GetDelta sampleEnv
      (GetDelta sampleEnv (NewState 1000 2 10 10 10) 0 "A" 100 [sampleConn 500 700 5 1] []
        []).1 1 "A" 200 [sampleConn 900 1100 3 2] [] []).2.Conns.map
        ConnectionStats.lastCounters = [[400, 400, 2 ^ 64 - 2, 0, 0, 0, 0]] := by
  constructor <;> decide

/-- C4. `handleStatsUnderflow`: if the sent bytes, the received bytes or the
retransmits of the connection are below the stored total, `statsResets` grows by
one, the three stored totals become zero and the other four are unchanged;
otherwise the telemetry and the totals are unchanged. Consequently an active
connection (the last record of `active` with its byte key) polled by an existing
client with fewer sent bytes than the total stored for its key, and no pending
closed record, is returned with `LastSentBytes` equal to its
`MonotonicSentBytes`. -/
theorem handleStatsUnderflow_spec (tel : telemetry) (st : stats) (c : ConnectionStats) :
    ((c.MonotonicSentBytes < st.totalSent ∨ c.MonotonicRecvBytes < st.totalRecv ∨
        c.MonotonicRetransmits < st.totalRetransmits) →
      (handleStatsUnderflow tel st c).1.statsResets = tel.statsResets + 1 ∧
      (handleStatsUnderflow tel st c).2.totalSent = 0 ∧
      (handleStatsUnderflow tel st c).2.totalRecv = 0 ∧
      (handleStatsUnderflow tel st c).2.totalRetransmits = 0 ∧
      (handleStatsUnderflow tel st c).2.totalSentPackets = st.totalSentPackets ∧
      (handleStatsUnderflow tel st c).2.totalRecvPackets = st.totalRecvPackets ∧
      (handleStatsUnderflow tel st c).2.totalTCPEstablished = st.totalTCPEstablished ∧
      (handleStatsUnderflow tel st c).2.totalTCPClosed = st.totalTCPClosed) ∧
    (¬ (c.MonotonicSentBytes < st.totalSent ∨ c.MonotonicRecvBytes < st.totalRecv ∨
        c.MonotonicRetransmits < st.totalRetransmits) →
      handleStatsUnderflow tel st c = (tel, st)) ∧
    ∀ (E : Env) (ns : networkState) (now : Int) (id : String) (lt : Nat)
      (active : List ConnectionStats) (dns : StatsByKeyByNameByType)
      (http : GoMap String RequestStats) (cl : client) (k : String) (i : Nat),
      ns.clients.find? id = some cl →
      active[i]? = some c → ByteKey E c = some k →
      (∀ (j : Nat) (c' : ConnectionStats), i < j → active[j]? = some c' →
        ByteKey E c' ≠ some k) →
      cl.stats.find? k = some st →
      (cl.closedConnectionsKeys.getD []).find? k = none →
      (∀ x ∈ cl.closedConnections, ByteKey E x ≠ some k) →
      c.MonotonicSentBytes < st.totalSent → c.MonotonicSentBytes < 2 ^ 64 →
      ∃ r ∈ (GetDelta E ns now id lt active dns http).2.Conns, sameMonotonic r c ∧
        r.LastSentBytes = c.MonotonicSentBytes := by
  refine ⟨?_, ?_, ?_⟩
  · intro h
    simp only [handleStatsUnderflow, if_pos h]
    exact ⟨trivial, trivial, trivial, trivial, trivial, trivial, trivial, trivial⟩
  · intro h
    simp only [handleStatsUnderflow, if_neg h]
  · intro E ns now id lt active dns http cl k i hcl hc hkey hlast ht hk hx hlt hrange
    have hf := getConnsByKey_of_last E active k i c hc hkey hlast
    obtain ⟨tel', cl₀, cl', h₀, ⟨lAddrs, hmem⟩, _, _⟩ :=
      GetDelta_existing_active E ns now id lt active dns http cl k i c hcl hf hc hk hx
    have ht₀ : cl₀.stats.find? k = some st := by
      rcases h₀ with h | h
      · rw [h, ht]
      · rw [ht] at h; cases h.1
    refine ⟨_, hmem, ?_, ?_⟩
    · exact sameMonotonic_trans (classifyIntraHost_counters E lAddrs _).1
        (updateConnWithStats_sameMonotonic _ _ _ _)
    · have h₁ := (classifyIntraHost_counters E lAddrs (updateConnWithStats tel' cl₀ k c).2.2).2
      rw [(updateConnWithStats_reset tel' cl₀ k c st ht₀ (Or.inl hlt)).2] at h₁
      have h₂ := congrArg (fun l => l.head?) h₁
      simp only [ConnectionStats.lastCounters, List.head?_cons, Option.some.injEq] at h₂
      rw [h₂, wsub_zero hrange]

theorem handleStatsUnderflow_spec_witness :
    ((handleStatsUnderflow telemetry.zero
        { totalSent := 900, totalRecv := 1100, totalSentPackets := 7, totalRecvPackets := 0,
          totalRetransmits := 0, totalTCPEstablished := 0, totalTCPClosed := 0 }
        (sampleConn 50 1100 7 3)).1.statsResets = 0 + 1) ∧
    ∃ r ∈ (GetDelta sampleEnv (sampleState 900 1100 7) 2 "A" 300 [sampleConn 50 1100 7 3] []
        []).2.Conns, sameMonotonic r (sampleConn 50 1100 7 3) ∧ r.LastSentBytes = 50 :=
  ⟨((handleStatsUnderflow_spec telemetry.zero
      { totalSent := 900, totalRecv := 1100, totalSentPackets := 7, totalRecvPackets := 0,
        totalRetransmits := 0, totalTCPEstablished := 0, totalTCPClosed := 0 }
      (sampleConn 50 1100 7 3)).1 (by decide)).1,
   (handleStatsUnderflow_spec telemetry.zero
      { totalSent := 900, totalRecv := 1100, totalSentPackets := 7, totalRecvPackets := 0,
        totalRetransmits := 0, totalTCPEstablished := 0, totalTCPClosed := 0 }
      (sampleConn 50 1100 7 3)).2.2 sampleEnv (sampleState 900 1100 7) 2 "A" 300
      [sampleConn 50 1100 7 3] [] [] (sampleClient 900 1100 7) sampleConnKey 0
      (by decide) (by decide) (by decide)
      (by
        intro j c' hj h
        cases j with
        | zero => omega
        | succ n => simp at h)
      (by decide) (by decide) (by simp [sampleClient])
      (by decide) (by decide)⟩

/-- C7. After `GetDelta` the calling client is registered with an empty sequence
of pending closed connections and an empty (initialised) key index, whatever the
registry and the inputs were. -/
theorem GetDelta_empties_closed (E : Env) (ns : networkState) (now : Int) (id : String)
    (lt : Nat) (active : List ConnectionStats) (dns : StatsByKeyByNameByType)
    (http : GoMap String RequestStats) :
    ∃ cl', (GetDelta E ns now id lt active dns http).1.clients.find? id = some cl' ∧
      cl'.closedConnections = [] ∧ cl'.closedConnectionsKeys = some [] := by
  obtain ⟨cl', hfind, h₁, h₂, _⟩ := GetDelta_final_client E ns now id lt active dns http
  exact ⟨cl', hfind, h₁, h₂⟩

/-! ## Claims about the pending closed connections -/

/-- C10. From `NewState` with `maxClosedConns >= 0`, every sequence of public
operations runs to the end, and in the registry it reaches every client holds at
most `maxClosedConns` pending closed connections. -/
theorem closedConnections_le_maxClosedConns (E : Env)
    (clientExpiry maxClosedConns maxClientStats maxDNSStats maxHTTPStats : Int)
    (ops : List Op) (hmax : 0 ≤ maxClosedConns) :
    (∃ ns, runOps E (NewState clientExpiry maxClosedConns maxClientStats maxDNSStats
        maxHTTPStats) ops = some ns) ∧
    ∀ ns, runOps E (NewState clientExpiry maxClosedConns maxClientStats maxDNSStats
        maxHTTPStats) ops = some ns →
      ∀ e ∈ ns.clients, (e.2.closedConnections.length : Int) ≤ maxClosedConns := by
  obtain ⟨ns', hrun, hwf, hcfg⟩ := runOps_wellFormed E ops _
    (NewState_wellFormed E clientExpiry maxClosedConns maxClientStats maxDNSStats maxHTTPStats)
  refine ⟨⟨ns', hrun⟩, ?_⟩
  intro ns hns e he
  rw [hrun] at hns
  cases hns
  have hm : ns'.maxClosedConns = maxClosedConns := config_maxClosedConns hcfg
  have := hwf.2.2 (by rw [hm]; exact hmax) e he
  rw [hm] at this
  exact this

theorem closedConnections_le_maxClosedConns_witness :
    ∃ ns, runOps sampleEnv (NewState 1000 2 10 10 10) sampleOps = some ns ∧
      ∀ e ∈ ns.clients, (e.2.closedConnections.length : Int) ≤ 2 :=
  ⟨_, rfl,
    (closedConnections_le_maxClosedConns sampleEnv 1000 2 10 10 10 sampleOps (by decide)).2 _ rfl⟩

/-- Storing, for one client, a batch of encodable records with pairwise distinct
byte keys none of which is pending: the records are appended in order up to the
cap `M` and every further one is counted as dropped. -/
theorem storeClosedConnsClient_new_keys (E : Env) (m : Int) (M : Nat) (hM : (M : Int) = m)
    (conns : List ConnectionStats) (tel : telemetry) (cl : client) (keys : GoMap String Nat)
    (hkeys : cl.closedConnectionsKeys = some keys)
    (henc : ∀ c ∈ conns, ∃ k, ByteKey E c = some k ∧ keys.find? k = none)
    (hnd : (conns.map (ByteKey E)).Nodup) :
    ∃ r, storeClosedConnsClient E m tel cl conns = some r ∧
      r.2.closedConnections =
        cl.closedConnections ++ conns.take (M - cl.closedConnections.length) ∧
      r.1.closedConnDropped =
        tel.closedConnDropped + ((conns.length - (M - cl.closedConnections.length) : Nat) : Int) := by
  induction conns generalizing tel cl keys with
  | nil => exact ⟨(tel, cl), rfl, by simp, by simp⟩
  | cons c cs ih =>
    obtain ⟨k, hk, hfk⟩ := henc c (List.mem_cons_self _ _)
    rw [List.map_cons, List.nodup_cons] at hnd
    by_cases hfull : (cl.closedConnections.length : Int) ≥ m
    · have hstep : storeClosedConnection E m tel cl c =
          some ({ tel with closedConnDropped := tel.closedConnDropped + 1 }, cl) := by
        simp only [storeClosedConnection, hk, hkeys, Option.getD_some, hfk, if_pos hfull]
      obtain ⟨r, hr, hr₁, hr₂⟩ := ih { tel with closedConnDropped := tel.closedConnDropped + 1 }
        cl keys hkeys (fun c' hc' => henc c' (List.mem_cons_of_mem _ hc')) hnd.2
      refine ⟨r, ?_, ?_, ?_⟩
      · simp only [storeClosedConnsClient, hstep]
        exact hr
      · have h0 : M - cl.closedConnections.length = 0 := by omega
        rw [hr₁, h0]
        simp
      · have h0 : M - cl.closedConnections.length = 0 := by omega
        rw [hr₂, h0]
        simp only [List.length_cons, Nat.sub_zero]
        push_cast
        ring
    · have hstep : storeClosedConnection E m tel cl c =
          some (tel, { cl with
            closedConnections := cl.closedConnections ++ [c]
            closedCap :=
              if cl.closedConnections.length < cl.closedCap then cl.closedCap
              else E.growslice cl.closedCap
            closedConnectionsKeys := some (keys.insert k cl.closedConnections.length) }) := by
        simp only [storeClosedConnection, hk, hkeys, Option.getD_some, hfk, if_neg hfull]
      obtain ⟨r, hr, hr₁, hr₂⟩ := ih tel
        { cl with
            closedConnections := cl.closedConnections ++ [c]
            closedCap :=
              if cl.closedConnections.length < cl.closedCap then cl.closedCap
              else E.growslice cl.closedCap
            closedConnectionsKeys := some (keys.insert k cl.closedConnections.length) }
        (keys.insert k cl.closedConnections.length) rfl
        (by
          intro c' hc'
          obtain ⟨k', hk', hfk'⟩ := henc c' (List.mem_cons_of_mem _ hc')
          refine ⟨k', hk', ?_⟩
          have hne : k ≠ k' := by
            intro e
            apply hnd.1
            rw [hk, e, ← hk']
            exact List.mem_map_of_mem _ hc'
          rw [GoMap.find?_insert_ne _ hne]
          exact hfk')
        hnd.2
      dsimp only at hr₁ hr₂
      simp only [List.length_append, List.length_singleton] at hr₁ hr₂
      refine ⟨r, ?_, ?_, ?_⟩
      · simp only [storeClosedConnsClient, hstep]
        exact hr
      · rw [hr₁]
        obtain ⟨d, hd⟩ : ∃ d, M - cl.closedConnections.length = d + 1 := ⟨M - cl.closedConnections.length - 1, by omega⟩
        have hd' : M - (cl.closedConnections.length + 1) = d := by omega
        rw [hd, hd']
        simp
      · rw [hr₂]
        simp only [List.length_cons]
        congr 2
        omega

/-- Storing a batch of encodable records with pairwise distinct byte keys for
a table of clients none of which has a pending closed record: no panic, every
client holds the first `M` records of the batch, and the drop counter grows by
the number of clients times the number of records beyond the cap. -/
theorem storeClosedConnsClients_fresh (E : Env) (m : Int) (M : Nat) (hM : (M : Int) = m)
    (conns : List ConnectionStats) (tel : telemetry) (clients : GoMap String client)
    (hfresh : ∀ e ∈ clients, e.2.closedConnections = [] ∧ e.2.closedConnectionsKeys = some [])
    (henc : ∀ c ∈ conns, ∃ k, ByteKey E c = some k)
    (hnd : (conns.map (ByteKey E)).Nodup) :
    ∃ r, storeClosedConnsClients E m conns tel clients = some r ∧
      r.2.keys = clients.keys ∧
      (∀ e ∈ r.2, e.2.closedConnections = conns.take M) ∧
      r.1.closedConnDropped =
        tel.closedConnDropped + ((clients.length * (conns.length - M) : Nat) : Int) := by
  induction clients generalizing tel with
  | nil => exact ⟨(tel, []), rfl, rfl, by simp, by simp⟩
  | cons e t ih =>
    obtain ⟨id, cl⟩ := e
    obtain ⟨hc₁, hc₂⟩ := hfresh (id, cl) (List.mem_cons_self _ _)
    obtain ⟨r, hr, hr₁, hr₂⟩ := storeClosedConnsClient_new_keys E m M hM conns tel cl [] hc₂
      (fun c hc => by
        obtain ⟨k, hk⟩ := henc c hc
        exact ⟨k, hk, rfl⟩) hnd
    obtain ⟨rs, hrs, hrs₁, hrs₂, hrs₃⟩ := ih r.1 (fun e he => hfresh e (List.mem_cons_of_mem _ he))
    refine ⟨(rs.1, (id, r.2) :: rs.2), ?_, ?_, ?_, ?_⟩
    · simp only [storeClosedConnsClients, hr, hrs]
    · simp only [GoMap.keys, List.map_cons] at hrs₁ ⊢
      rw [hrs₁]
    · intro e he
      rcases List.mem_cons.1 he with he | he
      · subst he
        dsimp only
        rw [hr₁, hc₁]
        simp
      · exact hrs₂ e he
    · dsimp only
      rw [hrs₃, hr₂, hc₁]
      simp only [List.length_nil, Nat.sub_zero, List.length_cons]
      push_cast
      ring

/-- C9. Cap accounting of `StoreClosedConnections`: in a registry with
`maxClosedConns = m >= 0` whose clients (one, or any number `k`) have no pending
closed connection, storing a batch of `n` records with pairwise distinct
encodable byte keys does not panic, leaves every client with the first
`min n m` records of the batch, in order, and increases `closedConnDropped` by
`k * (n - min n m)`. -/
theorem StoreClosedConnections_cap (E : Env) (ns : networkState) (conns : List ConnectionStats)
    (hm : 0 ≤ ns.maxClosedConns)
    (hfresh : ∀ e ∈ ns.clients,
      e.2.closedConnections = [] ∧ e.2.closedConnectionsKeys = some [])
    (henc : ∀ c ∈ conns, (ByteKey E c).isSome = true)
    (hnd : (conns.map (ByteKey E)).Nodup) :
    ∃ ns', StoreClosedConnections E ns conns = some ns' ∧
      ns'.clients.keys = ns.clients.keys ∧
      (∀ e ∈ ns'.clients,
        e.2.closedConnections = conns.take (min conns.length ns.maxClosedConns.toNat)) ∧
      ns'.telemetry.closedConnDropped = ns.telemetry.closedConnDropped +
        ((ns.clients.length * (conns.length - min conns.length ns.maxClosedConns.toNat) : Nat) :
          Int) := by
  obtain ⟨r, hr, hr₁, hr₂, hr₃⟩ := storeClosedConnsClients_fresh E ns.maxClosedConns
    ns.maxClosedConns.toNat (Int.toNat_of_nonneg hm) conns ns.telemetry ns.clients hfresh
    (fun c hc => Option.isSome_iff_exists.1 (henc c hc)) hnd
  refine ⟨{ ns with telemetry := r.1, clients := r.2 }, ?_, hr₁, ?_, ?_⟩
  · simp only [StoreClosedConnections, storeClosedConnections, hr]
  · intro e he
    rw [hr₂ e he, List.take_eq_take]
    simp [Nat.min_comm]
  · show r.1.closedConnDropped = _
    rw [hr₃]
    congr 3
    omega

theorem StoreClosedConnections_cap_witness :
    ∃ ns', StoreClosedConnections sampleEnv (sampleState 500 700 5) sampleClosed = some ns' ∧
      ns'.clients.keys = (sampleState 500 700 5).clients.keys ∧
      (∀ e ∈ ns'.clients,
        e.2.closedConnections =
          sampleClosed.take (min sampleClosed.length (sampleState 500 700 5).maxClosedConns.toNat)) ∧
      ns'.telemetry.closedConnDropped = (sampleState 500 700 5).telemetry.closedConnDropped +
        (((sampleState 500 700 5).clients.length *
          (sampleClosed.length -
            min sampleClosed.length (sampleState 500 700 5).maxClosedConns.toNat) : Nat) : Int) :=
  StoreClosedConnections_cap sampleEnv (sampleState 500 700 5) sampleClosed (by decide)
    (by decide) (by decide) (by decide)

/-! ## The byte keys of the output buffer -/

theorem set_map_same {α β : Type} (f : α → β) (l : List α) (i : Nat) (c r : α)
    (h : l[i]? = some c) (hf : f r = f c) : (l.set i r).map f = l.map f := by
  apply List.ext_getElem?
  intro j
  rw [List.map_set]
  by_cases hj : i = j
  · subst hj
    have hi : i < (l.map f).length := by
      rw [List.length_map]
      exact (List.getElem?_eq_some_iff.1 h).1
    rw [List.getElem?_set_self hi, List.getElem?_map, h, Option.map_some', hf]
  · rw [List.getElem?_set_ne hj]

theorem getElem?_of_map_eq {α β : Type} (f : α → β) {l l' : List α} (h : l'.map f = l.map f)
    {j : Nat} {c : α} (hc : l[j]? = some c) : ∃ c', l'[j]? = some c' ∧ f c' = f c := by
  have := congrArg (fun x => x[j]?) h
  simp only [List.getElem?_map, hc, Option.map_some'] at this
  cases h' : l'[j]? with
  | none => rw [h'] at this; simp at this
  | some c' =>
    rw [h'] at this
    exact ⟨c', rfl, by simpa using this⟩

theorem ByteKey_eq_of_identity (E : Env) {a b : ConnectionStats} (h : a.identity = b.identity) :
    ByteKey E a = ByteKey E b := by
  unfold ByteKey
  rw [h]

theorem map_ByteKey_eq_of_identity (E : Env) {l l' : List ConnectionStats}
    (h : l'.map ConnectionStats.identity = l.map ConnectionStats.identity) :
    l'.map (ByteKey E) = l.map (ByteKey E) := by
  have : ∀ m : List ConnectionStats,
      m.map (ByteKey E) = (m.map ConnectionStats.identity).map E.encodeKey := by
    intro m
    rw [List.map_map]
    rfl
  rw [this l', this l, h]

/-- One step of the active loop appends a record with the byte key of the entry,
unless that key has a pending closed record; it keeps the identities of the
records of the `active` slice and the closed-connection fields of the client. -/
theorem mergeActiveConn_keys (E : Env) (maxClientStats : Int)
    (s : telemetry × client × List ConnectionStats × List ConnectionStats) (e : String × Nat)
    (hv : ∃ c, s.2.2.1[e.2]? = some c ∧ ByteKey E c = some e.1) :
    (mergeActiveConn maxClientStats s e).2.2.2.map (ByteKey E) =
        s.2.2.2.map (ByteKey E) ++
          (if (s.2.1.closedConnectionsKeys.getD []).find? e.1 = none then [some e.1] else []) ∧
      client.sameClosed (mergeActiveConn maxClientStats s e).2.1 s.2.1 ∧
      (mergeActiveConn maxClientStats s e).2.2.1.map ConnectionStats.identity =
        s.2.2.1.map ConnectionStats.identity := by
  obtain ⟨c, hc, hkey⟩ := hv
  unfold mergeActiveConn
  cases hclosed : (s.2.1.closedConnectionsKeys.getD []).find? e.1 with
  | some j =>
    simp only [reduceCtorEq, if_false, List.append_nil]
    exact ⟨trivial, ⟨rfl, rfl, rfl, rfl, rfl, rfl⟩, trivial⟩
  | none =>
    simp only [hc, if_true]
    have hsm := updateConnWithStats_sameMonotonic
      (createStatsForKey maxClientStats s.1 s.2.1 e.1).1
      (createStatsForKey maxClientStats s.1 s.2.1 e.1).2 e.1 c
    refine ⟨?_, ?_, ?_⟩
    · rw [List.map_append, List.map_singleton, ByteKey_eq_of_identity E hsm.1, hkey]
    · exact client.sameClosed_trans (updateConnWithStats_sameClosed _ _ _ _)
        (createStatsForKey_sameClosed _ _ _ _)
    · exact set_map_same _ _ _ c _ hc hsm.1

/-- The active loop appends, in the order of the visit, one record for each
entry whose key has no pending closed record, with the byte key of the entry. -/
theorem mergeActiveLoop_keys (E : Env) (maxClientStats : Int) (L : GoMap String Nat)
    (s : telemetry × client × List ConnectionStats × List ConnectionStats)
    (hv : ∀ e ∈ L, ∃ c, s.2.2.1[e.2]? = some c ∧ ByteKey E c = some e.1) :
    (L.foldl (mergeActiveConn maxClientStats) s).2.2.2.map (ByteKey E) =
        s.2.2.2.map (ByteKey E) ++
          (L.filter (fun e =>
            decide ((s.2.1.closedConnectionsKeys.getD []).find? e.1 = none))).map
            (fun e => some e.1) ∧
      client.sameClosed (L.foldl (mergeActiveConn maxClientStats) s).2.1 s.2.1 ∧
      (L.foldl (mergeActiveConn maxClientStats) s).2.2.1.map ConnectionStats.identity =
        s.2.2.1.map ConnectionStats.identity := by
  induction L generalizing s with
  | nil => exact ⟨by simp, ⟨rfl, rfl, rfl, rfl, rfl, rfl⟩, rfl⟩
  | cons e t ih =>
    obtain ⟨h₁, h₂, h₃⟩ := mergeActiveConn_keys E maxClientStats s e (hv e (List.mem_cons_self _ _))
    have hv' : ∀ e' ∈ t, ∃ c, (mergeActiveConn maxClientStats s e).2.2.1[e'.2]? = some c ∧
        ByteKey E c = some e'.1 := by
      intro e' he'
      obtain ⟨c, hc, hk⟩ := hv e' (List.mem_cons_of_mem _ he')
      obtain ⟨c', hc', hid⟩ := getElem?_of_map_eq ConnectionStats.identity h₃ hc
      exact ⟨c', hc', (ByteKey_eq_of_identity E hid).trans hk⟩
    obtain ⟨g₁, g₂, g₃⟩ := ih (mergeActiveConn maxClientStats s e) hv'
    simp only [List.foldl_cons]
    refine ⟨?_, client.sameClosed_trans g₂ h₂, g₃.trans h₃⟩
    rw [g₁, h₁, h₂.2.1, List.filter_cons]
    by_cases hcl : (s.2.1.closedConnectionsKeys.getD []).find? e.1 = none
    · simp [hcl]
    · simp [hcl]

theorem determineConnectionIntraHost_identity (E : Env) (l : List ConnectionStats) :
    (determineConnectionIntraHost E l).map ConnectionStats.identity =
      l.map ConnectionStats.identity := by
  unfold determineConnectionIntraHost
  rw [List.map_map]
  apply List.map_congr_left
  intro x _
  exact (classifyIntraHost_counters E _ x).1.1

/-- The byte keys of the connections a `GetDelta` of an existing client returns:
those of its pending closed connections, in stored order, followed by the keys
of the key-to-connection map that have no pending closed record, in the order of
the visit. -/
theorem GetDelta_existing_keys (E : Env) (ns : networkState) (now : Int) (id : String)
    (lt : Nat) (active : List ConnectionStats) (dns : StatsByKeyByNameByType)
    (http : GoMap String RequestStats) (cl : client) (hcl : ns.clients.find? id = some cl) :
    (GetDelta E ns now id lt active dns http).2.Conns.map (ByteKey E) =
      cl.closedConnections.map (ByteKey E) ++
        ((E.rangeOrder (getConnsByKey E active)).filter (fun e =>
          decide ((cl.closedConnectionsKeys.getD []).find? e.1 = none))).map
          (fun e => some e.1) := by
  have hconns := (GetDelta_structure E ns now id lt active dns http).2.1
  have hacc : deltaAccounting E ns now id active =
      mergeConnections E ns.maxClientStats now ns.telemetry cl (getConnsByKey E active)
        active [] := by
    unfold deltaAccounting
    rw [getClient_of_find? hcl]
    rfl
  obtain ⟨g₁, g₂, _⟩ := mergeClosedConns_frame E ns.maxClientStats active (getConnsByKey E active)
    ns.telemetry { cl with lastFetch := now } cl.closedConnections
  obtain ⟨_, hval, _, _⟩ := rangeOrder_spec E active
  obtain ⟨h₁, _, _⟩ := mergeActiveLoop_keys E ns.maxClientStats
    (E.rangeOrder (getConnsByKey E active))
    ((mergeClosedConns E ns.maxClientStats active (getConnsByKey E active) ns.telemetry
        { cl with lastFetch := now } cl.closedConnections).1,
      { (mergeClosedConns E ns.maxClientStats active (getConnsByKey E active) ns.telemetry
          { cl with lastFetch := now } cl.closedConnections).2.1 with
        closedConnections :=
          (mergeClosedConns E ns.maxClientStats active (getConnsByKey E active) ns.telemetry
            { cl with lastFetch := now } cl.closedConnections).2.2 },
      active,
      [] ++ (mergeClosedConns E ns.maxClientStats active (getConnsByKey E active) ns.telemetry
          { cl with lastFetch := now } cl.closedConnections).2.2)
    hval
  rw [hconns, map_ByteKey_eq_of_identity E (determineConnectionIntraHost_identity E _), hacc]
  unfold mergeConnections
  dsimp only at h₁ ⊢
  rw [h₁, List.nil_append, map_ByteKey_eq_of_identity E g₂, g₁.2.1]

/-- A `GetDelta` of an existing, indexed client returns no byte key twice. -/
theorem GetDelta_existing_nodup (E : Env) (ns : networkState) (now : Int) (id : String)
    (lt : Nat) (active : List ConnectionStats) (dns : StatsByKeyByNameByType)
    (http : GoMap String RequestStats) (cl : client) (hcl : ns.clients.find? id = some cl)
    (hidx : cl.indexed E) :
    ((GetDelta E ns now id lt active dns http).2.Conns.map (ByteKey E)).Nodup := by
  rw [GetDelta_existing_keys E ns now id lt active dns http cl hcl]
  obtain ⟨hn, _, _, _⟩ := rangeOrder_spec E active
  have hkn : (E.rangeOrder (getConnsByKey E active)).keys.Nodup :=
    (List.Perm.nodup_iff (List.Perm.map Prod.fst (E.rangeOrder_perm _))).2
      (getConnsByKey_spec E active).1
  apply List.Nodup.append (client.indexed_nodup hidx).1
  · have hsub : (GoMap.keys ((E.rangeOrder (getConnsByKey E active)).filter (fun e =>
        decide ((cl.closedConnectionsKeys.getD []).find? e.1 = none)))).Nodup :=
      GoMap.nodup_keys_filter _ hkn
    have hmap : ((E.rangeOrder (getConnsByKey E active)).filter (fun e =>
        decide ((cl.closedConnectionsKeys.getD []).find? e.1 = none))).map (fun e => some e.1) =
        (GoMap.keys ((E.rangeOrder (getConnsByKey E active)).filter (fun e =>
        decide ((cl.closedConnectionsKeys.getD []).find? e.1 = none)))).map some := by
      simp [GoMap.keys, List.map_map, Function.comp_def]
    rw [hmap]
    exact List.Nodup.map (Option.some_injective _) hsub
  · intro x hx₁ hx₂
    obtain ⟨a, ha, rfl⟩ := List.mem_map.1 hx₁
    obtain ⟨e, he, hek⟩ := List.mem_map.1 hx₂
    have hnone : (cl.closedConnectionsKeys.getD []).find? e.1 = none := by
      simpa using (List.mem_filter.1 he).2
    obtain ⟨keys, hkeys, _, h₂⟩ := hidx
    obtain ⟨j, hj, hja⟩ := List.getElem_of_mem ha
    obtain ⟨k, hk, hfk⟩ := h₂ j a (by rw [List.getElem?_eq_getElem hj, hja])
    rw [hk] at hek
    have : e.1 = k := Option.some.inj hek
    rw [hkeys, Option.getD_some, this, hfk] at hnone
    cases hnone

theorem firstDeltaConn_identity (maxClientStats : Int)
    (s : telemetry × client × List ConnectionStats) (e : String × Nat) :
    (firstDeltaConn maxClientStats s e).2.2.map ConnectionStats.identity =
      s.2.2.map ConnectionStats.identity := by
  unfold firstDeltaConn
  cases hc : s.2.2[e.2]? with
  | none => rfl
  | some c =>
    exact set_map_same _ _ _ c _ hc
      (updateConnWithStats_sameMonotonic (createStatsForKey maxClientStats s.1 s.2.1 e.1).1
        (createStatsForKey maxClientStats s.1 s.2.1 e.1).2 e.1 c).1

/-- The `GetDelta` that creates its client returns the active records, in order
and with their identities: no closed record is returned. -/
theorem GetDelta_new_identity (E : Env) (ns : networkState) (now : Int) (id : String)
    (lt : Nat) (active : List ConnectionStats) (dns : StatsByKeyByNameByType)
    (http : GoMap String RequestStats) (hcl : ns.clients.find? id = none) :
    (GetDelta E ns now id lt active dns http).2.Conns.map ConnectionStats.identity =
      active.map ConnectionStats.identity := by
  rw [(GetDelta_structure E ns now id lt active dns http).2.1,
    determineConnectionIntraHost_identity]
  unfold deltaAccounting deltaConns
  rw [getClient_of_find?_none hcl]
  simp only [if_true, clientPoolGet, List.nil_append]
  exact foldl_preserve (firstDeltaConn ns.maxClientStats)
    (fun s' => s'.2.2.map ConnectionStats.identity = active.map ConnectionStats.identity) _
    (fun s' e _ hs' => (firstDeltaConn_identity ns.maxClientStats s' e).trans hs') _ rfl

/-- Closed coalescing, for the five counters that are summed. In every registry
reachable from `NewState`: no client holds two pending closed records with the
same byte key; storing a closed
record `c` whose byte key is that of a pending record `a` of a client does not
panic, leaves the length of the client's list unchanged and replaces `a` in
place by `addConnections a c`, whose byte, retransmit and TCP state counters are
the sums of those of `a` and `c`; a `GetDelta` of a registered client returns no
byte key twice, so no closed flow is returned twice; and the `GetDelta` that
registers a client returns the active records only. -/
theorem closed_coalescing (E : Env)
    (clientExpiry maxClosedConns maxClientStats maxDNSStats maxHTTPStats : Int)
    (ops : List Op) (ns : networkState)
    (hrun : runOps E (NewState clientExpiry maxClosedConns maxClientStats maxDNSStats
      maxHTTPStats) ops = some ns) :
    (∀ e ∈ ns.clients, (e.2.closedConnections.map (ByteKey E)).Nodup) ∧
    (∀ e ∈ ns.clients, ∀ (tel : telemetry) (c a : ConnectionStats) (j : Nat),
      e.2.closedConnections[j]? = some a → ByteKey E c = ByteKey E a →
      ∃ r, storeClosedConnection E ns.maxClosedConns tel e.2 c = some r ∧ r.1 = tel ∧
        r.2.closedConnections = e.2.closedConnections.set j (addConnections a c) ∧
        r.2.closedConnections.length = e.2.closedConnections.length ∧
        (addConnections a c).MonotonicSentBytes =
          wadd 64 a.MonotonicSentBytes c.MonotonicSentBytes ∧
        (addConnections a c).MonotonicRecvBytes =
          wadd 64 a.MonotonicRecvBytes c.MonotonicRecvBytes ∧
        (addConnections a c).MonotonicRetransmits =
          wadd 32 a.MonotonicRetransmits c.MonotonicRetransmits ∧
        (addConnections a c).MonotonicTCPEstablished =
          wadd 32 a.MonotonicTCPEstablished c.MonotonicTCPEstablished ∧
        (addConnections a c).MonotonicTCPClosed =
          wadd 32 a.MonotonicTCPClosed c.MonotonicTCPClosed) ∧
    (∀ (now : Int) (id : String) (lt : Nat) (active : List ConnectionStats)
      (dns : StatsByKeyByNameByType) (http : GoMap String RequestStats) (cl : client),
      ns.clients.find? id = some cl →
      ((GetDelta E ns now id lt active dns http).2.Conns.map (ByteKey E)).Nodup) ∧
    (∀ (now : Int) (id : String) (lt : Nat) (active : List ConnectionStats)
      (dns : StatsByKeyByNameByType) (http : GoMap String RequestStats),
      ns.clients.find? id = none →
      (GetDelta E ns now id lt active dns http).2.Conns.map ConnectionStats.identity =
        active.map ConnectionStats.identity) := by
  obtain ⟨ns', hrun', hwf, _⟩ := runOps_wellFormed E ops _
    (NewState_wellFormed E clientExpiry maxClosedConns maxClientStats maxDNSStats maxHTTPStats)
  rw [hrun] at hrun'
  cases hrun'
  refine ⟨fun e he => (client.indexed_nodup (hwf.2.1 e he)).1, ?_, ?_,
    fun now id lt active dns http hcl => GetDelta_new_identity E ns now id lt active dns http hcl⟩
  · intro e he tel c a j ha hkey
    obtain ⟨keys, hkeys, _, h₂⟩ := hwf.2.1 e he
    obtain ⟨k, hk, hfk⟩ := h₂ j a ha
    rw [hk] at hkey
    refine ⟨(tel, { e.2 with
      closedConnections := e.2.closedConnections.set j (addConnections a c) }), ?_, rfl, rfl, ?_,
      rfl, rfl, rfl, rfl, rfl⟩
    · simp only [storeClosedConnection, hkey, hkeys, Option.getD_some, hfk, ha]
    · simp
  · intro now id lt active dns http cl hcl
    exact GetDelta_existing_nodup E ns now id lt active dns http cl hcl
      (hwf.2.1 (id, cl) (GoMap.mem_of_find? hcl))

theorem closed_coalescing_witness :
    (∀ e ∈ sampleReached.clients, (e.2.closedConnections.map (ByteKey sampleEnv)).Nodup) ∧
    (∃ r, storeClosedConnection sampleEnv sampleReached.maxClosedConns telemetry.zero
        samplePending { sampleConn 7 0 1 6 with DPort := 22 } = some r ∧ r.1 = telemetry.zero ∧
      r.2.closedConnections = samplePending.closedConnections.set 1
        (addConnections { sampleConn 10 0 1 5 with DPort := 22 }
          { sampleConn 7 0 1 6 with DPort := 22 }) ∧
      r.2.closedConnections.length = samplePending.closedConnections.length ∧
      (addConnections { sampleConn 10 0 1 5 with DPort := 22 }
        { sampleConn 7 0 1 6 with DPort := 22 }).MonotonicSentBytes = 17) ∧
    ((GetDelta sampleEnv sampleReached 1 "A" 200
      [{ sampleConn 30 0 1 7 with DPort := 22 }, sampleConn 900 1100 7 2] [] []).2.Conns.map
        (ByteKey sampleEnv)).Nodup ∧
    (GetDelta sampleEnv sampleReached 1 "B" 200 [sampleConn 900 1100 7 2] []
      []).2.Conns.map ConnectionStats.identity =
        [sampleConn 900 1100 7 2].map ConnectionStats.identity := by
  have h := closed_coalescing sampleEnv 1000 2 10 10 10 sampleOps sampleReached (by decide)
  obtain ⟨r, h₁, h₂, h₃, h₄, h₅, _⟩ := h.2.1 ("A", samplePending) (by decide) telemetry.zero
    { sampleConn 7 0 1 6 with DPort := 22 } { sampleConn 10 0 1 5 with DPort := 22 } 1
    (by decide) (by decide)
  exact ⟨h.1, ⟨r, h₁, h₂, h₃, h₄, h₅⟩,
    h.2.2.1 1 "A" 200 [{ sampleConn 30 0 1 7 with DPort := 22 }, sampleConn 900 1100 7 2] [] []
      samplePending (by decide),
    h.2.2.2 1 "B" 200 [sampleConn 900 1100 7 2] [] [] (by decide)⟩

/-! ## Stored totals after a delta -/

/-- An active key in the `GetDelta` that creates its client: the record `c` the
key points at is accounted by `updateConnWithStats`, and the totals it leaves
are the client's totals for the key after the call. -/
theorem GetDelta_new_active (E : Env) (ns : networkState) (now : Int) (id : String)
    (lt : Nat) (active : List ConnectionStats) (dns : StatsByKeyByNameByType)
    (http : GoMap String RequestStats) (k : String) (i : Nat) (c : ConnectionStats)
    (hcl : ns.clients.find? id = none)
    (hf : (getConnsByKey E active).find? k = some i) (hc : active[i]? = some c) :
    ∃ tel' cl₀ cl', (GetDelta E ns now id lt active dns http).1.clients.find? id = some cl' ∧
      cl'.stats.find? k = (updateConnWithStats tel' cl₀ k c).2.1.stats.find? k := by
  obtain ⟨cl', hfind, _, _, hstats⟩ := GetDelta_final_client E ns now id lt active dns http
  obtain ⟨tel', cl₀, _, _, h₃⟩ := firstDeltaLoop_reach E ns.maxClientStats active k i c hf
    (ns.telemetry, (getClient ns now id).2.1, active) hc
  refine ⟨tel', cl₀, cl', hfind, ?_⟩
  rw [hstats k, hf]
  simp only [Option.isSome_some, if_true]
  rw [← h₃]
  unfold deltaAccounting deltaConns
  rw [getClient_of_find?_none hcl]
  rfl

/-- C5 (as amended). After every `GetDelta`, for the calling client and every key
retained in its stats map for which the client held no pending closed record at
the call, each of the seven stored totals equals the corresponding monotonic
counter of the active record of that call: the last record of `active` with
that byte key. -/
theorem GetDelta_totals_match_active (E : Env) (ns : networkState) (now : Int) (id : String)
    (lt : Nat) (active : List ConnectionStats) (dns : StatsByKeyByNameByType)
    (http : GoMap String RequestStats) (k : String) (cl' : client) (t' : stats)
    (hnoclosed : ∀ cl, ns.clients.find? id = some cl →
      (cl.closedConnectionsKeys.getD []).find? k = none ∧
        ∀ x ∈ cl.closedConnections, ByteKey E x ≠ some k)
    (hfind : (GetDelta E ns now id lt active dns http).1.clients.find? id = some cl')
    (ht : cl'.stats.find? k = some t') :
    ∃ (i : Nat) (c : ConnectionStats), active[i]? = some c ∧ ByteKey E c = some k ∧
      (∀ (j : Nat) (c' : ConnectionStats), i < j → active[j]? = some c' →
        ByteKey E c' ≠ some k) ∧
      totalsMatch t' c := by
  obtain ⟨cl'', hfind'', _, _, hstats⟩ := GetDelta_final_client E ns now id lt active dns http
  rw [hfind] at hfind''
  cases hfind''
  have hk := hstats k
  rw [ht] at hk
  cases hf : (getConnsByKey E active).find? k with
  | none => rw [hf] at hk; simp at hk
  | some i =>
    obtain ⟨c, hc, hck⟩ := (getConnsByKey_spec E active).2 k i hf
    refine ⟨i, c, hc, hck, getConnsByKey_last E active k i hf, ?_⟩
    cases hcl : ns.clients.find? id with
    | some cl =>
      obtain ⟨tel', cl₀, cl₁, _, _, hfind₁, hst⟩ :=
        GetDelta_existing_active E ns now id lt active dns http cl k i c hcl hf hc
          (hnoclosed cl hcl).1 (hnoclosed cl hcl).2
      rw [hfind] at hfind₁
      cases hfind₁
      rcases updateConnWithStats_totals tel' cl₀ k c with h | ⟨t, h, hm⟩
      · rw [hst, h.2] at ht; cases ht
      · rw [hst, h] at ht
        cases ht
        exact hm
    | none =>
      obtain ⟨tel', cl₀, cl₁, hfind₁, hst⟩ :=
        GetDelta_new_active E ns now id lt active dns http k i c hcl hf hc
      rw [hfind] at hfind₁
      cases hfind₁
      rcases updateConnWithStats_totals tel' cl₀ k c with h | ⟨t, h, hm⟩
      · rw [hst, h.2] at ht; cases ht
      · rw [hst, h] at ht
        cases ht
        exact hm

/-- C5 (counterexample). Client `"A"` holds a pending closed record of the sample
flow with 800 sent bytes at epoch 9 and polls the flow as active with 600 sent
bytes at the older epoch 7: the key is retained and its stored `totalSent` is
800, the counter of the closed record, not the 600 of the active record. -/
theorem GetDelta_totals_follow_newer_closed :
    ((sampleClosedNewer.bind (fun ns =>
        (GetDelta sampleEnv ns 1 "A" 200 [sampleConn 600 700 5 7] [] []).1.clients.find? "A")).map
      (fun cl => cl.stats.map (fun e => (e.1, e.2.totalSent)))) = some [(sampleConnKey, 800)] ∧
    (sampleConn 600 700 5 7).MonotonicSentBytes = 600 := by
  constructor <;> decide

theorem GetDelta_totals_match_active_witness :
    ∃ (i : Nat) (c : ConnectionStats), [sampleConn 900 1100 7 2][i]? = some c ∧
      ByteKey sampleEnv c = some sampleConnKey ∧
      (∀ (j : Nat) (c' : ConnectionStats), i < j → [sampleConn 900 1100 7 2][j]? = some c' →
        ByteKey sampleEnv c' ≠ some sampleConnKey) ∧
      totalsMatch
        { totalSent := 900, totalRecv := 1100, totalSentPackets := 7, totalRecvPackets := 0,
          totalRetransmits := 0, totalTCPEstablished := 0, totalTCPClosed := 0 } c :=
  GetDelta_totals_match_active sampleEnv (sampleState 500 700 5) 1 "A" 200
    [sampleConn 900 1100 7 2] [] [] sampleConnKey
    { sampleClient 900 1100 7 with lastFetch := 1 }
    { totalSent := 900, totalRecv := 1100, totalSentPackets := 7, totalRecvPackets := 0,
      totalRetransmits := 0, totalTCPEstablished := 0, totalTCPClosed := 0 }
    (by
      intro cl hcl
      have : cl = sampleClient 500 700 5 := by
        have h : (sampleState 500 700 5).clients.find? "A" = some (sampleClient 500 700 5) := by
          decide
        rw [h] at hcl
        exact (Option.some.inj hcl).symm
      subst this
      exact ⟨by decide, by simp [sampleClient]⟩)
    (by decide) (by decide)

/-! ## A closed flow that is active again -/

theorem wadd_lt (w a b : Nat) : wadd w a b < 2 ^ w :=
  Nat.mod_lt _ (Nat.pos_of_ne_zero (by positivity))

theorem addConnections_counters (a b : ConnectionStats) :
    (addConnections a b).MonotonicSentBytes = wadd 64 a.MonotonicSentBytes b.MonotonicSentBytes ∧
      (addConnections a b).MonotonicRecvBytes =
        wadd 64 a.MonotonicRecvBytes b.MonotonicRecvBytes ∧
      (addConnections a b).MonotonicRetransmits =
        wadd 32 a.MonotonicRetransmits b.MonotonicRetransmits :=
  ⟨rfl, rfl, rfl⟩

/-- The reopened branch of the closed loop: the closed record `x` (key `K`) is
older than the active record `y` of the same key. The record is output with the
summed sent bytes; against stored totals that the summed counters do not fall
below, its last sent bytes are the sum minus the stored total; without stored
totals they are the sum; and the total then stored for the key, if any, is the
sent bytes of the active record. -/
theorem mergeClosedConn_reopened (E : Env) (maxClientStats : Int)
    (active : List ConnectionStats) (connsByKey : GoMap String Nat) (tel : telemetry)
    (cl : client) (x y : ConnectionStats) (K : String) (hK : ByteKey E x = some K)
    (hact : activeConnFor active connsByKey K = some y)
    (hep : x.LastUpdateEpoch < y.LastUpdateEpoch) :
    (mergeClosedConn E maxClientStats active connsByKey tel cl x).2.2.MonotonicSentBytes =
        wadd 64 x.MonotonicSentBytes y.MonotonicSentBytes ∧
    (∀ t, cl.stats.find? K = some t →
      t.totalSent ≤ wadd 64 x.MonotonicSentBytes y.MonotonicSentBytes →
      t.totalRecv ≤ wadd 64 x.MonotonicRecvBytes y.MonotonicRecvBytes →
      t.totalRetransmits ≤ wadd 32 x.MonotonicRetransmits y.MonotonicRetransmits →
      (mergeClosedConn E maxClientStats active connsByKey tel cl x).2.2.LastSentBytes =
          wadd 64 x.MonotonicSentBytes y.MonotonicSentBytes - t.totalSent ∧
        ∃ t', (mergeClosedConn E maxClientStats active connsByKey tel cl x).2.1.stats.find? K =
          some t' ∧ t'.totalSent = y.MonotonicSentBytes) ∧
    (cl.stats.find? K = none →
      (mergeClosedConn E maxClientStats active connsByKey tel cl x).2.2.LastSentBytes =
          wadd 64 x.MonotonicSentBytes y.MonotonicSentBytes ∧
        ∀ t', (mergeClosedConn E maxClientStats active connsByKey tel cl x).2.1.stats.find? K =
          some t' → t'.totalSent = y.MonotonicSentBytes) := by
  have hngt : ¬ x.LastUpdateEpoch > y.LastUpdateEpoch := by omega
  obtain ⟨ha₁, ha₂, ha₃⟩ := addConnections_counters x y
  simp only [mergeClosedConn, hK, hact, if_neg hngt, if_pos hep]
  refine ⟨?_, ?_, ?_⟩
  · rw [(updateConnWithStatWithActiveConn_sameMonotonic _ _ _ _ _).2.2.1, ha₁]
  · intro t ht hs hr hrt
    rw [createStatsForKey_find?_some maxClientStats tel cl ht]
    have hno : ¬ ((addConnections x y).MonotonicSentBytes < t.totalSent ∨
        (addConnections x y).MonotonicRecvBytes < t.totalRecv ∨
        (addConnections x y).MonotonicRetransmits < t.totalRetransmits) := by
      rw [ha₁, ha₂, ha₃]; omega
    simp only [updateConnWithStatWithActiveConn, ht, handleStatsUnderflow, if_neg hno,
      GoMap.find?_insert_self]
    refine ⟨?_, _, rfl, rfl⟩
    rw [ha₁]
    exact wsub_of_le hs (wadd_lt _ _ _)
  · intro hnone
    rcases createStatsForKey_find?_self maxClientStats tel cl K with h | h
    · rw [hnone] at h
      simp only [updateConnWithStatWithActiveConn, h]
      exact ⟨ha₁, fun t' ht' => by cases ht'⟩
    · have hno : ¬ ((addConnections x y).MonotonicSentBytes < stats.zero.totalSent ∨
          (addConnections x y).MonotonicRecvBytes < stats.zero.totalRecv ∨
          (addConnections x y).MonotonicRetransmits < stats.zero.totalRetransmits) := by
        simp [stats.zero]
      simp only [updateConnWithStatWithActiveConn, h.2, handleStatsUnderflow, if_neg hno,
        GoMap.find?_insert_self]
      refine ⟨?_, fun t' ht' => ?_⟩
      · rw [ha₁]
        exact wsub_zero (wadd_lt _ _ _)
      · cases ht'
        rfl

theorem mergeClosedConns_append (E : Env) (maxClientStats : Int) (active : List ConnectionStats)
    (connsByKey : GoMap String Nat) (tel : telemetry) (cl : client)
    (l₁ l₂ : List ConnectionStats) :
    mergeClosedConns E maxClientStats active connsByKey tel cl (l₁ ++ l₂) =
      ((mergeClosedConns E maxClientStats active connsByKey
          (mergeClosedConns E maxClientStats active connsByKey tel cl l₁).1
          (mergeClosedConns E maxClientStats active connsByKey tel cl l₁).2.1 l₂).1,
        (mergeClosedConns E maxClientStats active connsByKey
          (mergeClosedConns E maxClientStats active connsByKey tel cl l₁).1
          (mergeClosedConns E maxClientStats active connsByKey tel cl l₁).2.1 l₂).2.1,
        (mergeClosedConns E maxClientStats active connsByKey tel cl l₁).2.2 ++
          (mergeClosedConns E maxClientStats active connsByKey
            (mergeClosedConns E maxClientStats active connsByKey tel cl l₁).1
            (mergeClosedConns E maxClientStats active connsByKey tel cl l₁).2.1 l₂).2.2) := by
  induction l₁ generalizing tel cl with
  | nil => rfl
  | cons x rest ih =>
    rw [List.cons_append]
    simp only [mergeClosedConns]
    rw [ih]
    rfl

/-- The active loop leaves the totals of a key with a pending closed record alone. -/
theorem mergeActiveLoop_pending (maxClientStats : Int) (L : GoMap String Nat)
    (s : telemetry × client × List ConnectionStats × List ConnectionStats) (K : String)
    (j : Nat) (hK : (s.2.1.closedConnectionsKeys.getD []).find? K = some j) :
    (L.foldl (mergeActiveConn maxClientStats) s).2.1.stats.find? K = s.2.1.stats.find? K ∧
      ∀ r ∈ s.2.2.2, r ∈ (L.foldl (mergeActiveConn maxClientStats) s).2.2.2 := by
  refine foldl_preserve (mergeActiveConn maxClientStats)
    (fun s' => (s'.2.1.stats.find? K = s.2.1.stats.find? K ∧
      (s'.2.1.closedConnectionsKeys.getD []).find? K = some j) ∧ ∀ r ∈ s.2.2.2, r ∈ s'.2.2.2)
    L ?_ s ⟨⟨rfl, hK⟩, fun _ h => h⟩ |> fun h => ⟨h.1.1, h.2⟩
  intro s' e _ hs'
  by_cases he : e.1 = K
  · have : mergeActiveConn maxClientStats s' e = s' := by
      unfold mergeActiveConn
      rw [he, hs'.1.2]
    rw [this]
    exact hs'
  · obtain ⟨h₁, h₂, _, h₄⟩ := mergeActiveConn_other maxClientStats s' e (i := e.2 + 1) he
      (by omega)
    exact ⟨⟨h₁.trans hs'.1.1, by rw [h₂.2.1]; exact hs'.1.2⟩, fun r hr => h₄ r (hs'.2 r hr)⟩

theorem filter_eq_singleton_of_nodup_map {α β : Type} [DecidableEq β] (f : α → β)
    (l : List α) (hn : (l.map f).Nodup) (r : α) (hr : r ∈ l) :
    l.filter (fun a => decide (f a = f r)) = [r] := by
  induction l with
  | nil => simp at hr
  | cons a t ih =>
    rw [List.map_cons, List.nodup_cons] at hn
    rcases List.mem_cons.1 hr with h | h
    · subst h
      have : t.filter (fun a => decide (f a = f r)) = [] := by
        rw [List.filter_eq_nil_iff]
        intro a ha hfa
        exact hn.1 (by rw [← of_decide_eq_true hfa]; exact List.mem_map_of_mem _ ha)
      simp [List.filter_cons, this]
    · have hne : f a ≠ f r := fun e => hn.1 (e ▸ List.mem_map_of_mem _ h)
      simp [List.filter_cons, hne, ih hn.2 h]

theorem split_at_getElem? {α : Type} {l : List α} {j : Nat} {x : α} (h : l[j]? = some x) :
    l = l.take j ++ x :: l.drop (j + 1) := by
  obtain ⟨hj, hx⟩ := List.getElem?_eq_some_iff.1 h
  have := List.take_append_drop j l
  rw [List.drop_eq_getElem_cons hj, hx] at this
  exact this.symm

/-- The closed loop over an indexed client, seen from the pending record `x` at
position `j`: the client after the loop holds the totals for the key of `x` that
the step on `x` left, that step ran on a client holding the totals for the key
that were stored before the loop, and its output record is among the updated
closed connections. -/
theorem mergeClosedConns_reach (E : Env) (maxClientStats : Int) (active : List ConnectionStats)
    (connsByKey : GoMap String Nat) (tel : telemetry) (cl : client) (x : ConnectionStats)
    (j : Nat) (K : String) (hn : (cl.closedConnections.map (ByteKey E)).Nodup)
    (hx : cl.closedConnections[j]? = some x) (hK : ByteKey E x = some K) :
    ∃ tel₁ cl₁, cl₁.stats.find? K = cl.stats.find? K ∧
      (mergeClosedConns E maxClientStats active connsByKey tel cl
          cl.closedConnections).2.1.stats.find? K =
        (mergeClosedConn E maxClientStats active connsByKey tel₁ cl₁ x).2.1.stats.find? K ∧
      (mergeClosedConn E maxClientStats active connsByKey tel₁ cl₁ x).2.2 ∈
        (mergeClosedConns E maxClientStats active connsByKey tel cl cl.closedConnections).2.2 := by
  have hsplit := split_at_getElem? hx
  rw [hsplit, List.map_append, List.map_cons, List.nodup_append] at hn
  obtain ⟨_, hn₂, hdisj⟩ := hn
  rw [List.nodup_cons] at hn₂
  have hpre : ∀ a ∈ cl.closedConnections.take j, ByteKey E a ≠ some K := by
    intro a ha hk
    exact hdisj (List.mem_map_of_mem _ ha) (by rw [hk, hK]; exact List.mem_cons_self _ _)
  have hpost : ∀ a ∈ cl.closedConnections.drop (j + 1), ByteKey E a ≠ some K := by
    intro a ha hk
    exact hn₂.1 (by rw [hK, ← hk]; exact List.mem_map_of_mem _ ha)
  generalize htake : cl.closedConnections.take j = pre at hsplit hpre
  generalize hdrop : cl.closedConnections.drop (j + 1) = post at hsplit hpost
  have hfr₁ := (mergeClosedConns_frame E maxClientStats active connsByKey tel cl pre).2.2 K hpre
  refine ⟨(mergeClosedConns E maxClientStats active connsByKey tel cl pre).1,
    (mergeClosedConns E maxClientStats active connsByKey tel cl pre).2.1, hfr₁, ?_, ?_⟩
  · conv_lhs => rw [hsplit, mergeClosedConns_append]
    simp only [mergeClosedConns]
    exact (mergeClosedConns_frame E maxClientStats active connsByKey _ _ post).2.2 K hpost
  · rw [hsplit, mergeClosedConns_append]
    simp only [mergeClosedConns]
    exact List.mem_append_right _ (List.mem_cons_self _ _)

/-- C6 (as amended). Reopened flow: an existing, indexed client holds a pending
closed record `x` with key `K` and `GetDelta` is called with an active record `y`
of the same key (the last one of `active` with that key) and a larger epoch. The
returned connections contain exactly one
record with key `K` and its `MonotonicSentBytes` is the sum of those of `x` and
`y` (modulo `2^64`). If totals `t` were stored for `K` before the call and none
of the summed sent bytes, received bytes and retransmits is below its stored
total, its `LastSentBytes` is the sum minus `t.totalSent` and the `totalSent`
stored for `K` after the call is that of `y`. If no totals were stored, its
`LastSentBytes` is the sum, and the `totalSent` stored after the call, if an
entry exists, is that of `y`. -/
theorem GetDelta_reopened (E : Env) (ns : networkState) (now : Int) (id : String)
    (lt : Nat) (active : List ConnectionStats) (dns : StatsByKeyByNameByType)
    (http : GoMap String RequestStats) (cl : client) (K : String) (j i : Nat)
    (x y : ConnectionStats)
    (hcl : ns.clients.find? id = some cl) (hidx : cl.indexed E)
    (hx : cl.closedConnections[j]? = some x) (hK : ByteKey E x = some K)
    (hy : active[i]? = some y) (hyK : ByteKey E y = some K)
    (hlast : ∀ (j' : Nat) (c' : ConnectionStats), i < j' → active[j']? = some c' →
      ByteKey E c' ≠ some K)
    (hep : x.LastUpdateEpoch < y.LastUpdateEpoch) :
    ∃ r cl',
      (GetDelta E ns now id lt active dns http).2.Conns.filter
        (fun r' => decide (ByteKey E r' = some K)) = [r] ∧
      r.MonotonicSentBytes = wadd 64 x.MonotonicSentBytes y.MonotonicSentBytes ∧
      (GetDelta E ns now id lt active dns http).1.clients.find? id = some cl' ∧
      (∀ t, cl.stats.find? K = some t →
        t.totalSent ≤ wadd 64 x.MonotonicSentBytes y.MonotonicSentBytes →
        t.totalRecv ≤ wadd 64 x.MonotonicRecvBytes y.MonotonicRecvBytes →
        t.totalRetransmits ≤ wadd 32 x.MonotonicRetransmits y.MonotonicRetransmits →
        r.LastSentBytes = wadd 64 x.MonotonicSentBytes y.MonotonicSentBytes - t.totalSent ∧
          ∃ t', cl'.stats.find? K = some t' ∧ t'.totalSent = y.MonotonicSentBytes) ∧
      (cl.stats.find? K = none →
        r.LastSentBytes = wadd 64 x.MonotonicSentBytes y.MonotonicSentBytes ∧
          ∀ t', cl'.stats.find? K = some t' → t'.totalSent = y.MonotonicSentBytes) := by
  have hf := getConnsByKey_of_last E active K i y hy hyK hlast
  obtain ⟨cl', hfind, _, _, hstats⟩ := GetDelta_final_client E ns now id lt active dns http
  have hconns := (GetDelta_structure E ns now id lt active dns http).2.1
  have hnodup := GetDelta_existing_nodup E ns now id lt active dns http cl hcl hidx
  have hacc : deltaAccounting E ns now id active =
      mergeConnections E ns.maxClientStats now ns.telemetry cl (getConnsByKey E active)
        active [] := by
    unfold deltaAccounting
    rw [getClient_of_find? hcl]
    rfl
  have hact : activeConnFor active (getConnsByKey E active) K = some y := by
    unfold activeConnFor
    rw [hf]
    exact hy
  obtain ⟨keys, hkeys, _, h₂⟩ := hidx
  obtain ⟨k', hk', hfk⟩ := h₂ j x hx
  rw [hK] at hk'
  cases hk'
  obtain ⟨tel₁, cl₁, hc₁, hc₂, hc₃⟩ := mergeClosedConns_reach E ns.maxClientStats active
    (getConnsByKey E active) ns.telemetry { cl with lastFetch := now } x j K
    (client.indexed_nodup ⟨keys, hkeys, by assumption, h₂⟩).1 hx hK
  obtain ⟨g₁, _, _⟩ := mergeClosedConns_frame E ns.maxClientStats active (getConnsByKey E active)
    ns.telemetry { cl with lastFetch := now } cl.closedConnections
  obtain ⟨hp₁, hp₂⟩ := mergeActiveLoop_pending ns.maxClientStats
    (E.rangeOrder (getConnsByKey E active))
    ((mergeClosedConns E ns.maxClientStats active (getConnsByKey E active) ns.telemetry
        { cl with lastFetch := now } cl.closedConnections).1,
      { (mergeClosedConns E ns.maxClientStats active (getConnsByKey E active) ns.telemetry
          { cl with lastFetch := now } cl.closedConnections).2.1 with
        closedConnections :=
          (mergeClosedConns E ns.maxClientStats active (getConnsByKey E active) ns.telemetry
            { cl with lastFetch := now } cl.closedConnections).2.2 },
      active,
      [] ++ (mergeClosedConns E ns.maxClientStats active (getConnsByKey E active) ns.telemetry
          { cl with lastFetch := now } cl.closedConnections).2.2)
    K j (by dsimp only; rw [g₁.2.1]; dsimp only; rw [hkeys]; exact hfk)
  obtain ⟨hr₁, hr₂, hr₃⟩ := mergeClosedConn_reopened E ns.maxClientStats active
    (getConnsByKey E active) tel₁ cl₁ x y K hK hact hep
  have hstK : cl'.stats.find? K =
      (mergeClosedConn E ns.maxClientStats active (getConnsByKey E active) tel₁ cl₁ x).2.1.stats.find?
        K := by
    rw [hstats K, hf, hacc]
    simp only [Option.isSome_some, if_true]
    unfold mergeConnections
    dsimp only at hp₁ ⊢
    rw [hp₁]
    exact hc₂
  have hmem : classifyIntraHost E
      ((deltaAccounting E ns now id active).2.2.2.map (fun conn => newConnKey conn false))
      (mergeClosedConn E ns.maxClientStats active (getConnsByKey E active) tel₁ cl₁ x).2.2 ∈
      (GetDelta E ns now id lt active dns http).2.Conns := by
    rw [hconns]
    unfold determineConnectionIntraHost
    apply List.mem_map_of_mem
    rw [hacc]
    unfold mergeConnections
    exact hp₂ _ (List.mem_append_right _ hc₃)
  obtain ⟨hsm, hlast⟩ := classifyIntraHost_counters E
    ((deltaAccounting E ns now id active).2.2.2.map (fun conn => newConnKey conn false))
    (mergeClosedConn E ns.maxClientStats active (getConnsByKey E active) tel₁ cl₁ x).2.2
  have hlsb := congrArg (fun l => l.head?) hlast
  simp only [ConnectionStats.lastCounters, List.head?_cons, Option.some.injEq] at hlsb
  have hkey : ByteKey E (classifyIntraHost E
      ((deltaAccounting E ns now id active).2.2.2.map (fun conn => newConnKey conn false))
      (mergeClosedConn E ns.maxClientStats active (getConnsByKey E active) tel₁ cl₁ x).2.2) =
      some K := by
    rw [ByteKey_eq_of_identity E hsm.1,
      ByteKey_eq_of_identity E
        (mergeClosedConn_frame E ns.maxClientStats active (getConnsByKey E active) tel₁ cl₁ x).2.1]
    exact hK
  have hfilter := filter_eq_singleton_of_nodup_map (ByteKey E) _ hnodup _ hmem
  rw [hkey] at hfilter
  refine ⟨_, cl', hfilter, by rw [hsm.2.2.1, hr₁], hfind, ?_, ?_⟩
  · intro t ht hs hr hrt
    obtain ⟨h₁, t', ht', htt⟩ := hr₂ t (by rw [hc₁]; exact ht) hs hr hrt
    exact ⟨by rw [hlsb, h₁], t', by rw [hstK, ht'], htt⟩
  · intro hnone
    obtain ⟨h₁, h₂'⟩ := hr₃ (by rw [hc₁]; exact hnone)
    exact ⟨by rw [hlsb, h₁], fun t' ht' => h₂' t' (by rw [← hstK]; exact ht')⟩

/-- C6 (counterexample). Client `"A"` has 900 stored as `totalSent` for the
sample flow and a pending closed record with 100 sent bytes at epoch 5; it polls
the flow as active with 250 sent bytes at epoch 7. The one record returned has
`MonotonicSentBytes = 350` and `LastSentBytes = 350`: the sum is below the stored
total, the underflow guard zeroes the total, and the last counter is the sum, not
the sum minus the stored 900 (which would be `2^64 - 550` in `uint64`). -/
theorem reopened_sum_below_stored_total :
    sampleReopenAbove.map (fun ns =>
        ns.clients.map (fun e => e.2.stats.map (fun p => p.2.totalSent))) = some [[900]] ∧
    sampleReopenAbove.map (fun ns =>
        (GetDelta sampleEnv ns 1 "A" 200 [sampleConn 250 600 1 7] [] []).2.Conns.map
          (fun r => (r.MonotonicSentBytes, r.LastSentBytes))) = some [(350, 350)] ∧
    wsub 64 350 900 = 2 ^ 64 - 550 := by
  refine ⟨by decide, by decide, by decide⟩

theorem GetDelta_reopened_witness :
    ∃ r cl',
      (GetDelta sampleEnv sampleReopenState 1 "A" 200 [sampleConn 250 0 1 7] [] []).2.Conns.filter
        (fun r' => decide (ByteKey sampleEnv r' = some sampleConnKey)) = [r] ∧
      r.MonotonicSentBytes = 350 ∧
      (GetDelta sampleEnv sampleReopenState 1 "A" 200 [sampleConn 250 0 1 7] []
        []).1.clients.find? "A" = some cl' ∧
      r.LastSentBytes = 300 ∧
      ∃ t', cl'.stats.find? sampleConnKey = some t' ∧ t'.totalSent = 250 := by
  have hidx : sampleReopenClient.indexed sampleEnv := by
    obtain ⟨ns', hrun, hwf, _⟩ := runOps_wellFormed sampleEnv sampleReopenOps _
      (NewState_wellFormed sampleEnv 1000 2 10 10 10)
    have hns : runOps sampleEnv (NewState 1000 2 10 10 10) sampleReopenOps =
        some sampleReopenState := by decide
    rw [hns] at hrun
    cases hrun
    exact hwf.2.1 ("A", sampleReopenClient) (by decide)
  obtain ⟨r, cl', h₁, h₂, h₃, h₄, _⟩ :=
    GetDelta_reopened sampleEnv sampleReopenState 1 "A" 200 [sampleConn 250 0 1 7] [] []
      sampleReopenClient sampleConnKey 0 0 (sampleConn 100 0 1 5) (sampleConn 250 0 1 7)
      (by decide) hidx (by decide) (by decide) (by decide) (by decide)
      (by
        intro j c' hj h
        cases j with
        | zero => omega
        | succ n => simp at h)
      (by decide)
  obtain ⟨h₅, h₆⟩ := h₄
    { totalSent := 50, totalRecv := 0, totalSentPackets := 0, totalRecvPackets := 0,
      totalRetransmits := 0, totalTCPEstablished := 0, totalTCPClosed := 0 }
    (by decide) (by decide) (by decide) (by decide)
  exact ⟨r, cl', h₁, h₂, h₃, h₅, h₆⟩

/-! ## Claims about the intra-host classification -/

theorem mem_lAddrs_iff (connections : List ConnectionStats) (c : ConnectionStats) :
    newConnKey c true ∈ connections.map (fun conn => newConnKey conn false) ↔
      ∃ d ∈ connections, lookupKeyReference c = (d.Source, d.SPort, d.ConnType) := by
  simp only [List.mem_map]
  constructor
  · rintro ⟨d, hd, h⟩
    refine ⟨d, hd, ?_⟩
    unfold newConnKey lookupKeyReference at *
    cases hT : c.IPTranslation <;> simp_all
  · rintro ⟨d, hd, h⟩
    refine ⟨d, hd, ?_⟩
    unfold newConnKey lookupKeyReference at *
    cases hT : c.IPTranslation <;> simp_all

theorem classifyIntraHost_IntraHost (E : Env) (connections : List ConnectionStats)
    (c : ConnectionStats) :
    (classifyIntraHost E (connections.map (fun conn => newConnKey conn false)) c).IntraHost =
      intraHostReference E connections c := by
  have hmem := mem_lAddrs_iff connections c
  have hflag : ∀ x : ConnectionStats,
      (if x.IntraHost = true ∧ x.Direction = ConnectionDirection.INCOMING then
        { x with IPTranslation := none } else x).IntraHost = x.IntraHost := by
    intro x; split <;> rfl
  unfold classifyIntraHost
  dsimp only
  rw [hflag]
  unfold intraHostReference replSrcIsLoopback
  by_cases h₁ : c.Source = c.Dest
  · simp [h₁]
  · by_cases h₂ : E.IsLoopback c.Source = true ∧ E.IsLoopback c.Dest = true
    · simp [h₁, h₂.1, h₂.2]
    · cases hT : c.IPTranslation with
      | none =>
        have h₂' : (E.IsLoopback c.Source && E.IsLoopback c.Dest) = false := by
          simpa using h₂
        simp only [h₁, h₂, hT, false_or, Bool.false_eq_true, if_false, decide_False, h₂',
          Bool.or_false, Bool.false_or]
        rw [Bool.eq_iff_iff]
        simp only [decide_eq_true_eq, List.any_eq_true]
        exact hmem
      | some t =>
        have h₂' : (E.IsLoopback c.Source && E.IsLoopback c.Dest) = false := by
          simpa using h₂
        by_cases h₃ : E.IsLoopback t.ReplSrcIP = true
        · simp [h₁, h₂, hT, h₃]
        · have h₃' : E.IsLoopback t.ReplSrcIP = false := by simpa using h₃
          simp only [h₁, h₂, hT, h₃', false_or, Bool.false_eq_true, if_false, decide_False, h₂',
            Bool.or_false, Bool.false_or]
          rw [Bool.eq_iff_iff]
          simp only [decide_eq_true_eq, List.any_eq_true]
          exact hmem

/-- C14. After `determineConnectionIntraHost`, the `IntraHost` flag of every
connection of the buffer, position by position, is the reference definition
evaluated on the connection as it was on input and on the same buffer. -/
theorem determineConnectionIntraHost_reference (E : Env) (connections : List ConnectionStats) :
    (determineConnectionIntraHost E connections).map (fun c => c.IntraHost) =
      connections.map (intraHostReference E connections) := by
  unfold determineConnectionIntraHost
  rw [List.map_map]
  apply List.map_congr_left
  intro c _
  exact classifyIntraHost_IntraHost E connections c

theorem classifyIntraHost_translation (E : Env) (lAddrs : List connKey) (c : ConnectionStats) :
    (classifyIntraHost E lAddrs c).Direction = c.Direction ∧
      (classifyIntraHost E lAddrs c).IPTranslation =
        if (classifyIntraHost E lAddrs c).IntraHost = true ∧
            c.Direction = ConnectionDirection.INCOMING then none
        else c.IPTranslation := by
  unfold classifyIntraHost
  dsimp only
  split <;> split <;> simp_all

/-- C15. After `determineConnectionIntraHost`, position by position, a connection
that is flagged intra-host and is incoming has no `IPTranslation`, and every
other connection has the `IPTranslation` it had on input; the direction is
never changed. -/
theorem determineConnectionIntraHost_translation (E : Env)
    (connections : List ConnectionStats) :
    List.Forall₂ (fun c c' => c'.Direction = c.Direction ∧
        c'.IPTranslation =
          if c'.IntraHost = true ∧ c'.Direction = ConnectionDirection.INCOMING then none
          else c.IPTranslation)
      connections (determineConnectionIntraHost E connections) := by
  unfold determineConnectionIntraHost
  rw [List.forall₂_map_right_iff]
  apply List.forall₂_same.mpr
  intro c _
  have h := classifyIntraHost_translation E
    (connections.map (fun conn => newConnKey conn false)) c
  refine ⟨h.1, ?_⟩
  rw [h.1]
  exact h.2

theorem intraHostReference_of_source (E : Env) (connections : List ConnectionStats)
    (c d : ConnectionStats) (hd : d ∈ connections)
    (h : lookupKeyReference c = (d.Source, d.SPort, d.ConnType)) :
    intraHostReference E connections c = true := by
  unfold intraHostReference
  have : connections.any
      (fun d => decide (lookupKeyReference c = (d.Source, d.SPort, d.ConnType))) = true :=
    List.any_eq_true.mpr ⟨d, hd, by simpa using h⟩
  rw [this, Bool.or_true]

theorem intraHostReference_of_loopback (E : Env) (connections : List ConnectionStats)
    (c : ConnectionStats) (t : IPTranslation) (ht : c.IPTranslation = some t)
    (h : E.IsLoopback t.ReplSrcIP = true) : intraHostReference E connections c = true := by
  unfold intraHostReference
  simp [ht, h]

/-- C16 (counterexample). The incoming half of a mirror pair whose
translation has a reply source that is no source endpoint of the buffer
(`9.9.9.9:1`) is not flagged intra-host and keeps its translation. -/
theorem mirror_pair_foreign_translation :
    (determineConnectionIntraHost sampleEnv
        [sampleMirrorOut, sampleMirrorIn "9.9.9.9" 1]).map
        (fun c => (c.IntraHost, c.IPTranslation)) =
      [(true, none),
        (false, some { ReplSrcIP := { ip := "9.9.9.9" }, ReplSrcPort := 1 })] := by
  decide

/-- C16 (as amended). In a buffer holding an outgoing connection `A` (`a:p -> b:q`)
whose lookup key is its destination (no translation, or one with reply source
`b:q`) and an incoming connection `B` of the same type with the endpoints
swapped whose translation has its reply source at `a:p` or on a loopback
address, `determineConnectionIntraHost` flags both intra-host and clears the
translation of `B`. -/
theorem determineConnectionIntraHost_mirror (E : Env) (connections : List ConnectionStats)
    (i j : Nat) (A B : ConnectionStats) (t : IPTranslation)
    (hA : connections[i]? = some A) (hB : connections[j]? = some B)
    (hAdir : A.Direction = ConnectionDirection.OUTGOING)
    (hBdir : B.Direction = ConnectionDirection.INCOMING)
    (htype : B.ConnType = A.ConnType)
    (hsrc : B.Source = A.Dest ∧ B.SPort = A.DPort)
    (hdst : B.Dest = A.Source ∧ B.DPort = A.SPort)
    (hAt : A.IPTranslation = none ∨
      ∃ u, A.IPTranslation = some u ∧ u.ReplSrcIP = A.Dest ∧ u.ReplSrcPort = A.DPort)
    (hBt : B.IPTranslation = some t)
    (ht : (t.ReplSrcIP = B.Dest ∧ t.ReplSrcPort = B.DPort) ∨
      E.IsLoopback t.ReplSrcIP = true) :
    ∃ A' B', (determineConnectionIntraHost E connections)[i]? = some A' ∧
      (determineConnectionIntraHost E connections)[j]? = some B' ∧
      A'.IntraHost = true ∧ A'.Direction = ConnectionDirection.OUTGOING ∧
      B'.IntraHost = true ∧ B'.IPTranslation = none := by
  have hAmem : A ∈ connections := List.getElem?_mem hA
  have hBmem : B ∈ connections := List.getElem?_mem hB
  have hAflag : intraHostReference E connections A = true := by
    apply intraHostReference_of_source E connections A B hBmem
    unfold lookupKeyReference
    rcases hAt with h | ⟨u, h, h₁, h₂⟩
    · rw [h]; simp [hsrc.1, hsrc.2, htype]
    · rw [h]; simp [hsrc.1, hsrc.2, htype, h₁, h₂]
  have hBflag : intraHostReference E connections B = true := by
    rcases ht with ⟨h₁, h₂⟩ | h
    · apply intraHostReference_of_source E connections B A hAmem
      unfold lookupKeyReference
      rw [hBt]; simp [h₁, h₂, htype, hdst.1, hdst.2]
    · exact intraHostReference_of_loopback E connections B t hBt h
  refine ⟨classifyIntraHost E (connections.map (fun conn => newConnKey conn false)) A,
    classifyIntraHost E (connections.map (fun conn => newConnKey conn false)) B, ?_, ?_, ?_, ?_, ?_, ?_⟩
  · simp [determineConnectionIntraHost, List.getElem?_map, hA]
  · simp [determineConnectionIntraHost, List.getElem?_map, hB]
  · rw [classifyIntraHost_IntraHost]; exact hAflag
  · rw [(classifyIntraHost_translation E _ A).1]; exact hAdir
  · rw [classifyIntraHost_IntraHost]; exact hBflag
  · rw [(classifyIntraHost_translation E _ B).2, classifyIntraHost_IntraHost, hBflag]
    simp [hBdir]

theorem determineConnectionIntraHost_mirror_witness :
    ∃ A' B', (determineConnectionIntraHost sampleEnv
        [sampleMirrorOut, sampleMirrorIn "10.0.0.1" 5000])[0]? = some A' ∧
      (determineConnectionIntraHost sampleEnv
        [sampleMirrorOut, sampleMirrorIn "10.0.0.1" 5000])[1]? = some B' ∧
      A'.IntraHost = true ∧ A'.Direction = ConnectionDirection.OUTGOING ∧
      B'.IntraHost = true ∧ B'.IPTranslation = none :=
  determineConnectionIntraHost_mirror sampleEnv
    [sampleMirrorOut, sampleMirrorIn "10.0.0.1" 5000] 0 1 sampleMirrorOut
    (sampleMirrorIn "10.0.0.1" 5000) { ReplSrcIP := { ip := "10.0.0.1" }, ReplSrcPort := 5000 }
    rfl rfl rfl rfl rfl ⟨rfl, rfl⟩ ⟨rfl, rfl⟩ (Or.inl rfl) rfl (Or.inl ⟨rfl, rfl⟩)

/-! ## Claims about the administrative operations -/

theorem find?_filter_nodup {κ ν : Type} [DecidableEq κ] (m : GoMap κ ν) (p : κ × ν → Bool)
    (hn : m.keys.Nodup) (k : κ) :
    GoMap.find? (m.filter p) k =
      match m.find? k with
      | some v => if p (k, v) = true then some v else none
      | none => none := by
  induction m with
  | nil => rfl
  | cons e t ih =>
    obtain ⟨k', v'⟩ := e
    simp only [GoMap.keys, List.map_cons, List.nodup_cons] at hn
    have ih := ih hn.2
    by_cases hk : k' = k
    · subst hk
      have hnone : GoMap.find? t k' = none := (GoMap.find?_eq_none_iff t k').2 hn.1
      by_cases hp : p (k', v') = true
      · simp [List.filter, hp, GoMap.find?]
      · have hp' : p (k', v') = false := by simpa using hp
        simp only [List.filter, hp', GoMap.find?, if_true]
        rw [ih, hnone]
        simp
    · by_cases hp : p (k', v') = true
      · simp only [List.filter, hp, GoMap.find?, if_neg hk]
        exact ih
      · have hp' : p (k', v') = false := by simpa using hp
        simp only [List.filter, hp', GoMap.find?, if_neg hk]
        exact ih

/-- C17. `RemoveExpiredClients` keeps exactly the clients whose last fetch plus the
expiry is not before `now`, each with its state and in the same order; a lookup
by id finds a client afterwards exactly when it was registered and not expired;
when every client is expired the registry is empty afterwards. -/
theorem RemoveExpiredClients_spec (ns : networkState) (now : Int) :
    (∀ e, e ∈ (RemoveExpiredClients ns now).clients ↔
      e ∈ ns.clients ∧ ¬ (e.2.lastFetch + ns.clientExpiry < now)) ∧
    (RemoveExpiredClients ns now).clients.Sublist ns.clients ∧
    (ns.clients.keys.Nodup → ∀ id, (RemoveExpiredClients ns now).clients.find? id =
      match ns.clients.find? id with
      | some c => if c.lastFetch + ns.clientExpiry < now then none else some c
      | none => none) ∧
    ((∀ e ∈ ns.clients, e.2.lastFetch + ns.clientExpiry < now) →
      (RemoveExpiredClients ns now).clients = []) ∧
    (RemoveExpiredClients ns now).config = ns.config := by
  refine ⟨?_, ?_, ?_, ?_, rfl⟩
  · intro e
    simp [RemoveExpiredClients, List.mem_filter]
  · exact List.filter_sublist _
  · intro hn id
    unfold RemoveExpiredClients
    dsimp only
    rw [find?_filter_nodup _ _ hn]
    cases ns.clients.find? id with
    | none => rfl
    | some c =>
      dsimp only
      by_cases h : c.lastFetch + ns.clientExpiry < now <;> simp [h]
  · intro h
    unfold RemoveExpiredClients
    dsimp only
    rw [List.filter_eq_nil_iff]
    intro e he
    simpa using h e he

theorem RemoveExpiredClients_spec_witness :
    sampleTwoClients.clients.keys = ["A", "B"] ∧
    (∀ e ∈ sampleTwoClients.clients, e.2.lastFetch + sampleTwoClients.clientExpiry < 2000) ∧
    (RemoveExpiredClients sampleTwoClients 2000).clients = [] :=
  ⟨by decide, by decide,
    (RemoveExpiredClients_spec sampleTwoClients 2000).2.2.2.1 (by decide)⟩

theorem find?_foldl_erase (keys : List String) (m : GoMap String stats) (k : String) :
    GoMap.find? (keys.foldl (fun m key => GoMap.erase m key) m) k =
      if k ∈ keys then none else m.find? k := by
  induction keys generalizing m with
  | nil => simp
  | cons key rest ih =>
    rw [List.foldl_cons, ih]
    have he : GoMap.find? (GoMap.erase m key) k = if k = key then none else m.find? k := by
      unfold GoMap.erase
      rw [GoMap.find?_filter_key m (fun k' => decide (k' ≠ key)) k]
      by_cases h : k = key <;> simp [h]
    rw [he]
    by_cases h₁ : k ∈ rest
    · simp [h₁]
    · by_cases h₂ : k = key <;> simp [h₁, h₂]

/-- C18. `RemoveConnections` keeps the registered clients, in the same order,
and for each of them the last fetch, the pending closed connections and their
index, the DNS and the HTTP stats; a stats entry is gone if its key is listed
and otherwise is what it was. The configuration and the latest time are kept. -/
theorem RemoveConnections_frame (ns : networkState) (keys : List String) :
    List.Forall₂ (fun p q => q.1 = p.1 ∧ client.sameClosed q.2 p.2 ∧
        ∀ k, q.2.stats.find? k = if k ∈ keys then none else p.2.stats.find? k)
      ns.clients (RemoveConnections ns keys).clients ∧
    (RemoveConnections ns keys).clients.keys = ns.clients.keys ∧
    (RemoveConnections ns keys).config = ns.config ∧
    (RemoveConnections ns keys).latestTimeEpoch = ns.latestTimeEpoch := by
  refine ⟨?_, ?_, rfl, rfl⟩
  · unfold RemoveConnections
    dsimp only
    rw [List.forall₂_map_right_iff]
    apply List.forall₂_same.mpr
    intro p _
    exact ⟨rfl, ⟨rfl, rfl, rfl, rfl, rfl, rfl⟩, fun k => find?_foldl_erase keys p.2.stats k⟩
  · simp [RemoveConnections, GoMap.keys, Function.comp_def]

/-- C19. After `RemoveConnections`, for any keys and any prior state, the seven
telemetry counters are zero. -/
theorem RemoveConnections_zeroes_telemetry (ns : networkState) (keys : List String) :
    (RemoveConnections ns keys).telemetry.statsResets = 0 ∧
    (RemoveConnections ns keys).telemetry.closedConnDropped = 0 ∧
    (RemoveConnections ns keys).telemetry.connDropped = 0 ∧
    (RemoveConnections ns keys).telemetry.timeSyncCollisions = 0 ∧
    (RemoveConnections ns keys).telemetry.dnsStatsDropped = 0 ∧
    (RemoveConnections ns keys).telemetry.httpStatsDropped = 0 ∧
    (RemoveConnections ns keys).telemetry.dnsPidCollisions = 0 :=
  ⟨rfl, rfl, rfl, rfl, rfl, rfl, rfl⟩

/-- C20 (counterexample). After the sample run, in which one closed
connection was dropped, `RemoveExpiredClients` removes the client and leaves
`closedConnDropped` at 1. -/
theorem expired_clients_telemetry_kept :
    (runOps sampleEnv (NewState 1000 2 10 10 10)
        (sampleOps ++ [Op.callRemoveExpiredClients 5000])).map
      (fun ns => (ns.clients.length, ns.telemetry.closedConnDropped)) = some (0, 1) := by
  decide

/-- C20 (as amended). `RemoveExpiredClients` leaves every telemetry counter of the
registry as it was. -/
theorem RemoveExpiredClients_telemetry (ns : networkState) (now : Int) :
    (RemoveExpiredClients ns now).telemetry = ns.telemetry := rfl

/-! ## Invariants of reachable registries -/

/-- A property of registries that every public operation preserves on
well-formed registries holds after every sequence of operations. -/
theorem runOps_invariant (E : Env) (Q : networkState → Prop)
    (hstep : ∀ (ns : networkState) (op : Op) (ns' : networkState),
      ns.wellFormed E → Q ns → op.run E ns = some ns' → Q ns')
    (ops : List Op) (ns ns' : networkState) (hw : ns.wellFormed E) (hq : Q ns)
    (hrun : runOps E ns ops = some ns') : Q ns' := by
  induction ops generalizing ns with
  | nil =>
    simp only [runOps, Option.some.injEq] at hrun
    exact hrun ▸ hq
  | cons op ops ih =>
    obtain ⟨ns₁, h₁, hw₁, _⟩ := Op.run_wellFormed E ns op hw
    simp only [runOps, h₁] at hrun
    exact ih ns₁ hw₁ (hstep ns op ns₁ hw hq h₁) hrun

theorem createStatsForKey_length (maxClientStats : Int) (tel : telemetry) (cl : client)
    (key : String) (h : (cl.stats.length : Int) ≤ maxClientStats) :
    ((createStatsForKey maxClientStats tel cl key).2.stats.length : Int) ≤ maxClientStats := by
  unfold createStatsForKey
  split
  · exact h
  · rename_i hnone
    split
    · exact h
    · rename_i hlt
      dsimp only
      rw [GoMap.insert_of_find?_none _ hnone]
      simp only [List.length_append, List.length_singleton, Nat.cast_add, Nat.cast_one]
      omega

theorem updateConnWithStats_length (tel : telemetry) (cl : client) (key : String)
    (c : ConnectionStats) :
    (updateConnWithStats tel cl key c).2.1.stats.length = cl.stats.length := by
  unfold updateConnWithStats
  split
  · rename_i st0 h
    exact GoMap.length_insert_of_find?_some _ h
  · rfl

theorem updateConnWithStatWithActiveConn_length (tel : telemetry) (cl : client) (key : String)
    (active closed : ConnectionStats) :
    (updateConnWithStatWithActiveConn tel cl key active closed).2.1.stats.length =
      cl.stats.length := by
  unfold updateConnWithStatWithActiveConn
  split
  · rename_i st0 h
    exact GoMap.length_insert_of_find?_some _ h
  · rfl

theorem mergeClosedConn_length (E : Env) (maxClientStats : Int) (active : List ConnectionStats)
    (connsByKey : GoMap String Nat) (tel : telemetry) (cl : client) (x : ConnectionStats)
    (h : (cl.stats.length : Int) ≤ maxClientStats) :
    ((mergeClosedConn E maxClientStats active connsByKey tel cl x).2.1.stats.length : Int) ≤
      maxClientStats := by
  unfold mergeClosedConn
  split
  · exact h
  · split
    · split
      · rw [updateConnWithStats_length]; exact h
      · split
        · dsimp only
          have h₁ := createStatsForKey_length maxClientStats tel cl ‹String› h
          split
          · rename_i st hst
            dsimp only
            rw [GoMap.length_insert_of_find?_some _ hst,
              updateConnWithStatWithActiveConn_length]
            exact h₁
          · rw [updateConnWithStatWithActiveConn_length]
            exact h₁
        · rw [updateConnWithStats_length]; exact h
    · rw [updateConnWithStats_length]; exact h

theorem mergeClosedConns_length (E : Env) (maxClientStats : Int) (active : List ConnectionStats)
    (connsByKey : GoMap String Nat) (tel : telemetry) (cl : client)
    (closed : List ConnectionStats) (h : (cl.stats.length : Int) ≤ maxClientStats) :
    ((mergeClosedConns E maxClientStats active connsByKey tel cl closed).2.1.stats.length : Int) ≤
      maxClientStats := by
  induction closed generalizing tel cl with
  | nil => exact h
  | cons x rest ih =>
    simp only [mergeClosedConns]
    exact ih _ _ (mergeClosedConn_length E maxClientStats active connsByKey tel cl x h)

theorem mergeActiveConn_length (maxClientStats : Int)
    (s : telemetry × client × List ConnectionStats × List ConnectionStats) (e : String × Nat)
    (h : (s.2.1.stats.length : Int) ≤ maxClientStats) :
    ((mergeActiveConn maxClientStats s e).2.1.stats.length : Int) ≤ maxClientStats := by
  unfold mergeActiveConn
  split
  · exact h
  · split
    · exact h
    · dsimp only
      rw [updateConnWithStats_length]
      exact createStatsForKey_length maxClientStats s.1 s.2.1 e.1 h

theorem firstDeltaConn_length (maxClientStats : Int)
    (s : telemetry × client × List ConnectionStats) (e : String × Nat)
    (h : (s.2.1.stats.length : Int) ≤ maxClientStats) :
    ((firstDeltaConn maxClientStats s e).2.1.stats.length : Int) ≤ maxClientStats := by
  unfold firstDeltaConn
  split
  · exact h
  · dsimp only
    rw [updateConnWithStats_length]
    exact createStatsForKey_length maxClientStats s.1 s.2.1 e.1 h

theorem deltaConns_length (E : Env) (maxClientStats : Int) (now : Int) (tel : telemetry)
    (cl : client) (ok : Bool) (connsByKey : GoMap String Nat)
    (active buffer : List ConnectionStats) (h : (cl.stats.length : Int) ≤ maxClientStats) :
    ((deltaConns E maxClientStats now tel cl ok connsByKey active buffer).2.1.stats.length :
      Int) ≤ maxClientStats := by
  unfold deltaConns
  split
  · dsimp only
    exact foldl_preserve (firstDeltaConn maxClientStats)
      (fun s => (s.2.1.stats.length : Int) ≤ maxClientStats) _
      (fun s e _ hs => firstDeltaConn_length maxClientStats s e hs) _ h
  · unfold mergeConnections
    dsimp only
    exact foldl_preserve (mergeActiveConn maxClientStats)
      (fun s => (s.2.1.stats.length : Int) ≤ maxClientStats) _
      (fun s e _ hs => mergeActiveConn_length maxClientStats s e hs) _
      (mergeClosedConns_length E maxClientStats active connsByKey tel _ _ h)

theorem getClient_stats_length (ns : networkState) (now : Int) (id : String)
    (h0 : 0 ≤ ns.maxClientStats)
    (h : ∀ e ∈ ns.clients, (e.2.stats.length : Int) ≤ ns.maxClientStats) :
    ((getClient ns now id).2.1.stats.length : Int) ≤ ns.maxClientStats := by
  unfold getClient
  split
  · rename_i c hc
    exact h _ (GoMap.mem_of_find? hc)
  · simpa using h0

theorem length_foldl_erase_le (keys : List String) (m : GoMap String stats) :
    (keys.foldl (fun m key => GoMap.erase m key) m).length ≤ m.length := by
  induction keys generalizing m with
  | nil => exact le_refl _
  | cons key rest ih =>
    rw [List.foldl_cons]
    exact le_trans (ih _) (List.length_filter_le _ _)

theorem config_maxClientStats {a b : networkState} (h : a.config = b.config) :
    a.maxClientStats = b.maxClientStats := by
  have := congrArg (fun c => c.2.2.1) h
  simpa [networkState.config] using this

/-- Every public operation keeps every client's stats map within `maxClientStats`. -/
theorem Op.run_stats_length (E : Env) (ns : networkState) (op : Op) (ns' : networkState)
    (hw : ns.wellFormed E) (h0 : 0 ≤ ns.maxClientStats)
    (h : ∀ e ∈ ns.clients, (e.2.stats.length : Int) ≤ ns.maxClientStats)
    (hrun : op.run E ns = some ns') :
    ∀ e ∈ ns'.clients, (e.2.stats.length : Int) ≤ ns.maxClientStats := by
  cases op with
  | callGetDelta now id lt active dns http =>
    simp only [Op.run, Option.some.injEq] at hrun
    subst hrun
    intro e he
    have hacc : ((deltaAccounting E ns now id active).2.1.stats.length : Int) ≤
        ns.maxClientStats :=
      deltaConns_length E _ now _ _ _ _ _ _ (getClient_stats_length ns now id h0 h)
    rcases (GetDelta_clients E ns now id lt active dns http hw.1).2 e he with
      ⟨_, c₂, hs, hc⟩ | ⟨_, c₀, hc₀, hs⟩
    · rw [hc]
      have hle : (c₂.Reset (getConnsByKey E active)).stats.length ≤ c₂.stats.length :=
        List.length_filter_le _ _
      rw [← hs.2.2.2.2] at hle
      omega
    · rw [← hs.2.2.2.2]
      exact h _ hc₀
  | callStoreClosedConnections closed =>
    obtain ⟨r, hr, hall⟩ :=
      storeClosedConnsClients_indexed E ns.maxClosedConns closed ns.telemetry ns.clients hw.2.1
    simp only [Op.run, StoreClosedConnections, storeClosedConnections, hr,
      Option.some.injEq] at hrun
    subst hrun
    intro e he
    obtain ⟨p, hp, hs⟩ := closedStored_mem hall he
    rw [hs.2.2.2.2.1]
    exact h p hp
  | callRemoveConnections keys =>
    simp only [Op.run, Option.some.injEq] at hrun
    subst hrun
    intro e he
    simp only [RemoveConnections, List.mem_map] at he
    obtain ⟨p, hp, rfl⟩ := he
    have := length_foldl_erase_le keys p.2.stats
    have := h p hp
    dsimp only
    omega
  | callRemoveClient clientID =>
    simp only [Op.run, Option.some.injEq] at hrun
    subst hrun
    intro e he
    exact h e (List.mem_of_mem_filter he)
  | callRemoveExpiredClients now =>
    simp only [Op.run, Option.some.injEq] at hrun
    subst hrun
    intro e he
    exact h e (List.mem_of_mem_filter he)

/-- C11. From `NewState` with `maxClientStats >= 0`, every sequence of public
operations runs to its end, and in the registry reached every client's stats map
has at most `maxClientStats` entries. -/
theorem stats_le_maxClientStats (E : Env)
    (clientExpiry maxClosedConns maxClientStats maxDNSStats maxHTTPStats : Int)
    (ops : List Op) (hmax : 0 ≤ maxClientStats) :
    (∃ ns, runOps E (NewState clientExpiry maxClosedConns maxClientStats maxDNSStats
        maxHTTPStats) ops = some ns) ∧
    ∀ ns, runOps E (NewState clientExpiry maxClosedConns maxClientStats maxDNSStats
        maxHTTPStats) ops = some ns →
      ∀ e ∈ ns.clients, (e.2.stats.length : Int) ≤ maxClientStats := by
  have hw := NewState_wellFormed E clientExpiry maxClosedConns maxClientStats maxDNSStats
    maxHTTPStats
  obtain ⟨ns₁, h₁, _, _⟩ := runOps_wellFormed E ops _ hw
  refine ⟨⟨ns₁, h₁⟩, ?_⟩
  intro ns hrun
  have hq := runOps_invariant E
    (fun s => s.maxClientStats = maxClientStats ∧
      ∀ e ∈ s.clients, (e.2.stats.length : Int) ≤ maxClientStats)
    (by
      intro s op s' hws hqs hop
      obtain ⟨s'', h'', _, hc⟩ := Op.run_wellFormed E s op hws
      rw [hop] at h''
      cases h''
      refine ⟨(config_maxClientStats hc).trans hqs.1, ?_⟩
      have := Op.run_stats_length E s op s' hws (hqs.1 ▸ hmax) (hqs.1 ▸ hqs.2) hop
      rw [hqs.1] at this
      exact this)
    ops _ ns hw ⟨rfl, by intro e he; simp [NewState] at he⟩ hrun
  exact hq.2

theorem stats_le_maxClientStats_witness :
    (runOps sampleEnv (NewState 1000 2 1 10 10) sampleStatsOps).map
        (fun ns => (ns.clients.map (fun e => (e.1, e.2.stats.length)),
          ns.telemetry.connDropped)) = some ([("A", 1)], 2) ∧
    ∃ ns, runOps sampleEnv (NewState 1000 2 1 10 10) sampleStatsOps = some ns ∧
      ∀ e ∈ ns.clients, (e.2.stats.length : Int) ≤ 1 := by
  have h := stats_le_maxClientStats sampleEnv 1000 2 1 10 10 sampleStatsOps (by decide)
  obtain ⟨ns, hns⟩ := h.1
  exact ⟨by decide, ns, hns, h.2 ns hns⟩

/-! ## The DNS leaf count -/

theorem foldl_add_eq_sum {α : Type} (f : α → Nat) (l : List α) (n : Nat) :
    l.foldl (fun count e => count + f e) n = n + (l.map f).sum := by
  induction l generalizing n with
  | nil => simp
  | cons e t ih =>
    simp only [List.foldl_cons, List.map_cons, List.sum_cons]
    rw [ih]
    omega

theorem getDeepDNSStatsCount_eq (stats : StatsByKeyByNameByType) :
    getDeepDNSStatsCount stats = (stats.map (fun e => dnsLeaves e.2)).sum := by
  unfold getDeepDNSStatsCount
  have h : ∀ (l : StatsByKeyByNameByType) (n : Nat),
      l.foldl (fun count bykey =>
        bykey.2.foldl (fun count bydomain => count + bydomain.2.length) count) n =
        n + (l.map (fun e => dnsLeaves e.2)).sum := by
    intro l
    induction l with
    | nil => intro n; simp
    | cons e t ih =>
      intro n
      simp only [List.foldl_cons, List.map_cons, List.sum_cons]
      rw [ih, foldl_add_eq_sum]
      unfold dnsLeaves
      omega
  rw [h]
  omega

theorem sum_map_insert_some {κ ν : Type} [DecidableEq κ] (f : ν → Nat) {m : GoMap κ ν}
    {k : κ} {old : ν} (v : ν) (h : m.find? k = some old) :
    ((m.insert k v).map (fun e => f e.2)).sum + f old = (m.map (fun e => f e.2)).sum + f v := by
  induction m with
  | nil => simp [GoMap.find?] at h
  | cons e t ih =>
    obtain ⟨k', v'⟩ := e
    by_cases hk : k' = k
    · simp only [GoMap.find?, if_pos hk, Option.some.injEq] at h
      subst h
      simp only [GoMap.insert, if_pos hk, List.map_cons, List.sum_cons]
      omega
    · simp only [GoMap.find?, if_neg hk] at h
      simp only [GoMap.insert, if_neg hk, List.map_cons, List.sum_cons]
      have := ih h
      omega

theorem sum_map_insert_none {κ ν : Type} [DecidableEq κ] (f : ν → Nat) {m : GoMap κ ν}
    {k : κ} (v : ν) (h : m.find? k = none) :
    ((m.insert k v).map (fun e => f e.2)).sum = (m.map (fun e => f e.2)).sum + f v := by
  rw [GoMap.insert_of_find?_none v h]
  simp

/-- One leaf stored for one client: the running count stays the number of leaves
of the client's map, and stays within the cap. -/
theorem storeDNSLeaf_count (maxDNSStats : Int) (s : telemetry × StatsByKeyByNameByType × Nat)
    (key domain : String) (qtype : Nat) (dnsStats : DNSStats)
    (hc : s.2.2 = getDeepDNSStatsCount s.2.1) (hle : (s.2.2 : Int) ≤ maxDNSStats) :
    (storeDNSLeaf maxDNSStats s key domain qtype dnsStats).2.2 =
        getDeepDNSStatsCount (storeDNSLeaf maxDNSStats s key domain qtype dnsStats).2.1 ∧
      ((storeDNSLeaf maxDNSStats s key domain qtype dnsStats).2.2 : Int) ≤ maxDNSStats := by
  rw [getDeepDNSStatsCount_eq] at hc ⊢
  unfold storeDNSLeaf
  dsimp only
  split
  · rename_i hkey
    split
    · exact ⟨hc, hle⟩
    · rename_i hfull
      simp only [decide_eq_true_eq, not_le] at hfull
      dsimp only
      rw [sum_map_insert_none dnsLeaves _ hkey]
      refine ⟨?_, by push_cast; omega⟩
      simp [dnsLeaves, hc]
  · rename_i byDomain hkey
    split
    · rename_i hdom
      split
      · exact ⟨hc, hle⟩
      · rename_i hfull
        simp only [decide_eq_true_eq, not_le] at hfull
        dsimp only
        have h₁ := sum_map_insert_some dnsLeaves
          (byDomain.insert domain [(qtype, dnsStats)]) hkey
        have h₂ : dnsLeaves (byDomain.insert domain [(qtype, dnsStats)]) =
            dnsLeaves byDomain + 1 := by
          unfold dnsLeaves
          rw [sum_map_insert_none (fun x : GoMap Nat DNSStats => x.length) _ hdom]
          rfl
        refine ⟨by omega, by push_cast; omega⟩
    · rename_i byQtype hdom
      split
      · rename_i prev hq
        dsimp only
        generalize hv : byQtype.insert qtype
          ({ Timeouts := wadd 32 prev.Timeouts dnsStats.Timeouts
             SuccessLatencySum := wadd 64 prev.SuccessLatencySum dnsStats.SuccessLatencySum
             FailureLatencySum := wadd 64 prev.FailureLatencySum dnsStats.FailureLatencySum
             CountByRcode := addCountByRcode prev.CountByRcode dnsStats.CountByRcode } :
            DNSStats) = v
        have h₃ : v.length = byQtype.length := by
          rw [← hv]; exact GoMap.length_insert_of_find?_some _ hq
        have h₁ := sum_map_insert_some dnsLeaves (byDomain.insert domain v) hkey
        have h₂ : dnsLeaves (byDomain.insert domain v) + byQtype.length =
            dnsLeaves byDomain + v.length :=
          sum_map_insert_some (fun x : GoMap Nat DNSStats => x.length) v hdom
        refine ⟨by omega, hle⟩
      · rename_i hq
        split
        · exact ⟨hc, hle⟩
        · rename_i hfull
          simp only [decide_eq_true_eq, not_le] at hfull
          dsimp only
          generalize hv : byQtype.insert qtype dnsStats = v
          have h₃ : v.length = byQtype.length + 1 := by
            rw [← hv, GoMap.insert_of_find?_none _ hq]
            simp
          have h₁ := sum_map_insert_some dnsLeaves (byDomain.insert domain v) hkey
          have h₂ : dnsLeaves (byDomain.insert domain v) + byQtype.length =
              dnsLeaves byDomain + v.length :=
            sum_map_insert_some (fun x : GoMap Nat DNSStats => x.length) v hdom
          refine ⟨by omega, by push_cast; omega⟩

/-- The input merged for one client: the number of leaves stays within the cap. -/
theorem storeDNSStatsClient_count (maxDNSStats : Int) (stats : StatsByKeyByNameByType)
    (tel : telemetry) (dns : StatsByKeyByNameByType)
    (h : (getDeepDNSStatsCount dns : Int) ≤ maxDNSStats) :
    (getDeepDNSStatsCount (storeDNSStatsClient maxDNSStats stats tel dns).2 : Int) ≤
      maxDNSStats := by
  unfold storeDNSStatsClient
  dsimp only
  have hQ := foldl_preserve
    (fun (s : telemetry × StatsByKeyByNameByType × Nat)
        (byKey : String × GoMap String (GoMap Nat DNSStats)) =>
      byKey.2.foldl (fun s byDomain =>
        byDomain.2.foldl
          (fun s leaf => storeDNSLeaf maxDNSStats s byKey.1 byDomain.1 leaf.1 leaf.2) s) s)
    (fun s => s.2.2 = getDeepDNSStatsCount s.2.1 ∧ (s.2.2 : Int) ≤ maxDNSStats) stats
    (by
      intro s byKey _ hs
      refine foldl_preserve _
        (fun s => s.2.2 = getDeepDNSStatsCount s.2.1 ∧ (s.2.2 : Int) ≤ maxDNSStats) _ ?_ s hs
      intro s byDomain _ hs
      refine foldl_preserve _
        (fun s => s.2.2 = getDeepDNSStatsCount s.2.1 ∧ (s.2.2 : Int) ≤ maxDNSStats) _ ?_ s hs
      intro s leaf _ hs
      exact storeDNSLeaf_count maxDNSStats s byKey.1 byDomain.1 leaf.1 leaf.2 hs.1 hs.2)
    (tel, dns, getDeepDNSStatsCount dns) ⟨rfl, h⟩
  rw [← hQ.1]
  exact hQ.2

/-! ## The DNS and HTTP fan-in, client by client -/

theorem storeDNSStatsClients_mem (maxDNSStats : Int) (stats : StatsByKeyByNameByType)
    (tel : telemetry) (m : GoMap String client) :
    ∀ q ∈ (storeDNSStatsClients maxDNSStats stats tel m).2, ∃ p ∈ m, p.1 = q.1 ∧
      q.2.httpStatsDelta = p.2.httpStatsDelta ∧
      ((getDeepDNSStatsCount p.2.dnsStats : Int) ≤ maxDNSStats →
        (getDeepDNSStatsCount q.2.dnsStats : Int) ≤ maxDNSStats) := by
  induction m generalizing tel with
  | nil => intro q hq; simp [storeDNSStatsClients] at hq
  | cons e t ih =>
    obtain ⟨id, cl⟩ := e
    intro q hq
    simp only [storeDNSStatsClients, List.mem_cons] at hq
    rcases hq with hq | hq
    · subst hq
      exact ⟨(id, cl), List.mem_cons_self _ _, rfl, rfl,
        fun h => storeDNSStatsClient_count maxDNSStats stats tel cl.dnsStats h⟩
    · obtain ⟨p, hp, h⟩ := ih _ q hq
      exact ⟨p, List.mem_cons_of_mem _ hp, h⟩

/-- What `storeDNSStats` does to a client: the HTTP stats stay; the DNS leaves
stay within the cap, unless the client is the only one registered and adopts the
input. -/
theorem storeDNSStats_mem (ns : networkState) (stats : StatsByKeyByNameByType) :
    ∀ q ∈ (storeDNSStats ns stats).clients, ∃ p ∈ ns.clients, p.1 = q.1 ∧
      q.2.httpStatsDelta = p.2.httpStatsDelta ∧
      (((getDeepDNSStatsCount p.2.dnsStats : Int) ≤ ns.maxDNSStats →
          (getDeepDNSStatsCount q.2.dnsStats : Int) ≤ ns.maxDNSStats) ∨
        (q.2.dnsStats = stats ∧ ns.clients = [p])) := by
  unfold storeDNSStats
  split
  · rename_i id c heq
    split
    · intro q hq
      simp only [List.mem_singleton] at hq
      subst hq
      exact ⟨(id, c), by rw [heq]; exact List.mem_singleton_self _, rfl, rfl,
        Or.inr ⟨rfl, heq⟩⟩
    · intro q hq
      exact ⟨q, hq, rfl, rfl, Or.inl (fun h => h)⟩
  · intro q hq
    obtain ⟨p, hp, h₁, h₂, h₃⟩ := storeDNSStatsClients_mem _ _ _ _ q hq
    exact ⟨p, hp, h₁, h₂, Or.inl h₃⟩

theorem storeHTTPStatsEntry_mem (E : Env) (maxHTTPStats : Int) (key : String)
    (stats : RequestStats) (tel : telemetry) (m : GoMap String client) :
    ∀ q ∈ (storeHTTPStatsEntry E maxHTTPStats key stats tel m).2, ∃ p ∈ m, p.1 = q.1 ∧
      q.2.dnsStats = p.2.dnsStats ∧
      ((p.2.httpStatsDelta.length : Int) ≤ maxHTTPStats →
        (q.2.httpStatsDelta.length : Int) ≤ maxHTTPStats) := by
  induction m generalizing tel with
  | nil => intro q hq; simp [storeHTTPStatsEntry] at hq
  | cons e t ih =>
    obtain ⟨id, cl⟩ := e
    intro q hq
    simp only [storeHTTPStatsEntry, List.mem_cons] at hq
    rcases hq with hq | hq
    · subst hq
      refine ⟨(id, cl), List.mem_cons_self _ _, rfl, ?_, ?_⟩
      · dsimp only
        split
        · split <;> rfl
        · rfl
      · intro h
        dsimp only
        split
        · rename_i hnone
          split
          · exact h
          · rename_i hlt
            dsimp only
            rw [GoMap.insert_of_find?_none _ hnone]
            simp only [List.length_append, List.length_singleton, Nat.cast_add, Nat.cast_one]
            omega
        · rename_i prev hsome
          dsimp only
          rw [GoMap.length_insert_of_find?_some _ hsome]
          exact h
    · obtain ⟨p, hp, h⟩ := ih _ q hq
      exact ⟨p, List.mem_cons_of_mem _ hp, h⟩

theorem storeHTTPStats_mem (E : Env) (ns : networkState) (allStats : GoMap String RequestStats) :
    ∀ q ∈ (storeHTTPStats E ns allStats).clients, ∃ p ∈ ns.clients, p.1 = q.1 ∧
      q.2.dnsStats = p.2.dnsStats ∧
      ((p.2.httpStatsDelta.length : Int) ≤ ns.maxHTTPStats →
        (q.2.httpStatsDelta.length : Int) ≤ ns.maxHTTPStats) := by
  unfold storeHTTPStats
  dsimp only
  generalize ns.telemetry = tel
  generalize ns.clients = m
  induction allStats generalizing tel m with
  | nil => intro q hq; exact ⟨q, hq, rfl, rfl, id⟩
  | cons e t ih =>
    intro q hq
    simp only [List.foldl_cons] at hq
    obtain ⟨p₁, hp₁, h₁, h₂, h₃⟩ := ih _ _ q hq
    obtain ⟨p, hp, g₁, g₂, g₃⟩ := storeHTTPStatsEntry_mem E _ e.1 e.2 tel m p₁ hp₁
    exact ⟨p, hp, g₁.trans h₁, h₂.trans g₂, fun h => h₃ (g₃ h)⟩

theorem config_maxDNSStats {a b : networkState} (h : a.config = b.config) :
    a.maxDNSStats = b.maxDNSStats := by
  have := congrArg (fun c => c.2.2.2.1) h
  simpa [networkState.config] using this

theorem config_maxHTTPStats {a b : networkState} (h : a.config = b.config) :
    a.maxHTTPStats = b.maxHTTPStats := by
  have := congrArg (fun c => c.2.2.2.2) h
  simpa [networkState.config] using this

/-- What the DNS and HTTP fan-in of `GetDelta` does to a client: the HTTP keys
stay within their cap, and the DNS leaves within theirs unless the client is the
only one registered and adopts the input. -/
theorem deltaFanIn_mem (E : Env) (ns : networkState) (dns : StatsByKeyByNameByType)
    (http : GoMap String RequestStats) :
    ∀ q ∈ (deltaFanIn E ns dns http).clients, ∃ p ∈ ns.clients, p.1 = q.1 ∧
      ((p.2.httpStatsDelta.length : Int) ≤ ns.maxHTTPStats →
        (q.2.httpStatsDelta.length : Int) ≤ ns.maxHTTPStats) ∧
      (((getDeepDNSStatsCount p.2.dnsStats : Int) ≤ ns.maxDNSStats →
          (getDeepDNSStatsCount q.2.dnsStats : Int) ≤ ns.maxDNSStats) ∨
        (q.2.dnsStats = dns ∧ ns.clients = [p])) := by
  have h12 : ∀ q ∈ (if dns.length > 0 then storeDNSStats ns dns else ns).clients,
      ∃ p ∈ ns.clients, p.1 = q.1 ∧ q.2.httpStatsDelta = p.2.httpStatsDelta ∧
        (((getDeepDNSStatsCount p.2.dnsStats : Int) ≤ ns.maxDNSStats →
            (getDeepDNSStatsCount q.2.dnsStats : Int) ≤ ns.maxDNSStats) ∨
          (q.2.dnsStats = dns ∧ ns.clients = [p])) := by
    split
    · exact storeDNSStats_mem ns dns
    · intro q hq; exact ⟨q, hq, rfl, rfl, Or.inl id⟩
  have hcfg : (if dns.length > 0 then storeDNSStats ns dns else ns).config = ns.config := by
    split
    · exact storeDNSStats_config _ _
    · rfl
  unfold deltaFanIn
  split
  · intro q hq
    obtain ⟨p₁, hp₁, h₁, h₂, h₃⟩ := storeHTTPStats_mem E _ http q hq
    obtain ⟨p, hp, g₁, g₂, g₃⟩ := h12 p₁ hp₁
    rw [config_maxHTTPStats hcfg, g₂] at h₃
    rw [h₂]
    exact ⟨p, hp, g₁.trans h₁, h₃, g₃⟩
  · intro q hq
    obtain ⟨p, hp, g₁, g₂, g₃⟩ := h12 q hq
    rw [g₂]
    exact ⟨p, hp, g₁, id, g₃⟩

/-- Every client other than the caller after `GetDelta` is a client registered
before, with its HTTP keys and DNS leaves still within the caps. -/
theorem GetDelta_other_client (E : Env) (ns : networkState) (now : Int) (id : String) (lt : Nat)
    (active : List ConnectionStats) (dns : StatsByKeyByNameByType)
    (http : GoMap String RequestStats) :
    ∀ e ∈ (GetDelta E ns now id lt active dns http).1.clients, e.1 ≠ id →
      ∃ p ∈ ns.clients, p.1 = e.1 ∧
        ((p.2.httpStatsDelta.length : Int) ≤ ns.maxHTTPStats →
          (e.2.httpStatsDelta.length : Int) ≤ ns.maxHTTPStats) ∧
        ((getDeepDNSStatsCount p.2.dnsStats : Int) ≤ ns.maxDNSStats →
          (getDeepDNSStatsCount e.2.dnsStats : Int) ≤ ns.maxDNSStats) := by
  intro e he hne
  rw [GetDelta_eq] at he
  have hcfg := deltaRegistry_config E ns now id lt active
  have hself : (id, (deltaAccounting E ns now id active).2.1) ∈
      (deltaRegistry E ns now id lt active).clients :=
    GoMap.mem_of_find? (GoMap.find?_insert_self _ _ _)
  have hfan : e ∈ (deltaFanIn E (deltaRegistry E ns now id lt active) dns http).clients := by
    unfold deltaFinish at he
    split at he
    · rcases GoMap.mem_insert he with h | h
      · exact absurd (congrArg Prod.fst h) hne
      · exact h
    · exact he
  obtain ⟨p, hp, h₁, h₂, h₃⟩ := deltaFanIn_mem E _ dns http e hfan
  rw [config_maxHTTPStats hcfg] at h₂
  rw [config_maxDNSStats hcfg] at h₃
  have hpne : p.1 ≠ id := h₁ ▸ hne
  have hpmem : p ∈ ns.clients := by
    rcases deltaRegistry_mem E ns now id lt active hp with h | h | h
    · exact absurd (congrArg Prod.fst h) hpne
    · exact absurd h.1 hpne
    · exact h
  refine ⟨p, hpmem, h₁, h₂, ?_⟩
  rcases h₃ with h₃ | ⟨_, hone⟩
  · exact h₃
  · rw [hone, List.mem_singleton] at hself
    exact absurd (congrArg Prod.fst hself).symm hpne

/-! ## The caps on the HTTP and DNS stats -/

/-- Every public operation keeps every client's HTTP stats within `maxHTTPStats`. -/
theorem Op.run_http_length (E : Env) (ns : networkState) (op : Op) (ns' : networkState)
    (hw : ns.wellFormed E) (h0 : 0 ≤ ns.maxHTTPStats)
    (h : ∀ e ∈ ns.clients, (e.2.httpStatsDelta.length : Int) ≤ ns.maxHTTPStats)
    (hrun : op.run E ns = some ns') :
    ∀ e ∈ ns'.clients, (e.2.httpStatsDelta.length : Int) ≤ ns.maxHTTPStats := by
  cases op with
  | callGetDelta now id lt active dns http =>
    simp only [Op.run, Option.some.injEq] at hrun
    subst hrun
    intro e he
    by_cases hid : e.1 = id
    · rcases (GetDelta_clients E ns now id lt active dns http hw.1).2 e he with
        ⟨_, c₂, _, hc⟩ | ⟨hne, _⟩
      · rw [hc]; simpa [client.Reset] using h0
      · exact absurd hid hne
    · obtain ⟨p, hp, _, h₂, _⟩ := GetDelta_other_client E ns now id lt active dns http e he hid
      exact h₂ (h p hp)
  | callStoreClosedConnections closed =>
    obtain ⟨r, hr, hall⟩ :=
      storeClosedConnsClients_indexed E ns.maxClosedConns closed ns.telemetry ns.clients hw.2.1
    simp only [Op.run, StoreClosedConnections, storeClosedConnections, hr,
      Option.some.injEq] at hrun
    subst hrun
    intro e he
    obtain ⟨p, hp, hs⟩ := closedStored_mem hall he
    rw [hs.2.2.2.2.2.2]
    exact h p hp
  | callRemoveConnections keys =>
    simp only [Op.run, Option.some.injEq] at hrun
    subst hrun
    intro e he
    simp only [RemoveConnections, List.mem_map] at he
    obtain ⟨p, hp, rfl⟩ := he
    exact h p hp
  | callRemoveClient clientID =>
    simp only [Op.run, Option.some.injEq] at hrun
    subst hrun
    intro e he
    exact h e (List.mem_of_mem_filter he)
  | callRemoveExpiredClients now =>
    simp only [Op.run, Option.some.injEq] at hrun
    subst hrun
    intro e he
    exact h e (List.mem_of_mem_filter he)

/-- C13. From `NewState` with `maxHTTPStats >= 0`, every sequence of public
operations runs to its end and every client of the registry reached holds at
most `maxHTTPStats` HTTP keys. `storeHTTPStats` visits, for each input entry,
every client: the entry is dropped for a client, with `httpStatsDropped`
incremented by one, exactly when its key is absent from the client's map and the
map has at least `maxHTTPStats` keys; otherwise the previous value (the zero
value for an absent key) combined with the entry is stored under the key and no
counter moves. -/
theorem httpStatsDelta_le_maxHTTPStats (E : Env)
    (clientExpiry maxClosedConns maxClientStats maxDNSStats maxHTTPStats : Int)
    (ops : List Op) (hmax : 0 ≤ maxHTTPStats) :
    (∃ ns, runOps E (NewState clientExpiry maxClosedConns maxClientStats maxDNSStats
        maxHTTPStats) ops = some ns) ∧
    (∀ ns, runOps E (NewState clientExpiry maxClosedConns maxClientStats maxDNSStats
        maxHTTPStats) ops = some ns →
      ∀ e ∈ ns.clients, (e.2.httpStatsDelta.length : Int) ≤ maxHTTPStats) ∧
    (∀ (key : String) (stats : RequestStats) (tel : telemetry) (id : String) (cl : client)
        (rest : GoMap String client),
      ((cl.httpStatsDelta.find? key = none ∧
          (cl.httpStatsDelta.length : Int) ≥ maxHTTPStats) →
        storeHTTPStatsEntry E maxHTTPStats key stats tel ((id, cl) :: rest) =
          ((storeHTTPStatsEntry E maxHTTPStats key stats
              { tel with httpStatsDropped := tel.httpStatsDropped + 1 } rest).1,
            (id, cl) :: (storeHTTPStatsEntry E maxHTTPStats key stats
              { tel with httpStatsDropped := tel.httpStatsDropped + 1 } rest).2)) ∧
      (¬ (cl.httpStatsDelta.find? key = none ∧
          (cl.httpStatsDelta.length : Int) ≥ maxHTTPStats) →
        storeHTTPStatsEntry E maxHTTPStats key stats tel ((id, cl) :: rest) =
          ((storeHTTPStatsEntry E maxHTTPStats key stats tel rest).1,
            (id, { cl with
                httpStatsDelta :=
                  cl.httpStatsDelta.insert key
                    (E.CombineWith ((cl.httpStatsDelta.find? key).getD RequestStats.zero)
                      stats) }) ::
              (storeHTTPStatsEntry E maxHTTPStats key stats tel rest).2))) ∧
    (∀ (ns : networkState) (allStats : GoMap String RequestStats),
      ((storeHTTPStats E ns allStats).telemetry, (storeHTTPStats E ns allStats).clients) =
        allStats.foldl (fun s e => storeHTTPStatsEntry E ns.maxHTTPStats e.1 e.2 s.1 s.2)
          (ns.telemetry, ns.clients)) := by
  have hw := NewState_wellFormed E clientExpiry maxClosedConns maxClientStats maxDNSStats
    maxHTTPStats
  obtain ⟨ns₁, h₁, _, _⟩ := runOps_wellFormed E ops _ hw
  refine ⟨⟨ns₁, h₁⟩, ?_, ?_, ?_⟩
  · intro ns hrun
    have hq := runOps_invariant E
      (fun s => s.maxHTTPStats = maxHTTPStats ∧
        ∀ e ∈ s.clients, (e.2.httpStatsDelta.length : Int) ≤ maxHTTPStats)
      (by
        intro s op s' hws hqs hop
        obtain ⟨s'', h'', _, hc⟩ := Op.run_wellFormed E s op hws
        rw [hop] at h''
        cases h''
        refine ⟨(config_maxHTTPStats hc).trans hqs.1, ?_⟩
        have := Op.run_http_length E s op s' hws (hqs.1 ▸ hmax) (hqs.1 ▸ hqs.2) hop
        rw [hqs.1] at this
        exact this)
      ops _ ns hw ⟨rfl, by intro e he; simp [NewState] at he⟩ hrun
    exact hq.2
  · intro key stats tel id cl rest
    constructor
    · rintro ⟨hnone, hfull⟩
      simp only [storeHTTPStatsEntry, hnone, if_pos hfull]
    · intro hnot
      cases hf : cl.httpStatsDelta.find? key with
      | none =>
        have hlt : ¬ ((cl.httpStatsDelta.length : Int) ≥ maxHTTPStats) :=
          fun hge => hnot ⟨hf, hge⟩
        simp only [storeHTTPStatsEntry, hf, if_neg hlt, Option.getD_none]
      | some prev =>
        simp only [storeHTTPStatsEntry, hf, Option.getD_some]
  · intro ns allStats
    rfl

theorem httpStatsDelta_le_maxHTTPStats_witness :
    (runOps sampleEnv (NewState 1000 2 10 10 1) sampleFanInOps).map
        (fun ns => (ns.clients.map (fun e => (e.1, e.2.httpStatsDelta.length)),
          ns.telemetry.httpStatsDropped)) = some ([("A", 1), ("B", 0)], 2) ∧
    ∃ ns, runOps sampleEnv (NewState 1000 2 10 10 1) sampleFanInOps = some ns ∧
      ∀ e ∈ ns.clients, (e.2.httpStatsDelta.length : Int) ≤ 1 := by
  have h := httpStatsDelta_le_maxHTTPStats sampleEnv 1000 2 10 10 1 sampleFanInOps (by decide)
  obtain ⟨ns, hns⟩ := h.1
  exact ⟨by decide, ns, hns, h.2.1 ns hns⟩

theorem firstDeltaConn_sameClosed (maxClientStats : Int)
    (s : telemetry × client × List ConnectionStats) (e : String × Nat) :
    client.sameClosed (firstDeltaConn maxClientStats s e).2.1 s.2.1 := by
  unfold firstDeltaConn
  split
  · exact ⟨rfl, rfl, rfl, rfl, rfl, rfl⟩
  · exact client.sameClosed_trans (updateConnWithStats_sameClosed _ _ _ _)
      (createStatsForKey_sameClosed _ _ _ _)

theorem mergeActiveConn_sameClosed (maxClientStats : Int)
    (s : telemetry × client × List ConnectionStats × List ConnectionStats) (e : String × Nat) :
    client.sameClosed (mergeActiveConn maxClientStats s e).2.1 s.2.1 := by
  unfold mergeActiveConn
  split
  · exact ⟨rfl, rfl, rfl, rfl, rfl, rfl⟩
  · split
    · exact ⟨rfl, rfl, rfl, rfl, rfl, rfl⟩
    · exact client.sameClosed_trans (updateConnWithStats_sameClosed _ _ _ _)
        (createStatsForKey_sameClosed _ _ _ _)

/-- The connection accounting of `GetDelta` leaves the client's pending DNS and
HTTP stats as they are. -/
theorem deltaConns_fanIn_fields (E : Env) (maxClientStats : Int) (now : Int) (tel : telemetry)
    (cl : client) (ok : Bool) (connsByKey : GoMap String Nat)
    (active buffer : List ConnectionStats) :
    (deltaConns E maxClientStats now tel cl ok connsByKey active buffer).2.1.dnsStats =
        cl.dnsStats ∧
      (deltaConns E maxClientStats now tel cl ok connsByKey active buffer).2.1.httpStatsDelta =
        cl.httpStatsDelta := by
  unfold deltaConns
  split
  · dsimp only
    exact foldl_preserve (firstDeltaConn maxClientStats)
      (fun s => s.2.1.dnsStats = cl.dnsStats ∧ s.2.1.httpStatsDelta = cl.httpStatsDelta)
      (E.rangeOrder connsByKey)
      (fun s e _ hs =>
        ⟨(firstDeltaConn_sameClosed maxClientStats s e).2.2.2.2.1.trans hs.1,
          (firstDeltaConn_sameClosed maxClientStats s e).2.2.2.2.2.trans hs.2⟩)
      (tel, cl, active) ⟨rfl, rfl⟩
  · unfold mergeConnections
    dsimp only
    have hc := (mergeClosedConns_frame E maxClientStats active connsByKey tel
      { cl with lastFetch := now } cl.closedConnections).1
    exact foldl_preserve (mergeActiveConn maxClientStats)
      (fun s => s.2.1.dnsStats = cl.dnsStats ∧ s.2.1.httpStatsDelta = cl.httpStatsDelta) _
      (fun s e _ hs =>
        ⟨(mergeActiveConn_sameClosed maxClientStats s e).2.2.2.2.1.trans hs.1,
          (mergeActiveConn_sameClosed maxClientStats s e).2.2.2.2.2.trans hs.2⟩)
      _ ⟨hc.2.2.2.2.1, hc.2.2.2.2.2⟩

theorem GoMap.mem_insert_of_mem_ne {κ ν : Type} [DecidableEq κ] {m : GoMap κ ν} {k : κ}
    (v : ν) {e : κ × ν} (he : e ∈ m) (hne : e.1 ≠ k) : e ∈ m.insert k v := by
  induction m with
  | nil => cases he
  | cons x t ih =>
    obtain ⟨k', v'⟩ := x
    by_cases hk : k' = k
    · simp only [GoMap.insert, if_pos hk]
      rcases List.mem_cons.1 he with h | h
      · subst h
        exact absurd hk hne
      · exact List.mem_cons_of_mem _ h
    · simp only [GoMap.insert, if_neg hk]
      rcases List.mem_cons.1 he with h | h
      · subst h
        exact List.mem_cons_self _ _
      · exact List.mem_cons_of_mem _ (ih h)

/-- Inside `GetDelta`, before the fan-in, every client holds at most
`maxDNSStats` DNS leaves if every registered client did. -/
theorem deltaRegistry_dns_count (E : Env) (ns : networkState) (now : Int) (id : String)
    (lt : Nat) (active : List ConnectionStats) (h0 : 0 ≤ ns.maxDNSStats)
    (h : ∀ e ∈ ns.clients, (getDeepDNSStatsCount e.2.dnsStats : Int) ≤ ns.maxDNSStats) :
    ∀ p ∈ (deltaRegistry E ns now id lt active).clients,
      (getDeepDNSStatsCount p.2.dnsStats : Int) ≤ ns.maxDNSStats := by
  have hget : (getDeepDNSStatsCount (getClient ns now id).2.1.dnsStats : Int) ≤
      ns.maxDNSStats := by
    unfold getClient
    split
    · rename_i c hc
      exact h _ (GoMap.mem_of_find? hc)
    · simpa [getDeepDNSStatsCount] using h0
  intro p hp
  rcases deltaRegistry_mem E ns now id lt active hp with hp | hp | hp
  · rw [hp]
    dsimp only
    unfold deltaAccounting
    rw [(deltaConns_fanIn_fields E _ now _ _ _ _ _ _).1]
    exact hget
  · rw [hp.2.1]; exact hget
  · exact h p hp

/-- The DNS stats `GetDelta` returns hold at most `maxDNSStats` leaves, unless
they are the input itself, adopted because the caller is the only client. -/
theorem GetDelta_DNSStats_count (E : Env) (ns : networkState) (now : Int) (id : String)
    (lt : Nat) (active : List ConnectionStats) (dns : StatsByKeyByNameByType)
    (http : GoMap String RequestStats) (h0 : 0 ≤ ns.maxDNSStats)
    (h : ∀ e ∈ ns.clients, (getDeepDNSStatsCount e.2.dnsStats : Int) ≤ ns.maxDNSStats) :
    (getDeepDNSStatsCount (GetDelta E ns now id lt active dns http).2.DNSStats : Int) ≤
        ns.maxDNSStats ∨
      ((GetDelta E ns now id lt active dns http).2.DNSStats = dns ∧
        ∀ e ∈ ns.clients, e.1 = id) := by
  rw [GetDelta_eq]
  have hcfg := deltaRegistry_config E ns now id lt active
  have hself : (id, (deltaAccounting E ns now id active).2.1) ∈
      (deltaRegistry E ns now id lt active).clients :=
    GoMap.mem_of_find? (GoMap.find?_insert_self _ _ _)
  unfold deltaFinish
  split
  · rename_i cl hcl
    dsimp only
    obtain ⟨p, hp, h₁, _, h₃⟩ := deltaFanIn_mem E _ dns http _ (GoMap.mem_of_find? hcl)
    rw [config_maxDNSStats hcfg] at h₃
    rcases h₃ with h₃ | ⟨hd, hone⟩
    · exact Or.inl (h₃ (deltaRegistry_dns_count E ns now id lt active h0 h p hp))
    · refine Or.inr ⟨hd, ?_⟩
      intro e he
      by_contra hne
      have he₁ : e ∈ (getClient { ns with latestTimeEpoch := lt } now id).1.clients := by
        unfold getClient
        dsimp only
        split
        · exact he
        · exact GoMap.mem_insert_of_mem_ne _ he hne
      have he₂ : e ∈ (deltaRegistry E ns now id lt active).clients :=
        GoMap.mem_insert_of_mem_ne _ he₁ hne
      rw [hone, List.mem_singleton] at he₂ hself
      rw [he₂, ← hself] at hne
      exact hne rfl
  · left
    simpa [getDeepDNSStatsCount] using h0

/-- Every public operation keeps every client's DNS stats within `maxDNSStats`. -/
theorem Op.run_dns_count (E : Env) (ns : networkState) (op : Op) (ns' : networkState)
    (hw : ns.wellFormed E) (h0 : 0 ≤ ns.maxDNSStats)
    (h : ∀ e ∈ ns.clients, (getDeepDNSStatsCount e.2.dnsStats : Int) ≤ ns.maxDNSStats)
    (hrun : op.run E ns = some ns') :
    ∀ e ∈ ns'.clients, (getDeepDNSStatsCount e.2.dnsStats : Int) ≤ ns.maxDNSStats := by
  cases op with
  | callGetDelta now id lt active dns http =>
    simp only [Op.run, Option.some.injEq] at hrun
    subst hrun
    intro e he
    by_cases hid : e.1 = id
    · rcases (GetDelta_clients E ns now id lt active dns http hw.1).2 e he with
        ⟨_, c₂, _, hc⟩ | ⟨hne, _⟩
      · rw [hc]; simpa [client.Reset, getDeepDNSStatsCount] using h0
      · exact absurd hid hne
    · obtain ⟨p, hp, _, _, h₃⟩ := GetDelta_other_client E ns now id lt active dns http e he hid
      exact h₃ (h p hp)
  | callStoreClosedConnections closed =>
    obtain ⟨r, hr, hall⟩ :=
      storeClosedConnsClients_indexed E ns.maxClosedConns closed ns.telemetry ns.clients hw.2.1
    simp only [Op.run, StoreClosedConnections, storeClosedConnections, hr,
      Option.some.injEq] at hrun
    subst hrun
    intro e he
    obtain ⟨p, hp, hs⟩ := closedStored_mem hall he
    rw [hs.2.2.2.2.2.1]
    exact h p hp
  | callRemoveConnections keys =>
    simp only [Op.run, Option.some.injEq] at hrun
    subst hrun
    intro e he
    simp only [RemoveConnections, List.mem_map] at he
    obtain ⟨p, hp, rfl⟩ := he
    exact h p hp
  | callRemoveClient clientID =>
    simp only [Op.run, Option.some.injEq] at hrun
    subst hrun
    intro e he
    exact h e (List.mem_of_mem_filter he)
  | callRemoveExpiredClients now =>
    simp only [Op.run, Option.some.injEq] at hrun
    subst hrun
    intro e he
    exact h e (List.mem_of_mem_filter he)

/-- C12 (counterexample). With `maxDNSStats = 1`, the first `GetDelta`
of the only client returns the two DNS leaves of its input. -/
theorem single_client_adopts_dns_input :
    getDeepDNSStatsCount
      (GetDelta sampleEnv (NewState 1000 2 10 1 10) 0 "A" 100 [] sampleDNS []).2.DNSStats = 2 ∧
    (NewState 1000 2 10 1 10).maxDNSStats = 1 := by
  decide

/-- C12 (as amended). From `NewState` with `maxDNSStats >= 0`, every sequence of
public operations runs to its end; in the registry reached every client holds at
most `maxDNSStats` DNS leaves, and the DNS stats returned by a `GetDelta` on it
hold at most `maxDNSStats` leaves unless no other client is registered and the
input is returned as it is. -/
theorem dnsStats_le_maxDNSStats (E : Env)
    (clientExpiry maxClosedConns maxClientStats maxDNSStats maxHTTPStats : Int)
    (ops : List Op) (hmax : 0 ≤ maxDNSStats) :
    (∃ ns, runOps E (NewState clientExpiry maxClosedConns maxClientStats maxDNSStats
        maxHTTPStats) ops = some ns) ∧
    ∀ ns, runOps E (NewState clientExpiry maxClosedConns maxClientStats maxDNSStats
        maxHTTPStats) ops = some ns →
      (∀ e ∈ ns.clients, (getDeepDNSStatsCount e.2.dnsStats : Int) ≤ maxDNSStats) ∧
      ∀ (now : Int) (id : String) (lt : Nat) (active : List ConnectionStats)
        (dns : StatsByKeyByNameByType) (http : GoMap String RequestStats),
        (getDeepDNSStatsCount (GetDelta E ns now id lt active dns http).2.DNSStats : Int) ≤
            maxDNSStats ∨
          ((GetDelta E ns now id lt active dns http).2.DNSStats = dns ∧
            ∀ e ∈ ns.clients, e.1 = id) := by
  have hw := NewState_wellFormed E clientExpiry maxClosedConns maxClientStats maxDNSStats
    maxHTTPStats
  obtain ⟨ns₁, h₁, _, _⟩ := runOps_wellFormed E ops _ hw
  refine ⟨⟨ns₁, h₁⟩, ?_⟩
  intro ns hrun
  have hq := runOps_invariant E
    (fun s => s.maxDNSStats = maxDNSStats ∧
      ∀ e ∈ s.clients, (getDeepDNSStatsCount e.2.dnsStats : Int) ≤ maxDNSStats)
    (by
      intro s op s' hws hqs hop
      obtain ⟨s'', h'', _, hc⟩ := Op.run_wellFormed E s op hws
      rw [hop] at h''
      cases h''
      refine ⟨(config_maxDNSStats hc).trans hqs.1, ?_⟩
      have := Op.run_dns_count E s op s' hws (hqs.1 ▸ hmax) (hqs.1 ▸ hqs.2) hop
      rw [hqs.1] at this
      exact this)
    ops _ ns hw ⟨rfl, by intro e he; simp [NewState] at he⟩ hrun
  refine ⟨hq.2, ?_⟩
  intro now id lt active dns http
  have := GetDelta_DNSStats_count E ns now id lt active dns http (hq.1 ▸ hmax) (hq.1 ▸ hq.2)
  rw [hq.1] at this
  exact this

theorem dnsStats_le_maxDNSStats_witness :
    (runOps sampleEnv (NewState 1000 2 10 1 10) sampleFanInOps).map
        (fun ns => (ns.clients.map (fun e => (e.1, getDeepDNSStatsCount e.2.dnsStats)),
          ns.telemetry.dnsStatsDropped)) = some ([("A", 1), ("B", 0)], 2) ∧
    ∃ ns, runOps sampleEnv (NewState 1000 2 10 1 10) sampleFanInOps = some ns ∧
      (∀ e ∈ ns.clients, (getDeepDNSStatsCount e.2.dnsStats : Int) ≤ 1) ∧
      ((getDeepDNSStatsCount
            (GetDelta sampleEnv ns 2 "B" 300 [] sampleDNS []).2.DNSStats : Int) ≤ 1 ∨
        ((GetDelta sampleEnv ns 2 "B" 300 [] sampleDNS []).2.DNSStats = sampleDNS ∧
          ∀ e ∈ ns.clients, e.1 = "B")) := by
  have h := dnsStats_le_maxDNSStats sampleEnv 1000 2 10 1 10 sampleFanInOps (by decide)
  obtain ⟨ns, hns⟩ := h.1
  exact ⟨by decide, ns, hns, (h.2 ns hns).1, (h.2 ns hns).2 2 "B" 300 [] sampleDNS []⟩

/-! ## Claims about the merge of a closed and an active record -/

/-- C27 (the code at the failing input). `addConnections` on records with 5 and 3
sent packets and 7 and 4 received packets leaves the packet counters of the first
at 5 and 7, while the byte counters are summed. -/
theorem addConnections_keeps_packets :
    (addConnections { sampleConn 10 20 5 1 with MonotonicRecvPackets := 7 }
        { sampleConn 1 2 3 2 with MonotonicRecvPackets := 4 }).MonotonicSentPackets = 5 ∧
    (addConnections { sampleConn 10 20 5 1 with MonotonicRecvPackets := 7 }
        { sampleConn 1 2 3 2 with MonotonicRecvPackets := 4 }).MonotonicRecvPackets = 7 ∧
    (addConnections { sampleConn 10 20 5 1 with MonotonicRecvPackets := 7 }
        { sampleConn 1 2 3 2 with MonotonicRecvPackets := 4 }).MonotonicSentBytes = 11 ∧
    ∀ a b : ConnectionStats,
      (addConnections a b).MonotonicSentPackets = a.MonotonicSentPackets ∧
        (addConnections a b).MonotonicRecvPackets = a.MonotonicRecvPackets := by
  refine ⟨by decide, by decide, by decide, fun a b => ⟨rfl, rfl⟩⟩

/-- C28 (the code at the failing input). A flow polled with 1 established
connection, stored as closed with 1 and polled again as active with 2 and a
newer epoch is returned with `MonotonicTCPEstablished = 3` and
`LastTCPEstablished = 2^32 - 1`: the stored total 1 is subtracted from the
record's `LastTCPEstablished` (0), not from its monotonic counter. -/
theorem reopened_last_established_wraps :
    sampleReopenTCP.map (fun ns =>
        ns.clients.map (fun e => e.2.stats.map (fun p => p.2.totalTCPEstablished))) =
      some [[1]] ∧
    sampleReopenTCP.map (fun ns =>
        (GetDelta sampleEnv ns 1 "A" 200 [sampleTCP 250 4 2 7] [] []).2.Conns.map
          (fun r => (r.MonotonicTCPEstablished, r.LastTCPEstablished, r.LastSentBytes))) =
      some [(3, 2 ^ 32 - 1, 300)] := by
  refine ⟨by decide, by decide⟩

/-- C29 (the code at the failing input). After the same reopened poll, in which
the active record has 250 sent bytes and 4 sent packets, the stored
`totalSentPackets` is 250, the sent bytes of the active record; the next poll
with the active record unchanged returns `LastSentPackets = 2^64 - 246`. -/
theorem reopened_baseline_sent_packets :
    sampleReopenTCP.map (fun ns =>
        (GetDelta sampleEnv ns 1 "A" 200 [sampleTCP 250 4 2 7] [] []).1.clients.map
          (fun e => e.2.stats.map (fun p => (p.2.totalSent, p.2.totalSentPackets)))) =
      some [[(250, 250)]] ∧
    sampleReopenTCP.map (fun ns =>
        (GetDelta sampleEnv (GetDelta sampleEnv ns 1 "A" 200 [sampleTCP 250 4 2 7] [] []).1
          2 "A" 300 [sampleTCP 250 4 2 7] [] []).2.Conns.map
          (fun r => (r.LastSentBytes, r.LastSentPackets))) =
      some [(0, 2 ^ 64 - 246)] := by
  refine ⟨by decide, by decide⟩

/-! ## The stats a client keeps after a delta -/

theorem getConnsByKeyFrom_isSome_of_isSome (E : Env) (l : List ConnectionStats) (n : Nat)
    (m : GoMap String Nat) (k : String) (h : (m.find? k).isSome = true) :
    ((getConnsByKeyFrom E l n m).find? k).isSome = true := by
  induction l generalizing n m with
  | nil => exact h
  | cons c cs ih =>
    unfold getConnsByKeyFrom
    split
    · exact ih _ _ h
    · rename_i key _
      apply ih
      by_cases hk : key = k
      · subst hk
        rw [GoMap.find?_insert_self]
        rfl
      · rw [GoMap.find?_insert_ne _ hk]
        exact h

theorem getConnsByKeyFrom_isSome_of_mem (E : Env) (l : List ConnectionStats) (n : Nat)
    (m : GoMap String Nat) (k : String) (c : ConnectionStats) (hc : c ∈ l)
    (hk : ByteKey E c = some k) : ((getConnsByKeyFrom E l n m).find? k).isSome = true := by
  induction l generalizing n m with
  | nil => cases hc
  | cons x xs ih =>
    rcases List.mem_cons.1 hc with h | h
    · subst h
      unfold getConnsByKeyFrom
      rw [hk]
      dsimp only
      apply getConnsByKeyFrom_isSome_of_isSome
      rw [GoMap.find?_insert_self]
      rfl
    · unfold getConnsByKeyFrom
      split
      · exact ih _ _ h
      · exact ih _ _ h

/-- A key is in the key-to-connection map exactly when it is the byte key of a
record of the slice. -/
theorem getConnsByKey_isSome_iff (E : Env) (active : List ConnectionStats) (k : String) :
    ((getConnsByKey E active).find? k).isSome = true ↔
      ∃ c ∈ active, ByteKey E c = some k := by
  constructor
  · intro h
    obtain ⟨i, hi⟩ := Option.isSome_iff_exists.1 h
    obtain ⟨c, hc, hk⟩ := (getConnsByKey_spec E active).2 k i hi
    exact ⟨c, List.getElem?_mem hc, hk⟩
  · rintro ⟨c, hc, hk⟩
    exact getConnsByKeyFrom_isSome_of_mem E active 0 [] k c hc hk

theorem find?_insert_isSome {κ ν : Type} [DecidableEq κ] (m : GoMap κ ν) (k k' : κ) (v : ν)
    (h : (m.find? k).isSome = true) : ((m.insert k' v).find? k).isSome = true := by
  by_cases hk : k' = k
  · subst hk
    rw [GoMap.find?_insert_self]
    rfl
  · rw [GoMap.find?_insert_ne _ hk]
    exact h

theorem createStatsForKey_isSome (maxClientStats : Int) (tel : telemetry) (cl : client)
    (key k : String) (h : (cl.stats.find? k).isSome = true) :
    ((createStatsForKey maxClientStats tel cl key).2.stats.find? k).isSome = true := by
  unfold createStatsForKey
  split
  · exact h
  · split
    · exact h
    · exact find?_insert_isSome _ _ _ _ h

theorem updateConnWithStats_isSome (tel : telemetry) (cl : client) (key k : String)
    (c : ConnectionStats) (h : (cl.stats.find? k).isSome = true) :
    ((updateConnWithStats tel cl key c).2.1.stats.find? k).isSome = true := by
  unfold updateConnWithStats
  split
  · exact find?_insert_isSome _ _ _ _ h
  · exact h

theorem updateConnWithStatWithActiveConn_isSome (tel : telemetry) (cl : client)
    (key k : String) (active closed : ConnectionStats) (h : (cl.stats.find? k).isSome = true) :
    ((updateConnWithStatWithActiveConn tel cl key active closed).2.1.stats.find? k).isSome =
      true := by
  unfold updateConnWithStatWithActiveConn
  split
  · exact find?_insert_isSome _ _ _ _ h
  · exact h

theorem mergeClosedConn_isSome (E : Env) (maxClientStats : Int) (active : List ConnectionStats)
    (connsByKey : GoMap String Nat) (tel : telemetry) (cl : client) (x : ConnectionStats)
    (k : String) (h : (cl.stats.find? k).isSome = true) :
    ((mergeClosedConn E maxClientStats active connsByKey tel cl x).2.1.stats.find? k).isSome =
      true := by
  unfold mergeClosedConn
  split
  · exact h
  · split
    · split
      · exact updateConnWithStats_isSome _ _ _ _ _ h
      · split
        · dsimp only
          have h₁ := updateConnWithStatWithActiveConn_isSome
            (createStatsForKey maxClientStats tel cl ‹String›).1
            (createStatsForKey maxClientStats tel cl ‹String›).2 ‹String› k ‹ConnectionStats›
            (addConnections x ‹ConnectionStats›)
            (createStatsForKey_isSome maxClientStats tel cl ‹String› k h)
          split
          · exact find?_insert_isSome _ _ _ _ h₁
          · exact h₁
        · exact updateConnWithStats_isSome _ _ _ _ _ h
    · exact updateConnWithStats_isSome _ _ _ _ _ h

theorem mergeClosedConns_isSome (E : Env) (maxClientStats : Int) (active : List ConnectionStats)
    (connsByKey : GoMap String Nat) (tel : telemetry) (cl : client)
    (closed : List ConnectionStats) (k : String) (h : (cl.stats.find? k).isSome = true) :
    ((mergeClosedConns E maxClientStats active connsByKey tel cl closed).2.1.stats.find?
      k).isSome = true := by
  induction closed generalizing tel cl with
  | nil => exact h
  | cons x rest ih =>
    simp only [mergeClosedConns]
    exact ih _ _ (mergeClosedConn_isSome E maxClientStats active connsByKey tel cl x k h)

theorem mergeActiveConn_isSome (maxClientStats : Int)
    (s : telemetry × client × List ConnectionStats × List ConnectionStats) (e : String × Nat)
    (k : String) (h : (s.2.1.stats.find? k).isSome = true) :
    ((mergeActiveConn maxClientStats s e).2.1.stats.find? k).isSome = true := by
  unfold mergeActiveConn
  split
  · exact h
  · split
    · exact h
    · exact updateConnWithStats_isSome _ _ _ _ _ (createStatsForKey_isSome _ _ _ _ _ h)

theorem firstDeltaConn_isSome (maxClientStats : Int)
    (s : telemetry × client × List ConnectionStats) (e : String × Nat)
    (k : String) (h : (s.2.1.stats.find? k).isSome = true) :
    ((firstDeltaConn maxClientStats s e).2.1.stats.find? k).isSome = true := by
  unfold firstDeltaConn
  split
  · exact h
  · exact updateConnWithStats_isSome _ _ _ _ _ (createStatsForKey_isSome _ _ _ _ _ h)

/-- The connection accounting of `GetDelta` never removes a key from the stats. -/
theorem deltaConns_isSome (E : Env) (maxClientStats : Int) (now : Int) (tel : telemetry)
    (cl : client) (ok : Bool) (connsByKey : GoMap String Nat)
    (active buffer : List ConnectionStats) (k : String)
    (h : (cl.stats.find? k).isSome = true) :
    ((deltaConns E maxClientStats now tel cl ok connsByKey active buffer).2.1.stats.find?
      k).isSome = true := by
  unfold deltaConns
  split
  · dsimp only
    exact foldl_preserve (firstDeltaConn maxClientStats)
      (fun s => (s.2.1.stats.find? k).isSome = true) (E.rangeOrder connsByKey)
      (fun s e _ hs => firstDeltaConn_isSome maxClientStats s e k hs) (tel, cl, active) h
  · unfold mergeConnections
    dsimp only
    exact foldl_preserve (mergeActiveConn maxClientStats)
      (fun s => (s.2.1.stats.find? k).isSome = true) (E.rangeOrder connsByKey)
      (fun s e _ hs => mergeActiveConn_isSome maxClientStats s e k hs) _
      (mergeClosedConns_isSome E maxClientStats active connsByKey tel _ _ k h)

/-- C23. After `GetDelta` the calling client is registered; every key of its
stats map is the byte key of a record of `active`; a key of `active` has the
entry the client held for it when the connection accounting of the call ended,
and no entry if it held none; a key that is the byte key of no record of
`active` has no entry; a key the client held before the call that is a key of
`active` is still held. -/
theorem GetDelta_stats_retention (E : Env) (ns : networkState) (now : Int) (id : String)
    (lt : Nat) (active : List ConnectionStats) (dns : StatsByKeyByNameByType)
    (http : GoMap String RequestStats) :
    ∃ cl', (GetDelta E ns now id lt active dns http).1.clients.find? id = some cl' ∧
      (∀ k ∈ cl'.stats.keys, ∃ c ∈ active, ByteKey E c = some k) ∧
      (∀ k, (∃ c ∈ active, ByteKey E c = some k) →
        cl'.stats.find? k = (deltaAccounting E ns now id active).2.1.stats.find? k) ∧
      (∀ k, (∀ c ∈ active, ByteKey E c ≠ some k) → cl'.stats.find? k = none) ∧
      (∀ cl k, ns.clients.find? id = some cl → (cl.stats.find? k).isSome = true →
        (∃ c ∈ active, ByteKey E c = some k) → (cl'.stats.find? k).isSome = true) := by
  obtain ⟨cl', hfind, _, _, hstats⟩ := GetDelta_final_client E ns now id lt active dns http
  refine ⟨cl', hfind, ?_, ?_, ?_, ?_⟩
  rotate_left 3
  · intro cl k hcl hk hact
    rw [hstats k, if_pos ((getConnsByKey_isSome_iff E active k).2 hact)]
    unfold deltaAccounting
    apply deltaConns_isSome
    rw [getClient_of_find? hcl]
    exact hk
  · intro k hk
    have hne : cl'.stats.find? k ≠ none := fun h => (GoMap.find?_eq_none_iff _ _).1 h hk
    rw [hstats k] at hne
    by_cases h : ((getConnsByKey E active).find? k).isSome = true
    · exact (getConnsByKey_isSome_iff E active k).1 h
    · rw [if_neg h] at hne
      exact absurd rfl hne
  · intro k hk
    rw [hstats k, if_pos ((getConnsByKey_isSome_iff E active k).2 hk)]
  · intro k hk
    rw [hstats k]
    have : ¬ ((getConnsByKey E active).find? k).isSome = true := by
      intro h
      obtain ⟨c, hc, hck⟩ := (getConnsByKey_isSome_iff E active k).1 h
      exact hk c hc hck
    rw [if_neg this]

theorem GetDelta_stats_retention_witness :
    (sampleReached.clients.map (fun e => e.2.stats.keys)) = [[sampleConnKey]] ∧
    ∃ cl', (GetDelta sampleEnv sampleReached 1 "A" 200 [{ sampleConn 1 1 1 2 with DPort := 30 }] []
        []).1.clients.find? "A" = some cl' ∧
      cl'.stats.find? sampleConnKey = none ∧
      cl'.stats.find? "tcp out 1.1.1.1:10>2.2.2.2:21" = none ∧
      cl'.stats.find? "tcp out 1.1.1.1:10>2.2.2.2:30" =
        (deltaAccounting sampleEnv sampleReached 1 "A"
          [{ sampleConn 1 1 1 2 with DPort := 30 }]).2.1.stats.find?
            "tcp out 1.1.1.1:10>2.2.2.2:30" := by
  obtain ⟨cl', h₁, _, h₃, h₄, _⟩ := GetDelta_stats_retention sampleEnv sampleReached 1 "A" 200
    [{ sampleConn 1 1 1 2 with DPort := 30 }] [] []
  refine ⟨by decide, cl', h₁, h₄ _ (by decide), h₄ _ (by decide), h₃ _ ⟨_, List.mem_singleton_self _, by decide⟩⟩

/-! ## The output buffer of a delta -/

theorem sameMonotonic_iff_view (a b : ConnectionStats) :
    sameMonotonic a b ↔ a.monotonicView = b.monotonicView := by
  unfold sameMonotonic ConnectionStats.monotonicView
  simp only [Prod.mk.injEq, List.cons.injEq, and_true]

theorem wsub_le {w m t : Nat} (h : t ≤ m) : wsub w m t ≤ m := by
  unfold wsub
  have hpos : 0 < 2 ^ w := Nat.two_pow_pos w
  have ha : t % 2 ^ w ≤ t := Nat.mod_le _ _
  have hlt : t % 2 ^ w < 2 ^ w := Nat.mod_lt _ hpos
  have : m + (2 ^ w - t % 2 ^ w) = (m - t % 2 ^ w) + 2 ^ w := by omega
  rw [this, Nat.add_mod_right]
  exact le_trans (Nat.mod_le _ _) (Nat.sub_le _ _)

/-- A record accounted by `updateConnWithStats` has at most as many last sent
bytes as monotonic sent bytes. -/
theorem updateConnWithStats_last_le (tel : telemetry) (cl : client) (key : String)
    (c : ConnectionStats) :
    (updateConnWithStats tel cl key c).2.2.LastSentBytes ≤
      (updateConnWithStats tel cl key c).2.2.MonotonicSentBytes := by
  unfold updateConnWithStats
  split
  · rename_i st0 _
    dsimp only
    unfold handleStatsUnderflow
    split
    · dsimp only
      exact wsub_le (Nat.zero_le _)
    · rename_i hno
      dsimp only
      apply wsub_le
      by_contra hlt
      exact hno (Or.inl (by omega))
  · exact le_refl _

theorem getElem?_map_view {l l' : List ConnectionStats}
    (h : l'.map ConnectionStats.monotonicView = l.map ConnectionStats.monotonicView) (i : Nat) :
    (l'[i]?).map ConnectionStats.monotonicView = (l[i]?).map ConnectionStats.monotonicView := by
  rw [← List.getElem?_map, ← List.getElem?_map, h]

/-- The active loop appends, in the order of the visit, one record for each
entry whose key has no pending closed record: the record the entry points at,
with its identity, epoch and monotonic counters and with at most as many last
sent bytes as monotonic sent bytes. -/
theorem mergeActiveLoop_output (maxClientStats : Int) (L : GoMap String Nat)
    (s : telemetry × client × List ConnectionStats × List ConnectionStats) :
    ∃ outs, (L.foldl (mergeActiveConn maxClientStats) s).2.2.2 = s.2.2.2 ++ outs ∧
      outs.map ConnectionStats.monotonicView =
        (L.filter (fun e =>
          decide ((s.2.1.closedConnectionsKeys.getD []).find? e.1 = none))).filterMap
          (fun e => (s.2.2.1[e.2]?).map ConnectionStats.monotonicView) ∧
      (∀ r ∈ outs, r.LastSentBytes ≤ r.MonotonicSentBytes) ∧
      (L.foldl (mergeActiveConn maxClientStats) s).2.2.1.map ConnectionStats.monotonicView =
        s.2.2.1.map ConnectionStats.monotonicView ∧
      client.sameClosed (L.foldl (mergeActiveConn maxClientStats) s).2.1 s.2.1 := by
  induction L generalizing s with
  | nil => exact ⟨[], by simp, by simp, by simp, rfl, ⟨rfl, rfl, rfl, rfl, rfl, rfl⟩⟩
  | cons e L ih =>
    rw [List.foldl_cons]
    obtain ⟨outs, h₁, h₂, h₃, h₄, h₅⟩ := ih (mergeActiveConn maxClientStats s e)
    cases hclosed : (s.2.1.closedConnectionsKeys.getD []).find? e.1 with
    | some j =>
      have hstep : mergeActiveConn maxClientStats s e = s := by
        unfold mergeActiveConn; rw [hclosed]
      rw [hstep] at h₁ h₂ h₄ h₅ ⊢
      refine ⟨outs, h₁, ?_, h₃, h₄, h₅⟩
      rw [h₂, List.filter_cons]
      simp [hclosed]
    | none =>
      cases hc : s.2.2.1[e.2]? with
      | none =>
        have hstep : mergeActiveConn maxClientStats s e = s := by
          unfold mergeActiveConn; rw [hclosed]; dsimp only; rw [hc]
        rw [hstep] at h₁ h₂ h₄ h₅ ⊢
        refine ⟨outs, h₁, ?_, h₃, h₄, h₅⟩
        rw [h₂, List.filter_cons]
        simp [hclosed, hc]
      | some c =>
        have hstep : mergeActiveConn maxClientStats s e =
            ((updateConnWithStats (createStatsForKey maxClientStats s.1 s.2.1 e.1).1
                (createStatsForKey maxClientStats s.1 s.2.1 e.1).2 e.1 c).1,
              (updateConnWithStats (createStatsForKey maxClientStats s.1 s.2.1 e.1).1
                (createStatsForKey maxClientStats s.1 s.2.1 e.1).2 e.1 c).2.1,
              s.2.2.1.set e.2
                (updateConnWithStats (createStatsForKey maxClientStats s.1 s.2.1 e.1).1
                  (createStatsForKey maxClientStats s.1 s.2.1 e.1).2 e.1 c).2.2,
              s.2.2.2 ++
                [(updateConnWithStats (createStatsForKey maxClientStats s.1 s.2.1 e.1).1
                  (createStatsForKey maxClientStats s.1 s.2.1 e.1).2 e.1 c).2.2]) := by
          unfold mergeActiveConn; rw [hclosed]; dsimp only; rw [hc]
        generalize hr : updateConnWithStats (createStatsForKey maxClientStats s.1 s.2.1 e.1).1
          (createStatsForKey maxClientStats s.1 s.2.1 e.1).2 e.1 c = r at hstep
        have hsm : sameMonotonic r.2.2 c := by
          rw [← hr]; exact updateConnWithStats_sameMonotonic _ _ _ _
        have hle : r.2.2.LastSentBytes ≤ r.2.2.MonotonicSentBytes := by
          rw [← hr]; exact updateConnWithStats_last_le _ _ _ _
        have hsc : client.sameClosed r.2.1 s.2.1 := by
          rw [← hr]
          exact client.sameClosed_trans (updateConnWithStats_sameClosed _ _ _ _)
            (createStatsForKey_sameClosed _ _ _ _)
        have hview : (s.2.2.1.set e.2 r.2.2).map ConnectionStats.monotonicView =
            s.2.2.1.map ConnectionStats.monotonicView :=
          set_map_same _ _ _ c _ hc ((sameMonotonic_iff_view _ _).1 hsm)
        rw [hstep] at h₁ h₂ h₄ h₅ ⊢
        dsimp only at h₁ h₂ h₄ h₅ ⊢
        refine ⟨r.2.2 :: outs, ?_, ?_, ?_, h₄.trans hview, client.sameClosed_trans h₅ hsc⟩
        · rw [h₁]; simp
        · rw [List.map_cons, h₂, List.filter_cons]
          simp only [hclosed, decide_True, if_true, List.filterMap_cons, hc, Option.map_some']
          rw [hsc.2.1, (sameMonotonic_iff_view _ _).1 hsm]
          congr 1
          apply List.filterMap_congr
          intro x _
          exact getElem?_map_view hview x.2
        · intro x hx
          rcases List.mem_cons.1 hx with h | h
          · rw [h]; exact hle
          · exact h₃ x h

/-- For an indexed client a key is missing from the index exactly when no
pending closed record has it as byte key. -/
theorem client.indexed_pending_iff {E : Env} {cl : client} (h : cl.indexed E) (k : String) :
    (cl.closedConnectionsKeys.getD []).find? k = none ↔
      ∀ x ∈ cl.closedConnections, ByteKey E x ≠ some k := by
  obtain ⟨keys, hkeys, h₁, h₂⟩ := h
  rw [hkeys]
  simp only [Option.getD_some]
  constructor
  · intro hnone x hx hxk
    obtain ⟨j, hj⟩ := List.mem_iff_getElem?.1 hx
    obtain ⟨k', hk', hf⟩ := h₂ j x hj
    rw [hxk] at hk'
    cases hk'
    rw [hnone] at hf
    cases hf
  · intro hall
    cases hf : GoMap.find? keys k with
    | none => rfl
    | some i =>
      obtain ⟨a, ha, hak⟩ := h₁ k i hf
      exact absurd hak (hall a (List.getElem?_mem ha))

theorem map_fst_filterMap_view {α : Type} (l : List α) (f : α → Option ConnectionStats) :
    (l.filterMap (fun e => (f e).map ConnectionStats.monotonicView)).map Prod.fst =
      l.filterMap (fun e => (f e).map ConnectionStats.identity) := by
  induction l with
  | nil => rfl
  | cons a t ih =>
    cases h : f a with
    | none => simp [List.filterMap_cons, h, ih]
    | some c => simp [List.filterMap_cons, h, ih, ConnectionStats.monotonicView]

theorem length_filterMap_of_isSome {α β : Type} (l : List α) (f : α → Option β)
    (h : ∀ a ∈ l, (f a).isSome = true) : (l.filterMap f).length = l.length := by
  induction l with
  | nil => rfl
  | cons a t ih =>
    obtain ⟨b, hb⟩ := Option.isSome_iff_exists.1 (h a (List.mem_cons_self _ _))
    rw [List.filterMap_cons, hb]
    simp [ih (fun x hx => h x (List.mem_cons_of_mem _ hx))]

/-- The output buffer of `mergeConnections` for an existing client: the pending
closed records as updated by the closed loop, followed by the records the active
loop appends. -/
theorem mergeConnections_output (E : Env) (maxClientStats : Int) (now : Int) (tel : telemetry)
    (cl : client) (active : List ConnectionStats) :
    ∃ outs,
      (mergeConnections E maxClientStats now tel cl (getConnsByKey E active) active []).2.2.2 =
        (mergeClosedConns E maxClientStats active (getConnsByKey E active) tel
          { cl with lastFetch := now } cl.closedConnections).2.2 ++ outs ∧
      outs.map ConnectionStats.monotonicView =
        ((E.rangeOrder (getConnsByKey E active)).filter (fun e =>
          decide ((cl.closedConnectionsKeys.getD []).find? e.1 = none))).filterMap
          (fun e => (active[e.2]?).map ConnectionStats.monotonicView) ∧
      (∀ r ∈ outs, r.LastSentBytes ≤ r.MonotonicSentBytes) := by
  obtain ⟨g₁, _, _⟩ := mergeClosedConns_frame E maxClientStats active (getConnsByKey E active)
    tel { cl with lastFetch := now } cl.closedConnections
  obtain ⟨outs, h₁, h₂, h₃, _, _⟩ := mergeActiveLoop_output maxClientStats
    (E.rangeOrder (getConnsByKey E active))
    ((mergeClosedConns E maxClientStats active (getConnsByKey E active) tel
        { cl with lastFetch := now } cl.closedConnections).1,
      { (mergeClosedConns E maxClientStats active (getConnsByKey E active) tel
          { cl with lastFetch := now } cl.closedConnections).2.1 with
        closedConnections :=
          (mergeClosedConns E maxClientStats active (getConnsByKey E active) tel
            { cl with lastFetch := now } cl.closedConnections).2.2 },
      active,
      [] ++ (mergeClosedConns E maxClientStats active (getConnsByKey E active) tel
          { cl with lastFetch := now } cl.closedConnections).2.2)
  refine ⟨outs, ?_, ?_, h₃⟩
  · unfold mergeConnections
    dsimp only at h₁ ⊢
    rw [h₁, List.nil_append]
  · dsimp only at h₂
    rw [h₂, g₁.2.1]

/-- The connections returned to an existing client whose pending closed
connections are indexed: the pending closed records followed by the records of
the key-to-connection map whose key no pending closed record has. -/
theorem GetDelta_output_of_indexed (E : Env) (ns : networkState) (now : Int) (id : String)
    (lt : Nat) (active : List ConnectionStats) (dns : StatsByKeyByNameByType)
    (http : GoMap String RequestStats) (cl : client)
    (hcl : ns.clients.find? id = some cl) (hidx : cl.indexed E) :
    (GetDelta E ns now id lt active dns http).2.Conns.map ConnectionStats.identity =
        cl.closedConnections.map ConnectionStats.identity ++
          ((E.rangeOrder (getConnsByKey E active)).filter (fun e =>
            decide (∀ x ∈ cl.closedConnections, ByteKey E x ≠ some e.1))).filterMap
            (fun e => (active[e.2]?).map ConnectionStats.identity) ∧
    (GetDelta E ns now id lt active dns http).2.Conns.length =
        cl.closedConnections.length +
          ((getConnsByKey E active).filter (fun e =>
            decide (∀ x ∈ cl.closedConnections, ByteKey E x ≠ some e.1))).length ∧
    ((GetDelta E ns now id lt active dns http).2.Conns.map (ByteKey E)).Nodup := by
  have hconns := (GetDelta_structure E ns now id lt active dns http).2.1
  have hacc : deltaAccounting E ns now id active =
      mergeConnections E ns.maxClientStats now ns.telemetry cl (getConnsByKey E active)
        active [] := by
    unfold deltaAccounting
    rw [getClient_of_find? hcl]
    rfl
  obtain ⟨outs, h₁, h₂, _⟩ := mergeConnections_output E ns.maxClientStats now ns.telemetry cl
    active
  obtain ⟨_, g₂, _⟩ := mergeClosedConns_frame E ns.maxClientStats active (getConnsByKey E active)
    ns.telemetry { cl with lastFetch := now } cl.closedConnections
  have hfilter : (E.rangeOrder (getConnsByKey E active)).filter (fun e =>
        decide ((cl.closedConnectionsKeys.getD []).find? e.1 = none)) =
      (E.rangeOrder (getConnsByKey E active)).filter (fun e =>
        decide (∀ x ∈ cl.closedConnections, ByteKey E x ≠ some e.1)) := by
    apply List.filter_congr
    intro e _
    exact decide_eq_decide.2 (client.indexed_pending_iff hidx e.1)
  have hid : (GetDelta E ns now id lt active dns http).2.Conns.map ConnectionStats.identity =
      cl.closedConnections.map ConnectionStats.identity ++
        ((E.rangeOrder (getConnsByKey E active)).filter (fun e =>
          decide (∀ x ∈ cl.closedConnections, ByteKey E x ≠ some e.1))).filterMap
          (fun e => (active[e.2]?).map ConnectionStats.identity) := by
    rw [hconns, determineConnectionIntraHost_identity, hacc, h₁, List.map_append, g₂]
    congr 1
    have : outs.map ConnectionStats.identity =
        (outs.map ConnectionStats.monotonicView).map Prod.fst := by
      rw [List.map_map]; rfl
    rw [this, h₂, map_fst_filterMap_view, hfilter]
  refine ⟨hid, ?_, GetDelta_existing_nodup E ns now id lt active dns http cl hcl hidx⟩
  have hlen := congrArg List.length hid
  rw [List.length_map, List.length_append, List.length_map] at hlen
  rw [hlen]
  congr 1
  rw [length_filterMap_of_isSome]
  · exact ((E.rangeOrder_perm _).filter _).length_eq
  · intro e he
    obtain ⟨c, hc, _⟩ := (rangeOrder_spec E active).2.1 e (List.mem_of_mem_filter he)
    rw [hc]
    rfl

theorem samplePending_indexed : samplePending.indexed sampleEnv := by
  obtain ⟨ns', hrun, hwf, _⟩ := runOps_wellFormed sampleEnv sampleOps _
    (NewState_wellFormed sampleEnv 1000 2 10 10 10)
  have hns : runOps sampleEnv (NewState 1000 2 10 10 10) sampleOps = some sampleReached := by
    decide
  rw [hns] at hrun
  cases hrun
  exact hwf.2.1 ("A", samplePending) (by decide)

/-- C30. Output composition of a delta of an existing client, in every registry
reachable from `NewState`: the returned connections are the client's pending
closed records, in stored order, followed by the records of the key-to-connection
map of `active` (one per byte key, the last record of `active` with that key)
whose key is the byte key of no pending closed record, in the order of the visit
of the map. The length is the number of pending closed records plus the number
of such keys, and no byte key occurs twice. -/
theorem GetDelta_output_composition (E : Env)
    (clientExpiry maxClosedConns maxClientStats maxDNSStats maxHTTPStats : Int)
    (ops : List Op) (ns : networkState)
    (hrun : runOps E (NewState clientExpiry maxClosedConns maxClientStats maxDNSStats
      maxHTTPStats) ops = some ns)
    (now : Int) (id : String) (lt : Nat) (active : List ConnectionStats)
    (dns : StatsByKeyByNameByType) (http : GoMap String RequestStats) (cl : client)
    (hcl : ns.clients.find? id = some cl) :
    (GetDelta E ns now id lt active dns http).2.Conns.map ConnectionStats.identity =
        cl.closedConnections.map ConnectionStats.identity ++
          ((E.rangeOrder (getConnsByKey E active)).filter (fun e =>
            decide (∀ x ∈ cl.closedConnections, ByteKey E x ≠ some e.1))).filterMap
            (fun e => (active[e.2]?).map ConnectionStats.identity) ∧
    (GetDelta E ns now id lt active dns http).2.Conns.length =
        cl.closedConnections.length +
          ((getConnsByKey E active).filter (fun e =>
            decide (∀ x ∈ cl.closedConnections, ByteKey E x ≠ some e.1))).length ∧
    ((GetDelta E ns now id lt active dns http).2.Conns.map (ByteKey E)).Nodup := by
  obtain ⟨ns', hrun', hwf, _⟩ := runOps_wellFormed E ops _
    (NewState_wellFormed E clientExpiry maxClosedConns maxClientStats maxDNSStats maxHTTPStats)
  rw [hrun] at hrun'
  cases hrun'
  exact GetDelta_output_of_indexed E ns now id lt active dns http cl hcl
    (hwf.2.1 (id, cl) (GoMap.mem_of_find? hcl))

theorem GetDelta_output_composition_witness :
    (GetDelta sampleEnv sampleReached 1 "A" 200
        [{ sampleConn 1 1 1 2 with DPort := 21 }, { sampleConn 1 1 1 2 with DPort := 30 }] []
        []).2.Conns.map (fun c => c.DPort) = [21, 22, 30] ∧
    (GetDelta sampleEnv sampleReached 1 "A" 200
        [{ sampleConn 1 1 1 2 with DPort := 21 }, { sampleConn 1 1 1 2 with DPort := 30 }] []
        []).2.Conns.length =
      samplePending.closedConnections.length +
        ((getConnsByKey sampleEnv
            [{ sampleConn 1 1 1 2 with DPort := 21 },
              { sampleConn 1 1 1 2 with DPort := 30 }]).filter (fun e =>
          decide (∀ x ∈ samplePending.closedConnections,
            ByteKey sampleEnv x ≠ some e.1))).length :=
  ⟨by decide,
    (GetDelta_output_composition sampleEnv 1000 2 10 10 10 sampleOps sampleReached (by decide)
      1 "A" 200
      [{ sampleConn 1 1 1 2 with DPort := 21 }, { sampleConn 1 1 1 2 with DPort := 30 }] [] []
      samplePending (by decide)).2.1⟩

/-! ## Telemetry of a delta -/

theorem handleStatsUnderflow_telemetry (tel : telemetry) (st : stats) (c : ConnectionStats) :
    (handleStatsUnderflow tel st c).1 =
      { tel with statsResets := tel.statsResets + (if underflows st c = true then 1 else 0) } := by
  unfold handleStatsUnderflow underflows
  by_cases h : c.MonotonicSentBytes < st.totalSent ∨ c.MonotonicRecvBytes < st.totalRecv ∨
      c.MonotonicRetransmits < st.totalRetransmits
  · simp [h]
  · simp [h]

theorem updateConnWithStats_telemetry (tel : telemetry) (cl : client) (key : String)
    (c : ConnectionStats) :
    (updateConnWithStats tel cl key c).1 =
      { tel with statsResets := tel.statsResets +
          (match cl.stats.find? key with
            | some t => if underflows t c = true then 1 else 0
            | none => 0) } := by
  cases h : cl.stats.find? key with
  | some st0 =>
    simp only [updateConnWithStats, h]
    exact handleStatsUnderflow_telemetry tel st0 c
  | none =>
    simp only [updateConnWithStats, h, add_zero]

theorem updateConnWithStatWithActiveConn_telemetry (tel : telemetry) (cl : client)
    (key : String) (active closed : ConnectionStats) :
    (updateConnWithStatWithActiveConn tel cl key active closed).1 =
      { tel with statsResets := tel.statsResets +
          (match cl.stats.find? key with
            | some t => if underflows t closed = true then 1 else 0
            | none => 0) } := by
  cases h : cl.stats.find? key with
  | some st0 =>
    simp only [updateConnWithStatWithActiveConn, h]
    exact handleStatsUnderflow_telemetry tel st0 closed
  | none =>
    simp only [updateConnWithStatWithActiveConn, h, add_zero]

theorem createStatsForKey_telemetry (maxClientStats : Int) (tel : telemetry) (cl : client)
    (key : String) :
    (createStatsForKey maxClientStats tel cl key).1 =
      { tel with connDropped := tel.connDropped +
          (if cl.stats.find? key = none ∧ (cl.stats.length : Int) ≥ maxClientStats then 1
            else 0) } := by
  unfold createStatsForKey
  split
  · rename_i h
    simp [h]
  · rename_i h
    split
    · rename_i hfull
      simp [h, hfull]
    · rename_i hfull
      simp [h, hfull]

theorem telemetry.sameConnCounters_refl (a : telemetry) : a.sameConnCounters a :=
  ⟨rfl, rfl, rfl, rfl, rfl⟩

theorem telemetry.sameConnCounters_trans {a b c : telemetry} (h₁ : a.sameConnCounters b)
    (h₂ : b.sameConnCounters c) : a.sameConnCounters c :=
  ⟨h₁.1.trans h₂.1, h₁.2.1.trans h₂.2.1, h₁.2.2.1.trans h₂.2.2.1,
    h₁.2.2.2.1.trans h₂.2.2.2.1, h₁.2.2.2.2.trans h₂.2.2.2.2⟩

theorem storeDNSLeaf_telemetry (maxDNSStats : Int) (s : telemetry × StatsByKeyByNameByType × Nat)
    (key domain : String) (qtype : Nat) (dnsStats : DNSStats) :
    (storeDNSLeaf maxDNSStats s key domain qtype dnsStats).1.sameConnCounters s.1 := by
  unfold storeDNSLeaf
  dsimp only
  split
  · split <;> exact ⟨rfl, rfl, rfl, rfl, rfl⟩
  · split
    · split <;> exact ⟨rfl, rfl, rfl, rfl, rfl⟩
    · split
      · exact ⟨rfl, rfl, rfl, rfl, rfl⟩
      · split <;> exact ⟨rfl, rfl, rfl, rfl, rfl⟩

theorem storeDNSStatsClient_telemetry (maxDNSStats : Int) (stats : StatsByKeyByNameByType)
    (tel : telemetry) (dns : StatsByKeyByNameByType) :
    (storeDNSStatsClient maxDNSStats stats tel dns).1.sameConnCounters tel := by
  unfold storeDNSStatsClient
  dsimp only
  exact foldl_preserve
    (fun (s : telemetry × StatsByKeyByNameByType × Nat)
        (byKey : String × GoMap String (GoMap Nat DNSStats)) =>
      byKey.2.foldl (fun s byDomain =>
        byDomain.2.foldl
          (fun s leaf => storeDNSLeaf maxDNSStats s byKey.1 byDomain.1 leaf.1 leaf.2) s) s)
    (fun s => s.1.sameConnCounters tel) stats
    (by
      intro s byKey _ hs
      refine foldl_preserve _ (fun s => s.1.sameConnCounters tel) _ ?_ s hs
      intro s byDomain _ hs
      refine foldl_preserve _ (fun s => s.1.sameConnCounters tel) _ ?_ s hs
      intro s leaf _ hs
      exact telemetry.sameConnCounters_trans (storeDNSLeaf_telemetry _ _ _ _ _ _) hs)
    (tel, dns, getDeepDNSStatsCount dns) (telemetry.sameConnCounters_refl tel)

theorem storeDNSStatsClients_telemetry (maxDNSStats : Int) (stats : StatsByKeyByNameByType)
    (tel : telemetry) (m : GoMap String client) :
    (storeDNSStatsClients maxDNSStats stats tel m).1.sameConnCounters tel := by
  induction m generalizing tel with
  | nil => exact telemetry.sameConnCounters_refl tel
  | cons e t ih =>
    obtain ⟨id, cl⟩ := e
    simp only [storeDNSStatsClients]
    exact telemetry.sameConnCounters_trans (ih _)
      (storeDNSStatsClient_telemetry maxDNSStats stats tel cl.dnsStats)

theorem storeDNSStats_telemetry (ns : networkState) (stats : StatsByKeyByNameByType) :
    (storeDNSStats ns stats).telemetry.sameConnCounters ns.telemetry := by
  unfold storeDNSStats
  split
  · split <;> exact telemetry.sameConnCounters_refl _
  · exact storeDNSStatsClients_telemetry _ _ _ _

theorem storeHTTPStatsEntry_telemetry (E : Env) (maxHTTPStats : Int) (key : String)
    (stats : RequestStats) (tel : telemetry) (m : GoMap String client) :
    (storeHTTPStatsEntry E maxHTTPStats key stats tel m).1.sameConnCounters tel := by
  induction m generalizing tel with
  | nil => exact telemetry.sameConnCounters_refl tel
  | cons e t ih =>
    obtain ⟨id, cl⟩ := e
    simp only [storeHTTPStatsEntry]
    refine telemetry.sameConnCounters_trans (ih _) ?_
    split
    · split <;> exact ⟨rfl, rfl, rfl, rfl, rfl⟩
    · exact ⟨rfl, rfl, rfl, rfl, rfl⟩

theorem storeHTTPStats_telemetry (E : Env) (ns : networkState)
    (allStats : GoMap String RequestStats) :
    (storeHTTPStats E ns allStats).telemetry.sameConnCounters ns.telemetry := by
  unfold storeHTTPStats
  dsimp only
  exact foldl_preserve
    (fun (s : telemetry × GoMap String client) (e : String × RequestStats) =>
      storeHTTPStatsEntry E ns.maxHTTPStats e.1 e.2 s.1 s.2)
    (fun s => s.1.sameConnCounters ns.telemetry) allStats
    (fun s e _ hs =>
      telemetry.sameConnCounters_trans (storeHTTPStatsEntry_telemetry E _ e.1 e.2 s.1 s.2) hs)
    (ns.telemetry, ns.clients) (telemetry.sameConnCounters_refl _)

/-- The counters of the connection accounting after `GetDelta` are those the
accounting of the call left; the DNS and HTTP fan-in only moves its own drop
counters. -/
theorem GetDelta_telemetry (E : Env) (ns : networkState) (now : Int) (id : String) (lt : Nat)
    (active : List ConnectionStats) (dns : StatsByKeyByNameByType)
    (http : GoMap String RequestStats) :
    (GetDelta E ns now id lt active dns http).1.telemetry.sameConnCounters
      (deltaAccounting E ns now id active).1 := by
  rw [GetDelta_eq]
  have hfan : (deltaFanIn E (deltaRegistry E ns now id lt active) dns http).telemetry.sameConnCounters
      (deltaAccounting E ns now id active).1 := by
    have h12 : (if dns.length > 0 then storeDNSStats (deltaRegistry E ns now id lt active) dns
        else deltaRegistry E ns now id lt active).telemetry.sameConnCounters
        (deltaAccounting E ns now id active).1 := by
      split
      · exact storeDNSStats_telemetry _ _
      · exact telemetry.sameConnCounters_refl _
    unfold deltaFanIn
    split
    · exact telemetry.sameConnCounters_trans (storeHTTPStats_telemetry _ _ _) h12
    · exact h12
  unfold deltaFinish
  split
  · exact hfan
  · exact hfan

theorem mergeClosedConn_timeSync (E : Env) (maxClientStats : Int) (active : List ConnectionStats)
    (tel : telemetry) (cl : client) (x : ConnectionStats) :
    (mergeClosedConn E maxClientStats active (getConnsByKey E active) tel cl
        x).1.timeSyncCollisions =
      tel.timeSyncCollisions + (if timeSyncCollides E active x = true then 1 else 0) := by
  unfold mergeClosedConn timeSyncCollides
  cases hk : ByteKey E x with
  | none => simp
  | some key =>
    dsimp only
    cases ha : activeConnFor active (getConnsByKey E active) key with
    | none =>
      dsimp only
      rw [updateConnWithStats_telemetry]
      simp
    | some a =>
      dsimp only
      by_cases h₁ : x.LastUpdateEpoch > a.LastUpdateEpoch
      · rw [if_pos h₁, updateConnWithStats_telemetry]
        have : ¬ x.LastUpdateEpoch = a.LastUpdateEpoch := by omega
        simp [this]
      · rw [if_neg h₁]
        by_cases h₂ : x.LastUpdateEpoch < a.LastUpdateEpoch
        · rw [if_pos h₂]
          dsimp only
          rw [updateConnWithStatWithActiveConn_telemetry, createStatsForKey_telemetry]
          have : ¬ x.LastUpdateEpoch = a.LastUpdateEpoch := by omega
          simp [this]
        · rw [if_neg h₂, updateConnWithStats_telemetry]
          have : x.LastUpdateEpoch = a.LastUpdateEpoch := by omega
          simp [this]

theorem mergeClosedConns_timeSync (E : Env) (maxClientStats : Int)
    (active : List ConnectionStats) (tel : telemetry) (cl : client)
    (closed : List ConnectionStats) :
    (mergeClosedConns E maxClientStats active (getConnsByKey E active) tel cl
        closed).1.timeSyncCollisions =
      tel.timeSyncCollisions + ((closed.filter (timeSyncCollides E active)).length : Nat) := by
  induction closed generalizing tel cl with
  | nil => simp [mergeClosedConns]
  | cons x rest ih =>
    simp only [mergeClosedConns]
    rw [ih, mergeClosedConn_timeSync, List.filter_cons]
    by_cases h : timeSyncCollides E active x = true
    · simp only [h, if_true, List.length_cons]
      push_cast
      omega
    · simp only [h, if_false]
      simp

theorem mergeActiveConn_timeSync (maxClientStats : Int)
    (s : telemetry × client × List ConnectionStats × List ConnectionStats) (e : String × Nat) :
    (mergeActiveConn maxClientStats s e).1.timeSyncCollisions = s.1.timeSyncCollisions ∧
      (mergeActiveConn maxClientStats s e).1.closedConnDropped = s.1.closedConnDropped := by
  unfold mergeActiveConn
  split
  · exact ⟨rfl, rfl⟩
  · split
    · exact ⟨rfl, rfl⟩
    · dsimp only
      rw [updateConnWithStats_telemetry, createStatsForKey_telemetry]
      exact ⟨rfl, rfl⟩

theorem firstDeltaConn_timeSync (maxClientStats : Int)
    (s : telemetry × client × List ConnectionStats) (e : String × Nat) :
    (firstDeltaConn maxClientStats s e).1.timeSyncCollisions = s.1.timeSyncCollisions := by
  unfold firstDeltaConn
  cases hc : s.2.2[e.2]? with
  | none => rfl
  | some c =>
    dsimp only
    rw [updateConnWithStats_telemetry, createStatsForKey_telemetry]

/-- `timeSyncCollisions` after a `GetDelta` of a client that exists: one more for
each pending closed record that collides with the active set. -/
theorem GetDelta_timeSync_existing (E : Env) (ns : networkState) (now : Int) (id : String)
    (lt : Nat) (active : List ConnectionStats) (dns : StatsByKeyByNameByType)
    (http : GoMap String RequestStats) (cl : client) (hcl : ns.clients.find? id = some cl) :
    (GetDelta E ns now id lt active dns http).1.telemetry.timeSyncCollisions =
      ns.telemetry.timeSyncCollisions +
        ((cl.closedConnections.filter (timeSyncCollides E active)).length : Nat) := by
  rw [(GetDelta_telemetry E ns now id lt active dns http).2.2.2.1]
  have hacc : deltaAccounting E ns now id active =
      mergeConnections E ns.maxClientStats now ns.telemetry cl (getConnsByKey E active)
        active [] := by
    unfold deltaAccounting
    rw [getClient_of_find? hcl]
    rfl
  rw [hacc]
  unfold mergeConnections
  dsimp only
  have := foldl_preserve (mergeActiveConn ns.maxClientStats)
    (fun s => s.1.timeSyncCollisions =
      (mergeClosedConns E ns.maxClientStats active (getConnsByKey E active) ns.telemetry
        { cl with lastFetch := now } cl.closedConnections).1.timeSyncCollisions)
    (E.rangeOrder (getConnsByKey E active))
    (fun s e _ hs => (mergeActiveConn_timeSync ns.maxClientStats s e).1.trans hs)
    ((mergeClosedConns E ns.maxClientStats active (getConnsByKey E active) ns.telemetry
        { cl with lastFetch := now } cl.closedConnections).1,
      { (mergeClosedConns E ns.maxClientStats active (getConnsByKey E active) ns.telemetry
          { cl with lastFetch := now } cl.closedConnections).2.1 with
        closedConnections :=
          (mergeClosedConns E ns.maxClientStats active (getConnsByKey E active) ns.telemetry
            { cl with lastFetch := now } cl.closedConnections).2.2 },
      active,
      [] ++ (mergeClosedConns E ns.maxClientStats active (getConnsByKey E active) ns.telemetry
          { cl with lastFetch := now } cl.closedConnections).2.2) rfl
  dsimp only at this
  rw [this, mergeClosedConns_timeSync]

/-- `timeSyncCollisions` does not move in the first `GetDelta` of a client. -/
theorem GetDelta_timeSync_new (E : Env) (ns : networkState) (now : Int) (id : String)
    (lt : Nat) (active : List ConnectionStats) (dns : StatsByKeyByNameByType)
    (http : GoMap String RequestStats) (hcl : ns.clients.find? id = none) :
    (GetDelta E ns now id lt active dns http).1.telemetry.timeSyncCollisions =
      ns.telemetry.timeSyncCollisions := by
  rw [(GetDelta_telemetry E ns now id lt active dns http).2.2.2.1]
  unfold deltaAccounting deltaConns
  rw [getClient_of_find?_none hcl]
  simp only [if_true]
  exact foldl_preserve (firstDeltaConn ns.maxClientStats)
    (fun s => s.1.timeSyncCollisions = ns.telemetry.timeSyncCollisions)
    (E.rangeOrder (getConnsByKey E active))
    (fun s e _ hs => (firstDeltaConn_timeSync ns.maxClientStats s e).trans hs) _ rfl

/-- A pending closed record `x` with key `K` of an existing, indexed client, in
a `GetDelta`: the one returned record with key `K` is `x` as the closed loop
left it, classified; if `K` is active the stats the client holds for `K` after
the call are those the closed loop left for it. The closed loop meets `x` with
the stats the client held for `K` before the call. -/
theorem GetDelta_pending_closed (E : Env) (ns : networkState) (now : Int) (id : String)
    (lt : Nat) (active : List ConnectionStats) (dns : StatsByKeyByNameByType)
    (http : GoMap String RequestStats) (cl : client) (K : String) (j : Nat)
    (x : ConnectionStats)
    (hcl : ns.clients.find? id = some cl) (hidx : cl.indexed E)
    (hx : cl.closedConnections[j]? = some x) (hK : ByteKey E x = some K) :
    ∃ lAddrs tel₁ cl₁ cl', cl₁.stats.find? K = cl.stats.find? K ∧
      (GetDelta E ns now id lt active dns http).2.Conns.filter
          (fun r' => decide (ByteKey E r' = some K)) =
        [classifyIntraHost E lAddrs
          (mergeClosedConn E ns.maxClientStats active (getConnsByKey E active) tel₁ cl₁ x).2.2] ∧
      (GetDelta E ns now id lt active dns http).1.clients.find? id = some cl' ∧
      (((getConnsByKey E active).find? K).isSome = true →
        cl'.stats.find? K =
          (mergeClosedConn E ns.maxClientStats active (getConnsByKey E active) tel₁ cl₁
            x).2.1.stats.find? K) := by
  obtain ⟨cl', hfind, _, _, hstats⟩ := GetDelta_final_client E ns now id lt active dns http
  have hconns := (GetDelta_structure E ns now id lt active dns http).2.1
  have hnodup := GetDelta_existing_nodup E ns now id lt active dns http cl hcl hidx
  have hacc : deltaAccounting E ns now id active =
      mergeConnections E ns.maxClientStats now ns.telemetry cl (getConnsByKey E active)
        active [] := by
    unfold deltaAccounting
    rw [getClient_of_find? hcl]
    rfl
  obtain ⟨keys, hkeys, hi₁, h₂⟩ := hidx
  obtain ⟨k', hk', hfk⟩ := h₂ j x hx
  rw [hK] at hk'
  cases hk'
  obtain ⟨tel₁, cl₁, hc₁, hc₂, hc₃⟩ := mergeClosedConns_reach E ns.maxClientStats active
    (getConnsByKey E active) ns.telemetry { cl with lastFetch := now } x j K
    (client.indexed_nodup ⟨keys, hkeys, hi₁, h₂⟩).1 hx hK
  obtain ⟨g₁, _, _⟩ := mergeClosedConns_frame E ns.maxClientStats active (getConnsByKey E active)
    ns.telemetry { cl with lastFetch := now } cl.closedConnections
  obtain ⟨hp₁, hp₂⟩ := mergeActiveLoop_pending ns.maxClientStats
    (E.rangeOrder (getConnsByKey E active))
    ((mergeClosedConns E ns.maxClientStats active (getConnsByKey E active) ns.telemetry
        { cl with lastFetch := now } cl.closedConnections).1,
      { (mergeClosedConns E ns.maxClientStats active (getConnsByKey E active) ns.telemetry
          { cl with lastFetch := now } cl.closedConnections).2.1 with
        closedConnections :=
          (mergeClosedConns E ns.maxClientStats active (getConnsByKey E active) ns.telemetry
            { cl with lastFetch := now } cl.closedConnections).2.2 },
      active,
      [] ++ (mergeClosedConns E ns.maxClientStats active (getConnsByKey E active) ns.telemetry
          { cl with lastFetch := now } cl.closedConnections).2.2)
    K j (by dsimp only; rw [g₁.2.1]; dsimp only; rw [hkeys]; exact hfk)
  have hmem : classifyIntraHost E
      ((deltaAccounting E ns now id active).2.2.2.map (fun conn => newConnKey conn false))
      (mergeClosedConn E ns.maxClientStats active (getConnsByKey E active) tel₁ cl₁ x).2.2 ∈
      (GetDelta E ns now id lt active dns http).2.Conns := by
    rw [hconns]
    unfold determineConnectionIntraHost
    apply List.mem_map_of_mem
    rw [hacc]
    unfold mergeConnections
    exact hp₂ _ (List.mem_append_right _ hc₃)
  obtain ⟨hsm, _⟩ := classifyIntraHost_counters E
    ((deltaAccounting E ns now id active).2.2.2.map (fun conn => newConnKey conn false))
    (mergeClosedConn E ns.maxClientStats active (getConnsByKey E active) tel₁ cl₁ x).2.2
  have hkey : ByteKey E (classifyIntraHost E
      ((deltaAccounting E ns now id active).2.2.2.map (fun conn => newConnKey conn false))
      (mergeClosedConn E ns.maxClientStats active (getConnsByKey E active) tel₁ cl₁ x).2.2) =
      some K := by
    rw [ByteKey_eq_of_identity E hsm.1,
      ByteKey_eq_of_identity E
        (mergeClosedConn_frame E ns.maxClientStats active (getConnsByKey E active) tel₁ cl₁ x).2.1]
    exact hK
  have hfilter := filter_eq_singleton_of_nodup_map (ByteKey E) _ hnodup _ hmem
  rw [hkey] at hfilter
  refine ⟨_, tel₁, cl₁, cl', hc₁, hfilter, hfind, ?_⟩
  intro hf
  rw [hstats K, if_pos hf, hacc]
  unfold mergeConnections
  dsimp only at hp₁ ⊢
  rw [hp₁]
  exact hc₂

theorem mergeClosedConn_collision (E : Env) (maxClientStats : Int)
    (active : List ConnectionStats) (connsByKey : GoMap String Nat) (tel : telemetry)
    (cl : client) (x y : ConnectionStats) (K : String) (hK : ByteKey E x = some K)
    (hact : activeConnFor active connsByKey K = some y)
    (hep : x.LastUpdateEpoch = y.LastUpdateEpoch) :
    mergeClosedConn E maxClientStats active connsByKey tel cl x =
      updateConnWithStats { tel with timeSyncCollisions := tel.timeSyncCollisions + 1 } cl K x := by
  unfold mergeClosedConn
  rw [hK]
  dsimp only
  rw [hact]
  dsimp only
  rw [if_neg (by omega), if_neg (by omega)]

/-- C21. Equal epochs, for a client that exists in a registry reachable from
`NewState`. `GetDelta` adds to `timeSyncCollisions` the number of pending closed
records that collide with the active set: encodable records whose key is in the
key-to-connection map of `active` with an active record of the same
`LastUpdateEpoch`; a closed record whose key is not active or whose epoch differs
does not collide, and the active records add nothing. For
a pending closed record `x` with key `K` whose active record `y` has the same
epoch, the one returned record with key `K` has the identity, epoch and
monotonic counters of `x` and the last counters `updateConnWithStats` computes
for `x` against the stats the client held, and the stats stored for `K` after
the call are those `updateConnWithStats` leaves for `x`. -/
theorem GetDelta_equal_epochs (E : Env)
    (clientExpiry maxClosedConns maxClientStats maxDNSStats maxHTTPStats : Int)
    (ops : List Op) (ns : networkState)
    (hrun : runOps E (NewState clientExpiry maxClosedConns maxClientStats maxDNSStats
      maxHTTPStats) ops = some ns)
    (now : Int) (id : String) (lt : Nat) (active : List ConnectionStats)
    (dns : StatsByKeyByNameByType) (http : GoMap String RequestStats) (cl : client)
    (hcl : ns.clients.find? id = some cl) :
    (GetDelta E ns now id lt active dns http).1.telemetry.timeSyncCollisions =
        ns.telemetry.timeSyncCollisions +
          ((cl.closedConnections.filter (timeSyncCollides E active)).length : Nat) ∧
    (∀ (x : ConnectionStats) (K : String), ByteKey E x = some K →
      (∀ c ∈ active, ByteKey E c ≠ some K) → timeSyncCollides E active x = false) ∧
    ∀ (K : String) (j i : Nat) (x y : ConnectionStats),
      cl.closedConnections[j]? = some x → ByteKey E x = some K →
      active[i]? = some y → ByteKey E y = some K →
      (∀ (i' : Nat) (c' : ConnectionStats), i < i' → active[i']? = some c' →
        ByteKey E c' ≠ some K) →
      (timeSyncCollides E active x = true ↔ x.LastUpdateEpoch = y.LastUpdateEpoch) ∧
      (x.LastUpdateEpoch = y.LastUpdateEpoch →
        ∃ r cl',
          (GetDelta E ns now id lt active dns http).2.Conns.filter
            (fun r' => decide (ByteKey E r' = some K)) = [r] ∧
          sameMonotonic r x ∧
          r.lastCounters = (updateConnWithStats ns.telemetry cl K x).2.2.lastCounters ∧
          (GetDelta E ns now id lt active dns http).1.clients.find? id = some cl' ∧
          cl'.stats.find? K = (updateConnWithStats ns.telemetry cl K x).2.1.stats.find? K) := by
  obtain ⟨ns', hrun', hwf, _⟩ := runOps_wellFormed E ops _
    (NewState_wellFormed E clientExpiry maxClosedConns maxClientStats maxDNSStats maxHTTPStats)
  rw [hrun] at hrun'
  cases hrun'
  have hidx := hwf.2.1 (id, cl) (GoMap.mem_of_find? hcl)
  refine ⟨GetDelta_timeSync_existing E ns now id lt active dns http cl hcl, ?_, ?_⟩
  · intro x K hK hnone
    have hf : (getConnsByKey E active).find? K = none := by
      cases h : (getConnsByKey E active).find? K with
      | none => rfl
      | some i =>
        obtain ⟨c, hc, hck⟩ := (getConnsByKey_isSome_iff E active K).1 (by rw [h]; rfl)
        exact absurd hck (hnone c hc)
    unfold timeSyncCollides activeConnFor
    rw [hK]
    dsimp only
    rw [hf]
  intro K j i x y hx hK hy hyK hlast
  have hf := getConnsByKey_of_last E active K i y hy hyK hlast
  have hact : activeConnFor active (getConnsByKey E active) K = some y := by
    unfold activeConnFor
    rw [hf]
    exact hy
  constructor
  · unfold timeSyncCollides
    rw [hK]
    dsimp only
    rw [hact]
    simp
  · intro hep
    obtain ⟨lAddrs, tel₁, cl₁, cl', hc₁, hfilter, hfind, hst⟩ :=
      GetDelta_pending_closed E ns now id lt active dns http cl K j x hcl hidx hx hK
    rw [mergeClosedConn_collision E ns.maxClientStats active _ tel₁ cl₁ x y K hK hact hep]
      at hfilter hst
    obtain ⟨hcg₁, hcg₂⟩ := updateConnWithStats_congr
      { tel₁ with timeSyncCollisions := tel₁.timeSyncCollisions + 1 } ns.telemetry cl₁ cl K x hc₁
    rw [hcg₁] at hfilter
    obtain ⟨hsm, hlc⟩ := classifyIntraHost_counters E lAddrs
      (updateConnWithStats ns.telemetry cl K x).2.2
    refine ⟨_, cl', hfilter,
      sameMonotonic_trans hsm (updateConnWithStats_sameMonotonic _ _ _ _), hlc, hfind, ?_⟩
    rw [hst (by rw [hf]; rfl), hcg₂]

theorem GetDelta_equal_epochs_witness :
    (GetDelta sampleEnv sampleReopenState 1 "A" 200 [sampleConn 250 0 1 5] []
        []).1.telemetry.timeSyncCollisions =
      sampleReopenState.telemetry.timeSyncCollisions +
        ((sampleReopenClient.closedConnections.filter
          (timeSyncCollides sampleEnv [sampleConn 250 0 1 5])).length : Nat) ∧
    (sampleReopenClient.closedConnections.filter
      (timeSyncCollides sampleEnv [sampleConn 250 0 1 5])).length = 1 ∧
    (GetDelta sampleEnv sampleReopenState 1 "A" 200 [sampleConn 250 0 1 5] []
        []).2.Conns.map (fun r => (r.MonotonicSentBytes, r.LastSentBytes)) = [(100, 50)] :=
  ⟨(GetDelta_equal_epochs sampleEnv 1000 2 10 10 10 sampleReopenOps sampleReopenState
      (by decide) 1 "A" 200 [sampleConn 250 0 1 5] [] [] sampleReopenClient (by decide)).1,
    by decide, by decide⟩

/-! ## A delta of a client whose stats map is full -/

theorem createStatsForKey_full (maxClientStats : Int) (tel : telemetry) (cl : client)
    (key : String) (h : (cl.stats.length : Int) ≥ maxClientStats) :
    createStatsForKey maxClientStats tel cl key =
      ({ tel with connDropped := tel.connDropped + (if key ∉ cl.stats.keys then 1 else 0) },
        cl) := by
  unfold createStatsForKey
  cases hf : cl.stats.find? key with
  | some t =>
    have : ¬ key ∉ cl.stats.keys := fun hn => by
      rw [(GoMap.find?_eq_none_iff _ _).2 hn] at hf; cases hf
    simp [this]
  | none =>
    have : key ∉ cl.stats.keys := (GoMap.find?_eq_none_iff _ _).1 hf
    simp [this, h]

theorem updateConnWithStats_keys (tel : telemetry) (cl : client) (key : String)
    (c : ConnectionStats) :
    (updateConnWithStats tel cl key c).2.1.stats.keys = cl.stats.keys := by
  unfold updateConnWithStats
  split
  · rename_i st0 h
    exact GoMap.keys_insert_of_find?_some _ h
  · rfl

theorem updateConnWithStatWithActiveConn_keys (tel : telemetry) (cl : client) (key : String)
    (active closed : ConnectionStats) :
    (updateConnWithStatWithActiveConn tel cl key active closed).2.1.stats.keys =
      cl.stats.keys := by
  unfold updateConnWithStatWithActiveConn
  split
  · rename_i st0 h
    exact GoMap.keys_insert_of_find?_some _ h
  · rfl

theorem length_eq_of_keys_eq {m m' : GoMap String stats} (h : m'.keys = m.keys) :
    m'.length = m.length := by
  have := congrArg List.length h
  simpa [GoMap.keys] using this

/-- The closed loop on one record, for a client whose stats map is full: the keys
of the map stay and `connDropped` moves by one exactly for a reopened record
whose key has no entry. -/
theorem mergeClosedConn_full (E : Env) (maxClientStats : Int) (active : List ConnectionStats)
    (tel : telemetry) (cl : client) (x : ConnectionStats)
    (h : (cl.stats.length : Int) ≥ maxClientStats) :
    (mergeClosedConn E maxClientStats active (getConnsByKey E active) tel cl x).2.1.stats.keys =
        cl.stats.keys ∧
      (mergeClosedConn E maxClientStats active (getConnsByKey E active) tel cl x).1.connDropped =
        tel.connDropped + (if statsDropsClosed E cl.stats.keys active x = true then 1 else 0) := by
  unfold mergeClosedConn statsDropsClosed
  cases hk : ByteKey E x with
  | none => simp
  | some key =>
    dsimp only
    cases ha : activeConnFor active (getConnsByKey E active) key with
    | none =>
      dsimp only
      rw [updateConnWithStats_telemetry]
      exact ⟨updateConnWithStats_keys _ _ _ _, by simp⟩
    | some a =>
      dsimp only
      by_cases h₁ : x.LastUpdateEpoch > a.LastUpdateEpoch
      · rw [if_pos h₁, updateConnWithStats_telemetry]
        have : ¬ x.LastUpdateEpoch < a.LastUpdateEpoch := by omega
        exact ⟨updateConnWithStats_keys _ _ _ _, by simp [this]⟩
      · rw [if_neg h₁]
        by_cases h₂ : x.LastUpdateEpoch < a.LastUpdateEpoch
        · rw [if_pos h₂]
          dsimp only
          rw [createStatsForKey_full maxClientStats tel cl key h]
          dsimp only
          have hkeys := updateConnWithStatWithActiveConn_keys
            { tel with connDropped := tel.connDropped + (if key ∉ cl.stats.keys then 1 else 0) }
            cl key a (addConnections x a)
          constructor
          · split
            · rename_i st hst
              dsimp only
              rw [GoMap.keys_insert_of_find?_some _ hst]
              exact hkeys
            · exact hkeys
          · rw [updateConnWithStatWithActiveConn_telemetry]
            by_cases hin : key ∉ cl.stats.keys
            · simp [h₂, hin]
            · simp [h₂, hin]
        · rw [if_neg h₂, updateConnWithStats_telemetry]
          exact ⟨updateConnWithStats_keys _ _ _ _, by simp [h₂]⟩

theorem mergeClosedConns_full (E : Env) (maxClientStats : Int) (active : List ConnectionStats)
    (tel : telemetry) (cl : client) (closed : List ConnectionStats)
    (h : (cl.stats.length : Int) ≥ maxClientStats) :
    (mergeClosedConns E maxClientStats active (getConnsByKey E active) tel cl
        closed).2.1.stats.keys = cl.stats.keys ∧
      (mergeClosedConns E maxClientStats active (getConnsByKey E active) tel cl
        closed).1.connDropped =
        tel.connDropped +
          ((closed.filter (statsDropsClosed E cl.stats.keys active)).length : Nat) := by
  induction closed generalizing tel cl with
  | nil => simp [mergeClosedConns]
  | cons x rest ih =>
    simp only [mergeClosedConns]
    obtain ⟨hk, hd⟩ := mergeClosedConn_full E maxClientStats active tel cl x h
    have hfull : ((mergeClosedConn E maxClientStats active (getConnsByKey E active) tel cl
        x).2.1.stats.length : Int) ≥ maxClientStats := by
      rw [length_eq_of_keys_eq hk]; exact h
    obtain ⟨ik, idr⟩ := ih
      (mergeClosedConn E maxClientStats active (getConnsByKey E active) tel cl x).1
      (mergeClosedConn E maxClientStats active (getConnsByKey E active) tel cl x).2.1 hfull
    refine ⟨ik.trans hk, ?_⟩
    rw [idr, hd, hk, List.filter_cons]
    by_cases hp : statsDropsClosed E cl.stats.keys active x = true
    · simp only [hp, if_true, List.length_cons]
      push_cast
      omega
    · simp only [hp, if_false]
      simp

/-- The active loop on one entry, for a client whose stats map is full. -/
theorem mergeActiveConn_full (maxClientStats : Int)
    (s : telemetry × client × List ConnectionStats × List ConnectionStats) (e : String × Nat)
    (h : (s.2.1.stats.length : Int) ≥ maxClientStats)
    (hv : (s.2.2.1[e.2]?).isSome = true) :
    (mergeActiveConn maxClientStats s e).2.1.stats.keys = s.2.1.stats.keys ∧
      (mergeActiveConn maxClientStats s e).2.1.closedConnectionsKeys =
        s.2.1.closedConnectionsKeys ∧
      (mergeActiveConn maxClientStats s e).2.2.1.length = s.2.2.1.length ∧
      (mergeActiveConn maxClientStats s e).1.connDropped =
        s.1.connDropped +
          (if (decide ((s.2.1.closedConnectionsKeys.getD []).find? e.1 = none) &&
              decide (e.1 ∉ s.2.1.stats.keys)) = true then 1 else 0) := by
  obtain ⟨c, hc⟩ := Option.isSome_iff_exists.1 hv
  unfold mergeActiveConn
  cases hclosed : (s.2.1.closedConnectionsKeys.getD []).find? e.1 with
  | some j => simp
  | none =>
    dsimp only
    rw [hc]
    dsimp only
    rw [createStatsForKey_full maxClientStats s.1 s.2.1 e.1 h]
    dsimp only
    refine ⟨updateConnWithStats_keys _ _ _ _, (updateConnWithStats_sameClosed _ _ _ _).2.1,
      List.length_set _ _ _, ?_⟩
    rw [updateConnWithStats_telemetry]
    by_cases hin : e.1 ∉ s.2.1.stats.keys
    · simp [hin]
    · simp [hin]

theorem mergeActiveLoop_full (maxClientStats : Int) (L : GoMap String Nat)
    (s : telemetry × client × List ConnectionStats × List ConnectionStats)
    (h : (s.2.1.stats.length : Int) ≥ maxClientStats)
    (hv : ∀ e ∈ L, e.2 < s.2.2.1.length) :
    (L.foldl (mergeActiveConn maxClientStats) s).2.1.stats.keys = s.2.1.stats.keys ∧
      (L.foldl (mergeActiveConn maxClientStats) s).1.connDropped =
        s.1.connDropped +
          ((L.filter (fun e =>
            decide ((s.2.1.closedConnectionsKeys.getD []).find? e.1 = none) &&
              decide (e.1 ∉ s.2.1.stats.keys))).length : Nat) := by
  induction L generalizing s with
  | nil => simp
  | cons e L ih =>
    rw [List.foldl_cons]
    have hve : (s.2.2.1[e.2]?).isSome = true := by
      have := hv e (List.mem_cons_self _ _)
      rw [List.getElem?_eq_getElem this]
      rfl
    obtain ⟨hk, hck, hlen, hd⟩ := mergeActiveConn_full maxClientStats s e h hve
    have hfull : ((mergeActiveConn maxClientStats s e).2.1.stats.length : Int) ≥
        maxClientStats := by
      rw [length_eq_of_keys_eq hk]; exact h
    obtain ⟨ik, idr⟩ := ih (mergeActiveConn maxClientStats s e) hfull
      (fun e' he' => by rw [hlen]; exact hv e' (List.mem_cons_of_mem _ he'))
    refine ⟨ik.trans hk, ?_⟩
    rw [idr, hd, hk, hck, List.filter_cons]
    by_cases hp : (decide ((s.2.1.closedConnectionsKeys.getD []).find? e.1 = none) &&
        decide (e.1 ∉ s.2.1.stats.keys)) = true
    · simp only [hp, if_true, List.length_cons]
      push_cast
      omega
    · simp only [hp, if_false]
      simp

/-- The connection accounting of a delta of an existing client whose stats map
is full keeps the keys of the map and adds `connDroppedAtCap` to `connDropped`. -/
theorem mergeConnections_full (E : Env) (maxClientStats : Int) (now : Int) (tel : telemetry)
    (cl : client) (active buffer : List ConnectionStats)
    (h : (cl.stats.length : Int) ≥ maxClientStats) :
    (mergeConnections E maxClientStats now tel cl (getConnsByKey E active) active
        buffer).2.1.stats.keys = cl.stats.keys ∧
      (mergeConnections E maxClientStats now tel cl (getConnsByKey E active) active
        buffer).1.connDropped = tel.connDropped + (connDroppedAtCap E cl active : Nat) := by
  obtain ⟨hk, hd⟩ := mergeClosedConns_full E maxClientStats active tel
    { cl with lastFetch := now } cl.closedConnections h
  obtain ⟨g₁, _, _⟩ := mergeClosedConns_frame E maxClientStats active (getConnsByKey E active)
    tel { cl with lastFetch := now } cl.closedConnections
  obtain ⟨ak, ad⟩ := mergeActiveLoop_full maxClientStats (E.rangeOrder (getConnsByKey E active))
    ((mergeClosedConns E maxClientStats active (getConnsByKey E active) tel
        { cl with lastFetch := now } cl.closedConnections).1,
      { (mergeClosedConns E maxClientStats active (getConnsByKey E active) tel
          { cl with lastFetch := now } cl.closedConnections).2.1 with
        closedConnections :=
          (mergeClosedConns E maxClientStats active (getConnsByKey E active) tel
            { cl with lastFetch := now } cl.closedConnections).2.2 },
      active,
      buffer ++ (mergeClosedConns E maxClientStats active (getConnsByKey E active) tel
          { cl with lastFetch := now } cl.closedConnections).2.2)
    (by dsimp only; rw [length_eq_of_keys_eq hk]; exact h)
    (by
      intro e he
      obtain ⟨c, hc, _⟩ := (rangeOrder_spec E active).2.1 e he
      exact (List.getElem?_eq_some_iff.1 hc).1)
  unfold mergeConnections
  dsimp only at ak ad hk hd ⊢
  refine ⟨ak.trans hk, ?_⟩
  rw [ad, hd, hk, g₁.2.1]
  unfold connDroppedAtCap
  have hperm := ((E.rangeOrder_perm (getConnsByKey E active)).filter (fun e =>
    decide ((cl.closedConnectionsKeys.getD []).find? e.1 = none) &&
      decide (e.1 ∉ cl.stats.keys))).length_eq
  dsimp only
  rw [hperm]
  push_cast
  omega

theorem updateConnWithStats_none (tel : telemetry) (cl : client) (key : String)
    (c : ConnectionStats) (h : cl.stats.find? key = none) :
    (updateConnWithStats tel cl key c).2.2.lastCounters =
      [c.MonotonicSentBytes, c.MonotonicRecvBytes, c.MonotonicSentPackets,
        c.MonotonicRecvPackets, c.MonotonicRetransmits, c.MonotonicTCPEstablished,
        c.MonotonicTCPClosed] := by
  simp only [updateConnWithStats, h, ConnectionStats.lastCounters]

/-- C22. Stats cap on a new key, for a client that exists in a registry reachable
from `NewState` and holds at least `maxClientStats` stats entries. `GetDelta` adds
to `connDropped` the number of calls of `createStatsForKey` on a key without
entry (`connDroppedAtCap`): one for each entry of the key-to-connection map of
`active` that has no pending closed record and no stats entry, and one for each
reopened pending closed record without stats entry. An active record `c` (the
last of `active` with its key `K`) whose key has no stats entry and no pending
closed record is one of the entries counted, is returned with each of its seven
last counters equal to the monotonic counter, and no entry is stored for `K`. -/
theorem GetDelta_stats_full (E : Env)
    (clientExpiry maxClosedConns maxClientStats maxDNSStats maxHTTPStats : Int)
    (ops : List Op) (ns : networkState)
    (hrun : runOps E (NewState clientExpiry maxClosedConns maxClientStats maxDNSStats
      maxHTTPStats) ops = some ns)
    (now : Int) (id : String) (lt : Nat) (active : List ConnectionStats)
    (dns : StatsByKeyByNameByType) (http : GoMap String RequestStats) (cl : client)
    (hcl : ns.clients.find? id = some cl)
    (hfull : (cl.stats.length : Int) ≥ ns.maxClientStats) :
    (GetDelta E ns now id lt active dns http).1.telemetry.connDropped =
        ns.telemetry.connDropped + (connDroppedAtCap E cl active : Nat) ∧
    ∀ (K : String) (i : Nat) (c : ConnectionStats),
      active[i]? = some c → ByteKey E c = some K →
      (∀ (j : Nat) (c' : ConnectionStats), i < j → active[j]? = some c' →
        ByteKey E c' ≠ some K) →
      cl.stats.find? K = none →
      (∀ x ∈ cl.closedConnections, ByteKey E x ≠ some K) →
      (K, i) ∈ (getConnsByKey E active).filter (fun e =>
          decide ((cl.closedConnectionsKeys.getD []).find? e.1 = none) &&
            decide (e.1 ∉ cl.stats.keys)) ∧
      (∃ r ∈ (GetDelta E ns now id lt active dns http).2.Conns, sameMonotonic r c ∧
        r.lastCounters =
          [c.MonotonicSentBytes, c.MonotonicRecvBytes, c.MonotonicSentPackets,
            c.MonotonicRecvPackets, c.MonotonicRetransmits, c.MonotonicTCPEstablished,
            c.MonotonicTCPClosed]) ∧
      ∃ cl', (GetDelta E ns now id lt active dns http).1.clients.find? id = some cl' ∧
        cl'.stats.find? K = none := by
  obtain ⟨ns', hrun', hwf, _⟩ := runOps_wellFormed E ops _
    (NewState_wellFormed E clientExpiry maxClosedConns maxClientStats maxDNSStats maxHTTPStats)
  rw [hrun] at hrun'
  cases hrun'
  have hidx := hwf.2.1 (id, cl) (GoMap.mem_of_find? hcl)
  have hacc : deltaAccounting E ns now id active =
      mergeConnections E ns.maxClientStats now ns.telemetry cl (getConnsByKey E active)
        active [] := by
    unfold deltaAccounting
    rw [getClient_of_find? hcl]
    rfl
  obtain ⟨hkeys, hdrop⟩ := mergeConnections_full E ns.maxClientStats now ns.telemetry cl active
    [] hfull
  constructor
  · rw [(GetDelta_telemetry E ns now id lt active dns http).2.1, hacc]
    exact hdrop
  · intro K i c hc hK hlast hnone hnoclosed
    have hf := getConnsByKey_of_last E active K i c hc hK hlast
    have hpend : (cl.closedConnectionsKeys.getD []).find? K = none :=
      (client.indexed_pending_iff hidx K).2 hnoclosed
    have hnotin : K ∉ cl.stats.keys := (GoMap.find?_eq_none_iff _ _).1 hnone
    obtain ⟨tel', cl₀, cl', _, ⟨lAddrs, hmem⟩, hfind, hst⟩ :=
      GetDelta_existing_active E ns now id lt active dns http cl K i c hcl hf hc hpend
        hnoclosed
    obtain ⟨cl'', hfind', _, _, hstats⟩ := GetDelta_final_client E ns now id lt active dns http
    rw [hfind] at hfind'
    cases hfind'
    have hfinal : cl'.stats.find? K = none := by
      rw [hstats K, hf, hacc]
      simp only [Option.isSome_some, if_true]
      exact (GoMap.find?_eq_none_iff _ _).2 (by rw [hkeys]; exact hnotin)
    have hcl₀ : cl₀.stats.find? K = none := by
      rcases updateConnWithStats_totals tel' cl₀ K c with ⟨h, _⟩ | ⟨t, ht, _⟩
      · exact h
      · rw [hst, ht] at hfinal
        cases hfinal
    refine ⟨?_, ⟨_, hmem, ?_, ?_⟩, cl', hfind, hfinal⟩
    · rw [List.mem_filter]
      refine ⟨GoMap.mem_of_find? hf, ?_⟩
      simp [hpend, hnotin]
    · exact sameMonotonic_trans (classifyIntraHost_counters E lAddrs _).1
        (updateConnWithStats_sameMonotonic _ _ _ _)
    · rw [(classifyIntraHost_counters E lAddrs _).2]
      exact updateConnWithStats_none tel' cl₀ K c hcl₀

theorem GetDelta_stats_full_witness :
    (GetDelta sampleEnv sampleFullState 1 "A" 200
        [sampleConn 900 1100 7 2, { sampleConn 40 30 2 2 with DPort := 30 }] []
        []).1.telemetry.connDropped =
      sampleFullState.telemetry.connDropped +
        (connDroppedAtCap sampleEnv (sampleClient 500 700 5)
          [sampleConn 900 1100 7 2, { sampleConn 40 30 2 2 with DPort := 30 }] : Nat) ∧
    connDroppedAtCap sampleEnv (sampleClient 500 700 5)
      [sampleConn 900 1100 7 2, { sampleConn 40 30 2 2 with DPort := 30 }] = 1 ∧
    (GetDelta sampleEnv sampleFullState 1 "A" 200
        [sampleConn 900 1100 7 2, { sampleConn 40 30 2 2 with DPort := 30 }] []
        []).2.Conns.map (fun r => (r.DPort, r.lastCounters)) =
      [(20, [400, 400, 2, 0, 0, 0, 0]), (30, [40, 30, 2, 0, 0, 0, 0])] :=
  ⟨(GetDelta_stats_full sampleEnv 1000 2 1 10 10
      [Op.callGetDelta 0 "A" 100 [sampleConn 500 700 5 1] [] []] sampleFullState (by decide)
      1 "A" 200 [sampleConn 900 1100 7 2, { sampleConn 40 30 2 2 with DPort := 30 }] [] []
      (sampleClient 500 700 5) (by decide) (by decide)).1,
    by decide, by decide⟩

/-! ## Resets of the stored totals -/

theorem rangeOrder_pairwise (E : Env) (active : List ConnectionStats) :
    (E.rangeOrder (getConnsByKey E active)).Pairwise (fun a b => a.1 ≠ b.1 ∧ a.2 ≠ b.2) := by
  obtain ⟨hn, _, _, hinj⟩ := rangeOrder_spec E active
  refine List.Pairwise.imp_of_mem ?_ hn
  intro a b ha hb hne
  exact ⟨fun h => hne (hinj a ha b hb (Or.inl h)), fun h => hne (hinj a ha b hb (Or.inr h))⟩

/-- One entry of the active loop: `statsResets` moves by one exactly when the key
has no pending closed record and the record underflows the totals held for it. -/
theorem mergeActiveConn_resets (maxClientStats : Int)
    (s : telemetry × client × List ConnectionStats × List ConnectionStats) (e : String × Nat) :
    (mergeActiveConn maxClientStats s e).1.statsResets =
      s.1.statsResets + (if resetsActive s.2.1 s.2.2.1 e = true then 1 else 0) := by
  unfold mergeActiveConn resetsActive
  cases hclosed : (s.2.1.closedConnectionsKeys.getD []).find? e.1 with
  | some j => simp
  | none =>
    dsimp only
    cases hc : s.2.2.1[e.2]? with
    | none =>
      cases hf : s.2.1.stats.find? e.1 <;> simp
    | some c =>
      dsimp only
      rw [updateConnWithStats_telemetry, createStatsForKey_telemetry]
      dsimp only
      rcases createStatsForKey_find?_self maxClientStats s.1 s.2.1 e.1 with h | ⟨h₁, h₂⟩
      · rw [h]
        cases hf : s.2.1.stats.find? e.1 <;> simp
      · rw [h₂, h₁]
        simp [underflows, stats.zero]

/-- The active loop over entries with pairwise distinct keys and indices:
`statsResets` grows by the number of entries without pending closed record whose
record underflows the totals held for its key before the loop. -/
theorem mergeActiveLoop_resets (maxClientStats : Int) (L : GoMap String Nat)
    (hpair : L.Pairwise (fun a b => a.1 ≠ b.1 ∧ a.2 ≠ b.2))
    (cl : client) (active : List ConnectionStats)
    (s : telemetry × client × List ConnectionStats × List ConnectionStats)
    (hkeys : s.2.1.closedConnectionsKeys = cl.closedConnectionsKeys)
    (hs : ∀ e ∈ L, s.2.1.stats.find? e.1 = cl.stats.find? e.1 ∧ s.2.2.1[e.2]? = active[e.2]?) :
    (L.foldl (mergeActiveConn maxClientStats) s).1.statsResets =
      s.1.statsResets + ((L.filter (resetsActive cl active)).length : Nat) := by
  induction L generalizing s with
  | nil => simp
  | cons e L ih =>
    rw [List.foldl_cons]
    obtain ⟨hhead, htail⟩ := List.pairwise_cons.1 hpair
    have hstep := mergeActiveConn_resets maxClientStats s e
    have hpred : resetsActive s.2.1 s.2.2.1 e = resetsActive cl active e := by
      unfold resetsActive
      rw [hkeys, (hs e (List.mem_cons_self _ _)).1, (hs e (List.mem_cons_self _ _)).2]
    have hsc : (mergeActiveConn maxClientStats s e).2.1.closedConnectionsKeys =
        cl.closedConnectionsKeys := by
      rw [← hkeys]
      exact (mergeActiveConn_sameClosed maxClientStats s e).2.1
    rw [ih htail (mergeActiveConn maxClientStats s e) hsc
      (by
        intro e' he'
        obtain ⟨hk, hi⟩ := hhead e' he'
        obtain ⟨h₁, _, h₃, _⟩ := mergeActiveConn_other maxClientStats s e hk hi
        rw [h₁, h₃]
        exact hs e' (List.mem_cons_of_mem _ he')),
      hstep, hpred, List.filter_cons]
    by_cases hp : resetsActive cl active e = true
    · simp only [hp, if_true, List.length_cons]
      push_cast
      omega
    · simp only [hp, if_false]
      simp

/-- `statsResets` after a `GetDelta` of an existing, indexed client: what the
closed loop left, plus one for each entry of the key-to-connection map without
pending closed record whose record underflows the totals the client held for its
key. -/
theorem GetDelta_resets_existing (E : Env) (ns : networkState) (now : Int) (id : String)
    (lt : Nat) (active : List ConnectionStats) (dns : StatsByKeyByNameByType)
    (http : GoMap String RequestStats) (cl : client)
    (hcl : ns.clients.find? id = some cl) (hidx : cl.indexed E) :
    (GetDelta E ns now id lt active dns http).1.telemetry.statsResets =
      (mergeClosedConns E ns.maxClientStats active (getConnsByKey E active) ns.telemetry
          { cl with lastFetch := now } cl.closedConnections).1.statsResets +
        (((getConnsByKey E active).filter (resetsActive cl active)).length : Nat) := by
  rw [(GetDelta_telemetry E ns now id lt active dns http).2.2.1]
  have hacc : deltaAccounting E ns now id active =
      mergeConnections E ns.maxClientStats now ns.telemetry cl (getConnsByKey E active)
        active [] := by
    unfold deltaAccounting
    rw [getClient_of_find? hcl]
    rfl
  rw [hacc]
  obtain ⟨g₁, _, g₃⟩ := mergeClosedConns_frame E ns.maxClientStats active
    (getConnsByKey E active) ns.telemetry { cl with lastFetch := now } cl.closedConnections
  have hfilter : (E.rangeOrder (getConnsByKey E active)).filter (resetsActive cl active) =
      (E.rangeOrder (getConnsByKey E active)).filter (resetsActive
        { (mergeClosedConns E ns.maxClientStats active (getConnsByKey E active) ns.telemetry
            { cl with lastFetch := now } cl.closedConnections).2.1 with
          closedConnections :=
            (mergeClosedConns E ns.maxClientStats active (getConnsByKey E active) ns.telemetry
              { cl with lastFetch := now } cl.closedConnections).2.2 } active) := by
    apply List.filter_congr
    intro e _
    unfold resetsActive
    dsimp only
    rw [g₁.2.1]
    dsimp only
    cases hp : (cl.closedConnectionsKeys.getD []).find? e.1 with
    | some j => simp
    | none =>
      have hno := (client.indexed_pending_iff hidx e.1).1 hp
      rw [g₃ e.1 hno]
  have hloop := mergeActiveLoop_resets ns.maxClientStats (E.rangeOrder (getConnsByKey E active))
    (rangeOrder_pairwise E active)
    { (mergeClosedConns E ns.maxClientStats active (getConnsByKey E active) ns.telemetry
        { cl with lastFetch := now } cl.closedConnections).2.1 with
      closedConnections :=
        (mergeClosedConns E ns.maxClientStats active (getConnsByKey E active) ns.telemetry
          { cl with lastFetch := now } cl.closedConnections).2.2 } active
    ((mergeClosedConns E ns.maxClientStats active (getConnsByKey E active) ns.telemetry
        { cl with lastFetch := now } cl.closedConnections).1,
      { (mergeClosedConns E ns.maxClientStats active (getConnsByKey E active) ns.telemetry
          { cl with lastFetch := now } cl.closedConnections).2.1 with
        closedConnections :=
          (mergeClosedConns E ns.maxClientStats active (getConnsByKey E active) ns.telemetry
            { cl with lastFetch := now } cl.closedConnections).2.2 },
      active,
      [] ++ (mergeClosedConns E ns.maxClientStats active (getConnsByKey E active) ns.telemetry
          { cl with lastFetch := now } cl.closedConnections).2.2)
    rfl (fun e _ => ⟨rfl, rfl⟩)
  unfold mergeConnections
  dsimp only at hloop ⊢
  rw [hloop, ← hfilter, ((E.rangeOrder_perm (getConnsByKey E active)).filter _).length_eq]

theorem firstDeltaConn_resets (maxClientStats : Int)
    (s : telemetry × client × List ConnectionStats) (e : String × Nat)
    (h : s.2.1.stats.find? e.1 = none) :
    (firstDeltaConn maxClientStats s e).1.statsResets = s.1.statsResets := by
  unfold firstDeltaConn
  cases hc : s.2.2[e.2]? with
  | none => rfl
  | some c =>
    dsimp only
    rw [updateConnWithStats_telemetry, createStatsForKey_telemetry]
    dsimp only
    rcases createStatsForKey_find?_self maxClientStats s.1 s.2.1 e.1 with h₀ | ⟨h₁, h₂⟩
    · rw [h₀, h]
      simp
    · rw [h₂]
      simp [underflows, stats.zero]

theorem firstDeltaLoop_resets (maxClientStats : Int) (L : GoMap String Nat)
    (hpair : L.Pairwise (fun a b => a.1 ≠ b.1 ∧ a.2 ≠ b.2))
    (s : telemetry × client × List ConnectionStats)
    (hs : ∀ e ∈ L, s.2.1.stats.find? e.1 = none) :
    (L.foldl (firstDeltaConn maxClientStats) s).1.statsResets = s.1.statsResets := by
  induction L generalizing s with
  | nil => rfl
  | cons e L ih =>
    rw [List.foldl_cons]
    obtain ⟨hhead, htail⟩ := List.pairwise_cons.1 hpair
    rw [ih htail (firstDeltaConn maxClientStats s e)
      (by
        intro e' he'
        obtain ⟨hk, hi⟩ := hhead e' he'
        rw [(firstDeltaConn_other maxClientStats s e hk hi).1]
        exact hs e' (List.mem_cons_of_mem _ he')),
      firstDeltaConn_resets maxClientStats s e (hs e (List.mem_cons_self _ _))]

/-- `statsResets` does not move in the first `GetDelta` of a client. -/
theorem GetDelta_resets_new (E : Env) (ns : networkState) (now : Int) (id : String)
    (lt : Nat) (active : List ConnectionStats) (dns : StatsByKeyByNameByType)
    (http : GoMap String RequestStats) (hcl : ns.clients.find? id = none) :
    (GetDelta E ns now id lt active dns http).1.telemetry.statsResets =
      ns.telemetry.statsResets := by
  rw [(GetDelta_telemetry E ns now id lt active dns http).2.2.1]
  unfold deltaAccounting deltaConns
  rw [getClient_of_find?_none hcl]
  simp only [if_true]
  exact firstDeltaLoop_resets ns.maxClientStats _ (rangeOrder_pairwise E active) _
    (fun e _ => rfl)

/-- After a `GetDelta` in which the key `K` is active, with last record `c`, and
has no pending closed record, the totals the calling client holds for `K`, if
any, are the monotonic counters of `c`. -/
theorem GetDelta_active_totals (E : Env) (ns : networkState) (now : Int) (id : String)
    (lt : Nat) (active : List ConnectionStats) (dns : StatsByKeyByNameByType)
    (http : GoMap String RequestStats) (K : String) (i : Nat) (c : ConnectionStats)
    (hw : ns.wellFormed E)
    (hc : active[i]? = some c) (hK : ByteKey E c = some K)
    (hlast : ∀ (j : Nat) (c' : ConnectionStats), i < j → active[j]? = some c' →
      ByteKey E c' ≠ some K)
    (hnoclosed : ∀ cl, ns.clients.find? id = some cl →
      ∀ x ∈ cl.closedConnections, ByteKey E x ≠ some K)
    (cl' : client) (t : stats)
    (hfind : (GetDelta E ns now id lt active dns http).1.clients.find? id = some cl')
    (ht : cl'.stats.find? K = some t) : totalsMatch t c := by
  have hf := getConnsByKey_of_last E active K i c hc hK hlast
  cases hcl : ns.clients.find? id with
  | some cl =>
    have hidx := hw.2.1 (id, cl) (GoMap.mem_of_find? hcl)
    obtain ⟨tel', cl₀, cl₁, _, _, hfind₁, hst⟩ :=
      GetDelta_existing_active E ns now id lt active dns http cl K i c hcl hf hc
        ((client.indexed_pending_iff hidx K).2 (hnoclosed cl hcl)) (hnoclosed cl hcl)
    rw [hfind] at hfind₁
    cases hfind₁
    rcases updateConnWithStats_totals tel' cl₀ K c with h | ⟨t₁, h, hm⟩
    · rw [hst, h.2] at ht; cases ht
    · rw [hst, h] at ht
      cases ht
      exact hm
  | none =>
    obtain ⟨tel', cl₀, cl₁, hfind₁, hst⟩ :=
      GetDelta_new_active E ns now id lt active dns http K i c hcl hf hc
    rw [hfind] at hfind₁
    cases hfind₁
    rcases updateConnWithStats_totals tel' cl₀ K c with h | ⟨t₁, h, hm⟩
    · rw [hst, h.2] at ht; cases ht
    · rw [hst, h] at ht
      cases ht
      exact hm

theorem find?_map_values {κ ν : Type} [DecidableEq κ] (m : GoMap κ ν) (f : ν → ν) (k : κ) :
    GoMap.find? (m.map (fun p => (p.1, f p.2))) k = (m.find? k).map f := by
  induction m with
  | nil => rfl
  | cons e t ih =>
    obtain ⟨k', v⟩ := e
    by_cases hk : k' = k
    · simp [GoMap.find?, hk]
    · simp only [List.map_cons, GoMap.find?, if_neg hk]
      exact ih

/-- A call that is not a `GetDelta` of the client `id` leaves the stats the
client holds for a key as they are, or removes them. -/
theorem Op.run_other_stats (E : Env) (ns : networkState) (op : Op) (ns' : networkState)
    (id K : String) (hw : ns.wellFormed E) (hop : op.isPollOf id = false)
    (hrun : op.run E ns = some ns') (cl' : client) (t : stats)
    (hfind : ns'.clients.find? id = some cl') (ht : cl'.stats.find? K = some t) :
    ∃ cl, ns.clients.find? id = some cl ∧ cl.stats.find? K = some t := by
  cases op with
  | callGetDelta now id' lt active dns http =>
    simp only [Op.run, Option.some.injEq] at hrun
    subst hrun
    have hne : id' ≠ id := by simpa [Op.isPollOf] using hop
    rcases (GetDelta_clients E ns now id' lt active dns http hw.1).2 (id, cl')
        (GoMap.mem_of_find? hfind) with ⟨h, _⟩ | ⟨_, c₀, hc₀, hs⟩
    · exact absurd h.symm hne
    · refine ⟨c₀, GoMap.find?_of_mem_nodup hw.1 hc₀, ?_⟩
      rw [hs.2.2.2.2]
      exact ht
  | callStoreClosedConnections closed =>
    obtain ⟨r, hr, hall⟩ :=
      storeClosedConnsClients_indexed E ns.maxClosedConns closed ns.telemetry ns.clients hw.2.1
    simp only [Op.run, StoreClosedConnections, storeClosedConnections, hr,
      Option.some.injEq] at hrun
    subst hrun
    obtain ⟨p, hp, hs⟩ := closedStored_mem hall (GoMap.mem_of_find? hfind)
    have hp' : (id, p.2) ∈ ns.clients := by
      have : p = (id, p.2) := Prod.ext hs.1 rfl
      rw [← this]; exact hp
    refine ⟨p.2, GoMap.find?_of_mem_nodup hw.1 hp', ?_⟩
    rw [← hs.2.2.2.2.1]
    exact ht
  | callRemoveConnections keys =>
    simp only [Op.run, Option.some.injEq] at hrun
    subst hrun
    have hm : (RemoveConnections ns keys).clients.find? id =
        (ns.clients.find? id).map (fun c =>
          { c with stats := keys.foldl (fun m key => GoMap.erase m key) c.stats }) :=
      find?_map_values ns.clients (fun c =>
          { c with stats := keys.foldl (fun m key => GoMap.erase m key) c.stats }) id
    rw [hm] at hfind
    cases hcl : ns.clients.find? id with
    | none => rw [hcl] at hfind; cases hfind
    | some cl =>
      rw [hcl] at hfind
      simp only [Option.map_some', Option.some.injEq] at hfind
      subst hfind
      refine ⟨cl, rfl, ?_⟩
      dsimp only at ht
      rw [find?_foldl_erase] at ht
      by_cases hin : K ∈ keys
      · rw [if_pos hin] at ht; cases ht
      · rw [if_neg hin] at ht; exact ht
  | callRemoveClient clientID =>
    simp only [Op.run, Option.some.injEq] at hrun
    subst hrun
    exact ⟨cl', GoMap.find?_of_mem_nodup hw.1
      (List.mem_of_mem_filter (GoMap.mem_of_find? hfind)), ht⟩
  | callRemoveExpiredClients now =>
    simp only [Op.run, Option.some.injEq] at hrun
    subst hrun
    exact ⟨cl', GoMap.find?_of_mem_nodup hw.1
      (List.mem_of_mem_filter (GoMap.mem_of_find? hfind)), ht⟩

/-- A sequence of calls without a `GetDelta` of the client `id` leaves the stats
the client holds for a key as they are, or removes them. -/
theorem runOps_other_stats (E : Env) (mid : List Op) (ns ns' : networkState) (id K : String)
    (hw : ns.wellFormed E) (hmid : ∀ op ∈ mid, op.isPollOf id = false)
    (hrun : runOps E ns mid = some ns') (cl' : client) (t : stats)
    (hfind : ns'.clients.find? id = some cl') (ht : cl'.stats.find? K = some t) :
    ∃ cl, ns.clients.find? id = some cl ∧ cl.stats.find? K = some t := by
  induction mid generalizing ns with
  | nil =>
    simp only [runOps, Option.some.injEq] at hrun
    subst hrun
    exact ⟨cl', hfind, ht⟩
  | cons op ops ih =>
    obtain ⟨ns₁, h₁, hw₁, _⟩ := Op.run_wellFormed E ns op hw
    simp only [runOps, h₁] at hrun
    obtain ⟨cl₁, hf₁, ht₁⟩ := ih ns₁ hw₁ (fun o ho => hmid o (List.mem_cons_of_mem _ ho)) hrun
    exact Op.run_other_stats E ns op ns₁ id K hw (hmid op (List.mem_cons_self _ _)) h₁ cl₁ t
      hf₁ ht₁

/-- C24 (counterexample). Client `"A"` passes the sample flow as active with
non-decreasing counters (500, then 600 sent bytes) and `statsResets` goes from 0
to 1 in the second poll, because a closed record of the flow with 100 sent bytes
is pending at that poll. With a pending closed record of 800 sent bytes instead,
the second poll (600 sent bytes) leaves `statsResets` at 0 and stores the totals
of the closed record, and a third poll with the same 600 sent bytes, at which
nothing is pending, takes it to 1. -/
theorem monotone_active_resets_with_pending_closed :
    sampleMonotoneResets = some ((0, 1), (0, 0, 1)) := by
  decide

/-- C24 (as amended). In every registry reachable from `NewState`: let client
`id` poll with the key `K` active (last record `c₁`), let any calls other than
a `GetDelta` of `id` follow, and let `id` poll again with `K` active (last record
`c₂`), where `c₂` has at least the sent bytes, received bytes and retransmits of
`c₁` and the client holds no pending closed record with key `K` at either poll.
Then in the second poll the totals the client holds for `K`, if any, are not
underflowed by `c₂`, and `statsResets` ends at what the loop over the pending
closed records with a key other than `K` leaves plus one for each resetting
entry of the key-to-connection map with a key other than `K`; if the client was
removed in between, `statsResets` does not move at all. -/
theorem GetDelta_monotone_no_reset (E : Env)
    (clientExpiry maxClosedConns maxClientStats maxDNSStats maxHTTPStats : Int)
    (ops₀ mid : List Op) (ns₀ ns₂ : networkState) (id K : String)
    (now₁ now₂ : Int) (lt₁ lt₂ : Nat) (active₁ active₂ : List ConnectionStats)
    (dns₁ dns₂ : StatsByKeyByNameByType) (http₁ http₂ : GoMap String RequestStats)
    (i₁ i₂ : Nat) (c₁ c₂ : ConnectionStats)
    (hrun₀ : runOps E (NewState clientExpiry maxClosedConns maxClientStats maxDNSStats
      maxHTTPStats) ops₀ = some ns₀)
    (hc₁ : active₁[i₁]? = some c₁) (hK₁ : ByteKey E c₁ = some K)
    (hlast₁ : ∀ (j : Nat) (c' : ConnectionStats), i₁ < j → active₁[j]? = some c' →
      ByteKey E c' ≠ some K)
    (hclosed₁ : ∀ cl, ns₀.clients.find? id = some cl →
      ∀ x ∈ cl.closedConnections, ByteKey E x ≠ some K)
    (hmid : ∀ op ∈ mid, op.isPollOf id = false)
    (hrun₂ : runOps E (GetDelta E ns₀ now₁ id lt₁ active₁ dns₁ http₁).1 mid = some ns₂)
    (hc₂ : active₂[i₂]? = some c₂) (hK₂ : ByteKey E c₂ = some K)
    (hlast₂ : ∀ (j : Nat) (c' : ConnectionStats), i₂ < j → active₂[j]? = some c' →
      ByteKey E c' ≠ some K)
    (hclosed₂ : ∀ cl, ns₂.clients.find? id = some cl →
      ∀ x ∈ cl.closedConnections, ByteKey E x ≠ some K)
    (hsent : c₁.MonotonicSentBytes ≤ c₂.MonotonicSentBytes)
    (hrecv : c₁.MonotonicRecvBytes ≤ c₂.MonotonicRecvBytes)
    (hretr : c₁.MonotonicRetransmits ≤ c₂.MonotonicRetransmits) :
    (∀ cl₂, ns₂.clients.find? id = some cl₂ →
      (∀ t, cl₂.stats.find? K = some t → underflows t c₂ = false) ∧
      (GetDelta E ns₂ now₂ id lt₂ active₂ dns₂ http₂).1.telemetry.statsResets =
        (mergeClosedConns E ns₂.maxClientStats active₂ (getConnsByKey E active₂) ns₂.telemetry
            { cl₂ with lastFetch := now₂ }
            (cl₂.closedConnections.filter (fun x =>
              decide (ByteKey E x ≠ some K)))).1.statsResets +
          (((getConnsByKey E active₂).filter (fun e =>
            decide (e.1 ≠ K) && resetsActive cl₂ active₂ e)).length : Nat)) ∧
    (ns₂.clients.find? id = none →
      (GetDelta E ns₂ now₂ id lt₂ active₂ dns₂ http₂).1.telemetry.statsResets =
        ns₂.telemetry.statsResets) := by
  obtain ⟨ns₀', hrun₀', hw₀, _⟩ := runOps_wellFormed E ops₀ _
    (NewState_wellFormed E clientExpiry maxClosedConns maxClientStats maxDNSStats maxHTTPStats)
  rw [hrun₀] at hrun₀'
  cases hrun₀'
  have hw₁ := GetDelta_wellFormed E ns₀ now₁ id lt₁ active₁ dns₁ http₁ hw₀
  obtain ⟨ns₂', hrun₂', hw₂, _⟩ := runOps_wellFormed E mid _ hw₁
  rw [hrun₂] at hrun₂'
  cases hrun₂'
  refine ⟨?_, fun hnone => GetDelta_resets_new E ns₂ now₂ id lt₂ active₂ dns₂ http₂ hnone⟩
  intro cl₂ hcl₂
  have hunder : ∀ t, cl₂.stats.find? K = some t → underflows t c₂ = false := by
    intro t ht
    obtain ⟨cl₁, hf₁, ht₁⟩ := runOps_other_stats E mid _ ns₂ id K hw₁ hmid hrun₂ cl₂ t hcl₂ ht
    have hm := GetDelta_active_totals E ns₀ now₁ id lt₁ active₁ dns₁ http₁ K i₁ c₁ hw₀ hc₁ hK₁
      hlast₁ hclosed₁ cl₁ t hf₁ ht₁
    unfold underflows
    rw [hm.1, hm.2.1, hm.2.2.2.2.1]
    simp only [decide_eq_false_iff_not, not_or, not_lt]
    exact ⟨hsent, hrecv, hretr⟩
  refine ⟨hunder, ?_⟩
  rw [GetDelta_resets_existing E ns₂ now₂ id lt₂ active₂ dns₂ http₂ cl₂ hcl₂
    (hw₂.2.1 (id, cl₂) (GoMap.mem_of_find? hcl₂)),
    List.filter_eq_self.2 (fun x hx => decide_eq_true (hclosed₂ cl₂ hcl₂ x hx))]
  congr 2
  apply congrArg
  apply List.filter_congr
  intro e he
  by_cases hk : e.1 = K
  · have hf := getConnsByKey_of_last E active₂ K i₂ c₂ hc₂ hK₂ hlast₂
    have he' : (getConnsByKey E active₂).find? e.1 = some e.2 :=
      GoMap.find?_of_mem_nodup (getConnsByKey_spec E active₂).1 he
    rw [hk, hf] at he'
    have hi : e.2 = i₂ := (Option.some.inj he').symm
    have hfalse : resetsActive cl₂ active₂ e = false := by
      unfold resetsActive
      rw [hk, hi, hc₂]
      cases hst : cl₂.stats.find? K with
      | none => simp
      | some t => simp [hunder t hst]
    simp [hk, hfalse]
  · simp [hk]

theorem GetDelta_monotone_no_reset_witness :
    (∀ t, ({ sampleClient 600 700 5 with lastFetch := 1 } : client).stats.find? sampleConnKey =
      some t → underflows t (sampleConn 900 700 5 3) = false) ∧
    (GetDelta sampleEnv
        (GetDelta sampleEnv (GetDelta sampleEnv sampleReached 1 "A" 200
          [sampleConn 600 700 5 2] [] []).1 2 "B" 250 [] [] []).1
        3 "A" 300 [sampleConn 900 700 5 3] [] []).1.telemetry.statsResets = 0 :=
  ⟨(((GetDelta_monotone_no_reset sampleEnv 1000 2 10 10 10 sampleOps
      [Op.callGetDelta 2 "B" 250 [] [] []] sampleReached
      (GetDelta sampleEnv (GetDelta sampleEnv sampleReached 1 "A" 200
        [sampleConn 600 700 5 2] [] []).1 2 "B" 250 [] [] []).1
      "A" sampleConnKey 1 3 200 300 [sampleConn 600 700 5 2] [sampleConn 900 700 5 3]
      [] [] [] [] 0 0 (sampleConn 600 700 5 2) (sampleConn 900 700 5 3)
      (by decide) rfl (by decide)
      (by
        intro j c' hj h
        have hnone : [sampleConn 600 700 5 2][j]? = none :=
          List.getElem?_eq_none (by simpa using hj)
        rw [hnone] at h
        cases h)
      (by
        intro cl hcl x hx
        have h : sampleReached.clients.find? "A" = some samplePending := by decide
        rw [h] at hcl
        cases hcl
        revert x
        decide)
      (by decide) rfl rfl (by decide)
      (by
        intro j c' hj h
        have hnone : [sampleConn 900 700 5 3][j]? = none :=
          List.getElem?_eq_none (by simpa using hj)
        rw [hnone] at h
        cases h)
      (by
        intro cl hcl x hx
        have h : (GetDelta sampleEnv (GetDelta sampleEnv sampleReached 1 "A" 200
            [sampleConn 600 700 5 2] [] []).1 2 "B" 250 [] [] []).1.clients.find? "A" =
            some { sampleClient 600 700 5 with lastFetch := 1 } := by decide
        rw [h] at hcl
        cases hcl
        cases hx)
      (by decide) (by decide) (by decide)).1
      { sampleClient 600 700 5 with lastFetch := 1 } (by decide)).1),
    by decide⟩

/-! ## Delivery of the HTTP stats -/

theorem storeHTTPStatsEntry_http (E : Env) (maxHTTPStats : Int) (key : String)
    (stats : RequestStats) (tel : telemetry) (m : GoMap String client) :
    ∀ q ∈ (storeHTTPStatsEntry E maxHTTPStats key stats tel m).2, ∃ p ∈ m, p.1 = q.1 ∧
      q.2.httpStatsDelta = httpStoreReference E maxHTTPStats p.2.httpStatsDelta (key, stats) := by
  induction m generalizing tel with
  | nil => intro q hq; simp [storeHTTPStatsEntry] at hq
  | cons e t ih =>
    obtain ⟨id, cl⟩ := e
    intro q hq
    simp only [storeHTTPStatsEntry, List.mem_cons] at hq
    rcases hq with hq | hq
    · subst hq
      refine ⟨(id, cl), List.mem_cons_self _ _, rfl, ?_⟩
      unfold httpStoreReference
      dsimp only
      cases hf : cl.httpStatsDelta.find? key with
      | none =>
        dsimp only
        split <;> rfl
      | some prev => rfl
    · obtain ⟨p, hp, h⟩ := ih _ q hq
      exact ⟨p, List.mem_cons_of_mem _ hp, h⟩

theorem storeHTTPStats_http (E : Env) (ns : networkState) (allStats : GoMap String RequestStats) :
    ∀ q ∈ (storeHTTPStats E ns allStats).clients, ∃ p ∈ ns.clients, p.1 = q.1 ∧
      q.2.httpStatsDelta =
        allStats.foldl (httpStoreReference E ns.maxHTTPStats) p.2.httpStatsDelta := by
  unfold storeHTTPStats
  dsimp only
  generalize ns.telemetry = tel
  generalize ns.clients = m
  induction allStats generalizing tel m with
  | nil => intro q hq; exact ⟨q, hq, rfl, rfl⟩
  | cons e t ih =>
    intro q hq
    simp only [List.foldl_cons] at hq
    obtain ⟨p₁, hp₁, h₁, h₂⟩ := ih _ _ q hq
    obtain ⟨p, hp, g₁, g₂⟩ := storeHTTPStatsEntry_http E _ e.1 e.2 tel m p₁ hp₁
    refine ⟨p, hp, g₁.trans h₁, ?_⟩
    rw [h₂, g₂]
    rfl

/-- What the DNS and HTTP fan-in of `GetDelta` does to the pending HTTP stats of
a client: the input is stored into them entry by entry. -/
theorem deltaFanIn_http (E : Env) (ns : networkState) (dns : StatsByKeyByNameByType)
    (http : GoMap String RequestStats) :
    ∀ q ∈ (deltaFanIn E ns dns http).clients, ∃ p ∈ ns.clients, p.1 = q.1 ∧
      q.2.httpStatsDelta =
        http.foldl (httpStoreReference E ns.maxHTTPStats) p.2.httpStatsDelta := by
  have h12 : ∀ q ∈ (if dns.length > 0 then storeDNSStats ns dns else ns).clients,
      ∃ p ∈ ns.clients, p.1 = q.1 ∧ q.2.httpStatsDelta = p.2.httpStatsDelta := by
    split
    · intro q hq
      obtain ⟨p, hp, h₁, h₂, _⟩ := storeDNSStats_mem ns dns q hq
      exact ⟨p, hp, h₁, h₂⟩
    · intro q hq; exact ⟨q, hq, rfl, rfl⟩
  have hcfg : (if dns.length > 0 then storeDNSStats ns dns else ns).config = ns.config := by
    split
    · exact storeDNSStats_config _ _
    · rfl
  unfold deltaFanIn
  split
  · intro q hq
    obtain ⟨p₁, hp₁, h₁, h₂⟩ := storeHTTPStats_http E _ http q hq
    obtain ⟨p, hp, g₁, g₂⟩ := h12 p₁ hp₁
    rw [config_maxHTTPStats hcfg, g₂] at h₂
    exact ⟨p, hp, g₁.trans h₁, h₂⟩
  · rename_i hlen
    have hnil : http = [] := by
      cases http with
      | nil => rfl
      | cons a t => simp at hlen
    intro q hq
    obtain ⟨p, hp, g₁, g₂⟩ := h12 q hq
    subst hnil
    exact ⟨p, hp, g₁, g₂⟩

theorem deltaRegistry_nodup (E : Env) (ns : networkState) (now : Int) (id : String) (lt : Nat)
    (active : List ConnectionStats) (hn : ns.clients.keys.Nodup) :
    (deltaRegistry E ns now id lt active).clients.keys.Nodup := by
  unfold deltaRegistry
  apply GoMap.nodup_keys_insert
  unfold getClient
  dsimp only
  split
  · exact hn
  · exact GoMap.nodup_keys_insert _ _ hn

/-- The HTTP map `GetDelta` returns: the input stored, entry by entry, into the
HTTP stats pending for the caller (none for a caller that was not registered). -/
theorem GetDelta_HTTP (E : Env) (ns : networkState) (now : Int) (id : String) (lt : Nat)
    (active : List ConnectionStats) (dns : StatsByKeyByNameByType)
    (http : GoMap String RequestStats) (hn : ns.clients.keys.Nodup) :
    (GetDelta E ns now id lt active dns http).2.HTTP =
      http.foldl (httpStoreReference E ns.maxHTTPStats)
        (match ns.clients.find? id with
          | some cl => cl.httpStatsDelta
          | none => []) := by
  rw [GetDelta_eq]
  have hcfg := deltaRegistry_config E ns now id lt active
  have hsame := deltaFanIn_same E (deltaRegistry E ns now id lt active) dns http
  have hf1 : (deltaRegistry E ns now id lt active).clients.find? id =
      some (deltaAccounting E ns now id active).2.1 := GoMap.find?_insert_self _ _ _
  have hn₁ := deltaRegistry_nodup E ns now id lt active hn
  rcases sameClients_find? hsame.1 id with ⟨h, _⟩ | ⟨c, c₂, hc, hc₂, _⟩
  · rw [hf1] at h; cases h
  · unfold deltaFinish
    rw [hc₂]
    dsimp only
    obtain ⟨p, hp, h₁, h₂⟩ := deltaFanIn_http E _ dns http _ (GoMap.mem_of_find? hc₂)
    have hp' : (id, p.2) ∈ (deltaRegistry E ns now id lt active).clients := by
      have : p = (id, p.2) := Prod.ext h₁ rfl
      rw [← this]; exact hp
    have hpf := GoMap.find?_of_mem_nodup hn₁ hp'
    rw [hf1] at hpf
    rw [h₂, config_maxHTTPStats hcfg, ← Option.some.inj hpf]
    unfold deltaAccounting
    rw [(deltaConns_fanIn_fields E _ now _ _ _ _ _ _).2]
    unfold getClient
    cases ns.clients.find? id <;> rfl

/-- What a `GetDelta` of another client does to the pending HTTP stats of a
client: the input is stored into them entry by entry. -/
theorem GetDelta_other_http (E : Env) (ns : networkState) (now : Int) (id : String) (lt : Nat)
    (active : List ConnectionStats) (dns : StatsByKeyByNameByType)
    (http : GoMap String RequestStats) (hn : ns.clients.keys.Nodup) (id' : String)
    (hne : id' ≠ id) (q : client)
    (hq : (GetDelta E ns now id lt active dns http).1.clients.find? id' = some q) :
    ∃ p, ns.clients.find? id' = some p ∧
      q.httpStatsDelta = http.foldl (httpStoreReference E ns.maxHTTPStats) p.httpStatsDelta := by
  have he := GoMap.mem_of_find? hq
  rw [GetDelta_eq] at he
  have hcfg := deltaRegistry_config E ns now id lt active
  have hfan : (id', q) ∈
      (deltaFanIn E (deltaRegistry E ns now id lt active) dns http).clients := by
    unfold deltaFinish at he
    split at he
    · rcases GoMap.mem_insert he with h | h
      · exact absurd (congrArg Prod.fst h) hne
      · exact h
    · exact he
  obtain ⟨p, hp, h₁, h₂⟩ := deltaFanIn_http E _ dns http _ hfan
  rw [config_maxHTTPStats hcfg] at h₂
  have hp₁ : p.1 = id' := h₁
  have hpne : p.1 ≠ id := hp₁ ▸ hne
  have hpmem : p ∈ ns.clients := by
    rcases deltaRegistry_mem E ns now id lt active hp with h | h | h
    · exact absurd (congrArg Prod.fst h) hpne
    · exact absurd h.1 hpne
    · exact h
  have hp' : (id', p.2) ∈ ns.clients := by
    have : p = (id', p.2) := Prod.ext hp₁ rfl
    rw [← this]; exact hpmem
  exact ⟨p.2, GoMap.find?_of_mem_nodup hn hp', h₂⟩

/-- A call that is not a `GetDelta` of the client `id` stores the HTTP entries
it passes into the pending HTTP stats of the client, and does nothing else to
them. -/
theorem Op.run_other_http (E : Env) (ns : networkState) (op : Op) (ns' : networkState)
    (id : String) (hw : ns.wellFormed E) (hop : op.isPollOf id = false)
    (hrun : op.run E ns = some ns') (cl' : client)
    (hfind : ns'.clients.find? id = some cl') :
    ∃ cl, ns.clients.find? id = some cl ∧
      cl'.httpStatsDelta =
        op.httpInput.foldl (httpStoreReference E ns.maxHTTPStats) cl.httpStatsDelta := by
  cases op with
  | callGetDelta now id' lt active dns http =>
    simp only [Op.run, Option.some.injEq] at hrun
    subst hrun
    have hne : id ≠ id' := by
      intro h
      simp [Op.isPollOf, h] at hop
    exact GetDelta_other_http E ns now id' lt active dns http hw.1 id hne cl' hfind
  | callStoreClosedConnections closed =>
    obtain ⟨r, hr, hall⟩ :=
      storeClosedConnsClients_indexed E ns.maxClosedConns closed ns.telemetry ns.clients hw.2.1
    simp only [Op.run, StoreClosedConnections, storeClosedConnections, hr,
      Option.some.injEq] at hrun
    subst hrun
    obtain ⟨p, hp, hs⟩ := closedStored_mem hall (GoMap.mem_of_find? hfind)
    have hp' : (id, p.2) ∈ ns.clients := by
      have : p = (id, p.2) := Prod.ext hs.1 rfl
      rw [← this]; exact hp
    exact ⟨p.2, GoMap.find?_of_mem_nodup hw.1 hp', hs.2.2.2.2.2.2⟩
  | callRemoveConnections keys =>
    simp only [Op.run, Option.some.injEq] at hrun
    subst hrun
    have hm : (RemoveConnections ns keys).clients.find? id =
        (ns.clients.find? id).map (fun c =>
          { c with stats := keys.foldl (fun m key => GoMap.erase m key) c.stats }) :=
      find?_map_values ns.clients (fun c =>
          { c with stats := keys.foldl (fun m key => GoMap.erase m key) c.stats }) id
    rw [hm] at hfind
    cases hcl : ns.clients.find? id with
    | none => rw [hcl] at hfind; cases hfind
    | some cl =>
      rw [hcl] at hfind
      simp only [Option.map_some', Option.some.injEq] at hfind
      subst hfind
      exact ⟨cl, rfl, rfl⟩
  | callRemoveClient clientID =>
    simp only [Op.run, Option.some.injEq] at hrun
    subst hrun
    exact ⟨cl', GoMap.find?_of_mem_nodup hw.1
      (List.mem_of_mem_filter (GoMap.mem_of_find? hfind)), rfl⟩
  | callRemoveExpiredClients now =>
    simp only [Op.run, Option.some.injEq] at hrun
    subst hrun
    exact ⟨cl', GoMap.find?_of_mem_nodup hw.1
      (List.mem_of_mem_filter (GoMap.mem_of_find? hfind)), rfl⟩

/-- A sequence of calls without a `GetDelta` of the client `id`, after which the
client is registered: the client was registered before, and its pending HTTP
stats are the ones it held with the HTTP entries the calls passed stored into
them one after the other. -/
theorem runOps_other_http (E : Env) (mid : List Op) (ns ns' : networkState) (id : String)
    (hw : ns.wellFormed E) (hmid : ∀ op ∈ mid, op.isPollOf id = false)
    (hrun : runOps E ns mid = some ns') (cl' : client)
    (hfind : ns'.clients.find? id = some cl') :
    ∃ cl, ns.clients.find? id = some cl ∧
      cl'.httpStatsDelta =
        (httpPassed mid).foldl (httpStoreReference E ns.maxHTTPStats) cl.httpStatsDelta := by
  induction mid generalizing ns with
  | nil =>
    simp only [runOps, Option.some.injEq] at hrun
    subst hrun
    exact ⟨cl', hfind, rfl⟩
  | cons op ops ih =>
    obtain ⟨ns₁, h₁, hw₁, hc₁⟩ := Op.run_wellFormed E ns op hw
    simp only [runOps, h₁] at hrun
    obtain ⟨cl₁, hf₁, ht₁⟩ := ih ns₁ hw₁ (fun o ho => hmid o (List.mem_cons_of_mem _ ho)) hrun
    obtain ⟨cl, hf, ht⟩ := Op.run_other_http E ns op ns₁ id hw
      (hmid op (List.mem_cons_self _ _)) h₁ cl₁ hf₁
    refine ⟨cl, hf, ?_⟩
    rw [ht₁, ht, config_maxHTTPStats hc₁]
    simp only [httpPassed, List.foldl_append]

theorem httpStoreReference_find? (E : Env) (maxHTTPStats : Int) (m : GoMap String RequestStats)
    (e : String × RequestStats) (k : String)
    (hroom : m.find? e.1 = none → (m.length : Int) < maxHTTPStats) :
    (httpStoreReference E maxHTTPStats m e).find? k =
      if e.1 = k then some (E.CombineWith ((m.find? k).getD RequestStats.zero) e.2)
      else m.find? k := by
  unfold httpStoreReference
  cases hf : m.find? e.1 with
  | none =>
    dsimp only
    rw [if_neg (not_le.2 (hroom hf))]
    by_cases hk : e.1 = k
    · rw [if_pos hk, ← hk, GoMap.find?_insert_self, hf]
      rfl
    · rw [if_neg hk, GoMap.find?_insert_ne _ hk]
  | some prev =>
    dsimp only
    by_cases hk : e.1 = k
    · rw [if_pos hk, ← hk, GoMap.find?_insert_self, hf]
      rfl
    · rw [if_neg hk, GoMap.find?_insert_ne _ hk]

theorem httpStoreReference_keys (E : Env) (maxHTTPStats : Int) (m : GoMap String RequestStats)
    (e : String × RequestStats) (hn : m.keys.Nodup)
    (hroom : m.find? e.1 = none → (m.length : Int) < maxHTTPStats) :
    (httpStoreReference E maxHTTPStats m e).keys.Nodup ∧
      (httpStoreReference E maxHTTPStats m e).keys.toFinset =
        insert e.1 m.keys.toFinset := by
  unfold httpStoreReference
  cases hf : m.find? e.1 with
  | none =>
    dsimp only
    rw [if_neg (not_le.2 (hroom hf))]
    refine ⟨GoMap.nodup_keys_insert _ _ hn, ?_⟩
    rw [GoMap.keys_insert_of_find?_none _ hf]
    ext x
    simp only [List.toFinset_append, List.toFinset_cons, List.toFinset_nil, Finset.mem_union,
      List.mem_toFinset, Finset.mem_insert, Finset.mem_singleton, insert_emptyc_eq]
    tauto
  | some prev =>
    dsimp only
    refine ⟨GoMap.nodup_keys_insert _ _ hn, ?_⟩
    rw [GoMap.keys_insert_of_find?_some _ hf]
    have hmem : e.1 ∈ m.keys.toFinset :=
      List.mem_toFinset.2 (GoMap.mem_keys_of_mem (GoMap.mem_of_find? hf))
    exact (Finset.insert_eq_of_mem hmem).symm

/-- While the cap is not reached, the value the reference accumulation holds for
a key is the `CombineWith` accumulation of the stats passed for that key. -/
theorem httpAccumulate_find? (E : Env) (maxHTTPStats : Int)
    (passed : List (String × RequestStats)) (m : GoMap String RequestStats)
    (hn : m.keys.Nodup)
    (hcard : (((m.keys ++ passed.map Prod.fst).toFinset.card : Nat) : Int) ≤ maxHTTPStats)
    (k : String) :
    (passed.foldl (httpStoreReference E maxHTTPStats) m).find? k =
      httpCombineReference E (m.find? k)
        ((passed.filter (fun e => decide (e.1 = k))).map Prod.snd) := by
  induction passed generalizing m with
  | nil => rfl
  | cons e t ih =>
    have hroom : m.find? e.1 = none → (m.length : Int) < maxHTTPStats := by
      intro hf
      have hnot : e.1 ∉ m.keys.toFinset := by
        rw [List.mem_toFinset]
        exact (GoMap.find?_eq_none_iff _ _).1 hf
      have hsub : insert e.1 m.keys.toFinset ⊆ (m.keys ++ (e :: t).map Prod.fst).toFinset := by
        intro x hx
        simp only [Finset.mem_insert, List.mem_toFinset] at hx
        simp only [List.map_cons, List.toFinset_append, List.toFinset_cons, Finset.mem_union,
          List.mem_toFinset, Finset.mem_insert]
        tauto
      have hle := Finset.card_le_card hsub
      rw [Finset.card_insert_of_not_mem hnot, List.toFinset_card_of_nodup hn] at hle
      have hlen : m.keys.length = m.length := by simp [GoMap.keys]
      omega
    obtain ⟨hn', hkeys⟩ := httpStoreReference_keys E maxHTTPStats m e hn hroom
    have hcard' : ((((httpStoreReference E maxHTTPStats m e).keys ++
        t.map Prod.fst).toFinset.card : Nat) : Int) ≤ maxHTTPStats := by
      have heq : ((httpStoreReference E maxHTTPStats m e).keys ++ t.map Prod.fst).toFinset =
          (m.keys ++ (e :: t).map Prod.fst).toFinset := by
        rw [List.toFinset_append, hkeys]
        ext x
        simp only [List.map_cons, List.toFinset_append, List.toFinset_cons, Finset.mem_union,
          List.mem_toFinset, Finset.mem_insert]
        tauto
      rw [heq]
      exact hcard
    rw [List.foldl_cons, ih _ hn' hcard', httpStoreReference_find? E maxHTTPStats m e k hroom]
    by_cases hk : e.1 = k
    · rw [if_pos hk, List.filter_cons_of_pos (by simpa using hk)]
      rfl
    · rw [if_neg hk, List.filter_cons_of_neg (by simpa using hk)]

/-- C25. Exactly-once delivery of the HTTP stats, in every registry reachable
from `NewState`. Let client `A` poll, let any calls other than a `GetDelta` of
`A` follow, and let `A` poll again while still registered. The HTTP map the
second poll returns is the reference accumulation, under the `maxHTTPStats`
cap, of the entries passed by the `GetDelta` calls in between followed by those
of the second poll itself; when these entries have at most `maxHTTPStats`
distinct keys the value held for each key is the `CombineWith` accumulation of
the stats passed for that key, and a key for which nothing was passed is not
held. A poll of an unregistered client returns the accumulation of its own
input. After the poll the pending HTTP and DNS stats of `A` are empty. -/
theorem GetDelta_http_exactly_once (E : Env)
    (clientExpiry maxClosedConns maxClientStats maxDNSStats maxHTTPStats : Int)
    (ops₀ mid : List Op) (ns₀ ns₂ : networkState) (A : String)
    (now₁ now₂ : Int) (lt₁ lt₂ : Nat) (active₁ active₂ : List ConnectionStats)
    (dns₁ dns₂ : StatsByKeyByNameByType) (http₁ http₂ : GoMap String RequestStats)
    (hrun₀ : runOps E (NewState clientExpiry maxClosedConns maxClientStats maxDNSStats
      maxHTTPStats) ops₀ = some ns₀)
    (hmid : ∀ op ∈ mid, op.isPollOf A = false)
    (hrun₂ : runOps E (GetDelta E ns₀ now₁ A lt₁ active₁ dns₁ http₁).1 mid = some ns₂) :
    ((ns₂.clients.find? A).isSome = true →
      (GetDelta E ns₂ now₂ A lt₂ active₂ dns₂ http₂).2.HTTP =
          httpAccumulateReference E maxHTTPStats (httpPassed mid ++ http₂) ∧
        ((((httpPassed mid ++ http₂).map Prod.fst).dedup.length : Int) ≤ maxHTTPStats →
          ∀ k, (GetDelta E ns₂ now₂ A lt₂ active₂ dns₂ http₂).2.HTTP.find? k =
            httpCombineReference E none
              (((httpPassed mid ++ http₂).filter (fun e => decide (e.1 = k))).map Prod.snd))) ∧
    (ns₂.clients.find? A = none →
      (GetDelta E ns₂ now₂ A lt₂ active₂ dns₂ http₂).2.HTTP =
        httpAccumulateReference E maxHTTPStats http₂) ∧
    (∃ cl', (GetDelta E ns₂ now₂ A lt₂ active₂ dns₂ http₂).1.clients.find? A = some cl' ∧
      cl'.httpStatsDelta = [] ∧ cl'.dnsStats = []) := by
  obtain ⟨ns₀', hrun₀', hw₀, hc₀⟩ := runOps_wellFormed E ops₀ _
    (NewState_wellFormed E clientExpiry maxClosedConns maxClientStats maxDNSStats maxHTTPStats)
  rw [hrun₀] at hrun₀'
  cases hrun₀'
  have hw₁ := GetDelta_wellFormed E ns₀ now₁ A lt₁ active₁ dns₁ http₁ hw₀
  obtain ⟨ns₂', hrun₂', hw₂, hc₂⟩ := runOps_wellFormed E mid _ hw₁
  rw [hrun₂] at hrun₂'
  cases hrun₂'
  have hc₁ := (GetDelta_structure E ns₀ now₁ A lt₁ active₁ dns₁ http₁).2.2
  have hmax₀ : ns₀.maxHTTPStats = maxHTTPStats := config_maxHTTPStats hc₀
  have hmax₁ : (GetDelta E ns₀ now₁ A lt₁ active₁ dns₁ http₁).1.maxHTTPStats = maxHTTPStats :=
    (config_maxHTTPStats hc₁).trans hmax₀
  have hmax₂ : ns₂.maxHTTPStats = maxHTTPStats := (config_maxHTTPStats hc₂).trans hmax₁
  have hret := GetDelta_HTTP E ns₂ now₂ A lt₂ active₂ dns₂ http₂ hw₂.1
  rw [hmax₂] at hret
  refine ⟨?_, ?_, ?_⟩
  · intro hreg
    have hH : (GetDelta E ns₂ now₂ A lt₂ active₂ dns₂ http₂).2.HTTP =
        httpAccumulateReference E maxHTTPStats (httpPassed mid ++ http₂) := by
      cases hcl₂ : ns₂.clients.find? A with
      | none => rw [hcl₂] at hreg; cases hreg
      | some cl₂ =>
        obtain ⟨cl₁, hf₁, hh⟩ := runOps_other_http E mid _ ns₂ A hw₁ hmid hrun₂ cl₂ hcl₂
        obtain ⟨⟨c, _, hfind⟩, _, _⟩ := GetDelta_structure E ns₀ now₁ A lt₁ active₁ dns₁ http₁
        rw [hfind] at hf₁
        have hnil : cl₁.httpStatsDelta = [] := by
          rw [← Option.some.inj hf₁]
          rfl
        rw [hret, hcl₂]
        dsimp only
        rw [hh, hnil, hmax₁]
        unfold httpAccumulateReference
        rw [List.foldl_append]
    refine ⟨hH, ?_⟩
    intro hcard k
    rw [hH]
    unfold httpAccumulateReference
    refine httpAccumulate_find? E maxHTTPStats _ [] List.nodup_nil ?_ k
    rw [← List.card_toFinset] at hcard
    simpa [GoMap.keys] using hcard
  · intro hnone
    rw [hret, hnone]
    rfl
  · obtain ⟨⟨c, _, hfind⟩, _, _⟩ := GetDelta_structure E ns₂ now₂ A lt₂ active₂ dns₂ http₂
    exact ⟨_, hfind, rfl, rfl⟩

theorem GetDelta_http_exactly_once_witness :
    (GetDelta sampleEnv sampleHTTPState 3 "A" 300 [] []
        [("z", { data := [4] }), ("x", { data := [5] })]).2.HTTP =
      httpAccumulateReference sampleEnv 2
        (httpPassed sampleHTTPOps ++ [("z", { data := [4] }), ("x", { data := [5] })]) ∧
    httpAccumulateReference sampleEnv 2
        (httpPassed sampleHTTPOps ++ [("z", { data := [4] }), ("x", { data := [5] })]) =
      [("x", { data := [1, 3, 5] }), ("y", { data := [2] })] :=
  ⟨((GetDelta_http_exactly_once sampleEnv 1000 2 10 10 2 [] sampleHTTPOps
      (NewState 1000 2 10 10 2) sampleHTTPState "A" 0 3 100 300 [] [] [] []
      [("w", { data := [0] })] [("z", { data := [4] }), ("x", { data := [5] })]
      rfl (by decide) (by decide)).1 (by decide)).1,
    by decide⟩

/-! ## Sent bytes returned to a client and sent bytes given for it -/

theorem sentLast_append (l l' : List ConnectionStats) :
    sentLast (l ++ l') = sentLast l + sentLast l' := by
  simp [sentLast]

theorem sentMonotonic_append (l l' : List ConnectionStats) :
    sentMonotonic (l ++ l') = sentMonotonic l + sentMonotonic l' := by
  simp [sentMonotonic]

theorem sentLast_le_of_getElem? (l l' : List ConnectionStats) (hlen : l'.length = l.length)
    (h : ∀ (i : Nat) (c c' : ConnectionStats), l[i]? = some c → l'[i]? = some c' →
      c'.LastSentBytes ≤ c.MonotonicSentBytes) : sentLast l' ≤ sentMonotonic l := by
  induction l generalizing l' with
  | nil =>
    cases l' with
    | nil => simp [sentLast, sentMonotonic]
    | cons a t => simp at hlen
  | cons c cs ih =>
    cases l' with
    | nil => simp at hlen
    | cons a t =>
      have h₀ := h 0 c a (by simp) (by simp)
      have ht := ih t (by simpa using hlen)
        (fun i c₁ c₂ h₁ h₂ => h (i + 1) c₁ c₂ (by simpa using h₁) (by simpa using h₂))
      simp only [sentLast, sentMonotonic, List.map_cons, List.sum_cons] at ht ⊢
      omega

theorem sentLast_le_sentMonotonic (l : List ConnectionStats)
    (h : ∀ r ∈ l, r.LastSentBytes ≤ r.MonotonicSentBytes) : sentLast l ≤ sentMonotonic l := by
  induction l with
  | nil => simp [sentLast, sentMonotonic]
  | cons a t ih =>
    have h₀ := h a (List.mem_cons_self _ _)
    have ht := ih (fun r hr => h r (List.mem_cons_of_mem _ hr))
    simp only [sentLast, sentMonotonic, List.map_cons, List.sum_cons] at ht ⊢
    omega

theorem determineConnectionIntraHost_sent (E : Env) (l : List ConnectionStats) :
    sentLast (determineConnectionIntraHost E l) = sentLast l ∧
      ∀ r ∈ determineConnectionIntraHost E l, ∃ x ∈ l,
        r.LastSentBytes = x.LastSentBytes ∧ r.MonotonicSentBytes = x.MonotonicSentBytes := by
  unfold determineConnectionIntraHost
  dsimp only
  constructor
  · unfold sentLast
    rw [List.map_map]
    congr 1
    apply List.map_congr_left
    intro x _
    have := (classifyIntraHost_counters E (l.map (fun conn => newConnKey conn false)) x).2
    simp only [ConnectionStats.lastCounters, List.cons.injEq] at this
    exact this.1
  · intro r hr
    obtain ⟨x, hx, rfl⟩ := List.mem_map.1 hr
    have h := classifyIntraHost_counters E (l.map (fun conn => newConnKey conn false)) x
    have h₂ := h.2
    simp only [ConnectionStats.lastCounters, List.cons.injEq] at h₂
    exact ⟨x, hx, h₂.1, h.1.2.2.1⟩

/-- The loop of the first delta, position by position: a record of the slice
ends with zero last sent bytes, or is the record it was and no entry of the loop
points at it. -/
theorem firstDeltaLoop_positions (maxClientStats : Int) (L : GoMap String Nat)
    (s : telemetry × client × List ConnectionStats) :
    (L.foldl (firstDeltaConn maxClientStats) s).2.2.length = s.2.2.length ∧
      ∀ (i : Nat) (c' : ConnectionStats),
        (L.foldl (firstDeltaConn maxClientStats) s).2.2[i]? = some c' →
        c'.LastSentBytes = 0 ∨ (s.2.2[i]? = some c' ∧ i ∉ L.map Prod.snd) := by
  induction L generalizing s with
  | nil => exact ⟨rfl, fun i c' h => Or.inr ⟨h, by simp⟩⟩
  | cons e L ih =>
    rw [List.foldl_cons]
    obtain ⟨hlen, hpos⟩ := ih (firstDeltaConn maxClientStats s e)
    have hstep : (firstDeltaConn maxClientStats s e).2.2.length = s.2.2.length ∧
        ∀ (i : Nat) (c' : ConnectionStats),
          (firstDeltaConn maxClientStats s e).2.2[i]? = some c' →
          c'.LastSentBytes = 0 ∨ (s.2.2[i]? = some c' ∧ i ≠ e.2) := by
      unfold firstDeltaConn
      cases hc : s.2.2[e.2]? with
      | none =>
        refine ⟨rfl, fun i c' h => Or.inr ⟨h, ?_⟩⟩
        intro hi
        dsimp only at h
        rw [hi, hc] at h
        cases h
      | some c =>
        dsimp only
        refine ⟨List.length_set _ _ _, ?_⟩
        intro i c' h
        by_cases hi : e.2 = i
        · subst hi
          have hlt : e.2 < s.2.2.length := (List.getElem?_eq_some_iff.1 hc).1
          rw [List.getElem?_set_self hlt] at h
          left
          rw [← Option.some.inj h]
        · rw [List.getElem?_set_ne hi] at h
          exact Or.inr ⟨h, fun h' => hi h'.symm⟩
    refine ⟨hlen.trans hstep.1, ?_⟩
    intro i c' h
    rcases hpos i c' h with h₀ | ⟨h₁, h₂⟩
    · exact Or.inl h₀
    · rcases hstep.2 i c' h₁ with h₀ | ⟨h₃, h₄⟩
      · exact Or.inl h₀
      · refine Or.inr ⟨h₃, ?_⟩
        simp only [List.map_cons, List.mem_cons, not_or]
        exact ⟨h₄, h₂⟩

theorem mem_unkeyed (E : Env) (active : List ConnectionStats) (i : Nat) (c : ConnectionStats)
    (hc : active[i]? = some c) (hi : i ∉ (getConnsByKey E active).map Prod.snd) :
    c ∈ unkeyed E active := by
  unfold unkeyed
  rw [List.mem_filterMap]
  refine ⟨i, List.mem_range.2 (List.getElem?_eq_some_iff.1 hc).1, ?_⟩
  rw [if_neg hi]
  exact hc

/-- The first delta of a client: the returned last sent bytes are at most the
monotonic sent bytes passed, if the records returned as passed are so. -/
theorem GetDelta_new_sent (E : Env) (ns : networkState) (now : Int) (id : String)
    (lt : Nat) (active : List ConnectionStats) (dns : StatsByKeyByNameByType)
    (http : GoMap String RequestStats) (hcl : ns.clients.find? id = none)
    (hin : ∀ c ∈ unkeyed E active, c.LastSentBytes ≤ c.MonotonicSentBytes) :
    sentLast (GetDelta E ns now id lt active dns http).2.Conns ≤ sentMonotonic active ∧
      ∀ r ∈ (GetDelta E ns now id lt active dns http).2.Conns,
        r.LastSentBytes ≤ r.MonotonicSentBytes := by
  have hconns := (GetDelta_structure E ns now id lt active dns http).2.1
  have hacc : (deltaAccounting E ns now id active).2.2.2 =
      ((E.rangeOrder (getConnsByKey E active)).foldl (firstDeltaConn ns.maxClientStats)
        (ns.telemetry, (getClient ns now id).2.1, active)).2.2 := by
    unfold deltaAccounting deltaConns
    rw [getClient_of_find?_none hcl]
    simp [clientPoolGet]
  obtain ⟨hlen, hpos⟩ := firstDeltaLoop_positions ns.maxClientStats
    (E.rangeOrder (getConnsByKey E active)) (ns.telemetry, (getClient ns now id).2.1, active)
  have hmemL : ∀ i, i ∉ (E.rangeOrder (getConnsByKey E active)).map Prod.snd →
      i ∉ (getConnsByKey E active).map Prod.snd := by
    intro i hi h
    exact hi (((E.rangeOrder_perm (getConnsByKey E active)).map Prod.snd).mem_iff.2 h)
  have hrec : ∀ (i : Nat) (c' : ConnectionStats), ((E.rangeOrder (getConnsByKey E active)).foldl
      (firstDeltaConn ns.maxClientStats)
      (ns.telemetry, (getClient ns now id).2.1, active)).2.2[i]? = some c' →
      c'.LastSentBytes = 0 ∨ (active[i]? = some c' ∧
        c'.LastSentBytes ≤ c'.MonotonicSentBytes) := by
    intro i c' h
    rcases hpos i c' h with h₀ | ⟨h₁, h₂⟩
    · exact Or.inl h₀
    · exact Or.inr ⟨h₁, hin c' (mem_unkeyed E active i c' h₁ (hmemL i h₂))⟩
  rw [hconns, hacc]
  constructor
  · rw [(determineConnectionIntraHost_sent E _).1]
    apply sentLast_le_of_getElem? active _ hlen
    intro i c c' hc hc'
    rcases hrec i c' hc' with h₀ | ⟨h₁, h₂⟩
    · omega
    · rw [hc] at h₁
      cases h₁
      exact h₂
  · intro r hr
    obtain ⟨x, hx, h₁, h₂⟩ := (determineConnectionIntraHost_sent E _).2 r hr
    obtain ⟨i, hi⟩ := List.mem_iff_getElem?.1 hx
    rcases hrec i x hi with h₀ | ⟨_, h₃⟩
    · omega
    · omega

theorem wadd_le (w a b : Nat) : wadd w a b ≤ a + b := Nat.mod_le _ _

theorem updateConnWithStatWithActiveConn_last_le (tel : telemetry) (cl : client) (key : String)
    (active closed : ConnectionStats) :
    (updateConnWithStatWithActiveConn tel cl key active closed).2.2.LastSentBytes ≤
      (updateConnWithStatWithActiveConn tel cl key active closed).2.2.MonotonicSentBytes := by
  unfold updateConnWithStatWithActiveConn
  split
  · rename_i st0 _
    dsimp only
    unfold handleStatsUnderflow
    split
    · dsimp only
      exact wsub_le (Nat.zero_le _)
    · rename_i hno
      dsimp only
      apply wsub_le
      by_contra hlt
      exact hno (Or.inl (by omega))
  · exact le_refl _

/-- One step of the closed loop on a record with a byte key: the record leaves
with at most as many last sent bytes as monotonic sent bytes, and its monotonic
sent bytes are at most those it had plus those of the active record it was
aggregated with. -/
theorem mergeClosedConn_sent (E : Env) (maxClientStats : Int) (active : List ConnectionStats)
    (connsByKey : GoMap String Nat) (tel : telemetry) (cl : client) (x : ConnectionStats)
    (hx : (ByteKey E x).isSome = true) :
    (mergeClosedConn E maxClientStats active connsByKey tel cl x).2.2.LastSentBytes ≤
        (mergeClosedConn E maxClientStats active connsByKey tel cl x).2.2.MonotonicSentBytes ∧
      (mergeClosedConn E maxClientStats active connsByKey tel cl x).2.2.MonotonicSentBytes ≤
        x.MonotonicSentBytes + reopenedSent E active connsByKey x := by
  unfold mergeClosedConn reopenedSent
  cases hk : ByteKey E x with
  | none => rw [hk] at hx; cases hx
  | some key =>
    simp only [Option.some_bind]
    cases ha : activeConnFor active connsByKey key with
    | none =>
      dsimp only
      refine ⟨updateConnWithStats_last_le _ _ _ _, ?_⟩
      rw [(updateConnWithStats_sameMonotonic _ _ _ _).2.2.1]
      exact Nat.le_add_right _ _
    | some a =>
      dsimp only
      split
      · refine ⟨updateConnWithStats_last_le _ _ _ _, ?_⟩
        rw [(updateConnWithStats_sameMonotonic _ _ _ _).2.2.1]
        exact Nat.le_add_right _ _
      · split
        · dsimp only
          refine ⟨updateConnWithStatWithActiveConn_last_le _ _ _ _ _, ?_⟩
          rw [(updateConnWithStatWithActiveConn_sameMonotonic _ _ _ _ _).2.2.1]
          exact wadd_le 64 _ _
        · refine ⟨updateConnWithStats_last_le _ _ _ _, ?_⟩
          rw [(updateConnWithStats_sameMonotonic _ _ _ _).2.2.1]
          exact Nat.le_add_right _ _

/-- The closed loop on records with byte keys: every record leaves with at most
as many last sent bytes as monotonic sent bytes, and the monotonic sent bytes of
the records add up to at most those they had plus those of the active records
they were aggregated with. -/
theorem mergeClosedConns_sent (E : Env) (maxClientStats : Int) (active : List ConnectionStats)
    (connsByKey : GoMap String Nat) (tel : telemetry) (cl : client)
    (closed : List ConnectionStats) (hx : ∀ x ∈ closed, (ByteKey E x).isSome = true) :
    (∀ r ∈ (mergeClosedConns E maxClientStats active connsByKey tel cl closed).2.2,
        r.LastSentBytes ≤ r.MonotonicSentBytes) ∧
      sentMonotonic (mergeClosedConns E maxClientStats active connsByKey tel cl closed).2.2 ≤
        sentMonotonic closed + (closed.map (reopenedSent E active connsByKey)).sum := by
  induction closed generalizing tel cl with
  | nil => exact ⟨fun r hr => by simp [mergeClosedConns] at hr, by simp [mergeClosedConns]⟩
  | cons x rest ih =>
    obtain ⟨h₁, h₂⟩ := mergeClosedConn_sent E maxClientStats active connsByKey tel cl x
      (hx x (List.mem_cons_self _ _))
    obtain ⟨g₁, g₂⟩ := ih (mergeClosedConn E maxClientStats active connsByKey tel cl x).1
      (mergeClosedConn E maxClientStats active connsByKey tel cl x).2.1
      (fun y hy => hx y (List.mem_cons_of_mem _ hy))
    constructor
    · intro r hr
      simp only [mergeClosedConns, List.mem_cons] at hr
      rcases hr with hr | hr
      · rw [hr]; exact h₁
      · exact g₁ r hr
    · simp only [mergeClosedConns, sentMonotonic, List.map_cons, List.sum_cons] at g₂ ⊢
      omega

theorem sum_map_insert_le (f : Nat → Nat) (m : GoMap String Nat) (k : String) (i : Nat) :
    ((m.insert k i).map (fun e => f e.2)).sum ≤ (m.map (fun e => f e.2)).sum + f i := by
  induction m with
  | nil => simp [GoMap.insert]
  | cons e t ih =>
    obtain ⟨k', v'⟩ := e
    by_cases hk : k' = k
    · simp only [GoMap.insert, if_pos hk, List.map_cons, List.sum_cons]
      omega
    · simp only [GoMap.insert, if_neg hk, List.map_cons, List.sum_cons]
      omega

theorem getConnsByKeyFrom_sent (E : Env) (l pre : List ConnectionStats) (m : GoMap String Nat) :
    ((getConnsByKeyFrom E l pre.length m).map (fun e => activeSent (pre ++ l) e.2)).sum ≤
      (m.map (fun e => activeSent (pre ++ l) e.2)).sum + sentMonotonic l := by
  induction l generalizing pre m with
  | nil => simp [getConnsByKeyFrom, sentMonotonic]
  | cons c cs ih =>
    have happ : pre ++ c :: cs = (pre ++ [c]) ++ cs := by simp
    have hlen : (pre ++ [c]).length = pre.length + 1 := by simp
    have hc : activeSent (pre ++ c :: cs) pre.length = c.MonotonicSentBytes := by
      have : (pre ++ c :: cs)[pre.length]? = some c := by
        rw [List.getElem?_append_right (le_refl _)]
        simp
      unfold activeSent
      rw [this]
      rfl
    unfold getConnsByKeyFrom
    cases hk : ByteKey E c with
    | none =>
      dsimp only
      have := ih (pre ++ [c]) m
      rw [hlen, ← happ] at this
      simp only [sentMonotonic, List.map_cons, List.sum_cons] at this ⊢
      omega
    | some key =>
      dsimp only
      have := ih (pre ++ [c]) (m.insert key pre.length)
      rw [hlen, ← happ] at this
      have hins := sum_map_insert_le (activeSent (pre ++ c :: cs)) m key pre.length
      rw [hc] at hins
      simp only [sentMonotonic, List.map_cons, List.sum_cons] at this ⊢
      omega

/-- The records the key-to-connection map points at hold at most the monotonic
sent bytes of `active`. -/
theorem getConnsByKey_sent (E : Env) (active : List ConnectionStats) :
    ((getConnsByKey E active).map (fun e => activeSent active e.2)).sum ≤
      sentMonotonic active := by
  have := getConnsByKeyFrom_sent E active [] []
  simpa [getConnsByKey] using this

theorem sum_filter_add_sum_filter_not {α : Type} (f : α → Nat) (p : α → Bool) (l : List α) :
    ((l.filter p).map f).sum + ((l.filter (fun a => !p a)).map f).sum = (l.map f).sum := by
  induction l with
  | nil => rfl
  | cons a t ih =>
    cases hp : p a
    · simp only [List.filter_cons, hp, Bool.not_false, if_true, List.map_cons, List.sum_cons]
      simp only [Bool.false_eq_true, if_false]
      omega
    · simp only [List.filter_cons, hp, Bool.not_true, if_true, List.map_cons, List.sum_cons]
      simp only [Bool.false_eq_true, if_false]
      omega

theorem sum_indicator_le (E : Env) (closed : List ConnectionStats) (k : String) (v : Nat)
    (hn : (closed.map (ByteKey E)).Nodup) :
    (closed.map (fun x => if ByteKey E x = some k then v else 0)).sum ≤
      if (∃ x ∈ closed, ByteKey E x = some k) then v else 0 := by
  induction closed with
  | nil => simp
  | cons x rest ih =>
    simp only [List.map_cons, List.nodup_cons] at hn
    have ih' := ih hn.2
    simp only [List.map_cons, List.sum_cons]
    by_cases hx : ByteKey E x = some k
    · have hnone : ¬ ∃ y ∈ rest, ByteKey E y = some k := by
        rintro ⟨y, hy, hyk⟩
        exact hn.1 (List.mem_map.2 ⟨y, hy, hyk.trans hx.symm⟩)
      rw [if_neg hnone] at ih'
      rw [if_pos hx, if_pos ⟨x, List.mem_cons_self _ _, hx⟩]
      omega
    · rw [if_neg hx]
      by_cases hex : ∃ y ∈ rest, ByteKey E y = some k
      · rw [if_pos hex] at ih'
        rw [if_pos (by obtain ⟨y, hy, hyk⟩ := hex; exact ⟨y, List.mem_cons_of_mem _ hy, hyk⟩)]
        omega
      · rw [if_neg hex] at ih'
        have : (if (∃ y ∈ x :: rest, ByteKey E y = some k) then v else 0) ≥ 0 := Nat.zero_le _
        omega

/-- The active records that pending closed records with pairwise distinct keys
are aggregated with are records the key-to-connection map points at under the
key of a pending closed record, each used once. -/
theorem reopenedSent_sum_le (E : Env) (active closed : List ConnectionStats)
    (m : GoMap String Nat) (hn : (closed.map (ByteKey E)).Nodup) :
    (closed.map (reopenedSent E active m)).sum ≤
      ((m.filter (fun e => decide (∃ x ∈ closed, ByteKey E x = some e.1))).map
        (fun e => activeSent active e.2)).sum := by
  induction m with
  | nil =>
    have : closed.map (reopenedSent E active []) = closed.map (fun _ => 0) := by
      apply List.map_congr_left
      intro x _
      unfold reopenedSent
      cases ByteKey E x <;> simp [activeConnFor, GoMap.find?]
    rw [this]
    simp
  | cons e t ih =>
    obtain ⟨k₀, i₀⟩ := e
    have hstep : ∀ x, reopenedSent E active ((k₀, i₀) :: t) x ≤
        (if ByteKey E x = some k₀ then activeSent active i₀ else 0) +
          reopenedSent E active t x := by
      intro x
      unfold reopenedSent
      cases hk : ByteKey E x with
      | none => simp
      | some k =>
        simp only [Option.some_bind, activeConnFor, GoMap.find?]
        by_cases h₀ : k₀ = k
        · subst h₀
          simp [activeSent]
        · have h₁ : ¬ some k = some k₀ := fun h => h₀ (Option.some.inj h).symm
          simp [h₀, h₁]
    have hsum : (closed.map (reopenedSent E active ((k₀, i₀) :: t))).sum ≤
        (closed.map (fun x => if ByteKey E x = some k₀ then activeSent active i₀ else 0)).sum +
          (closed.map (reopenedSent E active t)).sum := by
      clear ih hn
      induction closed with
      | nil => simp
      | cons x rest ihc =>
        have := hstep x
        simp only [List.map_cons, List.sum_cons]
        omega
    have hind := sum_indicator_le E closed k₀ (activeSent active i₀) hn
    by_cases hex : ∃ x ∈ closed, ByteKey E x = some k₀
    · rw [if_pos hex] at hind
      rw [List.filter_cons_of_pos (by simpa using hex)]
      simp only [List.map_cons, List.sum_cons]
      omega
    · rw [if_neg hex] at hind
      rw [List.filter_cons_of_neg (by simpa using hex)]
      omega

theorem sentMonotonic_view (l : List ConnectionStats) :
    sentMonotonic l = ((l.map ConnectionStats.monotonicView).map (fun v => v.2.2.headD 0)).sum := by
  unfold sentMonotonic
  rw [List.map_map]
  rfl

theorem sum_filterMap_view (active : List ConnectionStats) (l : GoMap String Nat) :
    ((l.filterMap (fun e => (active[e.2]?).map ConnectionStats.monotonicView)).map
        (fun v => v.2.2.headD 0)).sum =
      (l.map (fun e => activeSent active e.2)).sum := by
  induction l with
  | nil => rfl
  | cons e t ih =>
    have hw : activeSent active e.2 =
        ((active[e.2]?).map (fun c => c.MonotonicSentBytes)).getD 0 := rfl
    cases h : active[e.2]? with
    | none =>
      rw [h] at hw
      have h₁ : (e :: t).filterMap (fun e => (active[e.2]?).map ConnectionStats.monotonicView) =
          t.filterMap (fun e => (active[e.2]?).map ConnectionStats.monotonicView) := by
        simp only [List.filterMap_cons, h, Option.map_none']
      rw [h₁, ih, List.map_cons, List.sum_cons, hw]
      simp only [Option.map_none', Option.getD_none, zero_add]
    | some c =>
      rw [h] at hw
      have h₁ : (e :: t).filterMap (fun e => (active[e.2]?).map ConnectionStats.monotonicView) =
          c.monotonicView ::
            t.filterMap (fun e => (active[e.2]?).map ConnectionStats.monotonicView) := by
        simp only [List.filterMap_cons, h, Option.map_some']
      rw [h₁, List.map_cons, List.sum_cons, ih, List.map_cons, List.sum_cons, hw]
      rfl

/-- The connections returned to an existing, indexed client: their last sent
bytes add up to at most the monotonic sent bytes of the pending closed records
plus those of the active records, and each has at most as many last sent bytes
as monotonic sent bytes. -/
theorem GetDelta_existing_sent (E : Env) (ns : networkState) (now : Int) (id : String)
    (lt : Nat) (active : List ConnectionStats) (dns : StatsByKeyByNameByType)
    (http : GoMap String RequestStats) (cl : client)
    (hcl : ns.clients.find? id = some cl) (hidx : cl.indexed E) :
    sentLast (GetDelta E ns now id lt active dns http).2.Conns ≤
        sentMonotonic cl.closedConnections + sentMonotonic active ∧
      ∀ r ∈ (GetDelta E ns now id lt active dns http).2.Conns,
        r.LastSentBytes ≤ r.MonotonicSentBytes := by
  have hconns := (GetDelta_structure E ns now id lt active dns http).2.1
  have hacc : deltaAccounting E ns now id active =
      mergeConnections E ns.maxClientStats now ns.telemetry cl (getConnsByKey E active)
        active [] := by
    unfold deltaAccounting
    rw [getClient_of_find? hcl]
    rfl
  obtain ⟨outs, h₁, h₂, h₃⟩ := mergeConnections_output E ns.maxClientStats now ns.telemetry cl
    active
  obtain ⟨hn, hkeys⟩ := client.indexed_nodup hidx
  obtain ⟨g₁, g₂⟩ := mergeClosedConns_sent E ns.maxClientStats active (getConnsByKey E active)
    ns.telemetry { cl with lastFetch := now } cl.closedConnections
    (fun x hx => by obtain ⟨k, hk⟩ := hkeys x hx; rw [hk]; rfl)
  have hall : ∀ r ∈ (mergeClosedConns E ns.maxClientStats active (getConnsByKey E active)
      ns.telemetry { cl with lastFetch := now } cl.closedConnections).2.2 ++ outs,
      r.LastSentBytes ≤ r.MonotonicSentBytes := by
    intro r hr
    rcases List.mem_append.1 hr with hr | hr
    · exact g₁ r hr
    · exact h₃ r hr
  rw [hconns, hacc, h₁]
  constructor
  · rw [(determineConnectionIntraHost_sent E _).1]
    have hle := sentLast_le_sentMonotonic _ hall
    rw [sentMonotonic_append] at hle
    have houts : sentMonotonic outs =
        (((E.rangeOrder (getConnsByKey E active)).filter (fun e =>
          decide ((cl.closedConnectionsKeys.getD []).find? e.1 = none))).map
          (fun e => activeSent active e.2)).sum := by
      rw [sentMonotonic_view, h₂, sum_filterMap_view]
    have hre := reopenedSent_sum_le E active cl.closedConnections (getConnsByKey E active) hn
    have hperm : (((getConnsByKey E active).filter (fun e =>
          decide (∃ x ∈ cl.closedConnections, ByteKey E x = some e.1))).map
          (fun e => activeSent active e.2)).sum =
        (((E.rangeOrder (getConnsByKey E active)).filter (fun e =>
          decide (∃ x ∈ cl.closedConnections, ByteKey E x = some e.1))).map
          (fun e => activeSent active e.2)).sum :=
      ((((E.rangeOrder_perm (getConnsByKey E active)).filter _).map _).sum_eq).symm
    have hfilter : (E.rangeOrder (getConnsByKey E active)).filter (fun e =>
          decide ((cl.closedConnectionsKeys.getD []).find? e.1 = none)) =
        (E.rangeOrder (getConnsByKey E active)).filter (fun e =>
          !decide (∃ x ∈ cl.closedConnections, ByteKey E x = some e.1)) := by
      apply List.filter_congr
      intro e _
      have := client.indexed_pending_iff hidx e.1
      by_cases hex : ∃ x ∈ cl.closedConnections, ByteKey E x = some e.1
      · have hno : ¬ (cl.closedConnectionsKeys.getD []).find? e.1 = none := by
          intro h
          obtain ⟨x, hx, hxk⟩ := hex
          exact (this.1 h) x hx hxk
        simp [hex, hno]
      · have hyes : (cl.closedConnectionsKeys.getD []).find? e.1 = none :=
          this.2 (fun x hx hxk => hex ⟨x, hx, hxk⟩)
        simp [hex, hyes]
    have hsplit := sum_filter_add_sum_filter_not (fun e => activeSent active e.2)
      (fun e => decide (∃ x ∈ cl.closedConnections, ByteKey E x = some e.1))
      (E.rangeOrder (getConnsByKey E active))
    have htotal : ((E.rangeOrder (getConnsByKey E active)).map
        (fun e => activeSent active e.2)).sum =
        ((getConnsByKey E active).map (fun e => activeSent active e.2)).sum :=
      (((E.rangeOrder_perm (getConnsByKey E active)).map _).sum_eq)
    have hG := getConnsByKey_sent E active
    rw [hfilter] at houts
    omega
  · intro r hr
    obtain ⟨x, hx, e₁, e₂⟩ := (determineConnectionIntraHost_sent E _).2 r hr
    have := hall x hx
    omega

theorem sentMonotonic_set (l : List ConnectionStats) (i : Nat) (a b : ConnectionStats)
    (h : l[i]? = some a) :
    sentMonotonic (l.set i b) + a.MonotonicSentBytes =
      sentMonotonic l + b.MonotonicSentBytes := by
  induction l generalizing i with
  | nil => simp at h
  | cons x t ih =>
    cases i with
    | zero =>
      simp only [List.getElem?_cons_zero, Option.some.injEq] at h
      subst h
      simp only [List.set_cons_zero, sentMonotonic, List.map_cons, List.sum_cons]
      omega
    | succ j =>
      simp only [List.getElem?_cons_succ] at h
      have := ih j h
      simp only [List.set_cons_succ, sentMonotonic, List.map_cons, List.sum_cons] at this ⊢
      omega

theorem storeClosedConnection_sent (E : Env) (maxClosedConns : Int) (tel : telemetry)
    (cl : client) (c : ConnectionStats) (r : telemetry × client)
    (h : storeClosedConnection E maxClosedConns tel cl c = some r) :
    sentMonotonic r.2.closedConnections ≤
      sentMonotonic cl.closedConnections + c.MonotonicSentBytes := by
  unfold storeClosedConnection at h
  split at h
  · cases h; exact Nat.le_add_right _ _
  · split at h
    · split at h
      · cases h
      · rename_i a ha
        cases h
        dsimp only
        have hs := sentMonotonic_set cl.closedConnections _ a (addConnections a c) ha
        have hw : (addConnections a c).MonotonicSentBytes ≤
            a.MonotonicSentBytes + c.MonotonicSentBytes := wadd_le 64 _ _
        omega
    · split at h
      · cases h; exact Nat.le_add_right _ _
      · split at h
        · cases h
        · cases h
          dsimp only
          rw [sentMonotonic_append]
          simp [sentMonotonic]

theorem storeClosedConnsClient_sent (E : Env) (maxClosedConns : Int) (tel : telemetry)
    (cl : client) (conns : List ConnectionStats) (r : telemetry × client)
    (h : storeClosedConnsClient E maxClosedConns tel cl conns = some r) :
    sentMonotonic r.2.closedConnections ≤
      sentMonotonic cl.closedConnections + sentMonotonic conns := by
  induction conns generalizing tel cl with
  | nil =>
    simp only [storeClosedConnsClient, Option.some.injEq] at h
    subst h
    exact Nat.le_add_right _ _
  | cons c cs ih =>
    simp only [storeClosedConnsClient] at h
    cases h₁ : storeClosedConnection E maxClosedConns tel cl c with
    | none => rw [h₁] at h; cases h
    | some r₁ =>
      rw [h₁] at h
      have a₁ := storeClosedConnection_sent E maxClosedConns tel cl c r₁ h₁
      have a₂ := ih r₁.1 r₁.2 h
      simp only [sentMonotonic, List.map_cons, List.sum_cons] at a₁ a₂ ⊢
      omega

theorem storeClosedConnsClients_sent (E : Env) (maxClosedConns : Int)
    (conns : List ConnectionStats) (tel : telemetry) (m : GoMap String client)
    (rs : telemetry × GoMap String client)
    (h : storeClosedConnsClients E maxClosedConns conns tel m = some rs) :
    ∀ q ∈ rs.2, ∃ p ∈ m, p.1 = q.1 ∧
      sentMonotonic q.2.closedConnections ≤
        sentMonotonic p.2.closedConnections + sentMonotonic conns := by
  induction m generalizing tel rs with
  | nil =>
    simp only [storeClosedConnsClients, Option.some.injEq] at h
    subst h
    intro q hq
    cases hq
  | cons e t ih =>
    obtain ⟨id, cl⟩ := e
    simp only [storeClosedConnsClients] at h
    cases h₁ : storeClosedConnsClient E maxClosedConns tel cl conns with
    | none => rw [h₁] at h; cases h
    | some r₁ =>
      rw [h₁] at h
      dsimp only at h
      cases h₂ : storeClosedConnsClients E maxClosedConns conns r₁.1 t with
      | none => rw [h₂] at h; cases h
      | some rs₁ =>
        rw [h₂] at h
        simp only [Option.some.injEq] at h
        subst h
        intro q hq
        rcases List.mem_cons.1 hq with hq | hq
        · subst hq
          exact ⟨(id, cl), List.mem_cons_self _ _, rfl,
            storeClosedConnsClient_sent E maxClosedConns tel cl conns r₁ h₁⟩
        · obtain ⟨p, hp, hpq⟩ := ih r₁.1 rs₁ h₂ q hq
          exact ⟨p, List.mem_cons_of_mem _ hp, hpq⟩

theorem pendingSent_of_find? {ns : networkState} {id : String} {cl : client}
    (h : ns.clients.find? id = some cl) :
    pendingSent ns id = sentMonotonic cl.closedConnections := by
  unfold pendingSent
  rw [h]

theorem pendingSent_of_find?_none {ns : networkState} {id : String}
    (h : ns.clients.find? id = none) : pendingSent ns id = 0 := by
  unfold pendingSent
  rw [h]

/-- One call, seen from the client `id`: the last sent bytes it returns to the
client plus the monotonic sent bytes pending for the client afterwards are at
most the monotonic sent bytes the call gives for the client plus those pending
before; every returned record has at most as many last sent bytes as monotonic
sent bytes. -/
theorem Op.run_sent (E : Env) (ns : networkState) (op : Op) (ns' : networkState) (id : String)
    (hw : ns.wellFormed E) (hrun : op.run E ns = some ns')
    (hin : ∀ c ∈ op.unkeyedFor E id ns, c.LastSentBytes ≤ c.MonotonicSentBytes) :
    sentLast (op.deliveredTo E id ns) + pendingSent ns' id ≤
        sentMonotonic (op.givenFor id ns) + pendingSent ns id ∧
      ∀ r ∈ op.deliveredTo E id ns, r.LastSentBytes ≤ r.MonotonicSentBytes := by
  have hkeep : ∀ cl', ns'.clients.find? id = some cl' →
      (∃ cl, ns.clients.find? id = some cl ∧ cl'.closedConnections = cl.closedConnections) →
      pendingSent ns' id ≤ pendingSent ns id := by
    intro cl' h' ⟨cl, h, he⟩
    rw [pendingSent_of_find? h', pendingSent_of_find? h, he]
  have hnone : ns'.clients.find? id = none → pendingSent ns' id ≤ pendingSent ns id := by
    intro h
    rw [pendingSent_of_find?_none h]
    exact Nat.zero_le _
  cases op with
  | callGetDelta now id' lt active dns http =>
    simp only [Op.run, Option.some.injEq] at hrun
    subst hrun
    by_cases hid : id' = id
    · subst hid
      obtain ⟨cl', hfind, hnil, _, _⟩ := GetDelta_final_client E ns now id' lt active dns http
      have hp : pendingSent (GetDelta E ns now id' lt active dns http).1 id' = 0 := by
        rw [pendingSent_of_find? hfind, hnil]
        rfl
      simp only [Op.deliveredTo, Op.givenFor, if_true]
      rw [hp]
      cases hcl : ns.clients.find? id' with
      | some cl =>
        obtain ⟨h₁, h₂⟩ := GetDelta_existing_sent E ns now id' lt active dns http cl hcl
          (hw.2.1 (id', cl) (GoMap.mem_of_find? hcl))
        rw [pendingSent_of_find? hcl]
        exact ⟨by omega, h₂⟩
      | none =>
        have hin' : ∀ c ∈ unkeyed E active, c.LastSentBytes ≤ c.MonotonicSentBytes := by
          intro c hc
          apply hin c
          simp only [Op.unkeyedFor, hcl, and_self, if_true]
          exact hc
        obtain ⟨h₁, h₂⟩ := GetDelta_new_sent E ns now id' lt active dns http hcl hin'
        exact ⟨by omega, h₂⟩
    · simp only [Op.deliveredTo, Op.givenFor, if_neg hid]
      refine ⟨?_, fun r hr => by cases hr⟩
      have hle : pendingSent (GetDelta E ns now id' lt active dns http).1 id ≤
          pendingSent ns id := by
        cases hf : (GetDelta E ns now id' lt active dns http).1.clients.find? id with
        | none => exact hnone hf
        | some cl' =>
          refine hkeep cl' hf ?_
          rcases (GetDelta_clients E ns now id' lt active dns http hw.1).2 (id, cl')
              (GoMap.mem_of_find? hf) with ⟨h, _⟩ | ⟨_, c₀, hc₀, hs⟩
          · exact absurd h.symm hid
          · exact ⟨c₀, GoMap.find?_of_mem_nodup hw.1 hc₀, hs.2.2.1.symm⟩
      simp only [sentLast, sentMonotonic, List.map_nil, List.sum_nil]
      omega
  | callStoreClosedConnections closed =>
    simp only [Op.deliveredTo]
    refine ⟨?_, fun r hr => by cases hr⟩
    simp only [Op.run, StoreClosedConnections, storeClosedConnections] at hrun
    cases hr : storeClosedConnsClients E ns.maxClosedConns closed ns.telemetry ns.clients with
    | none => rw [hr] at hrun; cases hrun
    | some rs =>
      rw [hr] at hrun
      simp only [Option.some.injEq] at hrun
      subst hrun
      simp only [sentLast, List.map_nil, List.sum_nil, zero_add]
      cases hf : GoMap.find? rs.2 id with
      | none =>
        have : pendingSent { ns with telemetry := rs.1, clients := rs.2 } id = 0 :=
          pendingSent_of_find?_none hf
        rw [this]
        exact Nat.zero_le _
      | some cl' =>
        obtain ⟨p, hp, hp₁, hle⟩ := storeClosedConnsClients_sent E ns.maxClosedConns closed
          ns.telemetry ns.clients rs hr (id, cl') (GoMap.mem_of_find? hf)
        have hp' : (id, p.2) ∈ ns.clients := by
          have : p = (id, p.2) := Prod.ext hp₁ rfl
          rw [← this]; exact hp
        have hfind := GoMap.find?_of_mem_nodup hw.1 hp'
        have h₁ : pendingSent { ns with telemetry := rs.1, clients := rs.2 } id =
            sentMonotonic cl'.closedConnections := pendingSent_of_find? hf
        rw [h₁, pendingSent_of_find? hfind]
        simp only [Op.givenFor, hfind, Option.isSome_some, if_true]
        dsimp only at hle
        omega
  | callRemoveConnections keys =>
    simp only [Op.run, Option.some.injEq] at hrun
    subst hrun
    simp only [Op.deliveredTo, Op.givenFor]
    refine ⟨?_, fun r hr => by cases hr⟩
    have hm : (RemoveConnections ns keys).clients.find? id =
        (ns.clients.find? id).map (fun c =>
          { c with stats := keys.foldl (fun m key => GoMap.erase m key) c.stats }) :=
      find?_map_values ns.clients (fun c =>
          { c with stats := keys.foldl (fun m key => GoMap.erase m key) c.stats }) id
    have hle : pendingSent (RemoveConnections ns keys) id ≤ pendingSent ns id := by
      cases hcl : ns.clients.find? id with
      | none =>
        rw [hcl] at hm
        exact hnone hm
      | some cl =>
        rw [hcl] at hm
        exact hkeep _ hm ⟨cl, hcl, rfl⟩
    simp only [sentLast, sentMonotonic, List.map_nil, List.sum_nil]
    omega
  | callRemoveClient clientID =>
    simp only [Op.run, Option.some.injEq] at hrun
    subst hrun
    simp only [Op.deliveredTo, Op.givenFor]
    refine ⟨?_, fun r hr => by cases hr⟩
    have hle : pendingSent (RemoveClient ns clientID) id ≤ pendingSent ns id := by
      cases hf : (RemoveClient ns clientID).clients.find? id with
      | none => exact hnone hf
      | some cl' =>
        exact hkeep cl' hf ⟨cl', GoMap.find?_of_mem_nodup hw.1
          (List.mem_of_mem_filter (GoMap.mem_of_find? hf)), rfl⟩
    simp only [sentLast, sentMonotonic, List.map_nil, List.sum_nil]
    omega
  | callRemoveExpiredClients now =>
    simp only [Op.run, Option.some.injEq] at hrun
    subst hrun
    simp only [Op.deliveredTo, Op.givenFor]
    refine ⟨?_, fun r hr => by cases hr⟩
    have hle : pendingSent (RemoveExpiredClients ns now) id ≤ pendingSent ns id := by
      cases hf : (RemoveExpiredClients ns now).clients.find? id with
      | none => exact hnone hf
      | some cl' =>
        exact hkeep cl' hf ⟨cl', GoMap.find?_of_mem_nodup hw.1
          (List.mem_of_mem_filter (GoMap.mem_of_find? hf)), rfl⟩
    simp only [sentLast, sentMonotonic, List.map_nil, List.sum_nil]
    omega

/-- A run from a well-formed registry, seen from the client `id`: the last sent
bytes returned to the client are at most the monotonic sent bytes given for it
plus those pending for it at the start. -/
theorem traceConns_sent (E : Env) (id : String) (ops : List Op) (ns : networkState)
    (hw : ns.wellFormed E)
    (hin : ∀ c ∈ traceConns E (Op.unkeyedFor E id) ns ops,
      c.LastSentBytes ≤ c.MonotonicSentBytes) :
    sentLast (traceConns E (Op.deliveredTo E id) ns ops) ≤
        sentMonotonic (traceConns E (Op.givenFor id) ns ops) + pendingSent ns id ∧
      ∀ r ∈ traceConns E (Op.deliveredTo E id) ns ops,
        r.LastSentBytes ≤ r.MonotonicSentBytes := by
  induction ops generalizing ns with
  | nil => exact ⟨Nat.zero_le _, fun r hr => by cases hr⟩
  | cons op ops ih =>
    obtain ⟨ns₁, h₁, hw₁, _⟩ := Op.run_wellFormed E ns op hw
    simp only [traceConns, h₁] at hin ⊢
    obtain ⟨a₁, a₂⟩ := Op.run_sent E ns op ns₁ id hw h₁
      (fun c hc => hin c (List.mem_append_left _ hc))
    obtain ⟨b₁, b₂⟩ := ih ns₁ hw₁ (fun c hc => hin c (List.mem_append_right _ hc))
    constructor
    · rw [sentLast_append, sentMonotonic_append]
      omega
    · intro r hr
      rcases List.mem_append.1 hr with hr | hr
      · exact a₂ r hr
      · exact b₂ r hr

/-- What the accounting of the sent bytes does keep. For every client and every
sequence of operations on a new registry: if every record that a `GetDelta`
creating the client returns as passed (an active record without byte key, or
whose byte key recurs later in `active`) was passed with
`LastSentBytes ≤ MonotonicSentBytes`, in particular if there is no such record,
then the sum of
`LastSentBytes` over all connections returned to the client is at most the sum
of `MonotonicSentBytes` over the records given for it (the active records of its
`GetDelta` calls and the closed records stored while it is registered), and
every returned record has `LastSentBytes ≤ MonotonicSentBytes`. -/
theorem sent_bytes_returned_le_given (E : Env)
    (clientExpiry maxClosedConns maxClientStats maxDNSStats maxHTTPStats : Int)
    (id : String) (ops : List Op)
    (hin : ∀ c ∈ traceConns E (Op.unkeyedFor E id)
      (NewState clientExpiry maxClosedConns maxClientStats maxDNSStats maxHTTPStats) ops,
      c.LastSentBytes ≤ c.MonotonicSentBytes) :
    sentLast (traceConns E (Op.deliveredTo E id)
        (NewState clientExpiry maxClosedConns maxClientStats maxDNSStats maxHTTPStats) ops) ≤
      sentMonotonic (traceConns E (Op.givenFor id)
        (NewState clientExpiry maxClosedConns maxClientStats maxDNSStats maxHTTPStats) ops) ∧
    ∀ r ∈ traceConns E (Op.deliveredTo E id)
        (NewState clientExpiry maxClosedConns maxClientStats maxDNSStats maxHTTPStats) ops,
      r.LastSentBytes ≤ r.MonotonicSentBytes := by
  obtain ⟨h₁, h₂⟩ := traceConns_sent E id ops _
    (NewState_wellFormed E clientExpiry maxClosedConns maxClientStats maxDNSStats maxHTTPStats)
    hin
  refine ⟨?_, h₂⟩
  have h₀ : pendingSent (NewState clientExpiry maxClosedConns maxClientStats maxDNSStats
      maxHTTPStats) id = 0 := rfl
  omega

theorem sent_bytes_returned_le_given_witness :
    sentLast (traceConns sampleEnv (Op.deliveredTo sampleEnv "A") (NewState 1000 2 10 10 10)
        sampleSentOps) ≤
      sentMonotonic (traceConns sampleEnv (Op.givenFor "A") (NewState 1000 2 10 10 10)
        sampleSentOps) ∧
    (traceConns sampleEnv (Op.deliveredTo sampleEnv "A") (NewState 1000 2 10 10 10)
        sampleSentOps).map (fun r => (r.LastSentBytes, r.MonotonicSentBytes)) =
      [(0, 500), (250, 750), (250, 900)] :=
  ⟨(sent_bytes_returned_le_given sampleEnv 1000 2 10 10 10 "A" sampleSentOps
      (by decide)).1, by decide⟩

/-! ## Index safety, client isolation and frames -/

/-- C31. Index consistency and safety, in every registry reachable from
`NewState` through the public operations: every registered client has an
initialised key index; every entry `k ↦ i` of the index has `i` within the
pending closed records, and the record at `i` has byte key `k`; every pending
record is indexed under its byte key at its own position. Hence
`StoreClosedConnections` returns for every batch (neither the in-place access
nor the write to the index fails), and so does every further run of public
operations. -/
theorem index_consistency (E : Env)
    (clientExpiry maxClosedConns maxClientStats maxDNSStats maxHTTPStats : Int)
    (ops : List Op) (ns : networkState)
    (hrun : runOps E (NewState clientExpiry maxClosedConns maxClientStats maxDNSStats
      maxHTTPStats) ops = some ns) :
    (∀ e ∈ ns.clients, ∃ keys, e.2.closedConnectionsKeys = some keys ∧
      (∀ (k : String) (i : Nat), keys.find? k = some i →
        i < e.2.closedConnections.length ∧
          ∃ a, e.2.closedConnections[i]? = some a ∧ ByteKey E a = some k) ∧
      (∀ (j : Nat) (a : ConnectionStats), e.2.closedConnections[j]? = some a →
        ∃ k, ByteKey E a = some k ∧ keys.find? k = some j)) ∧
    (∀ closed, ∃ ns', StoreClosedConnections E ns closed = some ns') ∧
    (∀ more, ∃ ns', runOps E ns more = some ns') := by
  obtain ⟨ns', hrun', hwf, _⟩ := runOps_wellFormed E ops _
    (NewState_wellFormed E clientExpiry maxClosedConns maxClientStats maxDNSStats maxHTTPStats)
  rw [hrun] at hrun'
  cases hrun'
  refine ⟨?_, ?_, ?_⟩
  · intro e he
    obtain ⟨keys, hkeys, h₁, h₂⟩ := hwf.2.1 e he
    refine ⟨keys, hkeys, ?_, h₂⟩
    intro k i hf
    obtain ⟨a, ha, hk⟩ := h₁ k i hf
    exact ⟨(List.getElem?_eq_some_iff.1 ha).1, a, ha, hk⟩
  · intro closed
    obtain ⟨ns', h, _⟩ := StoreClosedConnections_wellFormed E ns closed hwf
    exact ⟨ns', h⟩
  · intro more
    obtain ⟨ns', h, _⟩ := runOps_wellFormed E more ns hwf
    exact ⟨ns', h⟩

theorem index_consistency_witness :
    ∃ ns', StoreClosedConnections sampleEnv sampleReached sampleClosed = some ns' :=
  (index_consistency sampleEnv 1000 2 10 10 10 sampleOps sampleReached (by decide)).2.1
    sampleClosed

/-- C34. Client isolation of `GetDelta`: a call for client `A` leaves every
other registered client `B` registered, with the same stats map, pending closed
connections, key index, capacity and `lastFetch`; only its pending DNS and HTTP
stats may differ. A client `B` that is not registered stays unregistered. -/
theorem GetDelta_client_isolation (E : Env) (ns : networkState) (now : Int) (A : String)
    (lt : Nat) (active : List ConnectionStats) (dns : StatsByKeyByNameByType)
    (http : GoMap String RequestStats) (B : String) (hne : B ≠ A) :
    (∀ b, ns.clients.find? B = some b →
      ∃ b', (GetDelta E ns now A lt active dns http).1.clients.find? B = some b' ∧
        b'.stats = b.stats ∧ b'.closedConnections = b.closedConnections ∧
        b'.closedConnectionsKeys = b.closedConnectionsKeys ∧ b'.closedCap = b.closedCap ∧
        b'.lastFetch = b.lastFetch) ∧
    (ns.clients.find? B = none →
      (GetDelta E ns now A lt active dns http).1.clients.find? B = none) := by
  have hAB : A ≠ B := fun h => hne h.symm
  have hreg : (deltaRegistry E ns now A lt active).clients.find? B = ns.clients.find? B := by
    unfold deltaRegistry
    rw [GoMap.find?_insert_ne _ hAB]
    unfold getClient
    dsimp only
    split
    · rfl
    · exact GoMap.find?_insert_ne _ hAB _
  have hfin : (GetDelta E ns now A lt active dns http).1.clients.find? B =
      (deltaFanIn E (deltaRegistry E ns now A lt active) dns http).clients.find? B := by
    rw [GetDelta_eq]
    unfold deltaFinish
    split
    · exact GoMap.find?_insert_ne _ hAB _
    · rfl
  have hsame := (deltaFanIn_same E (deltaRegistry E ns now A lt active) dns http).1
  rw [hfin]
  rcases sameClients_find? hsame B with ⟨h₁, h₂⟩ | ⟨c, c', hc, hc', hs⟩
  · rw [hreg] at h₁
    refine ⟨fun b hb => ?_, fun _ => h₂⟩
    rw [h₁] at hb
    cases hb
  · rw [hreg] at hc
    refine ⟨fun b hb => ?_, fun hn => ?_⟩
    · rw [hc] at hb
      cases hb
      exact ⟨c', hc', hs.2.2.2.2.symm, hs.2.2.1.symm, hs.2.1.symm, hs.2.2.2.1.symm, hs.1.symm⟩
    · rw [hc] at hn
      cases hn

theorem GetDelta_client_isolation_witness :
    ∃ b', (GetDelta sampleEnv sampleReached 1 "B" 200 [sampleConn 1 1 1 2] sampleDNS
        [("x", { data := [1] })]).1.clients.find? "A" = some b' ∧
      b'.stats = samplePending.stats ∧
      b'.closedConnections = samplePending.closedConnections ∧
      b'.closedConnectionsKeys = samplePending.closedConnectionsKeys ∧
      b'.closedCap = samplePending.closedCap ∧ b'.lastFetch = samplePending.lastFetch :=
  (GetDelta_client_isolation sampleEnv sampleReached 1 "B" 200 [sampleConn 1 1 1 2] sampleDNS
    [("x", { data := [1] })] "A" (by decide)).1 samplePending (by decide)

theorem classifyIntraHost_frame (E : Env) (lAddrs : List connKey) (c : ConnectionStats) :
    classifyIntraHost E lAddrs c =
      { c with
        IntraHost := (classifyIntraHost E lAddrs c).IntraHost
        IPTranslation := (classifyIntraHost E lAddrs c).IPTranslation } := by
  unfold classifyIntraHost
  dsimp only
  split <;> split <;> rfl

/-- C35. `determineConnectionIntraHost` keeps the length and the order of the
buffer, and the record at each position is the record that was there with at
most `IntraHost` and `IPTranslation` changed: the addresses, ports, type,
direction, epoch and all monotonic and last counters are the same. -/
theorem determineConnectionIntraHost_frame (E : Env) (connections : List ConnectionStats) :
    (determineConnectionIntraHost E connections).length = connections.length ∧
    (∀ (i : Nat) (c : ConnectionStats), connections[i]? = some c →
      ∃ r, (determineConnectionIntraHost E connections)[i]? = some r ∧
        r = { c with IntraHost := r.IntraHost, IPTranslation := r.IPTranslation }) ∧
    (determineConnectionIntraHost E connections).map
        (fun r => { r with IntraHost := false, IPTranslation := none }) =
      connections.map (fun c => { c with IntraHost := false, IPTranslation := none }) := by
  unfold determineConnectionIntraHost
  dsimp only
  refine ⟨List.length_map _ _, ?_, ?_⟩
  · intro i c hc
    refine ⟨classifyIntraHost E (connections.map (fun conn => newConnKey conn false)) c, ?_,
      classifyIntraHost_frame E _ c⟩
    rw [List.getElem?_map, hc]
    rfl
  · rw [List.map_map]
    apply List.map_congr_left
    intro c _
    simp only [Function.comp]
    rw [classifyIntraHost_frame E _ c]

/-- C36 (counterexample). A client with no pending closed connection and a
capacity of 4096, which is above `minClosedCapacity` with a length below half
the capacity: `Reset` leaves the capacity at 4096, not at 2048. -/
theorem reset_keeps_capacity_of_short_slice :
    (sampleBurstClient.Reset []).closedCap = 4096 ∧
      minClosedCapacity < sampleBurstClient.closedCap ∧
      sampleBurstClient.closedConnections.length < sampleBurstClient.closedCap / 2 := by
  decide

/-- C36 (as amended). `client.Reset` always leaves `closedConnections` with
length 0; if the current length is above `minClosedCapacity` (1024) and below
half the capacity `c`, the new capacity is `c / 2`; otherwise the capacity is
unchanged. The capacity never grows, and a capacity that shrinks stays above
`minClosedCapacity`. -/
theorem client.Reset_capacity (c : client) (active : GoMap String Nat) :
    (c.Reset active).closedConnections.length = 0 ∧
    (c.Reset active).closedCap =
      (if minClosedCapacity < c.closedConnections.length ∧
          c.closedConnections.length < c.closedCap / 2 then c.closedCap / 2
        else c.closedCap) ∧
    (c.Reset active).closedCap ≤ c.closedCap ∧
    ((c.Reset active).closedCap ≠ c.closedCap → minClosedCapacity < (c.Reset active).closedCap) := by
  have hcap : (c.Reset active).closedCap =
      (if minClosedCapacity < c.closedConnections.length ∧
          c.closedConnections.length < c.closedCap / 2 then c.closedCap / 2
        else c.closedCap) := rfl
  refine ⟨rfl, hcap, ?_, ?_⟩
  · rw [hcap]
    split
    · exact Nat.div_le_self _ _
    · exact le_refl _
  · rw [hcap]
    split
    · rename_i h
      intro _
      exact lt_trans h.1 h.2
    · intro h
      exact absurd rfl h

/-! ## The first delta of a client -/

theorem createStatsForKey_keys (maxClientStats : Int) (tel : telemetry) (cl : client)
    (key : String) (h : cl.stats.find? key = none) :
    (createStatsForKey maxClientStats tel cl key).2.stats.keys =
      if cl.stats.length < maxClientStats.toNat then cl.stats.keys ++ [key]
      else cl.stats.keys := by
  unfold createStatsForKey
  rw [h]
  dsimp only
  by_cases hfull : (cl.stats.length : Int) ≥ maxClientStats
  · rw [if_pos hfull, if_neg (by omega)]
  · rw [if_neg hfull, if_pos (by omega)]
    exact GoMap.keys_insert_of_find?_none _ h

/-- One step of the first-delta loop on a valid entry whose key the client does
not hold: the key is added to the stats while there is room, and the slice
keeps its length. -/
theorem firstDeltaConn_keys (maxClientStats : Int)
    (s : telemetry × client × List ConnectionStats) (e : String × Nat)
    (hv : e.2 < s.2.2.length) (hk : s.2.1.stats.find? e.1 = none) :
    (firstDeltaConn maxClientStats s e).2.1.stats.keys =
        (if s.2.1.stats.length < maxClientStats.toNat then s.2.1.stats.keys ++ [e.1]
          else s.2.1.stats.keys) ∧
      (firstDeltaConn maxClientStats s e).2.2.length = s.2.2.length := by
  unfold firstDeltaConn
  rw [List.getElem?_eq_getElem hv]
  dsimp only
  exact ⟨by rw [updateConnWithStats_keys, createStatsForKey_keys _ _ _ _ hk],
    List.length_set _ _ _⟩

/-- The first-delta loop over valid entries with pairwise distinct keys that the
client does not hold: the keys are added to the stats in the order of the visit
until the stats hold `maxClientStats` keys. -/
theorem firstDeltaLoop_keys (maxClientStats : Int) (L : GoMap String Nat)
    (s : telemetry × client × List ConnectionStats)
    (hpair : L.Pairwise (fun a b => a.1 ≠ b.1 ∧ a.2 ≠ b.2))
    (hv : ∀ e ∈ L, e.2 < s.2.2.length) (hk : ∀ e ∈ L, e.1 ∉ s.2.1.stats.keys) :
    (L.foldl (firstDeltaConn maxClientStats) s).2.1.stats.keys =
      s.2.1.stats.keys ++
        (L.map Prod.fst).take (maxClientStats.toNat - s.2.1.stats.length) := by
  induction L generalizing s with
  | nil => simp
  | cons e L ih =>
    rw [List.pairwise_cons] at hpair
    have hke : s.2.1.stats.find? e.1 = none :=
      (GoMap.find?_eq_none_iff _ _).2 (hk e (List.mem_cons_self _ _))
    obtain ⟨h₁, h₂⟩ := firstDeltaConn_keys maxClientStats s e
      (hv e (List.mem_cons_self _ _)) hke
    have hlen : s.2.1.stats.keys.length = s.2.1.stats.length := by simp [GoMap.keys]
    have hlen' : (firstDeltaConn maxClientStats s e).2.1.stats.keys.length =
        (firstDeltaConn maxClientStats s e).2.1.stats.length := by simp [GoMap.keys]
    rw [List.foldl_cons, ih (firstDeltaConn maxClientStats s e) hpair.2
      (fun e' he' => by rw [h₂]; exact hv e' (List.mem_cons_of_mem _ he'))
      (fun e' he' => by
        rw [h₁]
        have hne : e.1 ≠ e'.1 := (hpair.1 e' he').1
        have hnot := hk e' (List.mem_cons_of_mem _ he')
        split
        · simp only [List.mem_append, List.mem_singleton, not_or]
          exact ⟨hnot, fun h => hne h.symm⟩
        · exact hnot)]
    by_cases hroom : s.2.1.stats.length < maxClientStats.toNat
    · rw [if_pos hroom] at h₁
      have hl : (firstDeltaConn maxClientStats s e).2.1.stats.length =
          s.2.1.stats.length + 1 := by
        rw [← hlen', h₁, List.length_append, hlen]
        rfl
      rw [h₁, hl]
      have hsub : maxClientStats.toNat - s.2.1.stats.length =
          (maxClientStats.toNat - (s.2.1.stats.length + 1)) + 1 := by omega
      rw [hsub, List.map_cons, List.take_succ_cons, List.append_assoc]
      rfl
    · rw [if_neg hroom] at h₁
      have hl : (firstDeltaConn maxClientStats s e).2.1.stats.length = s.2.1.stats.length := by
        rw [← hlen', h₁, hlen]
      rw [h₁, hl]
      have hz : maxClientStats.toNat - s.2.1.stats.length = 0 := by omega
      rw [hz]
      simp

/-- The stats of a client after the `GetDelta` that creates it hold the keys of
the key-to-connection map, in the order of the visit, up to `maxClientStats` of
them. -/
theorem GetDelta_new_keys (E : Env) (ns : networkState) (now : Int) (id : String)
    (lt : Nat) (active : List ConnectionStats) (dns : StatsByKeyByNameByType)
    (http : GoMap String RequestStats) (hcl : ns.clients.find? id = none) :
    ∃ cl', (GetDelta E ns now id lt active dns http).1.clients.find? id = some cl' ∧
      cl'.stats.keys =
        ((E.rangeOrder (getConnsByKey E active)).map Prod.fst).take
          ns.maxClientStats.toNat := by
  obtain ⟨⟨c₂, hs, hfind⟩, _, _⟩ := GetDelta_structure E ns now id lt active dns http
  refine ⟨_, hfind, ?_⟩
  obtain ⟨_, hval, hmem, _⟩ := rangeOrder_spec E active
  have hkeys : (deltaAccounting E ns now id active).2.1.stats.keys =
      ((E.rangeOrder (getConnsByKey E active)).map Prod.fst).take
        ns.maxClientStats.toNat := by
    have hacc : (deltaAccounting E ns now id active).2.1 =
        ((E.rangeOrder (getConnsByKey E active)).foldl (firstDeltaConn ns.maxClientStats)
          (ns.telemetry, (getClient ns now id).2.1, active)).2.1 := by
      unfold deltaAccounting deltaConns
      rw [getClient_of_find?_none hcl]
      rfl
    rw [hacc, firstDeltaLoop_keys ns.maxClientStats _ _ (rangeOrder_pairwise E active)
      (fun e he => by
        obtain ⟨c, hc, _⟩ := hval e he
        exact (List.getElem?_eq_some_iff.1 hc).1)
      (fun e _ => by rw [getClient_of_find?_none hcl]; simp [GoMap.keys])]
    rw [getClient_of_find?_none hcl]
    simp [GoMap.keys]
  have hfilter : (c₂.Reset (getConnsByKey E active)).stats = c₂.stats := by
    show c₂.stats.filter (fun p => ((getConnsByKey E active).find? p.1).isSome) = c₂.stats
    rw [List.filter_eq_self]
    intro p hp
    have hpk : p.1 ∈ c₂.stats.keys := List.mem_map.2 ⟨p, hp, rfl⟩
    rw [← hs.2.2.2.2, hkeys] at hpk
    obtain ⟨e, he, hek⟩ := List.mem_map.1 (List.mem_of_mem_take hpk)
    have := (hmem e.1 e.2).1 he
    rw [← hek, this]
    rfl
  rw [hfilter, ← hs.2.2.2.2, hkeys]

/-- C33. First-delta output and baseline. A `GetDelta` that creates its client
returns one record per active record, in the order of `active` and with the
identity fields of the active records. The keys of the key-to-connection map
are the byte keys of the encodable active records; the stats of the client
afterwards hold these keys, in the order of the visit of the map, up to
`maxClientStats` of them, and the totals held under a key are the seven
monotonic counters of the active record the key points at. -/
theorem GetDelta_first_delta_baseline (E : Env) (ns : networkState) (now : Int) (id : String)
    (lt : Nat) (active : List ConnectionStats) (dns : StatsByKeyByNameByType)
    (http : GoMap String RequestStats) (hcl : ns.clients.find? id = none) :
    (GetDelta E ns now id lt active dns http).2.Conns.length = active.length ∧
    (GetDelta E ns now id lt active dns http).2.Conns.map ConnectionStats.identity =
      active.map ConnectionStats.identity ∧
    (∀ k, k ∈ (E.rangeOrder (getConnsByKey E active)).map Prod.fst ↔
      ∃ c ∈ active, ByteKey E c = some k) ∧
    ∃ cl', (GetDelta E ns now id lt active dns http).1.clients.find? id = some cl' ∧
      cl'.stats.keys =
        ((E.rangeOrder (getConnsByKey E active)).map Prod.fst).take
          ns.maxClientStats.toNat ∧
      (cl'.stats.length =
        min (E.rangeOrder (getConnsByKey E active)).length ns.maxClientStats.toNat) ∧
      ∀ (k : String) (i : Nat) (c : ConnectionStats) (t : stats),
        (getConnsByKey E active).find? k = some i → active[i]? = some c →
        cl'.stats.find? k = some t → totalsMatch t c := by
  have hid := GetDelta_new_identity E ns now id lt active dns http hcl
  obtain ⟨cl', hfind, hkeys⟩ := GetDelta_new_keys E ns now id lt active dns http hcl
  refine ⟨?_, hid, ?_, cl', hfind, hkeys, ?_, ?_⟩
  · have := congrArg List.length hid
    simpa using this
  · intro k
    rw [← getConnsByKey_isSome_iff]
    constructor
    · intro h
      obtain ⟨e, he, hek⟩ := List.mem_map.1 h
      rw [← hek, ((rangeOrder_spec E active).2.2.1 e.1 e.2).1 he]
      rfl
    · intro h
      obtain ⟨i, hi⟩ := Option.isSome_iff_exists.1 h
      exact List.mem_map.2 ⟨(k, i), ((rangeOrder_spec E active).2.2.1 k i).2 hi, rfl⟩
  · have := congrArg List.length hkeys
    simpa [GoMap.keys, List.length_take, Nat.min_comm] using this
  · intro k i c t hf hc ht
    obtain ⟨tel', cl₀, cl'', hfind'', hst⟩ :=
      GetDelta_new_active E ns now id lt active dns http k i c hcl hf hc
    rw [hfind] at hfind''
    cases hfind''
    rcases updateConnWithStats_totals tel' cl₀ k c with h | ⟨t₁, h, hm⟩
    · rw [hst, h.2] at ht; cases ht
    · rw [hst, h] at ht
      cases ht
      exact hm

theorem GetDelta_first_delta_baseline_witness :
    ∃ cl', (GetDelta sampleEnv (NewState 1000 2 10 10 10) 0 "A" 100
        [sampleConn 500 700 5 1] [] []).1.clients.find? "A" = some cl' ∧
      cl'.stats.keys = [sampleConnKey] ∧
      cl'.stats.find? sampleConnKey = (sampleClient 500 700 5).stats.find? sampleConnKey := by
  obtain ⟨cl', hfind, hkeys, _, _⟩ := (GetDelta_first_delta_baseline sampleEnv
    (NewState 1000 2 10 10 10) 0 "A" 100 [sampleConn 500 700 5 1] [] [] (by decide)).2.2.2
  refine ⟨cl', hfind, ?_, ?_⟩
  · rw [hkeys]
    decide
  · have h : (GetDelta sampleEnv (NewState 1000 2 10 10 10) 0 "A" 100
        [sampleConn 500 700 5 1] [] []).1.clients.find? "A" = some (sampleClient 500 700 5) := by
      decide
    rw [h] at hfind
    cases hfind
    rfl

/-! ## The fast path of `storeDNSStats` -/

/-- C32. Client `"A"` is the only registered client and holds the two DNS
leaves of `sampleDNS`, merged into its map by an earlier poll of a client that
was removed since. Its `GetDelta` with the input `sampleDNSUpdate` returns the
two leaves it held, unchanged: the leaf of the input that it holds is not added
to, the new leaf is not inserted, and `dnsStatsDropped` stays 0. The walk of
the input over the same map adds to the first leaf (latency sums 12 and 3,
timeouts 2, rcode count 5) and inserts the second. -/
theorem single_client_dns_input_ignored :
    sampleSingleDNSPoll = some ([("A", sampleDNS)], sampleDNS, 0) ∧
    sampleDNSWalk =
      [("k", [("example.com",
          [(1, { Timeouts := 2, SuccessLatencySum := 12, FailureLatencySum := 3, CountByRcode := [(0, 5)] }),
            (28, { Timeouts := 1, SuccessLatencySum := 0, FailureLatencySum := 0, CountByRcode := [] })])]),
        ("k2", [("other.org",
          [(1, { Timeouts := 0, SuccessLatencySum := 9, FailureLatencySum := 0, CountByRcode := [] })])])] :=
  ⟨rfl, rfl⟩

/-! ## Chunking of the container stats -/

theorem set_length_append {α : Type} (l : List α) (a x : α) (t : List α) :
    (l ++ a :: t).set l.length x = l ++ x :: t := by
  induction l with
  | nil => rfl
  | cons b l ih => simp only [List.cons_append, List.length_cons, List.set_cons_succ, ih]

/-- The loop of `fmtContainerStats` from a state in which `full` chunks of
`perChunk` stats are written, `k` chunks are still empty and the stats that are
pending and to come fit in them: no write is out of range, the chunks written
are full, the pending chunk is below `perChunk`, and the stats are the ones
held before followed by one stat per container, in order. -/
theorem fmtContainerStatsLoop_spec (S : CheckEnv) (lastRates : GoMap String ContainerRateMetrics)
    (lastRun : Int) (perChunk : Nat) (rest : List Container)
    (full : List (List ContainerStat)) (k : Nat) (chunk : List ContainerStat)
    (hfull : ∀ ch ∈ full, ch.length = perChunk) (hchunk : chunk.length < perChunk)
    (hbound : chunk.length + rest.length < perChunk * k) :
    ∃ full' k' chunk',
      fmtContainerStatsLoop S lastRates lastRun perChunk rest
          (full ++ List.replicate k [], chunk, full.length) =
        some (full' ++ List.replicate k' [], chunk', full'.length) ∧
      full'.length + k' = full.length + k ∧ (∀ ch ∈ full', ch.length = perChunk) ∧
      chunk'.length < perChunk ∧ chunk'.length < perChunk * k' ∧
      full'.flatten ++ chunk' =
        full.flatten ++ chunk ++ rest.map (fmtContainerStat S lastRates lastRun) := by
  induction rest generalizing full k chunk with
  | nil =>
    refine ⟨full, k, chunk, rfl, rfl, hfull, hchunk, ?_, by simp⟩
    simpa using hbound
  | cons ctr rest ih =>
    simp only [List.length_cons] at hbound
    unfold fmtContainerStatsLoop
    dsimp only
    by_cases hlen : (chunk ++ [fmtContainerStat S lastRates lastRun ctr]).length = perChunk
    · rw [if_pos hlen]
      have hlen' : chunk.length + 1 = perChunk := by simpa using hlen
      cases k with
      | zero => simp at hbound
      | succ k₀ =>
        have hlt : full.length < (full ++ List.replicate (k₀ + 1) []).length := by
          simp
        rw [if_pos hlt]
        have hset : (full ++ List.replicate (k₀ + 1) []).set full.length
            (chunk ++ [fmtContainerStat S lastRates lastRun ctr]) =
            (full ++ [chunk ++ [fmtContainerStat S lastRates lastRun ctr]]) ++
              List.replicate k₀ [] := by
          rw [List.replicate_succ, set_length_append]
          simp
        have hidx : full.length + 1 =
            (full ++ [chunk ++ [fmtContainerStat S lastRates lastRun ctr]]).length := by simp
        rw [hset, hidx]
        rw [Nat.mul_succ] at hbound
        obtain ⟨full', k', chunk', h₁, h₂, h₃, h₄, h₅, h₆⟩ :=
          ih (full ++ [chunk ++ [fmtContainerStat S lastRates lastRun ctr]]) k₀ []
            (fun ch hch => by
              rcases List.mem_append.1 hch with h | h
              · exact hfull ch h
              · rw [List.mem_singleton] at h
                rw [h]
                exact hlen)
            (by simp only [List.length_nil]; omega)
            (by simp only [List.length_nil]; omega)
        refine ⟨full', k', chunk', h₁, ?_, h₃, h₄, h₅, ?_⟩
        · rw [h₂]
          simp only [List.length_append, List.length_singleton]
          omega
        · rw [h₆]
          simp
    · rw [if_neg hlen]
      have hlen' : chunk.length + 1 ≠ perChunk := by simpa using hlen
      obtain ⟨full', k', chunk', h₁, h₂, h₃, h₄, h₅, h₆⟩ :=
        ih full k (chunk ++ [fmtContainerStat S lastRates lastRun ctr]) hfull
          (by simp only [List.length_append, List.length_singleton]; omega)
          (by simp only [List.length_append, List.length_singleton]; omega)
      refine ⟨full', k', chunk', h₁, h₂, h₃, h₄, h₅, ?_⟩
      rw [h₆]
      simp

/-- What `fmtContainerStats` returns for `chunks ≥ 1`: it does not panic, the
result has `chunks` entries, each with at most `len(ctrList) / chunks + 1`
stats, and the entries hold, in order, one stat per container. -/
theorem fmtContainerStats_spec (S : CheckEnv) (ctrList : List Container)
    (lastRates : GoMap String ContainerRateMetrics) (lastRun : Int) (chunks : Nat)
    (hchunks : 1 ≤ chunks) :
    ∃ r, fmtContainerStats S ctrList lastRates lastRun chunks = some r ∧
      r.length = chunks ∧ (∀ ch ∈ r, ch.length ≤ ctrList.length / chunks + 1) ∧
      r.flatten = ctrList.map (fmtContainerStat S lastRates lastRun) := by
  have hper : ((Int.tdiv (ctrList.length : Int) (chunks : Int)) + 1).toNat =
      ctrList.length / chunks + 1 := by
    rw [← Int.ofNat_tdiv]
    exact Int.toNat_natCast (ctrList.length / chunks + 1)
  have hpos : ¬ (chunks : Int) ≤ 0 := by omega
  obtain ⟨full', k', chunk', h₁, h₂, h₃, h₄, h₅, h₆⟩ :=
    fmtContainerStatsLoop_spec S lastRates lastRun (ctrList.length / chunks + 1) ctrList [] chunks
      [] (fun ch hch => by cases hch) (by simp)
      (by
        have := Nat.lt_mul_div_succ ctrList.length (show 0 < chunks by omega)
        rw [Nat.mul_comm] at this
        simpa using this)
  unfold fmtContainerStats
  rw [if_neg hpos]
  dsimp only
  rw [hper, Int.toNat_natCast]
  simp only [List.nil_append, List.length_nil] at h₁
  rw [h₁]
  dsimp only
  simp only [List.length_nil, zero_add, List.flatten_nil, List.nil_append] at h₂ h₆
  by_cases hne : chunk'.length > 0
  · rw [if_pos hne]
    cases k' with
    | zero => simp at h₅
    | succ k₀ =>
      have hlt : full'.length < (full' ++ List.replicate (k₀ + 1) []).length := by simp
      rw [if_pos hlt, List.replicate_succ, set_length_append]
      refine ⟨_, rfl, ?_, ?_, ?_⟩
      · simp only [List.length_append, List.length_cons, List.length_replicate]
        omega
      · intro ch hch
        rcases List.mem_append.1 hch with h | h
        · rw [h₃ ch h]
        · rcases List.mem_cons.1 h with h | h
          · rw [h]; omega
          · rw [(List.mem_replicate.1 h).2]
            simp
      · rw [List.flatten_append, List.flatten_cons, List.flatten_replicate_nil,
          List.append_nil, h₆]
  · rw [if_neg hne]
    have hnil : chunk' = [] := by
      cases chunk' with
      | nil => rfl
      | cons a t => simp at hne
    subst hnil
    refine ⟨_, rfl, ?_, ?_, ?_⟩
    · simp only [List.length_append, List.length_replicate]
      omega
    · intro ch hch
      rcases List.mem_append.1 hch with h | h
      · rw [h₃ ch h]
      · rw [(List.mem_replicate.1 h).2]
        simp
    · rw [List.flatten_append, List.flatten_replicate_nil, List.append_nil]
      simpa using h₆

theorem fmtContainerStat_Id (S : CheckEnv) (lastRates : GoMap String ContainerRateMetrics)
    (lastRun : Int) (ctr : Container) :
    (fmtContainerStat S lastRates lastRun ctr).Id = ctr.ID :=
  S.fillNilContainer_ID ctr

/-- C37. Chunking of `fmtContainerStats`, for every container list and every
`chunks ≥ 1`: the call returns (no write past `chunks - 1`), the result has
exactly `chunks` entries, each chunk has at most `len(ctrList) / chunks + 1`
stats, and the chunks concatenated in order hold exactly one stat per
container, in input order and with the ID of the container. -/
theorem fmtContainerStats_chunking (S : CheckEnv) (ctrList : List Container)
    (lastRates : GoMap String ContainerRateMetrics) (lastRun : Int) (chunks : Nat)
    (hchunks : 1 ≤ chunks) :
    ∃ r, fmtContainerStats S ctrList lastRates lastRun chunks = some r ∧
      r.length = chunks ∧ (∀ ch ∈ r, ch.length ≤ ctrList.length / chunks + 1) ∧
      r.flatten = ctrList.map (fmtContainerStat S lastRates lastRun) ∧
      r.flatten.length = ctrList.length ∧
      r.flatten.map (fun st => st.Id) = ctrList.map (fun ctr => ctr.ID) := by
  obtain ⟨r, h₁, h₂, h₃, h₄⟩ := fmtContainerStats_spec S ctrList lastRates lastRun chunks hchunks
  refine ⟨r, h₁, h₂, h₃, h₄, ?_, ?_⟩
  · rw [h₄, List.length_map]
  · rw [h₄, List.map_map]
    apply List.map_congr_left
    intro ctr _
    exact fmtContainerStat_Id S lastRates lastRun ctr

theorem fmtContainerStats_chunking_witness :
    ∃ r, fmtContainerStats sampleCheckEnv (sampleContainers 5) [] 0 2 = some r ∧
      r.length = 2 ∧ (∀ ch ∈ r, ch.length ≤ (sampleContainers 5).length / 2 + 1) ∧
      r.flatten = (sampleContainers 5).map (fmtContainerStat sampleCheckEnv [] 0) ∧
      r.flatten.length = (sampleContainers 5).length ∧
      r.flatten.map (fun st => st.Id) = (sampleContainers 5).map (fun ctr => ctr.ID) :=
  fmtContainerStats_chunking sampleCheckEnv (sampleContainers 5) [] 0 2 (by decide)

/-! ## Messages of the real-time container check -/

/-- The loop of `Run` over chunks that are all there, with system information:
one message per chunk from index `i` on, each carrying its chunk. -/
theorem runMessages_spec (S : CheckEnv) (r : RTContainerCheck) (cfg : AgentConfig)
    (groupID groupSize : Int) (chunked : List (List ContainerStat)) (sysInfo : SystemInfo)
    (hsys : r.sysInfo = some sysInfo) (remaining i : Nat)
    (hlen : i + remaining = chunked.length) :
    ∃ msgs, runMessages S r cfg groupID groupSize chunked i remaining = some msgs ∧
      msgs.map (fun msg => msg.Stats) = chunked.drop i ∧
      ∀ msg ∈ msgs, msg.HostName = cfg.HostName ∧ msg.GroupId = groupID ∧
        msg.GroupSize = toInt32 groupSize ∧ msg.TotalMemory = sysInfo.TotalMemory := by
  induction remaining generalizing i with
  | zero =>
    refine ⟨[], rfl, ?_, fun msg h => by cases h⟩
    rw [List.drop_eq_nil_of_le (by omega)]
    rfl
  | succ n ih =>
    have hi : i < chunked.length := by omega
    obtain ⟨msgs, h₁, h₂, h₃⟩ := ih (i + 1) (by omega)
    unfold runMessages
    rw [List.getElem?_eq_getElem hi, hsys]
    dsimp only
    rw [h₁]
    refine ⟨_, rfl, ?_, ?_⟩
    · rw [List.map_cons, h₂]
      exact (List.drop_eq_getElem_cons hi).symm
    · intro msg hmsg
      rcases List.mem_cons.1 hmsg with h | h
      · rw [h]
        exact ⟨rfl, rfl, rfl, rfl⟩
      · exact h₃ msg h

/-- What `Run` does on a non-first run with `n ≥ 1` containers, `MaxPerMessage =
m ≥ 1` and system information: it emits `ceil(n / m)` messages, whose stats
concatenated in order are one stat per container; a message carries at most
`n / ceil(n / m) + 1` stats. -/
theorem RTContainerCheck.Run_messages (S : CheckEnv) (r : RTContainerCheck) (cfg : AgentConfig)
    (groupID : Int) (ctrList : List Container) (now : Int) (m : Nat)
    (lastRates : GoMap String ContainerRateMetrics) (sysInfo : SystemInfo)
    (hm : 1 ≤ m) (hcfg : cfg.MaxPerMessage = m) (hn : 1 ≤ ctrList.length)
    (hlast : r.lastRates = some lastRates) (hsys : r.sysInfo = some sysInfo) :
    ∃ r' msgs, RTContainerCheck.Run S r cfg groupID (ctrList, none) now = some (r', msgs, none) ∧
      msgs.length = (ctrList.length + m - 1) / m ∧
      (msgs.map (fun msg => msg.Stats)).flatten =
        ctrList.map (fmtContainerStat S lastRates r.lastRun) ∧
      ∀ msg ∈ msgs,
        msg.Stats.length ≤ ctrList.length / ((ctrList.length + m - 1) / m) + 1 := by
  have hgs : (if Int.tmod (ctrList.length : Int) (m : Int) ≠ 0 then
      Int.tdiv (ctrList.length : Int) (m : Int) + 1
      else Int.tdiv (ctrList.length : Int) (m : Int)) =
      (((ctrList.length + m - 1) / m : Nat) : Int) := by
    rw [← Int.ofNat_tdiv, ← Int.ofNat_tmod]
    have hdm := Nat.div_add_mod ctrList.length m
    have hlt := Nat.mod_lt ctrList.length (show 0 < m by omega)
    by_cases hmod : ctrList.length % m = 0
    · have h0 : ¬ ((ctrList.length % m : Nat) : Int) ≠ 0 := by simp [hmod]
      rw [if_neg h0]
      congr 1
      have : ctrList.length + m - 1 = m - 1 + m * (ctrList.length / m) := by omega
      rw [this, Nat.add_mul_div_left _ _ (show 0 < m by omega),
        Nat.div_eq_of_lt (show m - 1 < m by omega)]
      omega
    · have h0 : ((ctrList.length % m : Nat) : Int) ≠ 0 := by
        intro h
        exact hmod (by exact_mod_cast h)
      rw [if_pos h0]
      have : ctrList.length + m - 1 =
          (ctrList.length % m - 1) + m * (ctrList.length / m + 1) := by
        rw [Nat.mul_add, Nat.mul_one]
        omega
      rw [this, Nat.add_mul_div_left _ _ (show 0 < m by omega),
        Nat.div_eq_of_lt (show ctrList.length % m - 1 < m by omega)]
      push_cast
      omega
  have hg1 : 1 ≤ (ctrList.length + m - 1) / m := by
    rw [Nat.le_div_iff_mul_le (show 0 < m by omega)]
    omega
  obtain ⟨chunked, hc₁, hc₂, hc₃, hc₄⟩ := fmtContainerStats_spec S ctrList lastRates r.lastRun
    ((ctrList.length + m - 1) / m) hg1
  obtain ⟨msgs, hm₁, hm₂, _⟩ := runMessages_spec S r cfg groupID
    (((ctrList.length + m - 1) / m : Nat) : Int) chunked sysInfo hsys
    ((ctrList.length + m - 1) / m) 0 (by omega)
  unfold RTContainerCheck.Run
  dsimp only
  rw [if_neg (by omega), hlast]
  dsimp only
  rw [hcfg, if_neg (by omega), hgs, hc₁]
  dsimp only
  rw [Int.toNat_natCast, hm₁]
  rw [List.drop_zero] at hm₂
  refine ⟨_, msgs, rfl, ?_, ?_, ?_⟩
  · have := congrArg List.length hm₂
    rw [List.length_map] at this
    rw [this, hc₂]
  · rw [hm₂, hc₄]
  · intro msg hmsg
    apply hc₃
    rw [← hm₂]
    exact List.mem_map.2 ⟨msg, hmsg, rfl⟩

/-- C38. A non-first run with two containers and `MaxPerMessage = 1` emits two
messages, the first with two stats, above `MaxPerMessage`, and the second with
none; with ten containers and `MaxPerMessage = 5` it emits two messages with 6
and 4 stats. -/
theorem run_message_exceeds_max_per_message :
    statsPerMessage (RTContainerCheck.Run sampleCheckEnv sampleCheck (sampleConfig 1) 7
      (sampleContainers 2, none) 10) = some [2, 0] ∧
    statsPerMessage (RTContainerCheck.Run sampleCheckEnv sampleCheck (sampleConfig 5) 7
      (sampleContainers 10, none) 10) = some [6, 4] := by
  decide

/-! ## Batches of device metadata -/

/-- The loop of `batchPayloads` from a state whose payloads written are full,
carry the labels, and whose current payload is counted by `resourceCount` and
within `batchSize`. -/
theorem batchPayloadsLoop_spec (nspace subnet : String) (collectTime : Int) (batchSize : Nat)
    (hb : 1 ≤ batchSize) (interfaces : List InterfaceMetadata)
    (s : List NetworkDevicesMetadata × NetworkDevicesMetadata × Int)
    (hcount : s.2.2 = (s.2.1.resources : Int)) (hle : s.2.1.resources ≤ batchSize)
    (hfull : ∀ p ∈ s.1, p.resources = batchSize)
    (hlabel : ∀ p ∈ s.1 ++ [s.2.1],
      p.Namespace = nspace ∧ p.Subnet = subnet ∧ p.CollectTimestamp = collectTime) :
    ∃ ps p, interfaces.foldl (batchPayloadsStep nspace subnet collectTime batchSize) s =
        (ps, p, (p.resources : Int)) ∧
      p.resources ≤ batchSize ∧ (∀ q ∈ ps, q.resources = batchSize) ∧
      (∀ q ∈ ps ++ [p],
        q.Namespace = nspace ∧ q.Subnet = subnet ∧ q.CollectTimestamp = collectTime) ∧
      (ps ++ [p]).flatMap (fun q => q.Interfaces) =
        (s.1 ++ [s.2.1]).flatMap (fun q => q.Interfaces) ++ interfaces ∧
      (ps ++ [p]).map (fun q => q.Devices) =
        (s.1 ++ [s.2.1]).map (fun q => q.Devices) ++
          List.replicate ((ps ++ [p]).length - (s.1 ++ [s.2.1]).length) [] ∧
      (s.1 ++ [s.2.1]).length ≤ (ps ++ [p]).length := by
  induction interfaces generalizing s with
  | nil =>
    refine ⟨s.1, s.2.1, ?_, hle, hfull, hlabel, by simp, by simp, le_refl _⟩
    rw [← hcount]
    rfl
  | cons x xs ih =>
    rw [List.foldl_cons]
    by_cases hflush : s.2.2 = (batchSize : Int)
    · have hstep : batchPayloadsStep nspace subnet collectTime batchSize s x =
          (s.1 ++ [s.2.1],
            { Subnet := subnet, Namespace := nspace, Devices := [], Interfaces := [x],
              CollectTimestamp := collectTime }, 1) := by
        unfold batchPayloadsStep
        rw [if_pos hflush]
        rfl
      rw [hstep]
      have hres : s.2.1.resources = batchSize := by
        rw [hcount] at hflush
        exact_mod_cast hflush
      obtain ⟨ps, p, h₁, h₂, h₃, h₄, h₅, h₆, h₇⟩ := ih
        (s.1 ++ [s.2.1],
          { Subnet := subnet, Namespace := nspace, Devices := [], Interfaces := [x],
            CollectTimestamp := collectTime }, 1)
        rfl hb
        (fun q hq => by
          rcases List.mem_append.1 hq with h | h
          · exact hfull q h
          · rw [List.mem_singleton] at h
            rw [h]
            exact hres)
        (fun q hq => by
          rcases List.mem_append.1 hq with h | h
          · exact hlabel q h
          · rw [List.mem_singleton] at h
            rw [h]
            exact ⟨rfl, rfl, rfl⟩)
      refine ⟨ps, p, h₁, h₂, h₃, h₄, ?_, ?_, ?_⟩
      · rw [h₅]
        simp [List.flatMap_append]
      · rw [h₆]
        simp only [List.map_append, List.map_cons, List.map_nil, List.length_append,
          List.length_singleton, List.length_cons, List.length_nil] at h₇ ⊢
        have hsplit : ps.length + 1 - (s.1.length + 1) =
            (ps.length + 1 - (s.1.length + 1 + 1)) + 1 := by omega
        rw [hsplit, List.replicate_succ]
        simp
      · simp only [List.length_append, List.length_singleton, List.length_cons,
          List.length_nil] at h₇ ⊢
        omega
    · have hstep : batchPayloadsStep nspace subnet collectTime batchSize s x =
          (s.1, { s.2.1 with Interfaces := s.2.1.Interfaces ++ [x] }, s.2.2 + 1) := by
        unfold batchPayloadsStep
        rw [if_neg hflush]
      rw [hstep]
      have hlt : s.2.1.resources < batchSize := by
        rw [hcount] at hflush
        have : s.2.1.resources ≠ batchSize := fun h => hflush (by exact_mod_cast h)
        omega
      obtain ⟨ps, p, h₁, h₂, h₃, h₄, h₅, h₆, h₇⟩ := ih
        (s.1, { s.2.1 with Interfaces := s.2.1.Interfaces ++ [x] }, s.2.2 + 1)
        (by
          rw [hcount]
          simp only [NetworkDevicesMetadata.resources, List.length_append,
            List.length_singleton]
          push_cast
          omega)
        (by
          simp only [NetworkDevicesMetadata.resources, List.length_append,
            List.length_singleton] at hlt ⊢
          omega)
        hfull
        (fun q hq => by
          rcases List.mem_append.1 hq with h | h
          · exact hlabel q (List.mem_append_left _ h)
          · rw [List.mem_singleton] at h
            rw [h]
            exact hlabel s.2.1 (List.mem_append_right _ (List.mem_singleton_self _)))
      refine ⟨ps, p, h₁, h₂, h₃, h₄, ?_, ?_, ?_⟩
      · rw [h₅]
        simp [List.flatMap_append]
      · rw [h₆]
        simp
      · simpa using h₇

/-- C39. Partition of `batchPayloads`, for every `batchSize ≥ 1`, device and
interface list: the result is non-empty; the first payload holds the device,
once, and no other payload holds a device; the interfaces of the payloads
concatenated in order are the input interface list; every payload holds at most
`batchSize` resources (devices plus interfaces) and every payload but the last
exactly `batchSize`; every payload carries the given namespace, subnet and
collect timestamp. -/
theorem batchPayloads_partition (nspace subnet : String) (collectTime : Int) (batchSize : Nat)
    (device : DeviceMetadata) (interfaces : List InterfaceMetadata) (hb : 1 ≤ batchSize) :
    batchPayloads nspace subnet collectTime batchSize device interfaces ≠ [] ∧
    (batchPayloads nspace subnet collectTime batchSize device interfaces).map
        (fun p => p.Devices) =
      [device] :: List.replicate
        ((batchPayloads nspace subnet collectTime batchSize device interfaces).length - 1) [] ∧
    (batchPayloads nspace subnet collectTime batchSize device interfaces).flatMap
        (fun p => p.Interfaces) = interfaces ∧
    (∀ p ∈ batchPayloads nspace subnet collectTime batchSize device interfaces,
      p.resources ≤ batchSize) ∧
    (∀ p ∈ (batchPayloads nspace subnet collectTime batchSize device interfaces).dropLast,
      p.resources = batchSize) ∧
    (∀ p ∈ batchPayloads nspace subnet collectTime batchSize device interfaces,
      p.Namespace = nspace ∧ p.Subnet = subnet ∧ p.CollectTimestamp = collectTime) := by
  obtain ⟨ps, p, h₁, h₂, h₃, h₄, h₅, h₆, _⟩ := batchPayloadsLoop_spec nspace subnet collectTime
    batchSize hb interfaces
    ([], { Subnet := subnet, Namespace := nspace, Devices := [device], Interfaces := [],
           CollectTimestamp := collectTime }, 1)
    rfl hb (fun q hq => by cases hq)
    (fun q hq => by
      simp only [List.nil_append, List.mem_singleton] at hq
      rw [hq]
      exact ⟨rfl, rfl, rfl⟩)
  have hres : batchPayloads nspace subnet collectTime batchSize device interfaces =
      ps ++ [p] := by
    unfold batchPayloads
    dsimp only
    rw [h₁]
  rw [hres]
  refine ⟨by simp, ?_, ?_, ?_, ?_, h₄⟩
  · rw [h₆]
    simp
  · rw [h₅]
    simp
  · intro q hq
    rcases List.mem_append.1 hq with h | h
    · rw [h₃ q h]
    · rw [List.mem_singleton] at h
      rw [h]
      exact h₂
  · rw [List.dropLast_concat]
    exact h₃

theorem batchPayloads_partition_witness :
    (batchPayloads "default" "10.0.0.0/24" 1700000000 2 { ID := "dev" }
        [sampleInterface 1, sampleInterface 2, sampleInterface 3, sampleInterface 4]).flatMap
        (fun p => p.Interfaces) =
      [sampleInterface 1, sampleInterface 2, sampleInterface 3, sampleInterface 4] ∧
    (batchPayloads "default" "10.0.0.0/24" 1700000000 2 { ID := "dev" }
        [sampleInterface 1, sampleInterface 2, sampleInterface 3, sampleInterface 4]).map
        (fun p => (p.Devices.length, p.Interfaces.length)) = [(1, 1), (0, 2), (0, 1)] :=
  ⟨(batchPayloads_partition "default" "10.0.0.0/24" 1700000000 2 { ID := "dev" }
      [sampleInterface 1, sampleInterface 2, sampleInterface 3, sampleInterface 4]
      (by decide)).2.2.1, by decide⟩

/-! ## Coalescing through the public operations -/

/-- C8 (the code at the failing input). Client `"A"` registers and the sample
flow is stored as closed twice through `StoreClosedConnections`, first with 10
sent bytes, 20 received bytes, 5 sent packets and 7 received packets, then with
1, 2, 3 and 4. The client holds one pending record for the flow, and its next
`GetDelta` returns one record: the bytes are the sums 11 and 22, the packets are
still 5 and 7, not 8 and 11. -/
theorem stored_closed_record_keeps_packets :
    sampleCoalesced = some ([("A", [(11, 22, 5, 7)])], [(11, 22, 5, 7)]) :=
  rfl

/-- A record without byte key in the `GetDelta` that creates the client is
returned as passed, like a shadowed record: 5 last sent bytes against 1
monotonic sent byte given. -/
theorem unkeyed_record_returned_as_passed :
    (traceConns sampleEnv (Op.deliveredTo sampleEnv "A") (NewState 1000 2 10 10 10)
        sampleUnkeyedOps).map (fun r => (r.LastSentBytes, r.MonotonicSentBytes)) = [(5, 1)] ∧
    sentMonotonic (traceConns sampleEnv (Op.givenFor "A") (NewState 1000 2 10 10 10)
        sampleUnkeyedOps) = 1 := by
  decide

end Network
